import Mathlib

/-!
# reghievis: dendrograms, grids, fields and ensembles

A shallow embedding of `hierarchical_clustering.cpp`, `volume.hpp`, `utility.hpp` and of the
persistence, similarity, derived-grid and sub-ensemble parts of `ensemble.cpp`, followed by the
properties proved about it.

Conventions of the embedding:

* `int32_t` values are `Int`; arithmetic on them wraps through `wrapInt32`.
* `float` values that are only compared, stored and serialised (dendrogram similarities, grid
  voxels) are `Float32`: the finite binary32 values, ordered as in IEEE-754.
* where infinities and NaN can occur in such values (a similarity function handed to the
  clustering constructor, the raw memory of a grid, `operator==` on grids of `float`), they
  are `FloatValue`: a `Float32`, an infinity or NaN, with the comparisons of IEEE-754; the
  functions over `FloatValue` are shown to agree with those over `Float32` on finite values.
* `float` / `double` arithmetic (the similarity formulas) is carried out exactly on `XFloat`,
  rationals extended by the two infinities and NaN, so that a division by zero yields what the
  hardware yields rather than a number.
* a file stream is a `List Nat` of bytes; a read past its end is `none`.
* a method that changes its object returns the object after the call; one that can throw
  returns an `Except Exception` value next to it; an access outside a buffer is `none`.
* the threads of `compute_multi_threaded` work on disjoint index ranges and write disjoint
  cells, so a parallel loop is the single pass over all its indices; the index ranges
  themselves are `computeMultiThreaded`, and for `Volume::map` the single pass is shown to give
  what the writes of the threads give in any order.
-/

namespace Reghievis

/-! ## Machine numbers -/

/-- An `int32_t` result: the representative of `x` modulo `2^32` in `[-2^31, 2^31)`. -/
def wrapInt32 (x : Int) : Int := (x + 2147483648) % 4294967296 - 2147483648

/-- Range of `int32_t`. -/
def InInt32 (x : Int) : Prop := -2147483648 ≤ x ∧ x < 2147483648

instance (x : Int) : Decidable (InInt32 x) := by unfold InInt32; infer_instance

/-- A finite IEEE-754 binary32 value, given by the signed magnitude of its bit pattern: `key` is
the integer formed by the 31 low bits, negated when the sign bit is set.  On finite values the
comparisons of `float` are exactly the comparisons of these integers (the two zeros, which
compare equal, are both `0`).  Infinities and NaN are not values of this type. -/
structure Float32 where
  key : Int
  lo : -2139095039 ≤ key
  hi : key ≤ 2139095039
deriving DecidableEq

namespace Float32

/-- Value of `std::numeric_limits<float>::max()`, bit pattern `0x7F7FFFFF`. -/
def max : Float32 := ⟨2139095039, by decide, by decide⟩

/-- Value of `std::numeric_limits<float>::lowest()`, bit pattern `0xFF7FFFFF`. -/
def lowest : Float32 := ⟨-2139095039, by decide, by decide⟩

/-- The literal `0.0f`. -/
def zero : Float32 := ⟨0, by decide, by decide⟩

/-- The literal `1.0f`, bit pattern `0x3F800000`. -/
def one : Float32 := ⟨1065353216, by decide, by decide⟩

/-- The literal `0.5f`, bit pattern `0x3F000000`. -/
def half : Float32 := ⟨1056964608, by decide, by decide⟩

/-- The literal `0.25f`, bit pattern `0x3E800000`. -/
def quarter : Float32 := ⟨1048576000, by decide, by decide⟩

instance : Zero Float32 := ⟨Float32.zero⟩

instance : LinearOrder Float32 :=
  LinearOrder.lift' Float32.key (fun a b h => by cases a; cases b; simp_all)

/-- Choice made by `std::min( a, b )`: `b` when `b < a`, else `a`. -/
def stdMin (a b : Float32) : Float32 := if b < a then b else a

/-- Choice made by `std::max( a, b )`: `b` when `a < b`, else `a`. -/
def stdMax (a b : Float32) : Float32 := if a < b then b else a

end Float32

/-! ## Dendrogram nodes (`hierarchical_clustering.hpp`) -/

/-- A node of `class HCNode`, by the three shapes its constructors produce.

* `empty`: the default-constructed node (no value, no children, every number zero); the stream
  constructor returns it when the stored value count is `0`.
* `leaf value`: `HCNode( int32_t value )`, with similarity `1.0f` and value count, width and
  height `1`.
* `node left right similarity valueCount width height`: a node with two owned children and no
  value.  The parent back-pointer is the position in the tree. -/
inductive HCNode where
  | empty : HCNode
  | leaf (value : Int) : HCNode
  | node (left right : HCNode) (similarity : Float32) (valueCount width height : Int) : HCNode
deriving DecidableEq

namespace HCNode

/-- Member `_valueCount`. -/
def valueCount : HCNode → Int
  | empty => 0
  | leaf _ => 1
  | node _ _ _ vc _ _ => vc

/-- Member `_width`. -/
def width : HCNode → Int
  | empty => 0
  | leaf _ => 1
  | node _ _ _ _ w _ => w

/-- Member `_height`. -/
def height : HCNode → Int
  | empty => 0
  | leaf _ => 1
  | node _ _ _ _ _ h => h

/-- Member `_similarity`. -/
def similarity : HCNode → Float32
  | empty => Float32.zero
  | leaf _ => Float32.one
  | node _ _ s _ _ _ => s

/-- Whether `_value` is engaged. -/
def hasValue : HCNode → Bool
  | leaf _ => true
  | _ => false

/-- Internal-node constructor `HCNode( HCNode* left, HCNode* right, float similarity )`. -/
def mkNode (left right : HCNode) (similarity : Float32) : HCNode :=
  let valueCount := wrapInt32 (left.valueCount + right.valueCount)
  let l := if left.valueCount < right.valueCount then right else left
  let r := if left.valueCount < right.valueCount then left else right
  let width := if r.valueCount = 1 then l.width else wrapInt32 (l.width + r.width)
  let height := wrapInt32 (1 + Max.max l.height r.height)
  node l r similarity valueCount width height

/-- Leaf indices in the order `HCNode::gatherValues` pushes them (`HCNode::values`).  On the
default node the source dereferences a null child; that case is given the empty list. -/
def values : HCNode → List Int
  | empty => []
  | leaf v => [v]
  | node l r _ _ _ _ => l.values ++ r.values

/-- All nodes of the tree rooted at a node, the node itself first. -/
def subtrees : HCNode → List HCNode
  | empty => [empty]
  | leaf v => [leaf v]
  | node l r s vc w h => node l r s vc w h :: (l.subtrees ++ r.subtrees)

/-- Number of leaves. -/
def leafCount : HCNode → Nat
  | empty => 0
  | leaf _ => 1
  | node l r _ _ _ _ => l.leafCount + r.leafCount

/-- Number of internal (two-child) nodes. -/
def internalCount : HCNode → Nat
  | empty => 0
  | leaf _ => 0
  | node l r _ _ _ _ => 1 + l.internalCount + r.internalCount

/-- Comparison `HCNode::operator==`. -/
def beq : HCNode → HCNode → Bool
  | leaf v, leaf w => decide (v = w)
  | leaf _, _ => false
  | _, leaf _ => false
  | empty, empty => true
  | empty, node _ _ _ _ _ _ => false
  | node _ _ _ _ _ _, empty => false
  | node l r s vc w h, node l2 r2 s2 vc2 w2 h2 =>
    if s ≠ s2 then false
    else if vc ≠ vc2 then false
    else if w ≠ w2 then false
    else if h ≠ h2 then false
    else if !(beq l l2) then false
    else if !(beq r r2) then false
    else true

end HCNode

/-! ## Agglomerative clustering (`HCNode::HCNode( int32_t, similarityFunction )`) -/

/-- The lambda `computeSimilarity`: starting from `numeric_limits<float>::max()`, the running
`std::min` over every pair of a leaf of `first` and a leaf of `second`. -/
def computeSimilarity (similarityFunction : Int → Int → Float32) (first second : HCNode) :
    Float32 :=
  first.values.foldl
    (fun similarity firstValue =>
      second.values.foldl
        (fun similarity secondValue =>
          Float32.stdMin similarity (similarityFunction firstValue secondValue))
        similarity)
    Float32.max

/-- The local struct `closest` of the merge loop. -/
structure Closest where
  first : Int
  second : Int
  similarity : Float32
deriving DecidableEq

/-- Initial value `{ -1, -1, numeric_limits<float>::lowest() }`. -/
def Closest.init : Closest := ⟨-1, -1, Float32.lowest⟩

/-- Inner loop `for( j = i + 1; j < nodes.size(); ++j )` for a fixed `i`: `rest` holds
`nodes[j], nodes[j+1], …` and `nodeI` is `nodes[i]`. -/
def scanInner (similarityFunction : Int → Int → Float32) (nodeI : HCNode) (i : Nat) :
    List HCNode → Nat → Closest → Closest
  | [], _, closest => closest
  | nodeJ :: rest, j, closest =>
    let similarity := computeSimilarity similarityFunction nodeI nodeJ
    scanInner similarityFunction nodeI i rest (j + 1)
      (if similarity > closest.similarity then ⟨i, j, similarity⟩ else closest)

/-- Outer loop `for( i = 0; i < nodes.size(); ++i )`: the argument list holds
`nodes[i], nodes[i+1], …`. -/
def scanOuter (similarityFunction : Int → Int → Float32) :
    List HCNode → Nat → Closest → Closest
  | [], _, closest => closest
  | nodeI :: rest, i, closest =>
    scanOuter similarityFunction rest (i + 1)
      (scanInner similarityFunction nodeI i rest (i + 1) closest)

/-- The search "Find two most similar nodes" of one loop iteration. -/
def findClosest (similarityFunction : Int → Int → Float32) (nodes : List HCNode) : Closest :=
  scanOuter similarityFunction nodes 0 Closest.init

/-- One iteration of `while( nodes.size() > 1 )`: search, `push_back` of the merged node, then
the two `erase` calls.  `none` when `closest.first` or `closest.second` is not an index of
`nodes` (the source then indexes the vector out of bounds). -/
def mergeStep (similarityFunction : Int → Int → Float32) (nodes : List HCNode) :
    Option (List HCNode) :=
  let closest := findClosest similarityFunction nodes
  if 0 ≤ closest.first ∧ 0 ≤ closest.second then
    match nodes[closest.first.toNat]?, nodes[closest.second.toNat]? with
    | some a, some b =>
      let pushed := nodes ++ [HCNode.mkNode a b closest.similarity]
      some ((pushed.eraseIdx closest.second.toNat).eraseIdx closest.first.toNat)
    | _, _ => none
  else none

/-- The loop `while( nodes.size() > 1 )`, run for at most `fuel` iterations; `none` when an
iteration fails or the fuel is used up with more than one node left. -/
def mergeLoop (similarityFunction : Int → Int → Float32) :
    Nat → List HCNode → Option (List HCNode)
  | 0, nodes => if nodes.length > 1 then none else some nodes
  | fuel + 1, nodes =>
    if nodes.length > 1 then
      (mergeStep similarityFunction nodes).bind (mergeLoop similarityFunction fuel)
    else some nodes

/-- Exactly `k` loop iterations in a row, without the loop test. -/
def mergeSteps (similarityFunction : Int → Int → Float32) :
    Nat → List HCNode → Option (List HCNode)
  | 0, nodes => some nodes
  | k + 1, nodes =>
    (mergeStep similarityFunction nodes).bind (mergeSteps similarityFunction k)

/-- The initial vector: `nodes[i] = new HCNode( i )` for `i < count`. -/
def initialNodes (count : Nat) : List HCNode :=
  (List.range count).map (fun (i : Nat) => HCNode.leaf (i : Int))

/-- The clustering constructor `HCNode( int32_t count, similarityFunction )`: the node moved
out of `nodes.front()` after the loop.  The loop is given `count` iterations of fuel.  `none`
when an iteration fails or when the vector is empty (`count = 0`). -/
def HCNode.cluster (count : Nat) (similarityFunction : Int → Int → Float32) : Option HCNode :=
  match mergeLoop similarityFunction count (initialNodes count) with
  | some (root :: _) => some root
  | _ => none

/-! ## Values of `float` with infinities and NaN -/

/-- A value of the type `float`: a finite value, an infinity, or NaN.  The NaN values are not
told apart: no operation of the program reads the sign or the payload of a NaN. -/
inductive FloatValue where
  | finite (value : Float32) : FloatValue
  | posInf : FloatValue
  | negInf : FloatValue
  | nan : FloatValue
deriving DecidableEq

namespace FloatValue

/-- Comparison `a < b` of `float`: false when an operand is NaN. -/
def lt : FloatValue → FloatValue → Bool
  | finite a, finite b => decide (a < b)
  | finite _, posInf => true
  | negInf, finite _ => true
  | negInf, posInf => true
  | _, _ => false

/-- Comparison `a != b` of `float`: true when an operand is NaN. -/
def ne : FloatValue → FloatValue → Bool
  | finite a, finite b => decide (a ≠ b)
  | posInf, posInf => false
  | negInf, negInf => false
  | _, _ => true

/-- Choice made by `std::min( a, b )`: `b` when `b < a`, else `a`. -/
def stdMin (a b : FloatValue) : FloatValue := if lt b a then b else a

end FloatValue

/-! ## Agglomerative clustering over every `float` value

The clustering constructor once more, for a similarity function that may return infinities
and NaN.  The functions are those of the previous section with the comparisons of `float`
in place of the order of the finite values. -/

namespace Ieee

/-- The lambda `computeSimilarity`: starting from `numeric_limits<float>::max()`, the running
`std::min` over every pair of a leaf of `first` and a leaf of `second`. -/
def computeSimilarity (similarityFunction : Int → Int → FloatValue) (first second : HCNode) :
    FloatValue :=
  first.values.foldl
    (fun similarity firstValue =>
      second.values.foldl
        (fun similarity secondValue =>
          FloatValue.stdMin similarity (similarityFunction firstValue secondValue))
        similarity)
    (FloatValue.finite Float32.max)

/-- The local struct `closest` of the merge loop. -/
structure Closest where
  first : Int
  second : Int
  similarity : FloatValue
deriving DecidableEq

/-- Initial value `{ -1, -1, numeric_limits<float>::lowest() }`. -/
def Closest.init : Closest := ⟨-1, -1, FloatValue.finite Float32.lowest⟩

/-- Inner loop `for( j = i + 1; j < nodes.size(); ++j )` for a fixed `i`: `rest` holds
`nodes[j], nodes[j+1], …` and `nodeI` is `nodes[i]`.  The test
`similarity > closest.similarity` is `closest.similarity < similarity`. -/
def scanInner (similarityFunction : Int → Int → FloatValue) (nodeI : HCNode) (i : Nat) :
    List HCNode → Nat → Closest → Closest
  | [], _, closest => closest
  | nodeJ :: rest, j, closest =>
    let similarity := computeSimilarity similarityFunction nodeI nodeJ
    scanInner similarityFunction nodeI i rest (j + 1)
      (if FloatValue.lt closest.similarity similarity then ⟨i, j, similarity⟩ else closest)

/-- Outer loop `for( i = 0; i < nodes.size(); ++i )`: the argument list holds
`nodes[i], nodes[i+1], …`. -/
def scanOuter (similarityFunction : Int → Int → FloatValue) :
    List HCNode → Nat → Closest → Closest
  | [], _, closest => closest
  | nodeI :: rest, i, closest =>
    scanOuter similarityFunction rest (i + 1)
      (scanInner similarityFunction nodeI i rest (i + 1) closest)

/-- The search "Find two most similar nodes" of one loop iteration. -/
def findClosest (similarityFunction : Int → Int → FloatValue) (nodes : List HCNode) : Closest :=
  scanOuter similarityFunction nodes 0 Closest.init

/-- One iteration of `while( nodes.size() > 1 )`: search, `push_back` of the merged node, then
the two `erase` calls.  `none` when `closest.first` or `closest.second` is not an index of
`nodes` (the source then indexes the vector out of bounds).  A node of the model stores a
finite similarity, so the last case of the `match` also answers `none` for a similarity that
is not finite; the search never returns one (`ieee_findClosest_finite`). -/
def mergeStep (similarityFunction : Int → Int → FloatValue) (nodes : List HCNode) :
    Option (List HCNode) :=
  let closest := findClosest similarityFunction nodes
  if 0 ≤ closest.first ∧ 0 ≤ closest.second then
    match nodes[closest.first.toNat]?, nodes[closest.second.toNat]?, closest.similarity with
    | some a, some b, FloatValue.finite similarity =>
      let pushed := nodes ++ [HCNode.mkNode a b similarity]
      some ((pushed.eraseIdx closest.second.toNat).eraseIdx closest.first.toNat)
    | _, _, _ => none
  else none

/-- The loop `while( nodes.size() > 1 )`, run for at most `fuel` iterations; `none` when an
iteration fails or the fuel is used up with more than one node left. -/
def mergeLoop (similarityFunction : Int → Int → FloatValue) :
    Nat → List HCNode → Option (List HCNode)
  | 0, nodes => if nodes.length > 1 then none else some nodes
  | fuel + 1, nodes =>
    if nodes.length > 1 then
      (mergeStep similarityFunction nodes).bind (mergeLoop similarityFunction fuel)
    else some nodes

/-- The clustering constructor `HCNode( int32_t count, similarityFunction )`: the node moved
out of `nodes.front()` after the loop.  The loop is given `count` iterations of fuel.  `none`
when an iteration fails or when the vector is empty (`count = 0`). -/
def cluster (count : Nat) (similarityFunction : Int → Int → FloatValue) : Option HCNode :=
  match mergeLoop similarityFunction count (initialNodes count) with
  | some (root :: _) => some root
  | _ => none

end Ieee

/-! ## Binary streams (`utility.hpp`) -/

/-- The `n` bytes of `x`, least significant first (the layout the writer's machine gives raw
memory). -/
def leBytes : Nat → Nat → List Nat
  | 0, _ => []
  | n + 1, x => x % 256 :: leBytes n (x / 256)

/-- The unsigned number stored in a run of bytes, least significant first. -/
def ofLeBytes : List Nat → Nat
  | [] => 0
  | b :: bs => b + 256 * ofLeBytes bs

/-- Call `stream.read( p, n )`: the next `n` bytes and the rest of the stream; `none` when fewer than
`n` bytes are left. -/
def readBytes (n : Nat) (stream : List Nat) : Option (List Nat × List Nat) :=
  if n ≤ stream.length then some (stream.take n, stream.drop n) else none

/-- Raw bytes of an `int32_t`. -/
def encodeInt32 (x : Int) : List Nat := leBytes 4 (x % 4294967296).toNat

/-- The `int32_t` whose raw bytes are given. -/
def decodeInt32 (bytes : List Nat) : Int := wrapInt32 (ofLeBytes bytes)

/-- Helper `util::read_binary<int32_t>` (also used for the `int32_t` members read in place). -/
def readInt32 (stream : List Nat) : Option (Int × List Nat) :=
  (readBytes 4 stream).map (fun r => (decodeInt32 r.1, r.2))

/-- Raw bytes of a `size_t` (8 bytes). -/
def encodeSize (n : Nat) : List Nat := leBytes 8 n

/-- Helper `util::read_binary<size_t>`. -/
def readSize (stream : List Nat) : Option (Nat × List Nat) :=
  (readBytes 8 stream).map (fun r => (ofLeBytes r.1, r.2))

/-- Bit pattern of a finite `float`: the magnitude in the low 31 bits, the sign in bit 31. -/
def Float32.bits (f : Float32) : Nat :=
  if 0 ≤ f.key then f.key.toNat else 2147483648 + (-f.key).toNat

/-- Raw bytes of a `float`. -/
def encodeFloat (f : Float32) : List Nat := leBytes 4 f.bits

/-- The finite `float` with the given bit pattern; `none` for the patterns of the infinities
and of NaN (magnitude above `0x7F7FFFFF`), which are not values of `Float32`. -/
def Float32.ofBits (bits : Nat) : Option Float32 :=
  if h : bits % 2147483648 ≤ 2139095039 then
    if bits / 2147483648 % 2 = 0 then
      some ⟨(bits % 2147483648 : Nat), by omega, by omega⟩
    else some ⟨-((bits % 2147483648 : Nat) : Int), by omega, by omega⟩
  else none

/-- Reading a `float` in place. -/
def readFloat (stream : List Nat) : Option (Float32 × List Nat) :=
  (readBytes 4 stream).bind (fun r => (Float32.ofBits (ofLeBytes r.1)).map (fun f => (f, r.2)))

/-! ## Dendrogram persistence (`HCNode::save`, `HCNode::HCNode( std::ifstream& )`) -/

/-- Bytes written by `HCNode::save`: the value count, then the value of a leaf, or else the
similarity followed by the left and the right subtree.  `none` on the default node, where the
source calls `save` through a null child pointer. -/
def HCNode.save : HCNode → Option (List Nat)
  | HCNode.empty => none
  | HCNode.leaf value => some (encodeInt32 1 ++ encodeInt32 value)
  | HCNode.node left right similarity valueCount _ _ =>
    match left.save, right.save with
    | some leftBytes, some rightBytes =>
      some (encodeInt32 valueCount ++ encodeFloat similarity ++ leftBytes ++ rightBytes)
    | _, _ => none

/-- The stream constructor `HCNode( std::ifstream& )`, with `fuel` bounding the nesting of the
recursion: the node read and the rest of the stream. -/
def HCNode.loadAux : Nat → List Nat → Option (HCNode × List Nat)
  | 0, _ => none
  | fuel + 1, stream =>
    match readInt32 stream with
    | none => none
    | some (valueCount, s1) =>
      if valueCount = 0 then some (HCNode.empty, s1)
      else if valueCount = 1 then
        match readInt32 s1 with
        | none => none
        | some (value, s2) => some (HCNode.leaf value, s2)
      else
        match readFloat s1 with
        | none => none
        | some (similarity, s2) =>
          match HCNode.loadAux fuel s2 with
          | none => none
          | some (left, s3) =>
            match HCNode.loadAux fuel s3 with
            | none => none
            | some (right, s4) =>
              let width :=
                if right.valueCount = 1 then left.width
                else wrapInt32 (left.width + right.width)
              let height := wrapInt32 (1 + Max.max left.height right.height)
              some (HCNode.node left right similarity valueCount width height, s4)

/-- The stream constructor on a stream: every node read takes at least four bytes, so the
length of the stream is enough fuel. -/
def HCNode.load (stream : List Nat) : Option (HCNode × List Nat) :=
  HCNode.loadAux stream.length stream

/-- Number of nodes of a tree. -/
def HCNode.size : HCNode → Nat
  | HCNode.empty => 1
  | HCNode.leaf _ => 1
  | HCNode.node l r _ _ _ _ => 1 + l.size + r.size

/-- Trees that `save` writes and the stream constructor reads back: leaf values and value counts
are `int32_t` values, an internal node's value count is neither `0` nor `1`, and its width and
height are the ones the constructors compute from its children. -/
def HCNode.Storable : HCNode → Prop
  | HCNode.empty => False
  | HCNode.leaf value => InInt32 value
  | HCNode.node l r _ vc w h =>
    InInt32 vc ∧ vc ≠ 0 ∧ vc ≠ 1 ∧
      w = (if r.valueCount = 1 then l.width else wrapInt32 (l.width + r.width)) ∧
      h = wrapInt32 (1 + Max.max l.height r.height) ∧ l.Storable ∧ r.Storable

/-! ## Grids (`volume.hpp`) -/

/-- The type `vec3i`. -/
structure Vec3i where
  x : Int
  y : Int
  z : Int
deriving DecidableEq

/-- Method `vec3i::product()`, two `int32_t` multiplications. -/
def Vec3i.product (v : Vec3i) : Int := wrapInt32 (wrapInt32 (v.x * v.y) * v.z)

/-- Raw memory of an element type: its size in bytes, the bytes of a value, and the value a
run of bytes stands for (`none` when the bytes are no value of the model). -/
structure Codec (T : Type) where
  size : Nat
  encode : T → List Nat
  decode : List Nat → Option T

/-- A codec writes `size` bytes per value and reads back what it wrote. -/
def Codec.Lawful {T : Type} (c : Codec T) : Prop :=
  ∀ v, (c.encode v).length = c.size ∧ c.decode (c.encode v) = some v

/-- Raw memory of `float`. -/
def floatCodec : Codec Float32 :=
  ⟨4, encodeFloat, fun bytes => Float32.ofBits (ofLeBytes bytes)⟩

/-- Raw memory of `int32_t` values (values outside the `int32_t` range are written modulo
`2^32`). -/
def int32Codec : Codec Int :=
  ⟨4, encodeInt32, fun bytes => some (decodeInt32 bytes)⟩

/-- The class `Volume<T>` without its OpenGL texture handle.  `name` holds the bytes of the
name as `save` writes them; `domain` and `domainValid` are the mutable range cache. -/
structure Volume (T : Type) where
  name : List Nat
  dimensions : Vec3i
  values : List T
  domain : T × T
  domainValid : Bool

namespace Volume

variable {T : Type}

/-- Default constructor `Volume()`. -/
def empty [Zero T] : Volume T := ⟨[], ⟨0, 0, 0⟩, [], (0, 0), false⟩

/-- Call `Volume( vec3i dimensions, QString name )`: `dimensions.product()` value-initialised
elements; `none` when the product is negative (the vector constructor then throws). -/
def ofDimensions [Zero T] (dimensions : Vec3i) (name : List Nat) : Option (Volume T) :=
  if 0 ≤ dimensions.product then
    some ⟨name, dimensions, List.replicate dimensions.product.toNat 0, (0, 0), false⟩
  else none

/-- Call `Volume( vec3i dimensions, std::vector<T> values, QString name )`; `none` when it
throws because the product of the dimensions is not the number of values. -/
def ofValues [Zero T] (dimensions : Vec3i) (values : List T) (name : List Nat) :
    Option (Volume T) :=
  if dimensions.product ≠ (values.length : Int) then none
  else some ⟨name, dimensions, values, (0, 0), false⟩

/-- Method `voxelCount()`. -/
def voxelCount (v : Volume T) : Int := wrapInt32 (v.values.length : Int)

/-- Method `voxelToIndex( coords )`. -/
def voxelToIndex (v : Volume T) (coords : Vec3i) : Int :=
  wrapInt32 (wrapInt32 (v.dimensions.z *
    wrapInt32 (coords.y + wrapInt32 (v.dimensions.y * coords.x))) + coords.z)

/-- Read access `at( index )`; `none` outside the buffer. -/
def getAt (v : Volume T) (index : Int) : Option T :=
  if 0 ≤ index then v.values[index.toNat]? else none

/-- Write access `at( index ) = value`; `none` outside the buffer.  The range cache is left as
it is. -/
def setAt (v : Volume T) (index : Int) (value : T) : Option (Volume T) :=
  if 0 ≤ index ∧ index.toNat < v.values.length then
    some { v with values := v.values.set index.toNat value }
  else none

/-- What `std::minmax_element` yields on a non-empty range: the first smallest and the last
largest element. -/
def minmaxElement [LinearOrder T] : List T → Option (T × T)
  | [] => none
  | first :: rest =>
    some (rest.foldl
      (fun (r : T × T) v => (if v < r.1 then v else r.1, if v < r.2 then r.2 else v))
      (first, first))

/-- Method `domain()`: the cached range, computed first when the cache is not valid.  Returns
the range and the volume with its cache filled; `none` on an empty volume, where the source
dereferences the end iterator. -/
def getDomain [LinearOrder T] (v : Volume T) : Option ((T × T) × Volume T) :=
  if v.domainValid then some (v.domain, v)
  else
    match minmaxElement v.values with
    | none => none
    | some d => some (d, { v with domain := d, domainValid := true })

/-- Bytes of `util::write_binary( stream, std::string )`. -/
def encodeString (s : List Nat) : List Nat := encodeSize s.length ++ s

/-- Bytes of `util::write_binary( stream, vec3i )`. -/
def encodeVec3i (d : Vec3i) : List Nat := encodeInt32 d.x ++ encodeInt32 d.y ++ encodeInt32 d.z

/-- Bytes of `util::write_binary_vector`. -/
def encodeVector (c : Codec T) (values : List T) : List Nat :=
  encodeSize values.length ++ values.flatMap c.encode

/-- Bytes `save` writes for a volume in a given cache state. -/
def encode (c : Codec T) (v : Volume T) : List Nat :=
  encodeString v.name ++ encodeVec3i v.dimensions ++ encodeVector c v.values ++
    c.encode v.domain.1 ++ c.encode v.domain.2

/-- Method `save` for an arithmetic element type: name, dimensions, values, then the range
after `domain()` has filled the cache.  Returns the bytes and the volume as `save` leaves it;
`none` when `domain()` fails. -/
def save [LinearOrder T] (c : Codec T) (v : Volume T) : Option (List Nat × Volume T) :=
  match v.getDomain with
  | none => none
  | some (_, cached) => some (encode c cached, cached)

/-- Method `save` for an element type that is not arithmetic (`vec3f`): `domain()` is not
called and the cache is written as it is. -/
def saveRaw (c : Codec T) (v : Volume T) : List Nat := encode c v

/-- Helper `util::read_binary( stream, std::string& )`. -/
def readString (stream : List Nat) : Option (List Nat × List Nat) :=
  match readSize stream with
  | none => none
  | some (size, s1) => readBytes size s1

/-- Helper `util::read_binary( stream, vec3i& )`. -/
def readVec3i (stream : List Nat) : Option (Vec3i × List Nat) :=
  match readInt32 stream with
  | none => none
  | some (x, s1) =>
    match readInt32 s1 with
    | none => none
    | some (y, s2) =>
      match readInt32 s2 with
      | none => none
      | some (z, s3) => some (⟨x, y, z⟩, s3)

/-- Reading one element in place. -/
def readElement (c : Codec T) (stream : List Nat) : Option (T × List Nat) :=
  match readBytes c.size stream with
  | none => none
  | some (bytes, s1) => (c.decode bytes).map (fun v => (v, s1))

/-- The `count` elements stored one after the other at the head of a stream. -/
def readElements (c : Codec T) : Nat → List Nat → Option (List T × List Nat)
  | 0, stream => some ([], stream)
  | count + 1, stream =>
    match readElement c stream with
    | none => none
    | some (v, s1) =>
      match readElements c count s1 with
      | none => none
      | some (vs, s2) => some (v :: vs, s2)

/-- Helper `util::read_binary_vector`. -/
def readVector (c : Codec T) (stream : List Nat) : Option (List T × List Nat) :=
  match readSize stream with
  | none => none
  | some (size, s1) => readElements c size s1

/-- The stream constructor `Volume( std::ifstream& )`. -/
def load (c : Codec T) (stream : List Nat) : Option (Volume T × List Nat) :=
  match readString stream with
  | none => none
  | some (name, s1) =>
    match readVec3i s1 with
    | none => none
    | some (dimensions, s2) =>
      match readVector c s2 with
      | none => none
      | some (values, s3) =>
        match readElement c s3 with
        | none => none
        | some (lo, s4) =>
          match readElement c s4 with
          | none => none
          | some (hi, s5) => some (⟨name, dimensions, values, (lo, hi), true⟩, s5)

/-- The loop `for( i < _values.size() ) if( _values[i] != other._values[i] ) return false` of
`operator==`.  Where the other buffer is shorter the source reads past its end; the model
answers `false` there. -/
def valuesEqual [DecidableEq T] : List T → List T → Bool
  | [], _ => true
  | _ :: _, [] => false
  | a :: as, b :: bs => if a ≠ b then false else valuesEqual as bs

/-- Comparison `Volume::operator==`. -/
def beq [DecidableEq T] (a b : Volume T) : Bool :=
  if a.name ≠ b.name then false
  else if a.dimensions ≠ b.dimensions then false
  else if !(valuesEqual a.values b.values) then false
  else if a.domain.1 ≠ b.domain.1 ∨ a.domain.2 ≠ b.domain.2 then false
  else true

/-- What `save` needs of a volume to write it faithfully: dimensions that are `int32_t`
values and lengths that are `size_t` values. -/
def Encodable (v : Volume T) : Prop :=
  InInt32 v.dimensions.x ∧ InInt32 v.dimensions.y ∧ InInt32 v.dimensions.z ∧
    v.name.length < 18446744073709551616 ∧ v.values.length < 18446744073709551616

end Volume

/-- Example grid: a `2 × 1 × 1` volume of `float` named "ab" with values `0.5f, 0.25f`, its
range cache not yet filled. -/
def exampleVolume : Volume Float32 :=
  ⟨[97, 98], ⟨2, 1, 1⟩, [Float32.half, Float32.quarter], (Float32.zero, Float32.zero), false⟩

/-! ## Grids of any arithmetic element type

The comparisons `operator<` and `operator!=` of the element type are parameters here, so that
the element type `float` can be taken with its infinities and NaN. -/

/-- Bit pattern of a `float`: `0x7F800000` and `0xFF800000` for the infinities; for NaN the
quiet NaN `0x7FC00000`. -/
def FloatValue.bits : FloatValue → Nat
  | FloatValue.finite f => f.bits
  | FloatValue.posInf => 2139095040
  | FloatValue.negInf => 4286578688
  | FloatValue.nan => 2143289344

/-- The `float` with the given bit pattern.  Every pattern is a value: the magnitude
`0x7F800000` is an infinity and a larger magnitude is NaN. -/
def FloatValue.ofBits (bits : Nat) : FloatValue :=
  match Float32.ofBits bits with
  | some f => FloatValue.finite f
  | none =>
    if bits % 2147483648 = 2139095040 then
      if bits / 2147483648 % 2 = 0 then FloatValue.posInf else FloatValue.negInf
    else FloatValue.nan

/-- Raw memory of `float`, every bit pattern included: `util::read_binary` takes any four
bytes. -/
def floatValueCodec : Codec FloatValue :=
  ⟨4, fun v => leBytes 4 v.bits, fun bytes => some (FloatValue.ofBits (ofLeBytes bytes))⟩

/-- The values of `int32_t`. -/
def Int32Value : Type := { x : Int // InInt32 x }

instance : DecidableEq Int32Value := by unfold Int32Value; infer_instance

/-- Comparison `a < b` of `int32_t`. -/
def Int32Value.lt (a b : Int32Value) : Bool := decide (a.val < b.val)

/-- Comparison `a != b` of `int32_t`. -/
def Int32Value.ne (a b : Int32Value) : Bool := decide (a.val ≠ b.val)

/-- Raw memory of `int32_t`. -/
def int32ValueCodec : Codec Int32Value :=
  ⟨4, fun v => encodeInt32 v.val,
    fun bytes => some ⟨decodeInt32 bytes, by unfold decodeInt32 wrapInt32 InInt32; omega⟩⟩

namespace Volume

variable {T : Type}

/-- What `std::minmax_element` yields on a non-empty range whose elements compare by `lt`:
the first smallest and the last largest element.  (On one element it is that element, whatever
the comparison answers.) -/
def minmaxElementWith (lt : T → T → Bool) : List T → Option (T × T)
  | [] => none
  | first :: rest =>
    some (rest.foldl
      (fun (r : T × T) v => (if lt v r.1 then v else r.1, if lt v r.2 then r.2 else v))
      (first, first))

/-- Method `domain()` for an element type with the comparison `lt`: the cached range, computed
first when the cache is not valid; `none` on an empty volume. -/
def getDomainWith (lt : T → T → Bool) (v : Volume T) : Option ((T × T) × Volume T) :=
  if v.domainValid then some (v.domain, v)
  else
    match minmaxElementWith lt v.values with
    | none => none
    | some d => some (d, { v with domain := d, domainValid := true })

/-- Method `save` for an arithmetic element type with the comparison `lt`: name, dimensions,
values, then the range after `domain()` has filled the cache. -/
def saveWith (lt : T → T → Bool) (c : Codec T) (v : Volume T) :
    Option (List Nat × Volume T) :=
  match v.getDomainWith lt with
  | none => none
  | some (_, cached) => some (encode c cached, cached)

/-- The loop `for( i < _values.size() ) if( _values[i] != other._values[i] ) return false` of
`operator==`, with `ne` the `operator!=` of the element type.  Where the other buffer is
shorter the source reads past its end; the model answers `false` there. -/
def valuesEqualWith (ne : T → T → Bool) : List T → List T → Bool
  | [], _ => true
  | _ :: _, [] => false
  | a :: as, b :: bs => if ne a b then false else valuesEqualWith ne as bs

/-- Comparison `Volume::operator==`, with `ne` the `operator!=` of the element type; the
ranges are compared by `vec2::operator!=`, which is `x != other.x || y != other.y`. -/
def beqWith (ne : T → T → Bool) (a b : Volume T) : Bool :=
  if a.name ≠ b.name then false
  else if a.dimensions ≠ b.dimensions then false
  else if !(valuesEqualWith ne a.values b.values) then false
  else if ne a.domain.1 b.domain.1 || ne a.domain.2 b.domain.2 then false
  else true

end Volume

/-- Example grid of one voxel that holds NaN, its range cache not yet filled. -/
def nanVolume : Volume FloatValue :=
  ⟨[110], ⟨1, 1, 1⟩, [FloatValue.nan],
    (FloatValue.finite Float32.zero, FloatValue.finite Float32.zero), false⟩

/-- Example grid of `float` with an infinity: a `2 × 1 × 1` volume named "ab" with values
`0.5f, +inf`, its range cache not yet filled. -/
def infVolume : Volume FloatValue :=
  ⟨[97, 98], ⟨2, 1, 1⟩, [FloatValue.finite Float32.half, FloatValue.posInf],
    (FloatValue.finite Float32.zero, FloatValue.finite Float32.zero), false⟩

/-- Example grid of `int32_t`: a `2 × 1 × 1` volume named "ab" with values `7, -3`. -/
def intVolume : Volume Int32Value :=
  ⟨[97, 98], ⟨2, 1, 1⟩, [⟨7, by decide⟩, ⟨-3, by decide⟩], (⟨0, by decide⟩, ⟨0, by decide⟩),
    false⟩

/-- Example stream: the bytes of a `2 × 1 × 1` grid of `float` named "ab", with the values
`0.5f, 0.25f` and the stored range `(0, 0)`. -/
def exampleStream : List Nat :=
  [2, 0, 0, 0, 0, 0, 0, 0, 97, 98, 2, 0, 0, 0, 1, 0, 0, 0, 1, 0, 0, 0,
    2, 0, 0, 0, 0, 0, 0, 0, 0, 0, 0, 63, 0, 0, 128, 62, 0, 0, 0, 0, 0, 0, 0, 0]

/-- Example stream: the bytes of the same grid with the stored range `(0.25, 0.5)`. -/
def exampleRangedStream : List Nat :=
  [2, 0, 0, 0, 0, 0, 0, 0, 97, 98, 2, 0, 0, 0, 1, 0, 0, 0, 1, 0, 0, 0,
    2, 0, 0, 0, 0, 0, 0, 0, 0, 0, 0, 63, 0, 0, 128, 62, 0, 0, 128, 62, 0, 0, 0, 63]

/-- Example grid: the grid the stream constructor builds from `exampleRangedStream`. -/
def exampleRangedVolume : Volume Float32 :=
  ⟨[97, 98], ⟨2, 1, 1⟩, [Float32.half, Float32.quarter], (Float32.quarter, Float32.half), true⟩

/-! ## Fields (`ensemble.hpp`, `ensemble.cpp`) -/

/-- The type `vec3f`. -/
structure Vec3f where
  x : Float32
  y : Float32
  z : Float32
deriving DecidableEq

instance : Zero Vec3f := ⟨⟨Float32.zero, Float32.zero, Float32.zero⟩⟩

/-- Raw memory of `vec3f`: three `float`s. -/
def vec3fCodec : Codec Vec3f :=
  ⟨12, fun v => encodeFloat v.x ++ encodeFloat v.y ++ encodeFloat v.z,
    fun bytes =>
      match readFloat bytes with
      | none => none
      | some (x, s1) =>
        match readFloat s1 with
        | none => none
        | some (y, s2) =>
          match readFloat s2 with
          | none => none
          | some (z, _) => some ⟨x, y, z⟩⟩

/-- The enumeration `Ensemble::Derived`. -/
inductive Derived where
  | eNone | eMinimum | eMaximum | eMean | eStddev | eGradientMagnitude | ePCA1 | ePCA2 | eLabel
  | eHist1 | eHist2 | eHist3 | eHist4 | eHist5 | eHistDeviation | eAndersonDarling
deriving DecidableEq

/-- Underlying `int32_t` of a `Derived` value. -/
def Derived.toInt : Derived → Int
  | eNone => 0 | eMinimum => 1 | eMaximum => 2 | eMean => 3 | eStddev => 4
  | eGradientMagnitude => 5 | ePCA1 => 6 | ePCA2 => 7 | eLabel => 8
  | eHist1 => 9 | eHist2 => 10 | eHist3 => 11 | eHist4 => 12 | eHist5 => 13
  | eHistDeviation => 14 | eAndersonDarling => 15

/-- The enumerator with a given underlying value; `none` for a value that names none. -/
def Derived.ofInt (i : Int) : Option Derived :=
  if i = 0 then some .eNone else if i = 1 then some .eMinimum
  else if i = 2 then some .eMaximum else if i = 3 then some .eMean
  else if i = 4 then some .eStddev else if i = 5 then some .eGradientMagnitude
  else if i = 6 then some .ePCA1 else if i = 7 then some .ePCA2
  else if i = 8 then some .eLabel else if i = 9 then some .eHist1
  else if i = 10 then some .eHist2 else if i = 11 then some .eHist3
  else if i = 12 then some .eHist4 else if i = 13 then some .eHist5
  else if i = 14 then some .eHistDeviation else if i = 15 then some .eAndersonDarling
  else none

/-- The enumeration `Ensemble::Similarity`. -/
inductive Similarity where
  | eField | ePearson
deriving DecidableEq

/-- Underlying `int32_t` of a `Similarity` value. -/
def Similarity.toInt : Similarity → Int
  | eField => 0 | ePearson => 1

/-- The enumerator with a given underlying value; `none` for a value that names none. -/
def Similarity.ofInt (i : Int) : Option Similarity :=
  if i = 0 then some .eField else if i = 1 then some .ePearson else none

/-- Assignment `m[key] = value` on a `std::map`, kept as the list of its entries in ascending
key order; `rank` is the order of the keys. -/
def mapAssign {K V : Type} (rank : K → Int) : List (K × V) → K → V → List (K × V)
  | [], key, value => [(key, value)]
  | (k, v) :: rest, key, value =>
    if rank key < rank k then (key, value) :: (k, v) :: rest
    else if rank key = rank k then (k, value) :: rest
    else (k, v) :: mapAssign rank rest key value

/-- Comparison `std::map::operator==`: equal sizes and pairwise equal entries. -/
def mapEqual {K V : Type} [DecidableEq K] (valueEq : V → V → Bool) :
    List (K × V) → List (K × V) → Bool
  | [], [] => true
  | (k, v) :: rest, (k2, v2) :: rest2 =>
    if k ≠ k2 then false else if !(valueEq v v2) then false else mapEqual valueEq rest rest2
  | _, _ => false

/-- The data members of `Ensemble::Field`. -/
structure Field where
  name : List Nat
  volumes : List (Volume Float32)
  derivedVolumes : List (Derived × Volume Float32)
  similarities : List (Similarity × Volume Float32 × HCNode)
  volumeGradient : Volume Vec3f

/-- What the numerical routines of a field store: for each derived kind the grid the routine
responsible for it computes from the field, the vector gradient grid, and for each similarity
kind the similarity matrix with its dendrogram.  The routines are floating-point code over
`Eigen` and `<cmath>`; persistence only depends on which cache entries they assign. -/
structure FieldComputations where
  derived : Derived → Field → Volume Float32
  gradient : Field → Volume Vec3f
  similarity : Similarity → Field → Volume Float32 × HCNode

namespace Field

/-- Default constructor `Field()`. -/
def empty : Field := ⟨[], [], [], [], Volume.empty⟩

/-- Whether `_derivedVolumes.find( key )` finds an entry. -/
def hasDerived (f : Field) (key : Derived) : Bool :=
  f.derivedVolumes.any (fun e => decide (e.1 = key))

/-- The assignment `_derivedVolumes[key] = volume`. -/
def assignDerived (f : Field) (key : Derived) (volume : Volume Float32) : Field :=
  { f with derivedVolumes := mapAssign Derived.toInt f.derivedVolumes key volume }

/-- The assignment `_similarities[key] = ( matrix, dendrogram )`. -/
def assignSimilarity (f : Field) (key : Similarity) (entry : Volume Float32 × HCNode) : Field :=
  { f with similarities := mapAssign Similarity.toInt f.similarities key entry }

/-- Cache entries assigned by `computeMinimumMaximum`. -/
def computeMinimumMaximum (ops : FieldComputations) (f : Field) : Field :=
  (f.assignDerived .eMinimum (ops.derived .eMinimum f)).assignDerived .eMaximum
    (ops.derived .eMaximum f)

/-- Cache entries assigned by `computeMeanStddev`. -/
def computeMeanStddev (ops : FieldComputations) (f : Field) : Field :=
  (f.assignDerived .eMean (ops.derived .eMean f)).assignDerived .eStddev
    (ops.derived .eStddev f)

/-- Effect on the cache of the calls `this->volume( Derived::eMean )` and
`this->volume( Derived::eStddev )` made inside the routines: the entry is computed when it is
missing. -/
def ensureDerived (ops : FieldComputations) (f : Field) (key : Derived) : Field :=
  if f.hasDerived key then f else f.computeMeanStddev ops

/-- Cache entries assigned by `computeGradient`. -/
def computeGradient (ops : FieldComputations) (f : Field) : Field :=
  let f1 := f.ensureDerived ops .eMean
  { f1.assignDerived .eGradientMagnitude (ops.derived .eGradientMagnitude f1) with
    volumeGradient := ops.gradient f1 }

/-- Cache entries assigned by `computePrincipalComponents`. -/
def computePrincipalComponents (ops : FieldComputations) (f : Field) : Field :=
  (f.assignDerived .ePCA1 (ops.derived .ePCA1 f)).assignDerived .ePCA2 (ops.derived .ePCA2 f)

/-- Cache entries assigned by `computeHistograms`. -/
def computeHistograms (ops : FieldComputations) (f : Field) : Field :=
  let f1 := (f.ensureDerived ops .eMean).ensureDerived ops .eStddev
  (((((f1.assignDerived .eHist1 (ops.derived .eHist1 f1)).assignDerived .eHist2
    (ops.derived .eHist2 f1)).assignDerived .eHist3 (ops.derived .eHist3 f1)).assignDerived
    .eHist4 (ops.derived .eHist4 f1)).assignDerived .eHist5
    (ops.derived .eHist5 f1)).assignDerived .eHistDeviation (ops.derived .eHistDeviation f1)

/-- Cache entries assigned by `computeAndersonDarling`. -/
def computeAndersonDarling (ops : FieldComputations) (f : Field) : Field :=
  let f1 := (f.ensureDerived ops .eMean).ensureDerived ops .eStddev
  f1.assignDerived .eAndersonDarling (ops.derived .eAndersonDarling f1)

/-- Cache entry assigned by `computeFieldSimilarity`. -/
def computeFieldSimilarity (ops : FieldComputations) (f : Field) : Field :=
  f.assignSimilarity .eField (ops.similarity .eField f)

/-- Cache entry assigned by `computePearsonSimilarity`. -/
def computePearsonSimilarity (ops : FieldComputations) (f : Field) : Field :=
  f.assignSimilarity .ePearson (ops.similarity .ePearson f)

/-- The loop `for( const auto volume : _volumes ) volume->save( stream )`: the bytes and the
volumes with their range caches filled. -/
def saveVolumes : List (Volume Float32) → Option (List Nat × List (Volume Float32))
  | [] => some ([], [])
  | v :: rest =>
    match v.save floatCodec with
    | none => none
    | some (bytes, saved) =>
      match saveVolumes rest with
      | none => none
      | some (restBytes, restSaved) => some (bytes ++ restBytes, saved :: restSaved)

/-- The loop over `_derivedVolumes` of `Field::save`: key, volume and, after the
`eGradientMagnitude` entry, the vector gradient volume. -/
def saveDerived (gradient : Volume Vec3f) :
    List (Derived × Volume Float32) → Option (List Nat × List (Derived × Volume Float32))
  | [] => some ([], [])
  | (key, v) :: rest =>
    match v.save floatCodec with
    | none => none
    | some (bytes, saved) =>
      match saveDerived gradient rest with
      | none => none
      | some (restBytes, restSaved) =>
        some (encodeInt32 key.toInt ++ bytes ++
          (if key = Derived.eGradientMagnitude then Volume.saveRaw vec3fCodec gradient else [])
          ++ restBytes, (key, saved) :: restSaved)

/-- The loop over `_similarities` of `Field::save`: key, matrix, dendrogram. -/
def saveSimilarities : List (Similarity × Volume Float32 × HCNode) →
    Option (List Nat × List (Similarity × Volume Float32 × HCNode))
  | [] => some ([], [])
  | (key, matrix, root) :: rest =>
    match matrix.save floatCodec, root.save with
    | some (bytes, saved), some rootBytes =>
      match saveSimilarities rest with
      | none => none
      | some (restBytes, restSaved) =>
        some (encodeInt32 key.toInt ++ bytes ++ rootBytes ++ restBytes,
          (key, saved, root) :: restSaved)
    | _, _ => none

/-- Method `Field::save`: the bytes written and the field as `save` leaves it (the range
caches of the volumes it wrote are filled). -/
def save (f : Field) : Option (List Nat × Field) :=
  match saveVolumes f.volumes with
  | none => none
  | some (volumeBytes, volumes) =>
    match saveDerived f.volumeGradient f.derivedVolumes with
    | none => none
    | some (derivedBytes, derivedVolumes) =>
      match saveSimilarities f.similarities with
      | none => none
      | some (similarityBytes, similarities) =>
        some (Volume.encodeString f.name ++ encodeSize f.volumes.length ++ volumeBytes ++
          encodeSize f.derivedVolumes.length ++ derivedBytes ++
          encodeSize f.similarities.length ++ similarityBytes,
          { f with volumes := volumes, derivedVolumes := derivedVolumes,
                   similarities := similarities })

/-- The loop `_volumes[i].reset( new Volume<float>( stream ) )`. -/
def readVolumes : Nat → List Nat → Option (List (Volume Float32) × List Nat)
  | 0, stream => some ([], stream)
  | count + 1, stream =>
    match Volume.load floatCodec stream with
    | none => none
    | some (v, s1) =>
      match readVolumes count s1 with
      | none => none
      | some (vs, s2) => some (v :: vs, s2)

/-- The loop reading `derivedVolumeCount` cache entries in `Field::load`. -/
def readDerived : Nat → Field → List Nat → Option (Field × List Nat)
  | 0, f, stream => some (f, stream)
  | count + 1, f, stream =>
    match readInt32 stream with
    | none => none
    | some (tag, s1) =>
      match Derived.ofInt tag with
      | none => none
      | some key =>
        match Volume.load floatCodec s1 with
        | none => none
        | some (v, s2) =>
          let f1 := f.assignDerived key v
          if key = Derived.eGradientMagnitude then
            match Volume.load vec3fCodec s2 with
            | none => none
            | some (gradient, s3) =>
              readDerived count { f1 with volumeGradient := gradient } s3
          else readDerived count f1 s2

/-- The loop reading `similaritiesCount` cache entries in `Field::load`. -/
def readSimilarities : Nat → Field → List Nat → Option (Field × List Nat)
  | 0, f, stream => some (f, stream)
  | count + 1, f, stream =>
    match readInt32 stream with
    | none => none
    | some (tag, s1) =>
      match Similarity.ofInt tag with
      | none => none
      | some key =>
        match Volume.load floatCodec s1 with
        | none => none
        | some (matrix, s2) =>
          match HCNode.load s2 with
          | none => none
          | some (root, s3) => readSimilarities count (f.assignSimilarity key (matrix, root)) s3

/-- Method `Field::load` called on the field `self`: name and member volumes are replaced; the
caches are read from the stream, or computed when the stream holds none. -/
def load (ops : FieldComputations) (self : Field) (stream : List Nat) :
    Option (Field × List Nat) :=
  match Volume.readString stream with
  | none => none
  | some (name, s1) =>
    match readSize s1 with
    | none => none
    | some (volumeCount, s2) =>
      match readVolumes volumeCount s2 with
      | none => none
      | some (volumes, s3) =>
        let f0 : Field := { self with name := name, volumes := volumes }
        match readSize s3 with
        | none => none
        | some (derivedVolumeCount, s4) =>
          let derivedResult :=
            if derivedVolumeCount ≠ 0 then readDerived derivedVolumeCount f0 s4
            else
              some (computeAndersonDarling ops (computeHistograms ops
                (computePrincipalComponents ops (computeGradient ops
                  (computeMeanStddev ops (computeMinimumMaximum ops f0))))), s4)
          match derivedResult with
          | none => none
          | some (f1, s5) =>
            match readSize s5 with
            | none => none
            | some (similaritiesCount, s6) =>
              if similaritiesCount ≠ 0 then readSimilarities similaritiesCount f1 s6
              else some (computePearsonSimilarity ops (computeFieldSimilarity ops f1), s6)

/-- The loop `for( i < _volumes.size() ) if( *_volumes[i] != *other._volumes[i] ) return false`
of `Field::compare`, entered when both vectors have the same size. -/
def volumesEqual : List (Volume Float32) → List (Volume Float32) → Bool
  | [], _ => true
  | _ :: _, [] => false
  | a :: as, b :: bs => if !(a.beq b) then false else volumesEqual as bs

/-- Method `Field::compare`. -/
def compare (a b : Field) : Bool :=
  if a.volumes.length ≠ b.volumes.length then false
  else if !(volumesEqual a.volumes b.volumes) then false
  else if !(mapEqual Volume.beq a.derivedVolumes b.derivedVolumes) then false
  else if !(mapEqual (fun (p q : Volume Float32 × HCNode) => p.1.beq q.1 && p.2.beq q.2)
      a.similarities b.similarities) then false
  else if !(a.volumeGradient.beq b.volumeGradient) then false
  else true

end Field

/-- Example field: two runs over a `2 × 1 × 1` grid, nothing cached. -/
def exampleFieldBare : Field :=
  { name := [102]
    volumes := [exampleVolume,
      ⟨[99], ⟨2, 1, 1⟩, [Float32.one, Float32.zero], (Float32.zero, Float32.zero), false⟩]
    derivedVolumes := []
    similarities := []
    volumeGradient := Volume.empty }

/-- Example field with both caches populated: the two runs of `exampleFieldBare`, cached
`eMinimum` and `eGradientMagnitude` grids with the vector gradient grid, and a cached field
similarity matrix with the dendrogram of the two runs. -/
def exampleFieldCached : Field :=
  { name := [102]
    volumes := [exampleVolume,
      ⟨[99], ⟨2, 1, 1⟩, [Float32.one, Float32.zero], (Float32.zero, Float32.zero), false⟩]
    derivedVolumes :=
      [(Derived.eMinimum,
          ⟨[109], ⟨2, 1, 1⟩, [Float32.half, Float32.zero], (Float32.zero, Float32.zero), false⟩),
        (Derived.eGradientMagnitude,
          ⟨[103], ⟨2, 1, 1⟩, [Float32.quarter, Float32.quarter],
            (Float32.quarter, Float32.quarter), true⟩)]
    similarities :=
      [(Similarity.eField,
          ⟨[115], ⟨2, 2, 1⟩, [Float32.one, Float32.half, Float32.half, Float32.one],
            (Float32.zero, Float32.zero), false⟩,
          HCNode.node (HCNode.leaf 0) (HCNode.leaf 1) Float32.half 2 1 2)]
    volumeGradient :=
      ⟨[71], ⟨2, 1, 1⟩, [⟨Float32.quarter, Float32.zero, Float32.zero⟩,
        ⟨Float32.quarter, Float32.zero, Float32.zero⟩], (0, 0), false⟩ }

/-! ## Similarity matrices (`computeFieldSimilarity`, `computePearsonSimilarity`) -/

/-- A `float` or `double` value in the similarity formulas: an exact rational, an infinity, or
NaN.  Arithmetic on finite values is exact (rounding and overflow are not modelled); a division
by zero and the operations on infinities and NaN give what IEEE-754 gives, a zero divisor
being taken as `+0`. -/
inductive XFloat where
  | fin (q : ℚ) : XFloat
  | posInf : XFloat
  | negInf : XFloat
  | nan : XFloat
deriving DecidableEq

instance : Zero XFloat := ⟨XFloat.fin 0⟩

namespace XFloat

/-- Unary minus. -/
def neg : XFloat → XFloat
  | fin a => fin (-a)
  | posInf => negInf
  | negInf => posInf
  | nan => nan

/-- Addition. -/
def add : XFloat → XFloat → XFloat
  | nan, _ => nan
  | _, nan => nan
  | posInf, negInf => nan
  | negInf, posInf => nan
  | posInf, _ => posInf
  | _, posInf => posInf
  | negInf, _ => negInf
  | _, negInf => negInf
  | fin a, fin b => fin (a + b)

/-- Subtraction. -/
def sub (a b : XFloat) : XFloat := add a (neg b)

/-- Multiplication. -/
def mul : XFloat → XFloat → XFloat
  | nan, _ => nan
  | _, nan => nan
  | fin a, fin b => fin (a * b)
  | posInf, fin b => if b = 0 then nan else if 0 < b then posInf else negInf
  | negInf, fin b => if b = 0 then nan else if 0 < b then negInf else posInf
  | fin a, posInf => if a = 0 then nan else if 0 < a then posInf else negInf
  | fin a, negInf => if a = 0 then nan else if 0 < a then negInf else posInf
  | posInf, posInf => posInf
  | negInf, negInf => posInf
  | posInf, negInf => negInf
  | negInf, posInf => negInf

/-- Division. -/
def div : XFloat → XFloat → XFloat
  | nan, _ => nan
  | _, nan => nan
  | fin a, fin b =>
    if b = 0 then (if a = 0 then nan else if 0 < a then posInf else negInf) else fin (a / b)
  | fin _, posInf => fin 0
  | fin _, negInf => fin 0
  | posInf, fin b => if b < 0 then negInf else posInf
  | negInf, fin b => if b < 0 then posInf else negInf
  | posInf, posInf => nan
  | posInf, negInf => nan
  | negInf, posInf => nan
  | negInf, negInf => nan

/-- Conversion to `bool` (`denominator ? … : …`): everything but zero, NaN included. -/
def toBool : XFloat → Bool
  | fin a => decide (a ≠ 0)
  | _ => true

/-- Comparison `x == 0.0`. -/
def isZero : XFloat → Bool
  | fin a => decide (a = 0)
  | _ => false

/-- Lifting of `std::sqrt` from its values on the non-negative rationals: NaN on negative
numbers and on NaN, `+inf` on `+inf`. -/
def sqrtWith (sqrt : ℚ → ℚ) : XFloat → XFloat
  | fin a => if a < 0 then nan else fin (sqrt a)
  | posInf => posInf
  | negInf => nan
  | nan => nan

/-- A number of the interval `[0, 1]`. -/
def InUnit (x : XFloat) : Prop := ∃ q, x = fin q ∧ 0 ≤ q ∧ q ≤ 1

end XFloat

/-- A pair `std::minmax( a, b )`. -/
def stdMinmax (a b : ℚ) : ℚ × ℚ := if b < a then (b, a) else (a, b)

/-- The accumulation `numerator += …; denominator += …` over the voxels `k` of the list, for
two runs; `none` when a run has no voxel `k`. -/
def accumulateField (first second : Volume ℚ) (totalMin totalRange : ℚ) :
    List Nat → XFloat × XFloat → Option (XFloat × XFloat)
  | [], acc => some acc
  | k :: ks, acc =>
    match first.getAt (k : Int), second.getAt (k : Int) with
    | some a, some b =>
      let mm := stdMinmax a b
      accumulateField first second totalMin totalRange ks
        (XFloat.add acc.1 (XFloat.sub (XFloat.fin 1)
            (XFloat.div (XFloat.fin (mm.2 - totalMin)) (XFloat.fin totalRange))),
          XFloat.add acc.2 (XFloat.sub (XFloat.fin 1)
            (XFloat.div (XFloat.fin (mm.1 - totalMin)) (XFloat.fin totalRange))))
    | _, _ => none

/-- Body of the pair loop of `computeFieldSimilarity` (on all voxels) and of the masked
`root( similarity, mask )` (on the voxels of the mask): the similarity of two runs over the
voxels `voxels`.  `none` when a `domain()` call or a voxel access fails. -/
def fieldSimilarity (first second : Volume ℚ) (voxels : List Nat) : Option XFloat :=
  match first.getDomain, second.getDomain with
  | some (firstDomain, _), some (secondDomain, _) =>
    let totalMin := if secondDomain.1 < firstDomain.1 then secondDomain.1 else firstDomain.1
    let totalMax := if firstDomain.2 < secondDomain.2 then secondDomain.2 else firstDomain.2
    let totalRange := totalMax - totalMin
    match accumulateField first second totalMin totalRange voxels (XFloat.fin 0, XFloat.fin 0)
    with
    | some (numerator, denominator) =>
      some (if denominator.toBool then XFloat.div numerator denominator else XFloat.fin 1)
    | none => none
  | _, _ => none

/-- Sum `Σ f( volume.at( k ) )` over the voxels `k` of the list, accumulated in a `double`;
`none` when the run has no voxel `k`. -/
def accumulateRun (volume : Volume ℚ) (f : ℚ → XFloat) : List Nat → XFloat → Option XFloat
  | [], acc => some acc
  | k :: ks, acc =>
    match volume.getAt (k : Int) with
    | some a => accumulateRun volume f ks (XFloat.add acc (f a))
    | none => none

/-- Mean of a run over the voxels of the list: the sum divided by their number. -/
def pearsonMean (volume : Volume ℚ) (voxels : List Nat) (count : Int) : Option XFloat :=
  (accumulateRun volume XFloat.fin voxels (XFloat.fin 0)).map
    (fun sum => XFloat.div sum (XFloat.fin count))

/-- The value called `stddev` in the Pearson routine: the square root of the sum of the squared
deviations from the mean. -/
def pearsonStddev (sqrt : ℚ → ℚ) (volume : Volume ℚ) (voxels : List Nat) (mean : XFloat) :
    Option XFloat :=
  (accumulateRun volume
    (fun a => XFloat.mul (XFloat.sub (XFloat.fin a) mean) (XFloat.sub (XFloat.fin a) mean))
    voxels (XFloat.fin 0)).map (XFloat.sqrtWith sqrt)

/-- The accumulation of `correlation` over the voxels of the list. -/
def accumulateCorrelation (first second : Volume ℚ) (meanFirst meanSecond : XFloat) :
    List Nat → XFloat → Option XFloat
  | [], acc => some acc
  | k :: ks, acc =>
    match first.getAt (k : Int), second.getAt (k : Int) with
    | some a, some b =>
      accumulateCorrelation first second meanFirst meanSecond ks
        (XFloat.add acc (XFloat.mul (XFloat.sub (XFloat.fin a) meanFirst)
          (XFloat.sub (XFloat.fin b) meanSecond)))
    | _, _ => none

/-- Body of the pair loop of `computePearsonSimilarity`: `( correlation + 1.0 ) / 2.0`, with
`correlation` set to `1.0` when both values `stddev` are `0.0`. -/
def pearsonSimilarity (first second : Volume ℚ) (voxels : List Nat)
    (meanFirst meanSecond stddevFirst stddevSecond : XFloat) : Option XFloat :=
  (accumulateCorrelation first second meanFirst meanSecond voxels (XFloat.fin 0)).map
    (fun sum =>
      let correlation :=
        if stddevFirst.isZero && stddevSecond.isZero then XFloat.fin 1
        else XFloat.div sum (XFloat.mul stddevFirst stddevSecond)
      XFloat.div (XFloat.add correlation (XFloat.fin 1)) (XFloat.fin 2))

/-- The statement `matrix.at( vec3i( i, j, 0 ) ) = matrix.at( vec3i( j, i, 0 ) ) = value`. -/
def setSymmetric (matrix : Volume XFloat) (i j : Nat) (value : XFloat) :
    Option (Volume XFloat) :=
  match matrix.setAt (matrix.voxelToIndex ⟨(j : Int), (i : Int), 0⟩) value with
  | none => none
  | some m1 => m1.setAt (m1.voxelToIndex ⟨(i : Int), (j : Int), 0⟩) value

/-- The loop `for( j = i + 1; j < memberCount; ++j )` over the list of such `j`. -/
def fillRow (pair : Nat → Nat → Option XFloat) (i : Nat) :
    List Nat → Volume XFloat → Option (Volume XFloat)
  | [], matrix => some matrix
  | j :: js, matrix =>
    match pair i j with
    | none => none
    | some value =>
      match setSymmetric matrix i j value with
      | none => none
      | some m1 => fillRow pair i js m1

/-- The loop `for( i = begin; i < end; ++i )` over the list of such `i`.  The threads of
`compute_multi_threaded` run it on disjoint ranges of rows and write disjoint cells, so the
matrix is the one a single pass over all rows gives. -/
def fillRows (pair : Nat → Nat → Option XFloat) (memberCount : Nat) :
    List Nat → Volume XFloat → Option (Volume XFloat)
  | [], matrix => some matrix
  | i :: is, matrix =>
    match fillRow pair i (List.range' (i + 1) (memberCount - (i + 1))) matrix with
    | none => none
    | some m1 => fillRows pair memberCount is m1

/-- The similarity matrix both routines build: a `memberCount × memberCount × 1` volume filled
with `1.0f`, then the cells `(i, j)` and `(j, i)` set for every `i < j`. -/
def similarityMatrix (name : List Nat) (memberCount : Nat) (pair : Nat → Nat → Option XFloat) :
    Option (Volume XFloat) :=
  (Volume.ofDimensions ⟨(memberCount : Int), (memberCount : Int), 1⟩ name :
      Option (Volume XFloat)).bind
    (fun zeroed =>
      fillRows pair memberCount (List.range memberCount)
        { zeroed with values := zeroed.values.map (fun _ => XFloat.fin 1) })

/-- Number `this->voxelCount()` of a field with the given runs. -/
def fieldVoxelCount (runs : List (Volume ℚ)) : Int :=
  match runs with
  | [] => 0
  | front :: _ => front.voxelCount

/-- The matrix computed by `Field::computeFieldSimilarity` from the runs of a field (named
"Field Similarity"). -/
def computeFieldSimilarityMatrix (runs : List (Volume ℚ)) : Option (Volume XFloat) :=
  similarityMatrix [70, 105, 101, 108, 100, 32, 83, 105, 109, 105, 108, 97, 114, 105, 116, 121]
    runs.length
    (fun i j =>
      match runs[i]?, runs[j]? with
      | some first, some second =>
        fieldSimilarity first second (List.range (fieldVoxelCount runs).toNat)
      | _, _ => none)

/-- The vector `means` of `computePearsonSimilarity`, one entry per run. -/
def pearsonMeans (voxels : List Nat) (count : Int) : List (Volume ℚ) → Option (List XFloat)
  | [] => some []
  | volume :: rest =>
    match pearsonMean volume voxels count, pearsonMeans voxels count rest with
    | some mean, some means => some (mean :: means)
    | _, _ => none

/-- The vector `stddevs` of `computePearsonSimilarity`, one entry per run, from the runs and
their means. -/
def pearsonStddevs (sqrt : ℚ → ℚ) (voxels : List Nat) :
    List (Volume ℚ) → List XFloat → Option (List XFloat)
  | [], _ => some []
  | _ :: _, [] => none
  | volume :: rest, mean :: means =>
    match pearsonStddev sqrt volume voxels mean, pearsonStddevs sqrt voxels rest means with
    | some stddev, some stddevs => some (stddev :: stddevs)
    | _, _ => none

/-- The matrix computed by `Field::computePearsonSimilarity` from the runs of a field (named
"Pearson Similarity"), for a given square root function. -/
def computePearsonSimilarityMatrix (sqrt : ℚ → ℚ) (runs : List (Volume ℚ)) :
    Option (Volume XFloat) :=
  let voxels := List.range (fieldVoxelCount runs).toNat
  match pearsonMeans voxels (fieldVoxelCount runs) runs with
  | none => none
  | some means =>
    match pearsonStddevs sqrt voxels runs means with
    | none => none
    | some stddevs =>
      similarityMatrix
        [80, 101, 97, 114, 115, 111, 110, 32, 83, 105, 109, 105, 108, 97, 114, 105, 116, 121]
        runs.length
        (fun i j =>
          match runs[i]?, runs[j]?, means[i]?, means[j]?, stddevs[i]?, stddevs[j]? with
          | some first, some second, some meanFirst, some meanSecond, some stddevFirst,
              some stddevSecond =>
            pearsonSimilarity first second voxels meanFirst meanSecond stddevFirst stddevSecond
          | _, _, _, _, _, _ => none)

/-- Example: the run with the single voxel value `5`. -/
def constantRun : Volume ℚ := ⟨[], ⟨1, 1, 1⟩, [5], (0, 0), false⟩

/-- Example: two runs over a `2 × 1 × 1` grid, with values `0, 1` and `1, 0.5`. -/
def exampleRuns : List (Volume ℚ) :=
  [⟨[97], ⟨2, 1, 1⟩, [0, 1], (0, 0), false⟩, ⟨[98], ⟨2, 1, 1⟩, [1, 1 / 2], (0, 0), false⟩]

/-- Example square root on the rationals: exact on squares of rationals, rounded down on
numerator and denominator otherwise. -/
def exampleSqrt (q : ℚ) : ℚ := (Nat.sqrt q.num.toNat : ℚ) / (Nat.sqrt q.den : ℚ)

/-- Example: two runs over a `4 × 1 × 1` grid, the first constant (`5` at every voxel), the
second with values `0, 0, 2, 2`. -/
def degenerateRuns : List (Volume ℚ) :=
  [⟨[97], ⟨4, 1, 1⟩, [5, 5, 5, 5], (0, 0), false⟩, ⟨[98], ⟨4, 1, 1⟩, [0, 0, 2, 2], (0, 0), false⟩]

/-- Example: two runs over a `1 × 1 × 1` grid, with values `0` and `1`. -/
def singleVoxelRuns : List (Volume ℚ) :=
  [⟨[97], ⟨1, 1, 1⟩, [0], (0, 0), false⟩, ⟨[98], ⟨1, 1, 1⟩, [1], (0, 0), false⟩]

/-! ## Derived grids (`computeMinimumMaximum`, `computeMeanStddev`, `computeGradient`,
`computeHistograms`) -/

/-- The loop `for( i = begin; i < end; ++i ) result.at( index( c ) ) = value( c )` over the
cells `c` of the list; `none` when a value cannot be computed or a write falls outside the
buffer.  The threads of `compute_multi_threaded` run the loop on disjoint ranges and write
disjoint cells, so the grid is the one a single pass over all cells gives. -/
def fillCells {T C : Type} (index : Volume T → C → Int) (value : C → Option T) :
    List C → Volume T → Option (Volume T)
  | [], result => some result
  | c :: cs, result =>
    match value c with
    | none => none
    | some v =>
      match result.setAt (index result c) v with
      | none => none
      | some r1 => fillCells index value cs r1

/-- The loop `for( int32_t i = 0; i < voxelCount; ++i ) result.at( i ) = value( i )`. -/
def fillVoxels {T : Type} (value : Nat → Option T) (voxelCount : Int) (result : Volume T) :
    Option (Volume T) :=
  fillCells (fun _ (i : Nat) => (i : Int)) value (List.range voxelCount.toNat) result

/-- Method `Field::memberCount()`: the `size_t` number of runs as an `int32_t`. -/
def Field.memberCount (f : Field) : Int := wrapInt32 (f.volumes.length : Int)

/-- Method `Field::voxelCount()`. -/
def Field.voxelCount (f : Field) : Int :=
  match f.volumes with
  | [] => 0
  | front :: _ => front.voxelCount

/-- Method `Field::dimensions()`. -/
def Field.dimensions (f : Field) : Vec3i :=
  match f.volumes with
  | [] => ⟨0, 0, 0⟩
  | front :: _ => front.dimensions

/-- The runs `this->volume( j )` visited by a loop `for( j = 0; j < memberCount; ++j )`. -/
def Field.members (f : Field) : List (Volume Float32) := f.volumes.take f.memberCount.toNat

/-- The inner loop of `computeMinimumMaximum` at voxel `i`: the running minimum and maximum
over the runs, `none` when a run has no voxel `i`. -/
def minimumMaximumAt (i : Int) :
    List (Volume Float32) → Float32 × Float32 → Option (Float32 × Float32)
  | [], acc => some acc
  | volume :: rest, acc =>
    match volume.getAt i with
    | none => none
    | some value =>
      minimumMaximumAt i rest (Float32.stdMin acc.1 value, Float32.stdMax acc.2 value)

/-- The grids "Minimum" and "Maximum" that `computeMinimumMaximum` stores.  At each voxel the
running values start from `numeric_limits<float>::max()` and `lowest()`.  The source writes
both grids in one loop; the two are independent and are filled here one after the other. -/
def Field.minimumMaximumVolumes (f : Field) : Option (Volume Float32 × Volume Float32) :=
  (Volume.ofDimensions f.dimensions [77, 105, 110, 105, 109, 117, 109] :
      Option (Volume Float32)).bind fun minVolume =>
  (Volume.ofDimensions f.dimensions [77, 97, 120, 105, 109, 117, 109] :
      Option (Volume Float32)).bind fun maxVolume =>
  (fillVoxels
    (fun i => (minimumMaximumAt (i : Int) f.members (Float32.max, Float32.lowest)).map Prod.fst)
    f.voxelCount minVolume).bind fun minFilled =>
  (fillVoxels
    (fun i => (minimumMaximumAt (i : Int) f.members (Float32.max, Float32.lowest)).map Prod.snd)
    f.voxelCount maxVolume).map fun maxFilled => (minFilled, maxFilled)

/-- Number `this->memberCount()` of a field with the given runs. -/
def fieldMemberCount (runs : List (Volume ℚ)) : Int := wrapInt32 (runs.length : Int)

/-- Value `this->dimensions()` of a field with the given runs. -/
def fieldDimensions (runs : List (Volume ℚ)) : Vec3i :=
  match runs with
  | [] => ⟨0, 0, 0⟩
  | front :: _ => front.dimensions

/-- The runs visited by a loop `for( j = 0; j < memberCount; ++j )`. -/
def fieldMembers (runs : List (Volume ℚ)) : List (Volume ℚ) :=
  runs.take (fieldMemberCount runs).toNat

/-- Sum `Σ f( this->volume( j ).at( i ) )` over the runs `j`, accumulated in a `double`; `none`
when a run has no voxel `i`. -/
def accumulateMembers (f : ℚ → XFloat) (i : Int) : List (Volume ℚ) → XFloat → Option XFloat
  | [], acc => some acc
  | volume :: rest, acc =>
    match volume.getAt i with
    | none => none
    | some a => accumulateMembers f i rest (XFloat.add acc (f a))

/-- The value `computeMeanStddev` stores in the grid "Mean" at voxel `i`. -/
def meanAt (runs : List (Volume ℚ)) (i : Int) : Option XFloat :=
  (accumulateMembers XFloat.fin i (fieldMembers runs) (XFloat.fin 0)).map
    (fun sum => XFloat.div sum (XFloat.fin (fieldMemberCount runs)))

/-- The value `computeMeanStddev` stores in the grid "Stddev" at voxel `i`, from the runs and
the grid "Mean". -/
def stddevAt (sqrt : ℚ → ℚ) (runs : List (Volume ℚ)) (meanVolume : Volume XFloat) (i : Int) :
    Option XFloat :=
  (meanVolume.getAt i).bind fun mean =>
    (accumulateMembers
      (fun a => XFloat.mul (XFloat.sub (XFloat.fin a) mean) (XFloat.sub (XFloat.fin a) mean))
      i (fieldMembers runs) (XFloat.fin 0)).map
      (fun sum => XFloat.sqrtWith sqrt (XFloat.div sum (XFloat.fin (fieldMemberCount runs))))

/-- The grids "Mean" and "Stddev" that `computeMeanStddev` stores, in exact arithmetic. -/
def meanStddevVolumes (sqrt : ℚ → ℚ) (runs : List (Volume ℚ)) :
    Option (Volume XFloat × Volume XFloat) :=
  (Volume.ofDimensions (fieldDimensions runs) [77, 101, 97, 110] :
      Option (Volume XFloat)).bind fun meanVolume =>
  (Volume.ofDimensions (fieldDimensions runs) [83, 116, 100, 100, 101, 118] :
      Option (Volume XFloat)).bind fun stddevVolume =>
  (fillVoxels (fun i => meanAt runs (i : Int)) (fieldVoxelCount runs) meanVolume).bind
    fun meanFilled =>
  (fillVoxels (fun i => stddevAt sqrt runs meanFilled (i : Int)) (fieldVoxelCount runs)
    stddevVolume).map fun stddevFilled => (meanFilled, stddevFilled)

/-- The type `vec3f` in exact arithmetic. -/
structure Vec3x where
  x : XFloat
  y : XFloat
  z : XFloat
deriving DecidableEq

instance : Zero Vec3x := ⟨⟨XFloat.fin 0, XFloat.fin 0, XFloat.fin 0⟩⟩

/-- Read access `v[i]` of a `vec3i`, for `i` in `0, 1, 2`. -/
def Vec3i.get (v : Vec3i) (i : Nat) : Int := if i = 0 then v.x else if i = 1 then v.y else v.z

/-- Write access `v[i] = value` of a `vec3i`, for `i` in `0, 1, 2`. -/
def Vec3i.set (v : Vec3i) (i : Nat) (value : Int) : Vec3i :=
  if i = 0 then { v with x := value } else if i = 1 then { v with y := value }
  else { v with z := value }

/-- Read access `v[i]` of a `vec3f`, for `i` in `0, 1, 2`. -/
def Vec3x.get (v : Vec3x) (i : Nat) : XFloat := if i = 0 then v.x else if i = 1 then v.y else v.z

/-- Method `vec3f::length()`: `sqrtf( x * x + y * y + z * z )`. -/
def Vec3x.length (sqrt : ℚ → ℚ) (v : Vec3x) : XFloat :=
  XFloat.sqrtWith sqrt
    (XFloat.add (XFloat.add (XFloat.mul v.x v.x) (XFloat.mul v.y v.y)) (XFloat.mul v.z v.z))

/-- Body of the loop `for( i = 0; i < 3; ++i )` of `computeGradient`: the component `i` of the
gradient at `voxel`, where `center` is the mean at `voxel`.  `none` when a neighbour that is
read lies outside the buffer. -/
def gradientComponent (meanVolume : Volume XFloat) (dimensions voxel : Vec3i) (center : XFloat)
    (i : Nat) : Option XFloat :=
  let forwardVoxel := voxel.set i (wrapInt32 (voxel.get i + 1))
  let backwardVoxel := voxel.set i (wrapInt32 (voxel.get i - 1))
  let forward :=
    if forwardVoxel.get i < dimensions.get i then
      meanVolume.getAt (meanVolume.voxelToIndex forwardVoxel)
    else some center
  let d1 : ℚ := if forwardVoxel.get i < dimensions.get i then 2 else 1
  let backward :=
    if 0 ≤ backwardVoxel.get i then meanVolume.getAt (meanVolume.voxelToIndex backwardVoxel)
    else some center
  let d : ℚ := if 0 ≤ backwardVoxel.get i then d1 else 1
  forward.bind fun fwd => backward.map fun bwd =>
    XFloat.div (XFloat.sub fwd bwd) (XFloat.fin d)

/-- The gradient `computeGradient` stores at `voxel`. -/
def gradientAt (meanVolume : Volume XFloat) (dimensions voxel : Vec3i) : Option Vec3x :=
  (meanVolume.getAt (meanVolume.voxelToIndex voxel)).bind fun center =>
  (gradientComponent meanVolume dimensions voxel center 0).bind fun gx =>
  (gradientComponent meanVolume dimensions voxel center 1).bind fun gy =>
  (gradientComponent meanVolume dimensions voxel center 2).map fun gz => ⟨gx, gy, gz⟩

/-- The voxels visited by the loops `for x`, `for y`, `for z` of `computeGradient`, in the
order of a single pass. -/
def gridVoxels (dimensions : Vec3i) : List Vec3i :=
  (List.range dimensions.x.toNat).flatMap fun (x : Nat) =>
    (List.range dimensions.y.toNat).flatMap fun (y : Nat) =>
      (List.range dimensions.z.toNat).map fun (z : Nat) => ⟨(x : Int), (y : Int), (z : Int)⟩

/-- The grids "Gradient" and "Gradient Magnitude" that `computeGradient` stores for a field of
the given dimensions and voxel count, from the grid "Mean". -/
def gradientVolumes (sqrt : ℚ → ℚ) (dimensions : Vec3i) (voxelCount : Int)
    (meanVolume : Volume XFloat) : Option (Volume Vec3x × Volume XFloat) :=
  (Volume.ofDimensions dimensions [71, 114, 97, 100, 105, 101, 110, 116] :
      Option (Volume Vec3x)).bind fun gradientVolume =>
  (Volume.ofDimensions dimensions
      [71, 114, 97, 100, 105, 101, 110, 116, 32, 77, 97, 103, 110, 105, 116, 117, 100, 101] :
      Option (Volume XFloat)).bind fun magnitudeVolume =>
  (fillCells (fun result voxel => result.voxelToIndex voxel)
    (gradientAt meanVolume dimensions) (gridVoxels dimensions) gradientVolume).bind
    fun gradientFilled =>
  (fillVoxels (fun i => (gradientFilled.getAt (i : Int)).map (Vec3x.length sqrt)) voxelCount
    magnitudeVolume).map fun magnitudeFilled => (gradientFilled, magnitudeFilled)

/-- Comparison `a <= b` of two `double` values: `false` when one of them is NaN. -/
def XFloat.le : XFloat → XFloat → Bool
  | XFloat.nan, _ => false
  | _, XFloat.nan => false
  | XFloat.negInf, _ => true
  | _, XFloat.posInf => true
  | XFloat.fin a, XFloat.fin b => decide (a ≤ b)
  | _, _ => false

/-- The values of the five grids "Hist1" to "Hist5" at one voxel. -/
structure Bins where
  hist1 : XFloat
  hist2 : XFloat
  hist3 : XFloat
  hist4 : XFloat
  hist5 : XFloat

/-- The expression `stddev ? ( value - mean ) / stddev : 0.0`. -/
def zScore (value : ℚ) (mean stddev : XFloat) : XFloat :=
  if stddev.toBool then XFloat.div (XFloat.sub (XFloat.fin value) mean) stddev else XFloat.fin 0

/-- The chain `if( z <= -0.842 ) ++hist1 … else ++hist5`. -/
def incrementBin (z : XFloat) (bins : Bins) : Bins :=
  if z.le (XFloat.fin (-842 / 1000)) then
    { bins with hist1 := XFloat.add bins.hist1 (XFloat.fin 1) }
  else if z.le (XFloat.fin (-253 / 1000)) then
    { bins with hist2 := XFloat.add bins.hist2 (XFloat.fin 1) }
  else if z.le (XFloat.fin (253 / 1000)) then
    { bins with hist3 := XFloat.add bins.hist3 (XFloat.fin 1) }
  else if z.le (XFloat.fin (842 / 1000)) then
    { bins with hist4 := XFloat.add bins.hist4 (XFloat.fin 1) }
  else { bins with hist5 := XFloat.add bins.hist5 (XFloat.fin 1) }

/-- The inner loop of `computeHistograms` at voxel `i`: one increment per run. -/
def histogramBins (mean stddev : XFloat) (i : Int) : List (Volume ℚ) → Bins → Option Bins
  | [], bins => some bins
  | volume :: rest, bins =>
    match volume.getAt i with
    | none => none
    | some value => histogramBins mean stddev i rest (incrementBin (zScore value mean stddev) bins)

/-- The statements `histKVolume.at( i ) /= this->memberCount()`. -/
def Bins.normalize (bins : Bins) (memberCount : Int) : Bins :=
  ⟨XFloat.div bins.hist1 (XFloat.fin memberCount), XFloat.div bins.hist2 (XFloat.fin memberCount),
    XFloat.div bins.hist3 (XFloat.fin memberCount), XFloat.div bins.hist4 (XFloat.fin memberCount),
    XFloat.div bins.hist5 (XFloat.fin memberCount)⟩

/-- The five grids of `computeHistograms`. -/
structure HistogramVolumes where
  hist1 : Volume XFloat
  hist2 : Volume XFloat
  hist3 : Volume XFloat
  hist4 : Volume XFloat
  hist5 : Volume XFloat

/-- The values of the five grids at voxel `i`. -/
def HistogramVolumes.getAt (h : HistogramVolumes) (i : Int) : Option Bins :=
  (h.hist1.getAt i).bind fun b1 => (h.hist2.getAt i).bind fun b2 =>
  (h.hist3.getAt i).bind fun b3 => (h.hist4.getAt i).bind fun b4 =>
  (h.hist5.getAt i).map fun b5 => ⟨b1, b2, b3, b4, b5⟩

/-- Body of the voxel loop of `computeHistograms`: the five values left at voxel `i`, the
counting starting from the values the freshly constructed grids `fresh` hold there. -/
def histogramAt (runs : List (Volume ℚ)) (meanVolume stddevVolume : Volume XFloat)
    (fresh : HistogramVolumes) (i : Int) : Option Bins :=
  (meanVolume.getAt i).bind fun mean => (stddevVolume.getAt i).bind fun stddev =>
  (fresh.getAt i).bind fun start =>
  (histogramBins mean stddev i (fieldMembers runs) start).map fun bins =>
    bins.normalize (fieldMemberCount runs)

/-- The five grids `computeHistograms` stores, from the runs and the grids "Mean" and
"Stddev".  The voxel loop only touches the cells `i` of the five grids, each once; every grid
is filled here in a pass of its own.  The calls `expandDomain` that follow in the source change
the cached ranges only, which are left out. -/
def histogramVolumes (runs : List (Volume ℚ)) (meanVolume stddevVolume : Volume XFloat) :
    Option HistogramVolumes :=
  (Volume.ofDimensions (fieldDimensions runs)
      [122, 226, 128, 145, 115, 99, 111, 114, 101, 115, 194, 160, 105, 110, 32, 91, 45, 105,
        110, 102, 44, 45, 48, 46, 56, 52, 50, 93] : Option (Volume XFloat)).bind fun v1 =>
  (Volume.ofDimensions (fieldDimensions runs)
      [122, 226, 128, 145, 115, 99, 111, 114, 101, 115, 194, 160, 105, 110, 32, 40, 45, 48, 46,
        56, 52, 50, 44, 45, 48, 46, 50, 53, 51, 93] : Option (Volume XFloat)).bind fun v2 =>
  (Volume.ofDimensions (fieldDimensions runs)
      [122, 226, 128, 145, 115, 99, 111, 114, 101, 115, 194, 160, 105, 110, 32, 40, 45, 48, 46,
        50, 53, 51, 44, 48, 46, 50, 53, 51, 93] : Option (Volume XFloat)).bind fun v3 =>
  (Volume.ofDimensions (fieldDimensions runs)
      [122, 226, 128, 145, 115, 99, 111, 114, 101, 115, 194, 160, 105, 110, 32, 40, 48, 46, 50,
        53, 51, 44, 48, 46, 56, 52, 50, 93] : Option (Volume XFloat)).bind fun v4 =>
  (Volume.ofDimensions (fieldDimensions runs)
      [122, 226, 128, 145, 115, 99, 111, 114, 101, 115, 194, 160, 105, 110, 32, 40, 48, 46, 56,
        52, 50, 44, 105, 110, 102, 93] : Option (Volume XFloat)).bind fun v5 =>
  let fresh : HistogramVolumes := ⟨v1, v2, v3, v4, v5⟩
  let bins := fun (i : Nat) => histogramAt runs meanVolume stddevVolume fresh (i : Int)
  (fillVoxels (fun i => (bins i).map Bins.hist1) (fieldVoxelCount runs) v1).bind fun h1 =>
  (fillVoxels (fun i => (bins i).map Bins.hist2) (fieldVoxelCount runs) v2).bind fun h2 =>
  (fillVoxels (fun i => (bins i).map Bins.hist3) (fieldVoxelCount runs) v3).bind fun h3 =>
  (fillVoxels (fun i => (bins i).map Bins.hist4) (fieldVoxelCount runs) v4).bind fun h4 =>
  (fillVoxels (fun i => (bins i).map Bins.hist5) (fieldVoxelCount runs) v5).map fun h5 =>
    ⟨h1, h2, h3, h4, h5⟩

/-- Example mean grid: a `3 × 1 × 1` grid with values `0, 1, 4`. -/
def exampleMean : Volume XFloat :=
  ⟨[77, 101, 97, 110], ⟨3, 1, 1⟩, [XFloat.fin 0, XFloat.fin 1, XFloat.fin 4], (0, 0), false⟩

/-- Example: two runs over a `2 × 2 × 1` grid with the value `5` at every voxel. -/
def constantRuns : List (Volume ℚ) :=
  [⟨[97], ⟨2, 2, 1⟩, [5, 5, 5, 5], (0, 0), false⟩, ⟨[98], ⟨2, 2, 1⟩, [5, 5, 5, 5], (0, 0), false⟩]

/-- Example: the grid "Mean" of `exampleRuns`, with values `1/2, 3/4`. -/
def exampleRunsMean : Volume XFloat :=
  ⟨[77, 101, 97, 110], ⟨2, 1, 1⟩, [XFloat.fin (1 / 2), XFloat.fin (3 / 4)], (0, 0), false⟩

/-- Example: the grid "Stddev" of `exampleRuns`, with values `1/2, 1/4`. -/
def exampleRunsStddev : Volume XFloat :=
  ⟨[83, 116, 100, 100, 101, 118], ⟨2, 1, 1⟩, [XFloat.fin (1 / 2), XFloat.fin (1 / 4)], (0, 0),
    false⟩

/-! ## Exceptions and grid operations (`volume.hpp`) -/

/-- The exceptions the sources throw: `std::runtime_error` and `std::invalid_argument`. -/
inductive Exception where
  | runtimeError
  | invalidArgument
deriving DecidableEq

/-- Method `Volume::setValues( values )`: the grid after the call, and whether the call threw.
The throw comes before any assignment. -/
def Volume.setValues {T : Type} (v : Volume T) (values : List T) :
    Volume T × Except Exception Unit :=
  if values.length ≠ v.values.length then (v, Except.error Exception.runtimeError)
  else ({ v with values := values, domainValid := false }, Except.ok ())

/-- Method `Volume::map( conversion )`: a grid of the same dimensions and name, filled with
the converted values in a loop over `_values.size()` voxels.  `none` when the constructor of
the result fails or a write falls outside its buffer. -/
def Volume.map {T U : Type} [Zero U] (v : Volume T) (conversion : T → U) : Option (Volume U) :=
  (Volume.ofDimensions v.dimensions v.name : Option (Volume U)).bind fun result =>
    fillVoxels (fun i => (v.getAt (i : Int)).map conversion)
      (wrapInt32 (v.values.length : Int)) result

/-- Method `Volume::cast< U >()`, with `staticCast` for `static_cast< U >`. -/
def Volume.cast {T U : Type} [Zero U] (v : Volume T) (staticCast : T → U) : Option (Volume U) :=
  (Volume.ofDimensions v.dimensions v.name : Option (Volume U)).bind fun result =>
    fillVoxels (fun i => (v.getAt (i : Int)).map staticCast)
      (wrapInt32 (v.values.length : Int)) result

/-- Method `Volume::expandDomain( expansion )`: `domain()` fills the cache, then the cache is
set to `std::min( expansion.x, domain.x )` (the second argument when it is smaller, else the
first) and `std::max( expansion.y, domain.y )` (the second argument when it is larger, else the
first).  `none` on an empty grid, where `domain()` dereferences the end iterator. -/
def Volume.expandDomain {T : Type} [LinearOrder T] (v : Volume T) (expansion : T × T) :
    Option (Volume T) :=
  v.getDomain.map fun r =>
    { r.2 with
      domain :=
        (if r.1.1 < expansion.1 then r.1.1 else expansion.1,
          if expansion.2 < r.1.2 then r.1.2 else expansion.2) }

/-- A sequence of `expandDomain` calls on one grid, in the order of the list. -/
def Volume.expandDomains {T : Type} [LinearOrder T] (v : Volume T) :
    List (T × T) → Option (Volume T)
  | [] => some v
  | expansion :: rest =>
    match v.expandDomain expansion with
    | none => none
    | some expanded => expanded.expandDomains rest

/-! ## Lazy derived grids of a field (`Field::volume( Derived )`) -/

/-- Lookup `m.find( key )` in a map kept as the list of its entries. -/
def mapFind {K V : Type} [DecidableEq K] : List (K × V) → K → Option V
  | [], _ => none
  | (k, v) :: rest, key => if k = key then some v else mapFind rest key

/-- The expression `_derivedVolumes[derived]`: the entry, a missing one being inserted
default-constructed. -/
def Field.derivedEntry (f : Field) (derived : Derived) : Field × Volume Float32 :=
  match mapFind f.derivedVolumes derived with
  | some volume => (f, volume)
  | none => (f.assignDerived derived Volume.empty, Volume.empty)

/-- Method `Field::volume( Derived derived )`: the field after the call (its caches are
`mutable`) and the grid returned or the exception thrown. -/
def Field.volume (ops : FieldComputations) (f : Field) (derived : Derived) :
    Field × Except Exception (Volume Float32) :=
  let computed : Except Exception Field :=
    if f.hasDerived derived then Except.ok f
    else
      match derived with
      | Derived.eMinimum => Except.ok (f.computeMinimumMaximum ops)
      | Derived.eMaximum => Except.ok (f.computeMinimumMaximum ops)
      | Derived.eMean => Except.ok (f.computeMeanStddev ops)
      | Derived.eStddev => Except.ok (f.computeMeanStddev ops)
      | Derived.eGradientMagnitude => Except.ok (f.computeGradient ops)
      | Derived.ePCA1 => Except.ok (f.computePrincipalComponents ops)
      | Derived.ePCA2 => Except.ok (f.computePrincipalComponents ops)
      | Derived.eLabel => Except.error Exception.invalidArgument
      | Derived.eHist1 => Except.ok (f.computeHistograms ops)
      | Derived.eHist2 => Except.ok (f.computeHistograms ops)
      | Derived.eHist3 => Except.ok (f.computeHistograms ops)
      | Derived.eHist4 => Except.ok (f.computeHistograms ops)
      | Derived.eHist5 => Except.ok (f.computeHistograms ops)
      | Derived.eHistDeviation => Except.ok (f.computeHistograms ops)
      | Derived.eAndersonDarling => Except.ok (f.computeAndersonDarling ops)
      | Derived.eNone => Except.ok f
  match computed with
  | Except.error e => (f, Except.error e)
  | Except.ok f1 => ((f1.derivedEntry derived).1, Except.ok (f1.derivedEntry derived).2)

/-! ## Ensembles (`ensemble.hpp`, `ensemble.cpp`) -/

/-- The struct `Ensemble::VolumeID`. -/
structure VolumeID where
  field : Int
  index : Int
  type : Derived
  difference : Bool
deriving DecidableEq

/-- The data members of `Ensemble`.  A null `_volumeLabels` is `none`; the set
`_availableVolumes` and the maps are kept as lists of their elements; the key `const Ensemble*`
of `_differenceVolumes` is the address of the other ensemble. -/
structure Ensemble where
  filepath : List Nat
  volumeLabels : Option (Volume Int)
  fields : List Field
  availableVolumes : List VolumeID
  derivedVolumes : List (Derived × Volume Float32)
  differenceVolumes : List (Nat × List (VolumeID × Volume Float32))

/-- Default constructor `Ensemble()`. -/
def Ensemble.empty : Ensemble := ⟨[], none, [], [], [], []⟩

/-- The loop `_volumes[i] = other._volumes[volumes[i]]`: the selected runs, `none` when an
index is outside the runs of the other field. -/
def selectVolumes (runs : List (Volume Float32)) : List Int → Option (List (Volume Float32))
  | [] => some []
  | i :: rest =>
    match (if 0 ≤ i then runs[i.toNat]? else none), selectVolumes runs rest with
    | some volume, some selected => some (volume :: selected)
    | _, _ => none

/-- Constructor `Field( const Field& other, const std::vector<int32_t>& volumes )`. -/
def Field.ofSelection (other : Field) (volumes : List Int) : Option Field :=
  (selectVolumes other.volumes volumes).map fun selected =>
    { Field.empty with name := other.name, volumes := selected }

/-- The loop over the fields of `createSubEnsemble`: every field is built from the selected
runs, then `computeMinimumMaximum`, `computeMeanStddev` and `computeGradient` are called. -/
def subFields (ops : FieldComputations) (volumes : List Int) : List Field → Option (List Field)
  | [] => some []
  | field :: rest =>
    match Field.ofSelection field volumes, subFields ops volumes rest with
    | some selected, some fields =>
      some ((((selected.computeMinimumMaximum ops).computeMeanStddev ops).computeGradient ops) ::
        fields)
    | _, _ => none

/-- Method `Ensemble::createSubEnsemble( volumes )`. -/
def Ensemble.createSubEnsemble (ops : FieldComputations) (e : Ensemble) (volumes : List Int) :
    Option Ensemble :=
  (subFields ops volumes e.fields).map fun fields =>
    { Ensemble.empty with
      volumeLabels := e.volumeLabels, availableVolumes := e.availableVolumes, fields := fields }

/-- The operations on `float` used outside the exact-arithmetic models: the subtraction and
the conversion from `int32_t`, as functions on the finite values. -/
structure FloatOps where
  sub : Float32 → Float32 → Float32
  ofInt32 : Int → Float32

/-- Method `Ensemble::volume( id )`: the ensemble after the call and the grid returned or the
exception thrown; `none` when the call reads outside `_fields` or `_volumes` or dereferences a
null `_volumeLabels`. -/
def Ensemble.volume (ops : FieldComputations) (fops : FloatOps) (e : Ensemble) (id : VolumeID) :
    Option (Ensemble × Except Exception (Volume Float32)) :=
  if id.type = Derived.eLabel then
    match mapFind e.derivedVolumes Derived.eLabel with
    | some volume => some (e, Except.ok volume)
    | none =>
      e.volumeLabels.bind fun labels =>
      (labels.cast fops.ofInt32).bind fun converted =>
      (converted.expandDomain (Float32.zero, Float32.one)).map fun expanded =>
        ({ e with
            derivedVolumes :=
              mapAssign Derived.toInt e.derivedVolumes Derived.eLabel expanded },
          Except.ok expanded)
  else
    (if 0 ≤ id.field then e.fields[id.field.toNat]? else none).bind fun field =>
      if id.type = Derived.eNone then
        (if 0 ≤ id.index then field.volumes[id.index.toNat]? else none).map fun volume =>
          (e, Except.ok volume)
      else
        some ({ e with fields := e.fields.set id.field.toNat (field.volume ops id.type).1 },
          (field.volume ops id.type).2)

/-- Assignment `m[key] = value` on a `std::unordered_map` kept as the list of its entries. -/
def hashAssign {K V : Type} [DecidableEq K] : List (K × V) → K → V → List (K × V)
  | [], key, value => [(key, value)]
  | (k, v) :: rest, key, value =>
    if k = key then (k, value) :: rest else (k, v) :: hashAssign rest key value

/-- The loop `result.at( i ) = a.at( i ) - b.at( i )` of `differenceVolume`. -/
def subtractVolumes (fops : FloatOps) (a b result : Volume Float32) : Option (Volume Float32) :=
  fillVoxels
    (fun i => (a.getAt (i : Int)).bind fun x => (b.getAt (i : Int)).map fun y => fops.sub x y)
    result.voxelCount result

/-- Method `Ensemble::differenceVolume( id, other )` for an ensemble `other` at address
`otherAddress`, distinct from `self`: both ensembles after the call and the grid returned or
the exception thrown; `none` as for `Ensemble::volume`, or when the grid cannot be built. -/
def Ensemble.differenceVolume (ops : FieldComputations) (fops : FloatOps)
    (self other : Ensemble) (otherAddress : Nat) (id : VolumeID) :
    Option ((Ensemble × Ensemble) × Except Exception (Volume Float32)) :=
  let volumes := (mapFind self.differenceVolumes otherAddress).getD []
  let entered := { self with
    differenceVolumes := hashAssign self.differenceVolumes otherAddress volumes }
  match mapFind volumes id with
  | some cached => some ((entered, other), Except.ok cached)
  | none =>
    (entered.volume ops fops id).bind fun ra =>
      match ra.2 with
      | Except.error e => some ((ra.1, other), Except.error e)
      | Except.ok a =>
        (other.volume ops fops id).bind fun rb =>
          match rb.2 with
          | Except.error e => some ((ra.1, rb.1), Except.error e)
          | Except.ok b =>
            (Volume.ofDimensions a.dimensions (a.name ++ [32, 40, 100, 105, 102, 102, 41]) :
                Option (Volume Float32)).bind fun fresh =>
            (subtractVolumes fops a b fresh).map fun result =>
              (({ ra.1 with
                  differenceVolumes :=
                    hashAssign ra.1.differenceVolumes otherAddress
                      (hashAssign ((mapFind ra.1.differenceVolumes otherAddress).getD []) id
                        result) }, rb.1), Except.ok result)

/-- Example operations on `float`: a subtraction that answers its first operand and a
conversion that answers zero (the theorems hold for every choice). -/
def exampleFloatOps : FloatOps := ⟨fun x _ => x, fun _ => Float32.zero⟩

/-- Example numerical routines: every derived grid is the first example grid, the gradient grid
is empty and every similarity matrix is the first example grid with a one-leaf dendrogram. -/
def exampleComputations : FieldComputations :=
  ⟨fun _ _ => exampleVolume, fun _ => Volume.empty, fun _ _ => (exampleVolume, HCNode.leaf 0)⟩

/-- Example ensemble: the single field `exampleFieldBare`, no labels, nothing cached. -/
def exampleEnsemble : Ensemble :=
  { Ensemble.empty with fields := [exampleFieldBare] }

/-! ## The shape of the derived grids (`Field::compute…`) -/

/-- What differs between the routines `computeMinimumMaximum`, `computeMeanStddev`,
`computeGradient`, `computePrincipalComponents`, `computeHistograms` and
`computeAndersonDarling` for one output grid: the name given to the grid, the `float` written
at a voxel, and the range passed to `expandDomain` after the loop (`none` for the grids that
are not expanded).  The vector gradient grid and the similarity entries are as in
`FieldComputations`. -/
structure FieldKernels where
  name : Derived → List Nat
  value : Derived → Field → Nat → Float32
  expansion : Derived → Option (Float32 × Float32)
  gradient : Field → Volume Vec3f
  similarity : Similarity → Field → Volume Float32 × HCNode

/-- What the routines have in common for one output grid: the grid is constructed by
`Volume<float>( this->dimensions(), name )`, every voxel `i < this->voxelCount()` is written
through `at( i )`, and the grid is expanded where the routine does so.  `none` when the
constructor throws, a write is out of bounds or `expandDomain` is called on an empty grid. -/
def FieldKernels.derivedGrid (k : FieldKernels) (derived : Derived) (f : Field) :
    Option (Volume Float32) :=
  (Volume.ofDimensions f.dimensions (k.name derived) : Option (Volume Float32)).bind
    fun result =>
      (fillVoxels (fun i => some (k.value derived f i)) f.voxelCount result).bind fun filled =>
        match k.expansion derived with
        | none => some filled
        | some expansion => filled.expandDomain expansion

/-- The routines of a field with the given kernels; a grid whose computation fails is the
default grid. -/
def FieldKernels.toComputations (k : FieldKernels) : FieldComputations :=
  ⟨fun derived f => (k.derivedGrid derived f).getD Volume.empty, k.gradient, k.similarity⟩

/-- Example kernels: every voxel of every derived grid is `0.5f`, the histogram grids are
expanded to `(0, 1)`; the other parts as in `exampleComputations`. -/
def exampleKernels : FieldKernels :=
  { name := fun _ => [100]
    value := fun _ _ _ => Float32.half
    expansion := fun derived =>
      match derived with
      | Derived.eHist1 => some (Float32.zero, Float32.one)
      | Derived.eHist2 => some (Float32.zero, Float32.one)
      | Derived.eHist3 => some (Float32.zero, Float32.one)
      | Derived.eHist4 => some (Float32.zero, Float32.one)
      | Derived.eHist5 => some (Float32.zero, Float32.one)
      | Derived.eAndersonDarling => some (Float32.zero, Float32.one)
      | _ => none
    gradient := fun _ => Volume.empty
    similarity := fun _ _ => (exampleVolume, HCNode.leaf 0) }

/-- Comparison `a < b` of two floating-point values: `false` when one of them is NaN. -/
def XFloat.lt : XFloat → XFloat → Bool
  | XFloat.nan, _ => false
  | _, XFloat.nan => false
  | XFloat.fin a, XFloat.fin b => decide (a < b)
  | XFloat.posInf, _ => false
  | _, XFloat.negInf => false
  | XFloat.negInf, _ => true
  | XFloat.fin _, XFloat.posInf => true

/-- Function `std::max( a, b )` on floating-point values: `b` when `a < b`, else `a`. -/
def XFloat.stdMax (a b : XFloat) : XFloat := if a.lt b then b else a

/-- Function `std::abs` on a floating-point value. -/
def XFloat.abs : XFloat → XFloat
  | XFloat.fin a => XFloat.fin |a|
  | XFloat.posInf => XFloat.posInf
  | XFloat.negInf => XFloat.posInf
  | XFloat.nan => XFloat.nan

/-- Body of the second voxel loop of `computeHistograms`: starting from `max = 0.0f`, the
running `std::max( max, std::abs( value - 0.2f ) )` over the five histogram values of the
voxel. -/
def histDeviationAt (bins : Bins) : XFloat :=
  [bins.hist1, bins.hist2, bins.hist3, bins.hist4, bins.hist5].foldl
    (fun max value =>
      XFloat.stdMax max (XFloat.abs (XFloat.sub value (XFloat.fin (2 / 10)))))
    (XFloat.fin 0)

/-- The grid "Histogram Deviation" that `computeHistograms` stores, from the five histogram
grids.  The call `expandDomain` that follows in the source changes the cached range only,
which is left out. -/
def histDeviationVolume (runs : List (Volume ℚ)) (h : HistogramVolumes) :
    Option (Volume XFloat) :=
  (Volume.ofDimensions (fieldDimensions runs)
      [72, 105, 115, 116, 111, 103, 114, 97, 109, 32, 68, 101, 118, 105, 97, 116, 105, 111,
        110] : Option (Volume XFloat)).bind fun histDeviation =>
    fillVoxels (fun i => (h.getAt (i : Int)).map histDeviationAt) (fieldVoxelCount runs)
      histDeviation

/-- Example: the grid "Mean" of `constantRuns`, `5` at every voxel. -/
def constantRunsMean : Volume XFloat :=
  ⟨[77, 101, 97, 110], ⟨2, 2, 1⟩,
    [XFloat.fin 5, XFloat.fin 5, XFloat.fin 5, XFloat.fin 5], (0, 0), false⟩

/-- Example: the grid "Stddev" of `constantRuns`, `0` at every voxel. -/
def constantRunsStddev : Volume XFloat :=
  ⟨[83, 116, 100, 100, 101, 118], ⟨2, 2, 1⟩,
    [XFloat.fin 0, XFloat.fin 0, XFloat.fin 0, XFloat.fin 0], (0, 0), false⟩

/-! ## Parallel loops (`util::compute_multi_threaded`) -/

/-- Conversion of an `int32_t` to `size_t`, as in `( end - begin ) / threads.size()`. -/
def toSizeT (i : Int) : Nat := (i % 18446744073709551616).toNat

/-- The loop `for( i = 0; i < threads.size(); ++i )` of `compute_multi_threaded( begin, end,
function )` from iteration `i` on, with `remaining` iterations left: the arguments
`( begin, end )` with which `function` is started, in the order of the thread index.  After
each start `begin += step`. -/
def chunksFrom (threads : Nat) (endIndex step : Int) : Nat → Nat → Int → List (Int × Int)
  | 0, _, _ => []
  | remaining + 1, i, begin =>
    (begin, if i = threads - 1 then endIndex else wrapInt32 (begin + step)) ::
      chunksFrom threads endIndex step remaining (i + 1) (wrapInt32 (begin + step))

/-- Function `util::compute_multi_threaded( begin, end, function )` with `threads` hardware
threads: the argument pairs of the calls of `function`, one per thread; `none` for `0` threads,
where the step is a division by zero. -/
def computeMultiThreaded (threads : Nat) (begin endIndex : Int) : Option (List (Int × Int)) :=
  if threads = 0 then none
  else
    some (chunksFrom threads endIndex
      (wrapInt32 ((toSizeT (wrapInt32 (endIndex - begin)) / threads : Nat) : Int)) threads 0
      begin)

/-- The indices the loop `for( int32_t i = begin; i < end; ++i )` of a chunk visits. -/
def chunkIndices (chunk : Int × Int) : List Int :=
  (List.range (chunk.2 - chunk.1).toNat).map fun (k : Nat) => chunk.1 + (k : Int)

/-- Method `Volume::map` (and `Volume::cast`, with `static_cast` as the conversion) as the
threads carry it out: the writes `result.at( i ) = conversion( this->at( i ) )` of all
chunks, applied in the order `order` in which they happen. -/
def Volume.mapThreaded {T U : Type} [Zero U] (v : Volume T) (conversion : T → U)
    (order : List Int) : Option (Volume U) :=
  (Volume.ofDimensions v.dimensions v.name : Option (Volume U)).bind fun result =>
    fillCells (fun _ (i : Int) => i) (fun i => (v.getAt i).map conversion) order result

/-- The vector `voxels` of the masked `Field::root( similarity, mask )`: the indices
`i < mask.voxelCount()` at which `mask.at( i )` converts to `true`, in ascending order. -/
def maskVoxels (mask : Volume XFloat) : List Nat :=
  (List.range mask.voxelCount.toNat).filter fun i =>
    match mask.getAt (i : Int) with
    | some value => value.toBool
    | none => false

/-- Example run: a `2 × 1 × 1` grid with values `0, 1`. -/
def exampleRamp : Volume ℚ := ⟨[114], ⟨2, 1, 1⟩, [0, 1], (0, 0), false⟩

/-- Example mask over a `2 × 1 × 1` grid: zero at voxel `0`, one at voxel `1`. -/
def exampleMask : Volume XFloat :=
  ⟨[109], ⟨2, 1, 1⟩, [XFloat.fin 0, XFloat.fin 1], (0, 0), false⟩

/-! ## Dendrograms of similarity matrices (`Field::root`) -/

/-- The members of `Ensemble::Field` the similarity code reads and writes, in the arithmetic
model: the runs and the cache `_similarities`. -/
structure SimilarityState where
  runs : List (Volume ℚ)
  similarities : List (Similarity × Volume XFloat × HCNode)

/-- The lambda `similarityFunction` handed to the clustering constructor: the cell
`( first, second, 0 )` of a similarity matrix.  `cast` is the conversion `static_cast<float>`
by which the value came to be stored there; it may give an infinity or NaN.  A cell outside
the matrix is read as `0`. -/
def matrixSimilarityFunction (cast : XFloat → FloatValue) (matrix : Volume XFloat)
    (first second : Int) : FloatValue :=
  cast ((matrix.getAt (matrix.voxelToIndex ⟨first, second, 0⟩)).getD (XFloat.fin 0))

/-- The dendrogram `HCNode( this->memberCount(), similarityFunction )` of a similarity
matrix. -/
def matrixDendrogram (cast : XFloat → FloatValue) (memberCount : Nat)
    (matrix : Volume XFloat) : Option HCNode :=
  Ieee.cluster memberCount (matrixSimilarityFunction cast matrix)

/-- The matrix over all voxels of a similarity kind: the one `computeFieldSimilarity` builds
for `eField`, the one `computePearsonSimilarity` builds for `ePearson`. -/
def fullSimilarityMatrix (sqrt : ℚ → ℚ) (runs : List (Volume ℚ)) :
    Similarity → Option (Volume XFloat)
  | Similarity.eField => computeFieldSimilarityMatrix runs
  | Similarity.ePearson => computePearsonSimilarityMatrix sqrt runs

/-- Methods `computeFieldSimilarity` and `computePearsonSimilarity`: the matrix over all voxels
and its dendrogram are stored in `_similarities`. -/
def SimilarityState.computeSimilarity (cast : XFloat → FloatValue) (sqrt : ℚ → ℚ)
    (s : SimilarityState) (similarity : Similarity) : Option SimilarityState :=
  (fullSimilarityMatrix sqrt s.runs similarity).bind fun matrix =>
  (matrixDendrogram cast s.runs.length matrix).map fun dendrogram =>
    { s with
      similarities := mapAssign Similarity.toInt s.similarities similarity (matrix, dendrogram) }

/-- Method `Field::root( similarity )`: the cached dendrogram, computed first when the cache
has no entry for the kind.  Returns the state after the call and the dendrogram. -/
def SimilarityState.root (cast : XFloat → FloatValue) (sqrt : ℚ → ℚ) (s : SimilarityState)
    (similarity : Similarity) : Option (SimilarityState × HCNode) :=
  match mapFind s.similarities similarity with
  | some entry => some (s, entry.2)
  | none =>
    (s.computeSimilarity cast sqrt similarity).bind fun computed =>
      (mapFind computed.similarities similarity).map fun entry => (computed, entry.2)

/-- The local matrix "Similarity" of the masked `Field::root( similarity, mask )`: the pair
loops of the two routines, run over the voxels of the vector `voxels`; the Pearson means are
divided by `voxels.size()`. -/
def maskedSimilarityMatrix (sqrt : ℚ → ℚ) (runs : List (Volume ℚ)) (voxels : List Nat) :
    Similarity → Option (Volume XFloat)
  | Similarity.eField =>
    similarityMatrix [83, 105, 109, 105, 108, 97, 114, 105, 116, 121] runs.length
      (fun i j =>
        match runs[i]?, runs[j]? with
        | some first, some second => fieldSimilarity first second voxels
        | _, _ => none)
  | Similarity.ePearson =>
    match pearsonMeans voxels (voxels.length : Int) runs with
    | none => none
    | some means =>
      match pearsonStddevs sqrt voxels runs means with
      | none => none
      | some stddevs =>
        similarityMatrix [83, 105, 109, 105, 108, 97, 114, 105, 116, 121] runs.length
          (fun i j =>
            match runs[i]?, runs[j]?, means[i]?, means[j]?, stddevs[i]?, stddevs[j]? with
            | some first, some second, some meanFirst, some meanSecond, some stddevFirst,
                some stddevSecond =>
              pearsonSimilarity first second voxels meanFirst meanSecond stddevFirst
                stddevSecond
            | _, _, _, _, _, _ => none)

/-- Method `Field::root( similarity, mask )`: the dendrogram of the local matrix.  The method
assigns no member of the field (the runs it reads are copies), so the state after the call
is the state before it. -/
def SimilarityState.rootMasked (cast : XFloat → FloatValue) (sqrt : ℚ → ℚ)
    (s : SimilarityState) (similarity : Similarity) (mask : Volume XFloat) :
    Option (SimilarityState × HCNode) :=
  (maskedSimilarityMatrix sqrt s.runs (maskVoxels mask) similarity).bind fun matrix =>
    (matrixDendrogram cast s.runs.length matrix).map fun dendrogram => (s, dendrogram)

/-- Example conversion to `float`: NaN and the infinities are kept and `0.25`, `0.5` and `1`
are converted exactly, as `static_cast<float>` does; any other finite value becomes `0.25f`
below a quarter, `0.5f` below a half and `1.0f` above. -/
def exampleCast : XFloat → FloatValue
  | XFloat.fin q =>
    FloatValue.finite
      (if q ≤ 1 / 4 then Float32.quarter else if q ≤ 1 / 2 then Float32.half else Float32.one)
  | XFloat.posInf => FloatValue.posInf
  | XFloat.negInf => FloatValue.negInf
  | XFloat.nan => FloatValue.nan

/-- Example similarity function that returns NaN for every pair. -/
def nanSimilarity (_ _ : Int) : FloatValue := FloatValue.nan

/-- Example similarity function that returns `+inf` for every pair. -/
def infSimilarity (_ _ : Int) : FloatValue := FloatValue.posInf

/-- Example similarity function that returns `numeric_limits<float>::lowest()` for every
pair. -/
def lowestSimilarity (_ _ : Int) : Float32 := Float32.lowest

/-- Example mask over a `1 × 1 × 1` grid, one at its voxel. -/
def exampleUnitMask : Volume XFloat := ⟨[109], ⟨1, 1, 1⟩, [XFloat.fin 1], (0, 0), false⟩

/-- Example similarity: `1.0f` between equal indices, `0.5f` between indices of equal parity,
`0.25f` otherwise. -/
def exampleSimilarity (a b : Int) : Float32 :=
  if a = b then Float32.one else if a % 2 = b % 2 then Float32.half else Float32.quarter

/-- Example tree: leaf `0` merged with the merge of leaves `1` and `2`; the constructor swaps
the two children. -/
def exampleTree : HCNode :=
  HCNode.mkNode (HCNode.leaf 0) (HCNode.mkNode (HCNode.leaf 1) (HCNode.leaf 2) Float32.half)
    Float32.quarter

end Reghievis

/-! ## Specification-side notions -/

namespace Reghievis

/-- The finite value that stands for a `float` in the running minimum of `computeSimilarity`
and in the test of the search: `std::min( similarity, x )` keeps `similarity` when `x` is NaN
or `+inf`, as it does for `x = numeric_limits<float>::max()`; and a running minimum that has
become `-inf` passes the test `similarity > closest.similarity` as little as
`numeric_limits<float>::lowest()` does. -/
def FloatValue.clamp : FloatValue → Float32
  | FloatValue.finite x => x
  | FloatValue.posInf => Float32.max
  | FloatValue.negInf => Float32.lowest
  | FloatValue.nan => Float32.max

/-- A running minimum that started from a finite value: finite or `-inf`. -/
def FloatValue.Bounded : FloatValue → Prop
  | FloatValue.finite _ => True
  | FloatValue.negInf => True
  | _ => False

/-- The struct `closest` with a finite similarity, among the values of every `float`. -/
def Closest.lift (c : Closest) : Ieee.Closest :=
  ⟨c.first, c.second, FloatValue.finite c.similarity⟩

/-- The value `s` is the least value of `similarityFunction a b` over `a ∈ A`, `b ∈ B`: it is attained by
some pair and is below every pair. -/
def IsMinOver (similarityFunction : Int → Int → Float32) (A B : List Int) (s : Float32) : Prop :=
  (∃ a ∈ A, ∃ b ∈ B, similarityFunction a b = s) ∧
    ∀ a ∈ A, ∀ b ∈ B, s ≤ similarityFunction a b

/-- Complete-linkage similarity of the `p`-th and `q`-th active node, as the search computes it. -/
def pairSimilarity (similarityFunction : Int → Int → Float32) (nodes : List HCNode)
    (p q : Nat) : Float32 :=
  computeSimilarity similarityFunction (nodes.getD p HCNode.empty) (nodes.getD q HCNode.empty)

/-- The assignment `if( similarity > closest.similarity ) closest = { i, j, similarity }` for one
visited pair. -/
def Closest.update (closest : Closest) (e : Nat × Nat × Float32) : Closest :=
  if e.2.2 > closest.similarity then ⟨e.1, e.2.1, e.2.2⟩ else closest

/-- Pairs `(i, j, similarity)` the inner loop visits, in order. -/
def innerPairs (similarityFunction : Int → Int → Float32) (nodeI : HCNode) (i : Nat) :
    List HCNode → Nat → List (Nat × Nat × Float32)
  | [], _ => []
  | nodeJ :: rest, j =>
    (i, j, computeSimilarity similarityFunction nodeI nodeJ) ::
      innerPairs similarityFunction nodeI i rest (j + 1)

/-- Pairs `(i, j, similarity)` the whole search visits, in order. -/
def outerPairs (similarityFunction : Int → Int → Float32) :
    List HCNode → Nat → List (Nat × Nat × Float32)
  | [], _ => []
  | nodeI :: rest, i =>
    innerPairs similarityFunction nodeI i rest (i + 1) ++
      outerPairs similarityFunction rest (i + 1)

/-- Scan order of index pairs: `i` ascending, then `j` ascending. -/
def ScanBefore (p q i j : Nat) : Prop := p < i ∨ (p = i ∧ q < j)

/-- Trees made by the leaf constructor and the internal-node constructor only. -/
inductive HCNode.Built : HCNode → Prop
  | leaf (v : Int) : HCNode.Built (HCNode.leaf v)
  | node {a b : HCNode} (s : Float32) : HCNode.Built a → HCNode.Built b →
      HCNode.Built (HCNode.mkNode a b s)

/-- Complete linkage at every internal node of a tree: the stored similarity is the least
pairwise similarity between the leaves of the left child and the leaves of the right child. -/
def CompleteLinkage (similarityFunction : Int → Int → Float32) (t : HCNode) : Prop :=
  ∀ l r s vc w h, HCNode.node l r s vc w h ∈ t.subtrees →
    IsMinOver similarityFunction l.values r.values s

/-- What holds of the vector `nodes` throughout the merge loop started on `count` leaves: every
active node was made by the two node constructors, and the leaves under the active nodes are
the indices `0 … count-1`, each once. -/
structure ActiveInv (count : Nat) (nodes : List HCNode) : Prop where
  built : ∀ t ∈ nodes, HCNode.Built t
  perm : (nodes.flatMap HCNode.values).Perm ((List.range count).map (fun (i : Nat) => (i : Int)))

/-- What `Field::save` needs of a field to write it faithfully, together with what holds of
every field the program builds: the member, derived and similarity volumes are non-empty and
encodable, both caches are ordered by key as `std::map` keeps them, the dendrograms are
storable, and the vector gradient volume is still the default one as long as no
`eGradientMagnitude` entry is cached (`computeGradient` and `load` set both together). -/
structure Field.Storable (f : Field) : Prop where
  name : f.name.length < 18446744073709551616
  volumeCount : f.volumes.length < 18446744073709551616
  volumes : ∀ v ∈ f.volumes, v.values ≠ [] ∧ v.Encodable
  derivedCount : f.derivedVolumes.length < 18446744073709551616
  derived : ∀ e ∈ f.derivedVolumes, e.2.values ≠ [] ∧ e.2.Encodable
  derivedSorted : (f.derivedVolumes.map (fun e => e.1.toInt)).Pairwise (fun a b => a < b)
  similarityCount : f.similarities.length < 18446744073709551616
  similarities : ∀ e ∈ f.similarities, e.2.1.values ≠ [] ∧ e.2.1.Encodable ∧ e.2.2.Storable
  similaritiesSorted : (f.similarities.map (fun e => e.1.toInt)).Pairwise (fun a b => a < b)
  gradient : f.volumeGradient.Encodable
  gradientDefault : f.hasDerived Derived.eGradientMagnitude = false →
    f.volumeGradient = Volume.empty

/-- A similarity matrix over `count` runs is symmetric with unit diagonal: the cells `(i, j)` and
`(j, i)` hold the same stored value and every cell `(i, i)` holds `1.0`. -/
def SymmetricUnitDiagonal (count : Nat) (matrix : Volume XFloat) : Prop :=
  ∀ i j : Nat, i < count → j < count →
    (∃ x, matrix.getAt (matrix.voxelToIndex ⟨(i : Int), (j : Int), 0⟩) = some x ∧
      matrix.getAt (matrix.voxelToIndex ⟨(j : Int), (i : Int), 0⟩) = some x) ∧
    matrix.getAt (matrix.voxelToIndex ⟨(i : Int), (i : Int), 0⟩) = some (XFloat.fin 1)

/-- What the filling loops keep true of a `count × count × 1` matrix. -/
structure MatrixInv (count : Nat) (matrix : Volume XFloat) : Prop where
  dimensions : matrix.dimensions = ⟨(count : Int), (count : Int), 1⟩
  length : matrix.values.length = count * count
  symmetric : ∀ i j : Nat, i < count → j < count →
    matrix.values[j + count * i]? = matrix.values[i + count * j]?
  diagonal : ∀ i : Nat, i < count → matrix.values[i + count * i]? = some (XFloat.fin 1)

/-- The five values at a voxel are whole counts with the given total. -/
def Bins.Counts (bins : Bins) (total : Nat) : Prop :=
  ∃ c1 c2 c3 c4 c5 : Nat, c1 + c2 + c3 + c4 + c5 = total ∧
    bins = ⟨XFloat.fin c1, XFloat.fin c2, XFloat.fin c3, XFloat.fin c4, XFloat.fin c5⟩

/-- The invariant of a grid: the buffer length is the product of the three dimensions. -/
def Volume.Sized {T : Type} (v : Volume T) : Prop :=
  (v.values.length : Int) = v.dimensions.product

/-- Coordinates inside the grid: each component is at least `0` and below the dimension. -/
def Volume.ValidCoords {T : Type} (v : Volume T) (c : Vec3i) : Prop :=
  0 ≤ c.x ∧ c.x < v.dimensions.x ∧ 0 ≤ c.y ∧ c.y < v.dimensions.y ∧
    0 ≤ c.z ∧ c.z < v.dimensions.z

/-- A pair `d` is the value range of a non-empty list: both ends are values of the list and
every value lies between them. -/
def IsRangeOf {T : Type} [LinearOrder T] (values : List T) (d : T × T) : Prop :=
  d.1 ∈ values ∧ d.2 ∈ values ∧ ∀ x ∈ values, d.1 ≤ x ∧ x ≤ d.2

/-- Every grid of the derived cache has the dimensions and the voxel count of the field. -/
def Field.CacheShaped (f : Field) : Prop :=
  ∀ e ∈ f.derivedVolumes, e.2.dimensions = f.dimensions ∧ e.2.voxelCount = f.voxelCount

/-- The field `g` has the runs of `f` and a derived cache of grids of the field's shape. -/
structure Field.ShapedLike (f g : Field) : Prop where
  volumes : g.volumes = f.volumes
  shaped : g.CacheShaped

/-- The field has a front run, and it is a non-empty grid whose buffer length is the product
of its dimensions and fits `int32_t`. -/
def Field.FrontSized (f : Field) : Prop :=
  ∃ front rest, f.volumes = front :: rest ∧ front.Sized ∧ front.values ≠ [] ∧
    front.values.length < 2147483648

/-- An order in which the writes of the threads started by `compute_multi_threaded( begin,
end, … )` can happen: a rearrangement of the indices of all chunks. -/
def IsThreadOrder (threads : Nat) (begin endIndex : Int) (order : List Int) : Prop :=
  ∃ chunks, computeMultiThreaded threads begin endIndex = some chunks ∧
    order.Perm (chunks.flatMap chunkIndices)

/-- Merge similarities never increase towards the root: at every internal node of the tree
the stored similarity is at most the similarity of each of its two children. -/
def HCNode.MergeOrdered (t : HCNode) : Prop :=
  ∀ l r s vc w h, HCNode.node l r s vc w h ∈ t.subtrees →
    s ≤ l.similarity ∧ s ≤ r.similarity

/-- Bound kept by the merge loop: between any two different active nodes there is a pair of
leaves whose similarity is at most the similarity stored at any active node. -/
def ActiveBound (similarityFunction : Int → Int → Float32) (nodes : List HCNode) : Prop :=
  ∀ D ∈ nodes, ∀ E ∈ nodes, D ≠ E → ∀ t ∈ nodes,
    ∃ d ∈ D.values, ∃ e ∈ E.values, similarityFunction d e ≤ t.similarity

end Reghievis

/-! # Proofs -/

/-! ## Lemmas on machine numbers -/

namespace Reghievis

theorem wrapInt32_of_inInt32 {x : Int} (h : InInt32 x) : wrapInt32 x = x := by
  unfold InInt32 at h
  unfold wrapInt32
  omega

theorem Float32.le_iff_key {a b : Float32} : a ≤ b ↔ a.key ≤ b.key := Iff.rfl

theorem Float32.lt_iff_key {a b : Float32} : a < b ↔ a.key < b.key := Iff.rfl

theorem Float32.eq_of_key {a b : Float32} (h : a.key = b.key) : a = b := by
  cases a; cases b; simp_all

theorem Float32.le_max (a : Float32) : a ≤ Float32.max := a.hi

theorem Float32.lowest_le (a : Float32) : Float32.lowest ≤ a := a.lo

theorem Float32.stdMin_le_left (a b : Float32) : Float32.stdMin a b ≤ a := by
  unfold Float32.stdMin
  split
  · exact le_of_lt (by assumption)
  · exact le_refl a

theorem Float32.stdMin_le_right (a b : Float32) : Float32.stdMin a b ≤ b := by
  unfold Float32.stdMin
  split
  · exact le_refl b
  · exact not_lt.mp (by assumption)

theorem Float32.stdMin_eq (a b : Float32) :
    Float32.stdMin a b = a ∨ Float32.stdMin a b = b := by
  unfold Float32.stdMin
  split
  · exact Or.inr rfl
  · exact Or.inl rfl

end Reghievis

/-! ## The complete-linkage minimum -/

namespace Reghievis

theorem foldl_stdMin_inner (f : Int → Float32) (B : List Int) (init : Float32) :
    let r := B.foldl (fun s b => Float32.stdMin s (f b)) init
    r ≤ init ∧ (∀ b ∈ B, r ≤ f b) ∧ (r = init ∨ ∃ b ∈ B, f b = r) := by
  induction B generalizing init with
  | nil => simp
  | cons b B ih =>
    simp only [List.foldl_cons]
    obtain ⟨h1, h2, h3⟩ := ih (Float32.stdMin init (f b))
    refine ⟨le_trans h1 (Float32.stdMin_le_left _ _), ?_, ?_⟩
    · intro x hx
      rcases List.mem_cons.mp hx with rfl | hx
      · exact le_trans h1 (Float32.stdMin_le_right _ _)
      · exact h2 x hx
    · rcases h3 with h3 | ⟨x, hx, hxr⟩
      · rcases Float32.stdMin_eq init (f b) with h | h
        · exact Or.inl (h3.trans h)
        · exact Or.inr ⟨b, List.mem_cons_self _ _, (h3.trans h).symm⟩
      · exact Or.inr ⟨x, List.mem_cons_of_mem _ hx, hxr⟩

theorem foldl_stdMin_outer (sim : Int → Int → Float32) (A B : List Int) (init : Float32) :
    let r := A.foldl (fun s a => B.foldl (fun s b => Float32.stdMin s (sim a b)) s) init
    r ≤ init ∧ (∀ a ∈ A, ∀ b ∈ B, r ≤ sim a b) ∧
      (r = init ∨ ∃ a ∈ A, ∃ b ∈ B, sim a b = r) := by
  induction A generalizing init with
  | nil => simp
  | cons a A ih =>
    simp only [List.foldl_cons]
    obtain ⟨i1, i2, i3⟩ := foldl_stdMin_inner (sim a) B init
    obtain ⟨h1, h2, h3⟩ := ih (B.foldl (fun s b => Float32.stdMin s (sim a b)) init)
    refine ⟨le_trans h1 i1, ?_, ?_⟩
    · intro x hx y hy
      rcases List.mem_cons.mp hx with rfl | hx
      · exact le_trans h1 (i2 y hy)
      · exact h2 x hx y hy
    · rcases h3 with h3 | ⟨x, hx, y, hy, hxy⟩
      · rcases i3 with i3 | ⟨y, hy, hyr⟩
        · exact Or.inl (h3.trans i3)
        · exact Or.inr ⟨a, List.mem_cons_self _ _, y, hy, hyr.trans h3.symm⟩
      · exact Or.inr ⟨x, List.mem_cons_of_mem _ hx, y, hy, hxy⟩

/-- On two nodes with at least one leaf each, `computeSimilarity` is the least pairwise
similarity. -/
theorem computeSimilarity_isMinOver (sim : Int → Int → Float32) (first second : HCNode)
    (h1 : first.values ≠ []) (h2 : second.values ≠ []) :
    IsMinOver sim first.values second.values (computeSimilarity sim first second) := by
  obtain ⟨_, hle, hmem⟩ := foldl_stdMin_outer sim first.values second.values Float32.max
  refine ⟨?_, hle⟩
  rcases hmem with hmax | h
  · obtain ⟨a, ha⟩ := List.exists_mem_of_ne_nil _ h1
    obtain ⟨b, hb⟩ := List.exists_mem_of_ne_nil _ h2
    refine ⟨a, ha, b, hb, ?_⟩
    have hab := hle a ha b hb
    exact le_antisymm (by
      unfold computeSimilarity
      rw [hmax]
      exact Float32.le_max _) hab
  · exact h

theorem IsMinOver.swap {sim : Int → Int → Float32} (hsym : ∀ a b, sim a b = sim b a)
    {A B : List Int} {s : Float32} (h : IsMinOver sim A B s) : IsMinOver sim B A s := by
  obtain ⟨⟨a, ha, b, hb, hab⟩, hle⟩ := h
  exact ⟨⟨b, hb, a, ha, (hsym b a).trans hab⟩, fun x hx y hy => (hsym x y) ▸ hle y hy x hx⟩

end Reghievis

/-! ## The search for the closest pair -/

namespace Reghievis

theorem scanInner_eq_foldl (sim : Int → Int → Float32) (nodeI : HCNode) (i : Nat)
    (rest : List HCNode) (j : Nat) (c : Closest) :
    scanInner sim nodeI i rest j c = (innerPairs sim nodeI i rest j).foldl Closest.update c := by
  induction rest generalizing j c with
  | nil => rfl
  | cons n rest ih =>
    simp only [scanInner, innerPairs, List.foldl_cons]
    rw [ih]
    rfl

theorem scanOuter_eq_foldl (sim : Int → Int → Float32) (nodes : List HCNode) (i : Nat)
    (c : Closest) :
    scanOuter sim nodes i c = (outerPairs sim nodes i).foldl Closest.update c := by
  induction nodes generalizing i c with
  | nil => rfl
  | cons n rest ih =>
    simp only [scanOuter, outerPairs, List.foldl_append]
    rw [ih, scanInner_eq_foldl]

theorem mem_innerPairs (sim : Int → Int → Float32) (nodeI : HCNode) (i : Nat)
    (rest : List HCNode) (j : Nat) (e : Nat × Nat × Float32) :
    e ∈ innerPairs sim nodeI i rest j ↔
      ∃ k, k < rest.length ∧
        e = (i, j + k, computeSimilarity sim nodeI (rest.getD k HCNode.empty)) := by
  induction rest generalizing j with
  | nil => simp [innerPairs]
  | cons n rest ih =>
    simp only [innerPairs, List.mem_cons, ih, List.length_cons]
    constructor
    · rintro (rfl | ⟨k, hk, rfl⟩)
      · exact ⟨0, by omega, by simp⟩
      · exact ⟨k + 1, by omega, by simp [List.getD_cons_succ]; omega⟩
    · rintro ⟨k, hk, rfl⟩
      cases k with
      | zero => left; simp
      | succ k => right; exact ⟨k, by omega, by simp [List.getD_cons_succ]; omega⟩

theorem mem_outerPairs (sim : Int → Int → Float32) (nodes : List HCNode) (i : Nat)
    (e : Nat × Nat × Float32) :
    e ∈ outerPairs sim nodes i ↔
      ∃ p q, p < q ∧ q < nodes.length ∧
        e = (i + p, i + q, computeSimilarity sim (nodes.getD p HCNode.empty)
          (nodes.getD q HCNode.empty)) := by
  induction nodes generalizing i with
  | nil => simp [outerPairs]
  | cons n rest ih =>
    simp only [outerPairs, List.mem_append, mem_innerPairs, ih, List.length_cons]
    constructor
    · rintro (⟨k, hk, rfl⟩ | ⟨p, q, hpq, hq, rfl⟩)
      · exact ⟨0, k + 1, by omega, by omega, by simp [List.getD_cons_succ]; omega⟩
      · exact ⟨p + 1, q + 1, by omega, by omega, by
          simp [List.getD_cons_succ]; omega⟩
    · rintro ⟨p, q, hpq, hq, rfl⟩
      cases p with
      | zero =>
        left
        cases q with
        | zero => omega
        | succ q => exact ⟨q, by omega, by simp [List.getD_cons_succ]; omega⟩
      | succ p =>
        right
        cases q with
        | zero => omega
        | succ q => exact ⟨p, q, by omega, by omega, by simp [List.getD_cons_succ]; omega⟩

end Reghievis

namespace Reghievis

theorem foldl_update_cases (L : List (Nat × Nat × Float32)) (c : Closest) :
    (L.foldl Closest.update c = c ∧ ∀ e ∈ L, e.2.2 ≤ c.similarity) ∨
    (∃ A x B, L = A ++ x :: B ∧ L.foldl Closest.update c = ⟨x.1, x.2.1, x.2.2⟩ ∧
      c.similarity < x.2.2 ∧ (∀ a ∈ A, a.2.2 < x.2.2) ∧ (∀ b ∈ B, b.2.2 ≤ x.2.2)) := by
  induction L generalizing c with
  | nil => left; simp
  | cons e L ih =>
    simp only [List.foldl_cons]
    by_cases he : e.2.2 > c.similarity
    · have hup : Closest.update c e = ⟨e.1, e.2.1, e.2.2⟩ := by simp [Closest.update, he]
      rw [hup]
      rcases ih ⟨e.1, e.2.1, e.2.2⟩ with ⟨h1, h2⟩ | ⟨A, x, B, hL, hr, hlt, hA, hB⟩
      · right
        exact ⟨[], e, L, rfl, h1, he, by simp, h2⟩
      · right
        refine ⟨e :: A, x, B, by simp [hL], hr, lt_trans he hlt, ?_, hB⟩
        intro a ha
        rcases List.mem_cons.mp ha with rfl | ha
        · exact hlt
        · exact hA a ha
    · have hup : Closest.update c e = c := by simp [Closest.update, he]
      rw [hup]
      have he2 : e.2.2 ≤ c.similarity := not_lt.mp he
      rcases ih c with ⟨h1, h2⟩ | ⟨A, x, B, hL, hr, hlt, hA, hB⟩
      · left
        refine ⟨h1, ?_⟩
        intro a ha
        rcases List.mem_cons.mp ha with rfl | ha
        · exact he2
        · exact h2 a ha
      · right
        refine ⟨e :: A, x, B, by simp [hL], hr, hlt, ?_, hB⟩
        intro a ha
        rcases List.mem_cons.mp ha with rfl | ha
        · exact lt_of_le_of_lt he2 hlt
        · exact hA a ha

theorem pairwise_innerPairs (sim : Int → Int → Float32) (nodeI : HCNode) (i : Nat)
    (rest : List HCNode) (j : Nat) :
    (innerPairs sim nodeI i rest j).Pairwise
      (fun e1 e2 => ScanBefore e1.1 e1.2.1 e2.1 e2.2.1) := by
  induction rest generalizing j with
  | nil => simp [innerPairs]
  | cons n rest ih =>
    simp only [innerPairs, List.pairwise_cons]
    refine ⟨?_, ih (j + 1)⟩
    intro e he
    obtain ⟨k, _, rfl⟩ := (mem_innerPairs sim nodeI i rest (j + 1) e).mp he
    right
    exact ⟨rfl, by simp; omega⟩

theorem pairwise_outerPairs (sim : Int → Int → Float32) (nodes : List HCNode) (i : Nat) :
    (outerPairs sim nodes i).Pairwise
      (fun e1 e2 => ScanBefore e1.1 e1.2.1 e2.1 e2.2.1) := by
  induction nodes generalizing i with
  | nil => simp [outerPairs]
  | cons n rest ih =>
    simp only [outerPairs, List.pairwise_append]
    refine ⟨pairwise_innerPairs sim n i rest (i + 1), ih (i + 1), ?_⟩
    intro a ha b hb
    obtain ⟨k, _, rfl⟩ := (mem_innerPairs sim n i rest (i + 1) a).mp ha
    obtain ⟨p, q, _, _, rfl⟩ := (mem_outerPairs sim rest (i + 1) b).mp hb
    left
    simp
    omega

theorem scanBefore_asymm {p q i j : Nat} (h : ScanBefore p q i j) : ¬ ScanBefore i j p q := by
  unfold ScanBefore at *
  omega

/-- What the search returns: either the initial sentinel, when no pair beats it, or the first
pair in scan order that attains the maximum. -/
theorem findClosest_spec (sim : Int → Int → Float32) (nodes : List HCNode) :
    (findClosest sim nodes = Closest.init ∧
      ∀ p q, p < q → q < nodes.length → pairSimilarity sim nodes p q ≤ Float32.lowest) ∨
    (∃ i j, i < j ∧ j < nodes.length ∧
      findClosest sim nodes = ⟨(i : Int), (j : Int), pairSimilarity sim nodes i j⟩ ∧
      Float32.lowest < pairSimilarity sim nodes i j ∧
      (∀ p q, p < q → q < nodes.length →
        pairSimilarity sim nodes p q ≤ pairSimilarity sim nodes i j) ∧
      (∀ p q, p < q → q < nodes.length → ScanBefore p q i j →
        pairSimilarity sim nodes p q < pairSimilarity sim nodes i j)) := by
  have hmem := mem_outerPairs sim nodes 0
  have hpw := pairwise_outerPairs sim nodes 0
  unfold findClosest
  rw [scanOuter_eq_foldl]
  rcases foldl_update_cases (outerPairs sim nodes 0) Closest.init with
    ⟨h1, h2⟩ | ⟨A, x, B, hL, hr, hlt, hA, hB⟩
  · left
    refine ⟨h1, ?_⟩
    intro p q hpq hq
    have := h2 _ ((hmem _).mpr ⟨p, q, hpq, hq, rfl⟩)
    simpa [pairSimilarity] using this
  · right
    have hx : x ∈ outerPairs sim nodes 0 := by rw [hL]; simp
    obtain ⟨i, j, hij, hj, rfl⟩ := (hmem x).mp hx
    rw [hL] at hpw
    have hpw2 := List.pairwise_append.mp hpw
    have hxB := (List.pairwise_cons.mp hpw2.2.1).1
    have hAx := fun a ha => hpw2.2.2 a ha _ (List.mem_cons_self _ _)
    have key : ∀ p q, p < q → q < nodes.length →
        (0 + p, 0 + q, pairSimilarity sim nodes p q) ∈ A ∨
        (p = i ∧ q = j) ∨ (0 + p, 0 + q, pairSimilarity sim nodes p q) ∈ B := by
      intro p q hpq hq
      have hin : (0 + p, 0 + q, pairSimilarity sim nodes p q) ∈ outerPairs sim nodes 0 :=
        (hmem _).mpr ⟨p, q, hpq, hq, rfl⟩
      rw [hL] at hin
      rcases List.mem_append.mp hin with h | h
      · exact Or.inl h
      · rcases List.mem_cons.mp h with h | h
        · right; left
          simp only [Prod.mk.injEq] at h
          omega
        · exact Or.inr (Or.inr h)
    refine ⟨i, j, hij, hj, ?_, ?_, ?_, ?_⟩
    · simpa [pairSimilarity] using hr
    · simpa [pairSimilarity, Closest.init] using hlt
    · intro p q hpq hq
      rcases key p q hpq hq with h | ⟨rfl, rfl⟩ | h
      · exact le_of_lt (by simpa [pairSimilarity] using hA _ h)
      · exact le_refl _
      · simpa [pairSimilarity] using hB _ h
    · intro p q hpq hq hbefore
      rcases key p q hpq hq with h | ⟨rfl, rfl⟩ | h
      · simpa [pairSimilarity] using hA _ h
      · exact absurd hbefore (by unfold ScanBefore; omega)
      · have := hxB _ h
        simp only [zero_add] at this
        exact absurd hbefore (scanBefore_asymm this)

end Reghievis

/-! ## One merge -/

namespace Reghievis

theorem mergeStep_of_closest (sim : Int → Int → Float32) (nodes : List HCNode) (i j : Nat)
    (s : Float32) (hij : i < j) (hj : j < nodes.length)
    (hc : findClosest sim nodes = ⟨(i : Int), (j : Int), s⟩) :
    mergeStep sim nodes =
      some ((nodes.eraseIdx j).eraseIdx i ++
        [HCNode.mkNode (nodes.getD i HCNode.empty) (nodes.getD j HCNode.empty) s]) := by
  have hi : i < nodes.length := by omega
  have hgi : nodes[i]? = some (nodes.getD i HCNode.empty) := by
    rw [List.getD_eq_getElem?_getD, List.getElem?_eq_getElem hi]; rfl
  have hgj : nodes[j]? = some (nodes.getD j HCNode.empty) := by
    rw [List.getD_eq_getElem?_getD, List.getElem?_eq_getElem hj]; rfl
  unfold mergeStep
  simp only [hc, Int.toNat_ofNat, hgi, hgj]
  rw [if_pos ⟨by omega, by omega⟩]
  rw [List.eraseIdx_append_of_lt_length hj]
  rw [List.eraseIdx_append_of_lt_length (by rw [List.length_eraseIdx_of_lt hj]; omega)]

theorem mergeStep_of_init (sim : Int → Int → Float32) (nodes : List HCNode)
    (hc : findClosest sim nodes = Closest.init) : mergeStep sim nodes = none := by
  unfold mergeStep
  simp [hc, Closest.init]

end Reghievis

/-! ## Shape of the trees the constructors make -/

namespace Reghievis

theorem HCNode.values_length (t : HCNode) : t.values.length = t.leafCount := by
  induction t with
  | empty => rfl
  | leaf v => rfl
  | node l r s vc w h ihl ihr => simp [HCNode.values, HCNode.leafCount, ihl, ihr]

theorem HCNode.mkNode_cases (a b : HCNode) (s : Float32) :
    (a.valueCount < b.valueCount ∧
      HCNode.mkNode a b s = HCNode.node b a s (wrapInt32 (a.valueCount + b.valueCount))
        (if a.valueCount = 1 then b.width else wrapInt32 (b.width + a.width))
        (wrapInt32 (1 + Max.max b.height a.height))) ∨
    (¬ a.valueCount < b.valueCount ∧
      HCNode.mkNode a b s = HCNode.node a b s (wrapInt32 (a.valueCount + b.valueCount))
        (if b.valueCount = 1 then a.width else wrapInt32 (a.width + b.width))
        (wrapInt32 (1 + Max.max a.height b.height))) := by
  by_cases h : a.valueCount < b.valueCount
  · left; exact ⟨h, by simp [HCNode.mkNode, h]⟩
  · right; exact ⟨h, by simp [HCNode.mkNode, h]⟩

theorem HCNode.mkNode_similarity (a b : HCNode) (s : Float32) :
    (HCNode.mkNode a b s).similarity = s := rfl

theorem HCNode.mkNode_valueCount (a b : HCNode) (s : Float32) :
    (HCNode.mkNode a b s).valueCount = wrapInt32 (a.valueCount + b.valueCount) := rfl

theorem HCNode.mkNode_values_perm (a b : HCNode) (s : Float32) :
    (HCNode.mkNode a b s).values.Perm (a.values ++ b.values) := by
  rcases HCNode.mkNode_cases a b s with ⟨_, h⟩ | ⟨_, h⟩
  · rw [h]; exact List.perm_append_comm
  · rw [h]; exact List.Perm.refl _

theorem HCNode.mkNode_leafCount (a b : HCNode) (s : Float32) :
    (HCNode.mkNode a b s).leafCount = a.leafCount + b.leafCount := by
  rcases HCNode.mkNode_cases a b s with ⟨_, h⟩ | ⟨_, h⟩
  · rw [h]; simp [HCNode.leafCount]; omega
  · rw [h]; simp [HCNode.leafCount]

theorem HCNode.mkNode_internalCount (a b : HCNode) (s : Float32) :
    (HCNode.mkNode a b s).internalCount = 1 + a.internalCount + b.internalCount := by
  rcases HCNode.mkNode_cases a b s with ⟨_, h⟩ | ⟨_, h⟩
  · rw [h]; simp [HCNode.internalCount]; omega
  · rw [h]; simp [HCNode.internalCount]

theorem HCNode.Built.leafCount_pos {t : HCNode} (h : HCNode.Built t) : 1 ≤ t.leafCount := by
  induction h with
  | leaf v => simp [HCNode.leafCount]
  | node s _ _ iha ihb => rw [HCNode.mkNode_leafCount]; omega

theorem HCNode.Built.values_ne_nil {t : HCNode} (h : HCNode.Built t) : t.values ≠ [] := by
  intro hnil
  have h1 := h.leafCount_pos
  rw [← HCNode.values_length, hnil] at h1
  simp at h1

/-- While the leaf count fits `int32_t`, the stored value count is the leaf count. -/
theorem HCNode.Built.valueCount_eq {t : HCNode} (h : HCNode.Built t)
    (hfit : t.leafCount < 2147483648) : t.valueCount = (t.leafCount : Int) := by
  induction h with
  | leaf v => simp [HCNode.valueCount, HCNode.leafCount]
  | node s _ _ iha ihb =>
    rw [HCNode.mkNode_leafCount] at hfit ⊢
    rw [HCNode.mkNode_valueCount, iha (by omega), ihb (by omega)]
    rw [wrapInt32_of_inInt32 (by unfold InInt32; omega)]
    push_cast
    rfl

theorem HCNode.Built.internalCount_eq {t : HCNode} (h : HCNode.Built t) :
    t.internalCount + 1 = t.leafCount := by
  induction h with
  | leaf v => simp [HCNode.leafCount, HCNode.internalCount]
  | node s _ _ iha ihb => rw [HCNode.mkNode_leafCount, HCNode.mkNode_internalCount]; omega

theorem HCNode.self_mem_subtrees (t : HCNode) : t ∈ t.subtrees := by
  cases t <;> simp [HCNode.subtrees]

theorem HCNode.leafCount_le_of_mem_subtrees {t n : HCNode} (h : n ∈ t.subtrees) :
    n.leafCount ≤ t.leafCount := by
  induction t with
  | empty => simp [HCNode.subtrees] at h; subst h; exact le_refl _
  | leaf v => simp [HCNode.subtrees] at h; subst h; exact le_refl _
  | node l r s vc w hh ihl ihr =>
    simp only [HCNode.subtrees, List.mem_cons, List.mem_append] at h
    rcases h with rfl | h | h
    · exact le_refl _
    · have := ihl h; simp only [HCNode.leafCount]; omega
    · have := ihr h; simp only [HCNode.leafCount]; omega

theorem HCNode.Built.of_mem_subtrees {t n : HCNode} (h : HCNode.Built t)
    (hn : n ∈ t.subtrees) : HCNode.Built n := by
  induction h with
  | leaf v =>
    simp [HCNode.subtrees] at hn
    subst hn
    exact HCNode.Built.leaf v
  | @node a b s ha hb iha ihb =>
    have hcases : n = HCNode.mkNode a b s ∨ n ∈ a.subtrees ∨ n ∈ b.subtrees := by
      rcases HCNode.mkNode_cases a b s with ⟨_, h⟩ | ⟨_, h⟩
      · rw [h] at hn ⊢
        simp only [HCNode.subtrees, List.mem_cons, List.mem_append] at hn
        tauto
      · rw [h] at hn ⊢
        simp only [HCNode.subtrees, List.mem_cons, List.mem_append] at hn
        tauto
    rcases hcases with rfl | h | h
    · exact HCNode.Built.node s ha hb
    · exact iha h
    · exact ihb h

end Reghievis

/-! ## Effect of one merge on the active list -/

namespace Reghievis

theorem perm_cons_eraseIdx {α : Type} (d : α) (l : List α) (i : Nat) (h : i < l.length) :
    l.Perm (l.getD i d :: l.eraseIdx i) := by
  induction l generalizing i with
  | nil => simp at h
  | cons x l ih =>
    cases i with
    | zero => simp
    | succ i =>
      simp only [List.length_cons] at h
      simp only [List.getD_cons_succ, List.eraseIdx_cons_succ]
      exact ((ih i (by omega)).cons x).trans (List.Perm.swap _ _ _)

theorem getD_eraseIdx_of_lt {α : Type} (d : α) (l : List α) (i j : Nat) (h : i < j) :
    (l.eraseIdx j).getD i d = l.getD i d := by
  rw [List.getD_eq_getElem?_getD, List.getD_eq_getElem?_getD, List.getElem?_eraseIdx_of_lt _ _ _ h]

theorem perm_two_eraseIdx {α : Type} (d : α) (l : List α) (i j : Nat) (hij : i < j)
    (hj : j < l.length) :
    l.Perm (l.getD i d :: l.getD j d :: (l.eraseIdx j).eraseIdx i) := by
  have h1 := perm_cons_eraseIdx d l j hj
  have h2 := perm_cons_eraseIdx d (l.eraseIdx j) i (by
    rw [List.length_eraseIdx_of_lt hj]; omega)
  rw [getD_eraseIdx_of_lt d l i j hij] at h2
  exact (h1.trans (h2.cons _)).trans (List.Perm.swap _ _ _)

theorem getD_mem {α : Type} (d : α) (l : List α) (i : Nat) (h : i < l.length) :
    l.getD i d ∈ l := by
  rw [List.getD_eq_getElem?_getD, List.getElem?_eq_getElem h]
  exact List.getElem_mem h

/-- Every successful iteration removes two nodes at positions `i < j` and appends their merge,
whose similarity is the complete-linkage similarity of the two. -/
theorem mergeStep_some_inv (sim : Int → Int → Float32) (nodes merged : List HCNode)
    (h : mergeStep sim nodes = some merged) :
    ∃ i j, i < j ∧ j < nodes.length ∧
      merged = (nodes.eraseIdx j).eraseIdx i ++
        [HCNode.mkNode (nodes.getD i HCNode.empty) (nodes.getD j HCNode.empty)
          (pairSimilarity sim nodes i j)] := by
  rcases findClosest_spec sim nodes with ⟨hinit, _⟩ | ⟨i, j, hij, hj, hc, _, _, _⟩
  · rw [mergeStep_of_init sim nodes hinit] at h
    cases h
  · rw [mergeStep_of_closest sim nodes i j _ hij hj hc] at h
    exact ⟨i, j, hij, hj, (Option.some.inj h).symm⟩

/-- The search and merge of one iteration, when some pair beats the initial sentinel. -/
theorem mergeStep_spec (sim : Int → Int → Float32) (nodes : List HCNode)
    (hbeat : ∃ p q, p < q ∧ q < nodes.length ∧
      Float32.lowest < pairSimilarity sim nodes p q) :
    ∃ i j, i < j ∧ j < nodes.length ∧
      (∀ p q, p < q → q < nodes.length →
        pairSimilarity sim nodes p q ≤ pairSimilarity sim nodes i j) ∧
      (∀ p q, p < q → q < nodes.length → ScanBefore p q i j →
        pairSimilarity sim nodes p q < pairSimilarity sim nodes i j) ∧
      mergeStep sim nodes = some ((nodes.eraseIdx j).eraseIdx i ++
        [HCNode.mkNode (nodes.getD i HCNode.empty) (nodes.getD j HCNode.empty)
          (pairSimilarity sim nodes i j)]) := by
  rcases findClosest_spec sim nodes with ⟨_, hall⟩ | ⟨i, j, hij, hj, hc, _, hmax, hfirst⟩
  · obtain ⟨p, q, hpq, hq, hlt⟩ := hbeat
    exact absurd (hall p q hpq hq) (not_le.mpr hlt)
  · exact ⟨i, j, hij, hj, hmax, hfirst, mergeStep_of_closest sim nodes i j _ hij hj hc⟩

theorem mergeStep_length (sim : Int → Int → Float32) (nodes merged : List HCNode)
    (h : mergeStep sim nodes = some merged) : merged.length + 1 = nodes.length := by
  obtain ⟨i, j, hij, hj, rfl⟩ := mergeStep_some_inv sim nodes merged h
  rw [List.length_append, List.length_eraseIdx_of_lt (by
    rw [List.length_eraseIdx_of_lt hj]; omega), List.length_eraseIdx_of_lt hj]
  simp
  omega

theorem mergeStep_activeInv (sim : Int → Int → Float32) (count : Nat)
    (nodes merged : List HCNode) (hinv : ActiveInv count nodes)
    (h : mergeStep sim nodes = some merged) : ActiveInv count merged := by
  obtain ⟨i, j, hij, hj, rfl⟩ := mergeStep_some_inv sim nodes merged h
  have hperm := perm_two_eraseIdx HCNode.empty nodes i j hij hj
  have hi : i < nodes.length := by omega
  constructor
  · intro t ht
    rcases List.mem_append.mp ht with ht | ht
    · exact hinv.built t (List.mem_of_mem_eraseIdx (List.mem_of_mem_eraseIdx ht))
    · rw [List.mem_singleton] at ht
      subst ht
      exact HCNode.Built.node _ (hinv.built _ (getD_mem _ _ _ hi))
        (hinv.built _ (getD_mem _ _ _ hj))
  · refine List.Perm.trans ?_ hinv.perm
    refine List.Perm.trans ?_ (List.Perm.flatMap_right HCNode.values hperm).symm
    simp only [List.flatMap_append, List.flatMap_cons, List.flatMap_nil, List.append_nil]
    refine List.Perm.trans List.perm_append_comm ?_
    rw [← List.append_assoc]
    exact List.Perm.append_right _ (HCNode.mkNode_values_perm _ _ _)

end Reghievis

/-! ## The merge loop -/

namespace Reghievis

theorem initialNodes_length (count : Nat) : (initialNodes count).length = count := by
  simp [initialNodes]

theorem initialNodes_activeInv (count : Nat) : ActiveInv count (initialNodes count) := by
  constructor
  · intro t ht
    simp only [initialNodes, List.mem_map] at ht
    obtain ⟨i, _, rfl⟩ := ht
    exact HCNode.Built.leaf _
  · have : (initialNodes count).flatMap HCNode.values
        = (List.range count).map (fun (i : Nat) => (i : Int)) := by
      unfold initialNodes
      induction (List.range count) with
      | nil => rfl
      | cons x xs ih => simp [List.flatMap_cons, HCNode.values, ih]
    rw [this]

theorem mergeLoop_eq_mergeSteps (sim : Int → Int → Float32) (fuel : Nat) (nodes : List HCNode)
    (hfuel : nodes.length - 1 ≤ fuel) :
    mergeLoop sim fuel nodes = mergeSteps sim (nodes.length - 1) nodes := by
  induction fuel generalizing nodes with
  | zero =>
    have h0 : nodes.length - 1 = 0 := by omega
    rw [h0]
    simp only [mergeLoop, mergeSteps]
    rw [if_neg (by omega)]
  | succ fuel ih =>
    by_cases hlen : nodes.length > 1
    · have hk : nodes.length - 1 = (nodes.length - 2) + 1 := by omega
      rw [hk]
      simp only [mergeLoop, mergeSteps, if_pos hlen]
      cases hstep : mergeStep sim nodes with
      | none => rfl
      | some merged =>
        have hl := mergeStep_length sim nodes merged hstep
        simp only [Option.some_bind]
        rw [ih merged (by omega)]
        congr 1
        omega
    · have h0 : nodes.length - 1 = 0 := by omega
      rw [h0]
      simp only [mergeLoop, mergeSteps, if_neg hlen]

theorem mergeSteps_activeInv (sim : Int → Int → Float32) (count k : Nat)
    (nodes out : List HCNode) (hinv : ActiveInv count nodes)
    (h : mergeSteps sim k nodes = some out) :
    ActiveInv count out ∧ out.length + k = nodes.length := by
  induction k generalizing nodes with
  | zero =>
    simp only [mergeSteps, Option.some.injEq] at h
    subst h
    exact ⟨hinv, rfl⟩
  | succ k ih =>
    simp only [mergeSteps] at h
    cases hstep : mergeStep sim nodes with
    | none => rw [hstep] at h; cases h
    | some merged =>
      rw [hstep] at h
      simp only [Option.some_bind] at h
      have hl := mergeStep_length sim nodes merged hstep
      obtain ⟨h1, h2⟩ := ih merged (mergeStep_activeInv sim count nodes merged hinv hstep) h
      exact ⟨h1, by omega⟩

theorem pairSimilarity_isMinOver (sim : Int → Int → Float32) (count : Nat)
    (nodes : List HCNode) (hinv : ActiveInv count nodes) (p q : Nat)
    (hp : p < nodes.length) (hq : q < nodes.length) :
    IsMinOver sim (nodes.getD p HCNode.empty).values (nodes.getD q HCNode.empty).values
      (pairSimilarity sim nodes p q) :=
  computeSimilarity_isMinOver sim _ _
    (hinv.built _ (getD_mem _ _ _ hp)).values_ne_nil
    (hinv.built _ (getD_mem _ _ _ hq)).values_ne_nil

theorem mergeStep_succeeds (sim : Int → Int → Float32) (count : Nat) (nodes : List HCNode)
    (hinv : ActiveInv count nodes) (hlow : ∀ a b, Float32.lowest < sim a b)
    (h2 : 2 ≤ nodes.length) : ∃ merged, mergeStep sim nodes = some merged := by
  have hbeat : ∃ p q, p < q ∧ q < nodes.length ∧
      Float32.lowest < pairSimilarity sim nodes p q := by
    refine ⟨0, 1, by omega, by omega, ?_⟩
    obtain ⟨⟨a, _, b, _, hab⟩, _⟩ :=
      pairSimilarity_isMinOver sim count nodes hinv 0 1 (by omega) (by omega)
    rw [← hab]
    exact hlow a b
  obtain ⟨i, j, _, _, _, _, h⟩ := mergeStep_spec sim nodes hbeat
  exact ⟨_, h⟩

theorem mergeSteps_succeeds (sim : Int → Int → Float32) (count k : Nat) (nodes : List HCNode)
    (hinv : ActiveInv count nodes) (hlow : ∀ a b, Float32.lowest < sim a b)
    (hk : k < nodes.length) :
    ∃ out, mergeSteps sim k nodes = some out ∧ out.length = nodes.length - k := by
  induction k generalizing nodes with
  | zero => exact ⟨nodes, rfl, by omega⟩
  | succ k ih =>
    obtain ⟨merged, hstep⟩ := mergeStep_succeeds sim count nodes hinv hlow (by omega)
    have hl := mergeStep_length sim nodes merged hstep
    obtain ⟨out, hout, hlen⟩ :=
      ih merged (mergeStep_activeInv sim count nodes merged hinv hstep) (by omega)
    refine ⟨out, ?_, by omega⟩
    simp only [mergeSteps, hstep, Option.some_bind]
    exact hout

theorem unit_interval_above_lowest {sim : Int → Int → Float32}
    (h01 : ∀ a b, Float32.zero ≤ sim a b ∧ sim a b ≤ Float32.one) :
    ∀ a b, Float32.lowest < sim a b := by
  intro a b
  have h := (h01 a b).1
  rw [Float32.le_iff_key] at h
  rw [Float32.lt_iff_key]
  simp only [Float32.zero, Float32.lowest] at *
  omega

/-- With similarities above the sentinel, the constructor returns a root; it is the only
node left after `count - 1` merges. -/
theorem cluster_exists (sim : Int → Int → Float32) (count : Nat) (hN : 1 ≤ count)
    (hlow : ∀ a b, Float32.lowest < sim a b) :
    ∃ root, mergeSteps sim (count - 1) (initialNodes count) = some [root] ∧
      (∀ fuel, count - 1 ≤ fuel → mergeLoop sim fuel (initialNodes count) = some [root]) ∧
      HCNode.cluster count sim = some root ∧ ActiveInv count [root] := by
  have hinv := initialNodes_activeInv count
  have hlen := initialNodes_length count
  obtain ⟨out, hout, hol⟩ :=
    mergeSteps_succeeds sim count (count - 1) (initialNodes count) hinv hlow (by omega)
  have hone : out.length = 1 := by omega
  obtain ⟨root, rfl⟩ := List.length_eq_one.mp hone
  have hloop : ∀ fuel, count - 1 ≤ fuel →
      mergeLoop sim fuel (initialNodes count) = some [root] := by
    intro fuel hf
    rw [mergeLoop_eq_mergeSteps sim fuel _ (by omega), hlen]
    exact hout
  refine ⟨root, hout, hloop, ?_, (mergeSteps_activeInv sim count _ _ _ hinv hout).1⟩
  unfold HCNode.cluster
  rw [hloop count (by omega)]

/-- Any root the constructor returns is what is left of the active list. -/
theorem cluster_some_inv (sim : Int → Int → Float32) (count : Nat) (root : HCNode)
    (h : HCNode.cluster count sim = some root) :
    mergeSteps sim (count - 1) (initialNodes count) = some [root] := by
  unfold HCNode.cluster at h
  rw [mergeLoop_eq_mergeSteps sim count _ (by rw [initialNodes_length]; omega),
    initialNodes_length] at h
  cases hs : mergeSteps sim (count - 1) (initialNodes count) with
  | none => rw [hs] at h; cases h
  | some out =>
    rw [hs] at h
    have hl := (mergeSteps_activeInv sim count _ _ _ (initialNodes_activeInv count) hs).2
    rw [initialNodes_length] at hl
    match out, h, hl with
    | [], h, _ => cases h
    | [r], h, _ => simp only [Option.some.injEq] at h; rw [h]
    | r :: r2 :: rest, _, hl => simp only [List.length_cons] at hl; omega

theorem cluster_activeInv (sim : Int → Int → Float32) (count : Nat) (root : HCNode)
    (h : HCNode.cluster count sim = some root) : ActiveInv count [root] :=
  (mergeSteps_activeInv sim count _ _ _ (initialNodes_activeInv count)
    (cluster_some_inv sim count root h)).1

theorem activeInv_singleton {count : Nat} {root : HCNode} (h : ActiveInv count [root]) :
    HCNode.Built root ∧ root.values.Perm ((List.range count).map (fun (i : Nat) => (i : Int))) ∧
      root.leafCount = count := by
  have hb := h.built root (List.mem_singleton_self _)
  have hp := h.perm
  simp only [List.flatMap_cons, List.flatMap_nil, List.append_nil] at hp
  refine ⟨hb, hp, ?_⟩
  rw [← HCNode.values_length, hp.length_eq]
  simp

end Reghievis

/-! ## Complete linkage is kept by the loop -/

namespace Reghievis

theorem completeLinkage_leaf (sim : Int → Int → Float32) (v : Int) :
    CompleteLinkage sim (HCNode.leaf v) := by
  intro l r s vc w h hmem
  simp [HCNode.subtrees] at hmem

theorem completeLinkage_mkNode (sim : Int → Int → Float32) (hsym : ∀ a b, sim a b = sim b a)
    (a b : HCNode) (ha : CompleteLinkage sim a) (hb : CompleteLinkage sim b)
    (hane : a.values ≠ []) (hbne : b.values ≠ []) :
    CompleteLinkage sim (HCNode.mkNode a b (computeSimilarity sim a b)) := by
  have hmin := computeSimilarity_isMinOver sim a b hane hbne
  intro l r s vc w h hmem
  rcases HCNode.mkNode_cases a b (computeSimilarity sim a b) with ⟨_, heq⟩ | ⟨_, heq⟩
  · rw [heq] at hmem
    simp only [HCNode.subtrees, List.mem_cons, List.mem_append] at hmem
    rcases hmem with hself | hmem | hmem
    · simp only [HCNode.node.injEq] at hself
      obtain ⟨rfl, rfl, rfl, _⟩ := hself
      exact hmin.swap hsym
    · exact hb l r s vc w h hmem
    · exact ha l r s vc w h hmem
  · rw [heq] at hmem
    simp only [HCNode.subtrees, List.mem_cons, List.mem_append] at hmem
    rcases hmem with hself | hmem | hmem
    · simp only [HCNode.node.injEq] at hself
      obtain ⟨rfl, rfl, rfl, _⟩ := hself
      exact hmin
    · exact ha l r s vc w h hmem
    · exact hb l r s vc w h hmem

theorem mergeStep_completeLinkage (sim : Int → Int → Float32)
    (hsym : ∀ a b, sim a b = sim b a) (count : Nat) (nodes merged : List HCNode)
    (hinv : ActiveInv count nodes) (hcl : ∀ t ∈ nodes, CompleteLinkage sim t)
    (h : mergeStep sim nodes = some merged) : ∀ t ∈ merged, CompleteLinkage sim t := by
  obtain ⟨i, j, hij, hj, rfl⟩ := mergeStep_some_inv sim nodes merged h
  have hi : i < nodes.length := by omega
  intro t ht
  rcases List.mem_append.mp ht with ht | ht
  · exact hcl t (List.mem_of_mem_eraseIdx (List.mem_of_mem_eraseIdx ht))
  · rw [List.mem_singleton] at ht
    subst ht
    have hmi := getD_mem HCNode.empty nodes i hi
    have hmj := getD_mem HCNode.empty nodes j hj
    exact completeLinkage_mkNode sim hsym _ _ (hcl _ hmi) (hcl _ hmj)
      (hinv.built _ hmi).values_ne_nil (hinv.built _ hmj).values_ne_nil

theorem mergeSteps_completeLinkage (sim : Int → Int → Float32)
    (hsym : ∀ a b, sim a b = sim b a) (count k : Nat) (nodes out : List HCNode)
    (hinv : ActiveInv count nodes) (hcl : ∀ t ∈ nodes, CompleteLinkage sim t)
    (h : mergeSteps sim k nodes = some out) : ∀ t ∈ out, CompleteLinkage sim t := by
  induction k generalizing nodes with
  | zero =>
    simp only [mergeSteps, Option.some.injEq] at h
    subst h
    exact hcl
  | succ k ih =>
    simp only [mergeSteps] at h
    cases hstep : mergeStep sim nodes with
    | none => rw [hstep] at h; cases h
    | some merged =>
      rw [hstep] at h
      simp only [Option.some_bind] at h
      exact ih merged (mergeStep_activeInv sim count nodes merged hinv hstep)
        (mergeStep_completeLinkage sim hsym count nodes merged hinv hcl hstep) h

theorem cluster_completeLinkage (sim : Int → Int → Float32)
    (hsym : ∀ a b, sim a b = sim b a) (count : Nat) (root : HCNode)
    (h : HCNode.cluster count sim = some root) : CompleteLinkage sim root := by
  have hs := cluster_some_inv sim count root h
  refine mergeSteps_completeLinkage sim hsym count _ _ _ (initialNodes_activeInv count) ?_ hs
    root (List.mem_singleton_self _)
  intro t ht
  simp only [initialNodes, List.mem_map] at ht
  obtain ⟨i, _, rfl⟩ := ht
  exact completeLinkage_leaf sim _

/-! ## Counts stored at internal nodes -/

theorem HCNode.Built.inv {t : HCNode} (h : HCNode.Built t) :
    (∃ v, t = HCNode.leaf v) ∨
      ∃ a b s, HCNode.Built a ∧ HCNode.Built b ∧ t = HCNode.mkNode a b s := by
  cases h with
  | leaf v => exact Or.inl ⟨v, rfl⟩
  | @node a b s ha hb => exact Or.inr ⟨a, b, s, ha, hb, rfl⟩

theorem built_node_counts (t : HCNode) (hb : HCNode.Built t)
    (hfit : t.leafCount < 2147483648) (l r : HCNode) (s : Float32) (vc w h : Int)
    (hmem : HCNode.node l r s vc w h ∈ t.subtrees) :
    vc = l.valueCount + r.valueCount ∧ l.valueCount ≥ r.valueCount := by
  have hbn := hb.of_mem_subtrees hmem
  have hle := HCNode.leafCount_le_of_mem_subtrees hmem
  rcases hbn.inv with ⟨v, hv⟩ | ⟨a, b, s2, ha, hb2, heq⟩
  · cases hv
  · have hlc : a.leafCount + b.leafCount < 2147483648 := by
      have := HCNode.mkNode_leafCount a b s2
      rw [← heq] at this
      omega
    have hva := ha.valueCount_eq (by omega)
    have hvb := hb2.valueCount_eq (by omega)
    have hwrap : wrapInt32 (a.valueCount + b.valueCount) = a.valueCount + b.valueCount :=
      wrapInt32_of_inInt32 (by unfold InInt32; omega)
    rcases HCNode.mkNode_cases a b s2 with ⟨hlt, hm⟩ | ⟨hge, hm⟩
    · rw [hm, HCNode.node.injEq] at heq
      obtain ⟨rfl, rfl, _, rfl, _, _⟩ := heq
      rw [hwrap]
      constructor <;> omega
    · rw [hm, HCNode.node.injEq] at heq
      obtain ⟨rfl, rfl, _, rfl, _, _⟩ := heq
      rw [hwrap]
      constructor <;> omega

end Reghievis

/-! ## Properties of the clustering constructor -/

namespace Reghievis

theorem exampleSimilarity_unit (a b : Int) :
    Float32.zero ≤ exampleSimilarity a b ∧ exampleSimilarity a b ≤ Float32.one := by
  unfold exampleSimilarity
  split_ifs <;> exact ⟨by decide, by decide⟩

theorem exampleSimilarity_symm (a b : Int) : exampleSimilarity a b = exampleSimilarity b a := by
  unfold exampleSimilarity
  by_cases h1 : a = b
  · subst h1; rfl
  · have h2 : ¬ b = a := fun h => h1 h.symm
    by_cases h3 : a % 2 = b % 2
    · simp [h1, h2, h3]
    · have h4 : ¬ b % 2 = a % 2 := fun h => h3 h.symm
      simp [h1, h2, h3, h4]

theorem count_cast_range (N i : Nat) (hi : i < N) :
    ((List.range N).map (fun (k : Nat) => (k : Int))).count (i : Int) = 1 := by
  apply List.count_eq_one_of_mem
  · exact (List.nodup_range N).map (fun a b h => by simpa using h)
  · exact List.mem_map.mpr ⟨i, List.mem_range.mpr hi, rfl⟩

/-- C1. For every run count `N ≥ 1` (an `int32_t`) and every similarity function whose values
lie in `[0,1]`, the clustering constructor returns a root with `valueCount == N` whose leaf
values `values()` are a permutation of `0, …, N-1`: every run index is a leaf exactly once. -/
theorem C1_cluster_leaves_are_all_runs (N : Nat) (sim : Int → Int → Float32) (hN : 1 ≤ N)
    (hfit : N < 2147483648)
    (h01 : ∀ a b, Float32.zero ≤ sim a b ∧ sim a b ≤ Float32.one) :
    ∃ root, HCNode.cluster N sim = some root ∧ root.valueCount = (N : Int) ∧
      root.values.Perm ((List.range N).map (fun (i : Nat) => (i : Int))) ∧
      ∀ i : Nat, i < N → root.values.count (i : Int) = 1 := by
  obtain ⟨root, _, _, hroot, hinv⟩ :=
    cluster_exists sim N hN (unit_interval_above_lowest h01)
  obtain ⟨hb, hp, hl⟩ := activeInv_singleton hinv
  refine ⟨root, hroot, ?_, hp, ?_⟩
  · rw [hb.valueCount_eq (by omega), hl]
  · intro i hi
    rw [hp.count_eq]
    exact count_cast_range N i hi

theorem C1_cluster_leaves_are_all_runs_witness :
    (1 ≤ 3 ∧ 3 < 2147483648 ∧
      ∀ a b, Float32.zero ≤ exampleSimilarity a b ∧ exampleSimilarity a b ≤ Float32.one) ∧
    ∃ root, HCNode.cluster 3 exampleSimilarity = some root ∧ root.valueCount = ((3 : Nat) : Int) ∧
      root.values.Perm ((List.range 3).map (fun (i : Nat) => (i : Int))) ∧
      ∀ i : Nat, i < 3 → root.values.count (i : Int) = 1 :=
  ⟨⟨by decide, by decide, exampleSimilarity_unit⟩,
    C1_cluster_leaves_are_all_runs 3 exampleSimilarity (by decide) (by decide)
      exampleSimilarity_unit⟩

/-- C4. In a dendrogram made by the leaf and internal-node constructors, or returned by the
clustering constructor, whose leaf count fits `int32_t`, every internal node has
`valueCount == left.valueCount + right.valueCount` and `left.valueCount >= right.valueCount`. -/
theorem C4_internal_node_value_counts (t : HCNode)
    (hbuilt : HCNode.Built t ∨ ∃ N sim, HCNode.cluster N sim = some t)
    (hfit : t.leafCount < 2147483648) (l r : HCNode) (s : Float32) (vc w h : Int)
    (hmem : HCNode.node l r s vc w h ∈ t.subtrees) :
    vc = l.valueCount + r.valueCount ∧ l.valueCount ≥ r.valueCount := by
  have hb : HCNode.Built t := by
    rcases hbuilt with hb | ⟨N, sim, hc⟩
    · exact hb
    · exact (activeInv_singleton (cluster_activeInv sim N t hc)).1
  exact built_node_counts t hb hfit l r s vc w h hmem

theorem C4_internal_node_value_counts_witness :
    (HCNode.Built exampleTree ∧ exampleTree.leafCount < 2147483648 ∧
      HCNode.node (HCNode.node (HCNode.leaf 1) (HCNode.leaf 2) Float32.half 2 1 2)
          (HCNode.leaf 0) Float32.quarter 3 1 3 ∈ exampleTree.subtrees) ∧
    ((3 : Int) = (HCNode.node (HCNode.leaf 1) (HCNode.leaf 2) Float32.half 2 1 2).valueCount
        + (HCNode.leaf 0).valueCount ∧
      (HCNode.node (HCNode.leaf 1) (HCNode.leaf 2) Float32.half 2 1 2).valueCount
        ≥ (HCNode.leaf 0).valueCount) :=
  ⟨⟨HCNode.Built.node Float32.quarter (HCNode.Built.leaf 0)
      (HCNode.Built.node Float32.half (HCNode.Built.leaf 1) (HCNode.Built.leaf 2)),
    by decide, by decide⟩,
    C4_internal_node_value_counts exampleTree
      (Or.inl (HCNode.Built.node Float32.quarter (HCNode.Built.leaf 0)
        (HCNode.Built.node Float32.half (HCNode.Built.leaf 1) (HCNode.Built.leaf 2))))
      (by decide) (HCNode.node (HCNode.leaf 1) (HCNode.leaf 2) Float32.half 2 1 2)
      (HCNode.leaf 0) Float32.quarter 3 1 3 (by decide)⟩

/-- C5. For every `N ≥ 1` and similarity function with values in `[0,1]` the merge loop
terminates: each iteration leaves one active node fewer, after `k < N` merges `N - k` nodes
are active, so the loop runs exactly `N - 1` iterations (any fuel from `N - 1` on gives the same
result) and ends with exactly one active node, which the constructor returns as the root, a
tree with `N` leaves and `N - 1` internal nodes. -/
theorem C5_merge_loop_terminates (N : Nat) (sim : Int → Int → Float32) (hN : 1 ≤ N)
    (h01 : ∀ a b, Float32.zero ≤ sim a b ∧ sim a b ≤ Float32.one) :
    (∀ nodes merged, mergeStep sim nodes = some merged →
      merged.length + 1 = nodes.length) ∧
    (∀ k, k < N → ∃ active, mergeSteps sim k (initialNodes N) = some active ∧
      active.length = N - k) ∧
    ∃ root, mergeSteps sim (N - 1) (initialNodes N) = some [root] ∧
      (∀ fuel, N - 1 ≤ fuel → mergeLoop sim fuel (initialNodes N) = some [root]) ∧
      HCNode.cluster N sim = some root ∧ root.leafCount = N ∧ root.internalCount = N - 1 := by
  have hlow := unit_interval_above_lowest h01
  refine ⟨mergeStep_length sim, ?_, ?_⟩
  · intro k hk
    obtain ⟨out, hout, hlen⟩ := mergeSteps_succeeds sim N k (initialNodes N)
      (initialNodes_activeInv N) hlow (by rw [initialNodes_length]; exact hk)
    exact ⟨out, hout, by rw [hlen, initialNodes_length]⟩
  · obtain ⟨root, hsteps, hloop, hroot, hinv⟩ := cluster_exists sim N hN hlow
    obtain ⟨hb, _, hl⟩ := activeInv_singleton hinv
    have hi := hb.internalCount_eq
    exact ⟨root, hsteps, hloop, hroot, hl, by omega⟩

theorem C5_merge_loop_terminates_witness :
    (1 ≤ 3 ∧
      ∀ a b, Float32.zero ≤ exampleSimilarity a b ∧ exampleSimilarity a b ≤ Float32.one) ∧
    ((∀ nodes merged, mergeStep exampleSimilarity nodes = some merged →
      merged.length + 1 = nodes.length) ∧
    (∀ k, k < 3 → ∃ active, mergeSteps exampleSimilarity k (initialNodes 3) = some active ∧
      active.length = 3 - k) ∧
    ∃ root, mergeSteps exampleSimilarity (3 - 1) (initialNodes 3) = some [root] ∧
      (∀ fuel, 3 - 1 ≤ fuel → mergeLoop exampleSimilarity fuel (initialNodes 3) = some [root]) ∧
      HCNode.cluster 3 exampleSimilarity = some root ∧ root.leafCount = 3 ∧
      root.internalCount = 3 - 1) :=
  ⟨⟨by decide, exampleSimilarity_unit⟩,
    C5_merge_loop_terminates 3 exampleSimilarity (by decide) exampleSimilarity_unit⟩

end Reghievis

/-! ## Reading back what was written -/

namespace Reghievis

theorem leBytes_length (n x : Nat) : (leBytes n x).length = n := by
  induction n generalizing x with
  | zero => rfl
  | succ n ih => simp [leBytes, ih]

theorem ofLeBytes_leBytes (n x : Nat) : ofLeBytes (leBytes n x) = x % 256 ^ n := by
  induction n generalizing x with
  | zero => simp [leBytes, ofLeBytes, Nat.mod_one]
  | succ n ih =>
    simp only [leBytes, ofLeBytes, ih]
    rw [Nat.pow_succ, Nat.mul_comm (256 ^ n) 256, Nat.mod_mul]

theorem readBytes_append (n : Nat) (bytes rest : List Nat) (h : bytes.length = n) :
    readBytes n (bytes ++ rest) = some (bytes, rest) := by
  unfold readBytes
  rw [if_pos (by rw [List.length_append]; omega)]
  subst h
  simp

theorem encodeInt32_length (x : Int) : (encodeInt32 x).length = 4 := leBytes_length _ _

theorem decodeInt32_encodeInt32 (x : Int) (h : InInt32 x) :
    decodeInt32 (encodeInt32 x) = x := by
  unfold decodeInt32 encodeInt32
  rw [ofLeBytes_leBytes]
  unfold InInt32 at h
  unfold wrapInt32
  have h256 : (256 : Nat) ^ 4 = 4294967296 := by norm_num
  rw [h256]
  omega

theorem readInt32_append (x : Int) (h : InInt32 x) (rest : List Nat) :
    readInt32 (encodeInt32 x ++ rest) = some (x, rest) := by
  unfold readInt32
  rw [readBytes_append 4 _ _ (encodeInt32_length x)]
  simp [decodeInt32_encodeInt32 x h]

theorem encodeSize_length (n : Nat) : (encodeSize n).length = 8 := leBytes_length _ _

theorem readSize_append (n : Nat) (h : n < 18446744073709551616) (rest : List Nat) :
    readSize (encodeSize n ++ rest) = some (n, rest) := by
  unfold readSize
  rw [readBytes_append 8 _ _ (encodeSize_length n)]
  unfold encodeSize
  simp only [Option.map_some', ofLeBytes_leBytes]
  have h256 : (256 : Nat) ^ 8 = 18446744073709551616 := by norm_num
  rw [h256, Nat.mod_eq_of_lt h]

theorem Float32.bits_lt (f : Float32) : f.bits < 4294967296 := by
  have h1 := f.lo
  have h2 := f.hi
  unfold Float32.bits
  split <;> omega

theorem Float32.ofBits_bits (f : Float32) : Float32.ofBits f.bits = some f := by
  have h1 := f.lo
  have h2 := f.hi
  unfold Float32.bits
  by_cases hk : 0 ≤ f.key
  · rw [if_pos hk]
    unfold Float32.ofBits
    rw [dif_pos (by omega), if_pos (by omega)]
    congr 1
    apply Float32.eq_of_key
    simp only
    omega
  · rw [if_neg hk]
    unfold Float32.ofBits
    rw [dif_pos (by omega), if_neg (by omega)]
    congr 1
    apply Float32.eq_of_key
    simp only
    omega

theorem encodeFloat_length (f : Float32) : (encodeFloat f).length = 4 := leBytes_length _ _

theorem readFloat_append (f : Float32) (rest : List Nat) :
    readFloat (encodeFloat f ++ rest) = some (f, rest) := by
  unfold readFloat
  rw [readBytes_append 4 _ _ (encodeFloat_length f)]
  unfold encodeFloat
  simp only [Option.some_bind, ofLeBytes_leBytes]
  have h256 : (256 : Nat) ^ 4 = 4294967296 := by norm_num
  rw [h256, Nat.mod_eq_of_lt f.bits_lt, Float32.ofBits_bits]
  rfl

end Reghievis

namespace Reghievis

theorem HCNode.beq_refl_node (t : HCNode) : t.beq t = true := by
  induction t with
  | empty => rfl
  | leaf v => simp [HCNode.beq]
  | node l r s vc w h ihl ihr => simp [HCNode.beq, ihl, ihr]

theorem HCNode.size_pos (t : HCNode) : 1 ≤ t.size := by
  cases t <;> simp only [HCNode.size] <;> omega

/-- A storable tree is written, and the stream constructor reads the same tree back and stops
right after its bytes. -/
theorem HCNode.Storable.roundtrip (t : HCNode) (hs : t.Storable) :
    ∃ bytes, t.save = some bytes ∧ t.size ≤ bytes.length ∧
      ∀ fuel rest, t.size ≤ fuel → HCNode.loadAux fuel (bytes ++ rest) = some (t, rest) := by
  induction t with
  | empty => exact absurd hs (by simp [HCNode.Storable])
  | leaf v =>
    simp only [HCNode.Storable] at hs
    refine ⟨encodeInt32 1 ++ encodeInt32 v, rfl, ?_, ?_⟩
    · simp [HCNode.size, encodeInt32_length]
    · intro fuel rest hf
      cases fuel with
      | zero => simp [HCNode.size] at hf
      | succ fuel =>
        simp only [HCNode.loadAux, List.append_assoc]
        rw [readInt32_append 1 (by decide)]
        simp only [one_ne_zero, if_false, if_true]
        rw [readInt32_append v hs]
  | node l r s vc w h ihl ihr =>
    simp only [HCNode.Storable] at hs
    obtain ⟨hvc, hvc0, hvc1, hw, hh, hsl, hsr⟩ := hs
    obtain ⟨lb, hlb, hll, hlload⟩ := ihl hsl
    obtain ⟨rb, hrb, hrl, hrload⟩ := ihr hsr
    refine ⟨encodeInt32 vc ++ encodeFloat s ++ lb ++ rb, ?_, ?_, ?_⟩
    · simp [HCNode.save, hlb, hrb]
    · simp only [HCNode.size, List.length_append, encodeInt32_length, encodeFloat_length]
      omega
    · intro fuel rest hf
      cases fuel with
      | zero => simp [HCNode.size] at hf
      | succ fuel =>
        simp only [HCNode.size] at hf
        simp only [HCNode.loadAux, List.append_assoc]
        rw [readInt32_append vc hvc]
        simp only [hvc0, hvc1, if_false]
        rw [readFloat_append]
        simp only
        rw [hlload fuel (rb ++ rest) (by omega)]
        simp only
        rw [hrload fuel rest (by omega)]
        simp only [← hw, ← hh]

theorem HCNode.Built.storable {t : HCNode} (hb : HCNode.Built t)
    (hfit : t.leafCount < 2147483648) (hv : ∀ v ∈ t.values, InInt32 v) : t.Storable := by
  induction hb with
  | leaf v => exact hv v (by simp [HCNode.values])
  | @node a b s ha hb2 iha ihb =>
    rw [HCNode.mkNode_leafCount] at hfit
    have hva := ha.valueCount_eq (by omega)
    have hvb := hb2.valueCount_eq (by omega)
    have hpa := ha.leafCount_pos
    have hpb := hb2.leafCount_pos
    have hperm := HCNode.mkNode_values_perm a b s
    have hvals : ∀ v ∈ a.values ++ b.values, InInt32 v :=
      fun v hmem => hv v (hperm.symm.subset hmem)
    have hsa := iha (by omega) (fun v hm => hvals v (List.mem_append_left _ hm))
    have hsb := ihb (by omega) (fun v hm => hvals v (List.mem_append_right _ hm))
    have hwrap : wrapInt32 (a.valueCount + b.valueCount) = a.valueCount + b.valueCount :=
      wrapInt32_of_inInt32 (by unfold InInt32; omega)
    rcases HCNode.mkNode_cases a b s with ⟨_, hm⟩ | ⟨_, hm⟩
    · rw [hm]
      simp only [HCNode.Storable, hwrap]
      exact ⟨by unfold InInt32; omega, by omega, by omega, trivial, trivial, hsb, hsa⟩
    · rw [hm]
      simp only [HCNode.Storable, hwrap]
      exact ⟨by unfold InInt32; omega, by omega, by omega, trivial, trivial, hsa, hsb⟩

theorem cluster_storable (sim : Int → Int → Float32) (count : Nat) (root : HCNode)
    (hfit : count < 2147483648) (h : HCNode.cluster count sim = some root) :
    root.Storable := by
  obtain ⟨hb, hp, hl⟩ := activeInv_singleton (cluster_activeInv sim count root h)
  refine hb.storable (by omega) ?_
  intro v hmem
  have := hp.subset hmem
  simp only [List.mem_map, List.mem_range] at this
  obtain ⟨i, hi, rfl⟩ := this
  unfold InInt32
  omega

theorem HCNode.Storable.load_save (t : HCNode) (hs : t.Storable) :
    ∃ bytes, t.save = some bytes ∧
      ∀ rest, HCNode.load (bytes ++ rest) = some (t, rest) := by
  obtain ⟨bytes, hsave, hlen, hload⟩ := hs.roundtrip
  refine ⟨bytes, hsave, fun rest => ?_⟩
  unfold HCNode.load
  exact hload _ rest (by rw [List.length_append]; omega)

/-- C6. For every dendrogram `t` the clustering constructor returns (for a run count that is an
`int32_t`), `t.save` writes a byte sequence, and the stream constructor applied to a stream
that starts with these bytes reads a dendrogram that is equal to `t` under
`HCNode::operator==` (it is the same tree, node for node) and leaves exactly the bytes that
follow them. -/
theorem C6_dendrogram_save_load (N : Nat) (sim : Int → Int → Float32) (t : HCNode)
    (hfit : N < 2147483648) (ht : HCNode.cluster N sim = some t) :
    ∃ bytes, t.save = some bytes ∧
      ∀ rest, ∃ loaded, HCNode.load (bytes ++ rest) = some (loaded, rest) ∧
        t.beq loaded = true ∧ loaded = t := by
  obtain ⟨bytes, hsave, hload⟩ := (cluster_storable sim N t hfit ht).load_save
  exact ⟨bytes, hsave, fun rest => ⟨t, hload rest, t.beq_refl_node, rfl⟩⟩

theorem C6_dendrogram_save_load_witness :
    (3 < 2147483648 ∧
      HCNode.cluster 3 exampleSimilarity = some
        (HCNode.node (HCNode.node (HCNode.leaf 0) (HCNode.leaf 2) Float32.half 2 1 2)
          (HCNode.leaf 1) Float32.quarter 3 1 3)) ∧
    ∃ bytes,
      (HCNode.node (HCNode.node (HCNode.leaf 0) (HCNode.leaf 2) Float32.half 2 1 2)
          (HCNode.leaf 1) Float32.quarter 3 1 3).save = some bytes ∧
      ∀ rest, ∃ loaded, HCNode.load (bytes ++ rest) = some (loaded, rest) ∧
        (HCNode.node (HCNode.node (HCNode.leaf 0) (HCNode.leaf 2) Float32.half 2 1 2)
          (HCNode.leaf 1) Float32.quarter 3 1 3).beq loaded = true ∧
        loaded = HCNode.node (HCNode.node (HCNode.leaf 0) (HCNode.leaf 2) Float32.half 2 1 2)
          (HCNode.leaf 1) Float32.quarter 3 1 3 :=
  ⟨⟨by decide, by decide⟩,
    C6_dendrogram_save_load 3 exampleSimilarity _ (by decide) (by decide)⟩

end Reghievis

/-! ## Grid persistence -/

namespace Reghievis

theorem floatCodec_lawful : floatCodec.Lawful := by
  intro v
  refine ⟨encodeFloat_length v, ?_⟩
  simp only [floatCodec, encodeFloat, ofLeBytes_leBytes]
  have h256 : (256 : Nat) ^ 4 = 4294967296 := by norm_num
  rw [h256, Nat.mod_eq_of_lt v.bits_lt, Float32.ofBits_bits]

namespace Volume

variable {T : Type}

theorem readString_append (name rest : List Nat) (h : name.length < 18446744073709551616) :
    readString (encodeString name ++ rest) = some (name, rest) := by
  unfold readString encodeString
  rw [List.append_assoc, readSize_append _ h]
  exact readBytes_append _ _ _ rfl

theorem readVec3i_append (d : Vec3i) (rest : List Nat) (hx : InInt32 d.x) (hy : InInt32 d.y)
    (hz : InInt32 d.z) : readVec3i (encodeVec3i d ++ rest) = some (d, rest) := by
  unfold readVec3i encodeVec3i
  simp only [List.append_assoc]
  rw [readInt32_append _ hx]
  simp only
  rw [readInt32_append _ hy]
  simp only
  rw [readInt32_append _ hz]

theorem readElement_append (c : Codec T) (hc : c.Lawful) (v : T) (rest : List Nat) :
    readElement c (c.encode v ++ rest) = some (v, rest) := by
  unfold readElement
  rw [readBytes_append _ _ _ (hc v).1]
  simp [(hc v).2]

theorem readElements_append (c : Codec T) (hc : c.Lawful) (vs : List T) (rest : List Nat) :
    readElements c vs.length (vs.flatMap c.encode ++ rest) = some (vs, rest) := by
  induction vs with
  | nil => rfl
  | cons v vs ih =>
    simp only [List.length_cons, readElements, List.flatMap_cons, List.append_assoc]
    rw [readElement_append c hc]
    simp only
    rw [ih]

theorem readVector_append (c : Codec T) (hc : c.Lawful) (vs : List T) (rest : List Nat)
    (h : vs.length < 18446744073709551616) :
    readVector c (encodeVector c vs ++ rest) = some (vs, rest) := by
  unfold readVector encodeVector
  rw [List.append_assoc, readSize_append _ h]
  exact readElements_append c hc vs rest

/-- Reading back the bytes of a volume gives its name, dimensions, values and cached range,
with the cache marked valid. -/
theorem load_encode (c : Codec T) (hc : c.Lawful) (v : Volume T) (henc : v.Encodable)
    (rest : List Nat) :
    load c (encode c v ++ rest)
      = some (⟨v.name, v.dimensions, v.values, v.domain, true⟩, rest) := by
  obtain ⟨hx, hy, hz, hn, hv⟩ := henc
  unfold load encode
  simp only [List.append_assoc]
  rw [readString_append _ _ hn]
  simp only
  rw [readVec3i_append _ _ hx hy hz]
  simp only
  rw [readVector_append c hc _ _ hv]
  simp only
  rw [readElement_append c hc]
  simp only
  rw [readElement_append c hc]

theorem valuesEqual_refl [DecidableEq T] (vs : List T) : valuesEqual vs vs = true := by
  induction vs with
  | nil => rfl
  | cons v vs ih => simp [valuesEqual, ih]

theorem beq_of_eq [DecidableEq T] (a b : Volume T) (hn : a.name = b.name)
    (hd : a.dimensions = b.dimensions) (hv : a.values = b.values) (hdom : a.domain = b.domain) :
    a.beq b = true := by
  unfold beq
  simp [hn, hd, hv, hdom, valuesEqual_refl]

theorem minmaxElement_isSome [LinearOrder T] (vs : List T) (h : vs ≠ []) :
    ∃ d, minmaxElement vs = some d := by
  cases vs with
  | nil => exact absurd rfl h
  | cons v vs => exact ⟨_, rfl⟩

/-- On a non-empty volume `domain()` succeeds and changes nothing but the cache. -/
theorem getDomain_spec [LinearOrder T] (v : Volume T) (h : v.values ≠ []) :
    ∃ d cached, v.getDomain = some (d, cached) ∧ cached.name = v.name ∧
      cached.dimensions = v.dimensions ∧ cached.values = v.values ∧ cached.domain = d ∧
      cached.domainValid = true ∧ (v.domainValid = true → cached = v) := by
  unfold getDomain
  by_cases hv : v.domainValid = true
  · rw [if_pos hv]
    exact ⟨v.domain, v, rfl, rfl, rfl, rfl, rfl, hv, fun _ => rfl⟩
  · rw [if_neg hv]
    obtain ⟨d, hd⟩ := minmaxElement_isSome v.values h
    rw [hd]
    exact ⟨d, _, rfl, rfl, rfl, rfl, rfl, rfl, fun h2 => absurd h2 hv⟩

/-- Saving a non-empty volume and reading the bytes back. -/
theorem save_load_volume [LinearOrder T] (c : Codec T) (hc : c.Lawful) (v : Volume T)
    (hne : v.values ≠ []) (henc : v.Encodable) :
    ∃ bytes saved, v.save c = some (bytes, saved) ∧ saved.name = v.name ∧
      saved.dimensions = v.dimensions ∧ saved.values = v.values ∧
      saved.domainValid = true ∧
      ∀ rest, load c (bytes ++ rest) = some (saved, rest) := by
  obtain ⟨d, cached, hdom, hn, hd, hv, _, hvalid, _⟩ := getDomain_spec v hne
  refine ⟨encode c cached, cached, ?_, hn, hd, hv, hvalid, ?_⟩
  · unfold save
    rw [hdom]
  · intro rest
    rw [load_encode c hc cached (by
      unfold Encodable at henc ⊢
      rw [hn, hd, hv]
      exact henc)]
    congr 2
    cases cached
    simp_all

end Volume

end Reghievis

/-! ## Field persistence -/

namespace Reghievis

theorem vec3fCodec_lawful : vec3fCodec.Lawful := by
  intro v
  constructor
  · simp [vec3fCodec, encodeFloat_length]
  · simp only [vec3fCodec, List.append_assoc]
    rw [readFloat_append]
    simp only
    rw [readFloat_append]
    simp only
    have h := readFloat_append v.z []
    rw [List.append_nil] at h
    rw [h]

theorem Derived.ofInt_toInt_derived (k : Derived) : Derived.ofInt k.toInt = some k := by
  cases k <;> rfl

theorem Derived.toInt_inInt32_derived (k : Derived) : InInt32 k.toInt := by
  cases k <;> decide

theorem Derived.toInt_injective {a b : Derived} (h : a.toInt = b.toInt) : a = b := by
  have := congrArg Derived.ofInt h
  rw [Derived.ofInt_toInt_derived, Derived.ofInt_toInt_derived] at this
  exact Option.some.inj this

theorem Similarity.ofInt_toInt_similarity (k : Similarity) : Similarity.ofInt k.toInt = some k := by
  cases k <;> rfl

theorem Similarity.toInt_inInt32_similarity (k : Similarity) : InInt32 k.toInt := by
  cases k <;> decide

theorem mapAssign_append {K V : Type} (rank : K → Int) (m : List (K × V)) (key : K) (value : V)
    (h : ∀ e ∈ m, rank e.1 < rank key) : mapAssign rank m key value = m ++ [(key, value)] := by
  induction m with
  | nil => rfl
  | cons e m ih =>
    obtain ⟨k, v⟩ := e
    have hk : rank k < rank key := h (k, v) (List.mem_cons_self _ _)
    simp only [mapAssign]
    rw [if_neg (by omega), if_neg (by omega), ih (fun e he => h e (List.mem_cons_of_mem _ he))]
    rfl

theorem mapEqual_refl {K V : Type} [DecidableEq K] (valueEq : V → V → Bool)
    (m : List (K × V)) (h : ∀ e ∈ m, valueEq e.2 e.2 = true) : mapEqual valueEq m m = true := by
  induction m with
  | nil => rfl
  | cons e m ih =>
    obtain ⟨k, v⟩ := e
    have hv : valueEq v v = true := h (k, v) (List.mem_cons_self _ _)
    simp only [mapEqual, ne_eq, not_true_eq_false, if_false, hv, Bool.not_true,
      Bool.false_eq_true]
    exact ih (fun e he => h e (List.mem_cons_of_mem _ he))

theorem Volume.beq_refl_volume {T : Type} [DecidableEq T] (v : Volume T) : v.beq v = true :=
  Volume.beq_of_eq v v rfl rfl rfl rfl

theorem Field.volumesEqual_refl (vs : List (Volume Float32)) :
    Field.volumesEqual vs vs = true := by
  induction vs with
  | nil => rfl
  | cons v vs ih => simp [Field.volumesEqual, Volume.beq_refl_volume, ih]

/-- The member volumes are written and read back as `save` leaves them. -/
theorem Field.saveVolumes_load (vs : List (Volume Float32))
    (h : ∀ v ∈ vs, v.values ≠ [] ∧ v.Encodable) :
    ∃ bytes saved, Field.saveVolumes vs = some (bytes, saved) ∧ saved.length = vs.length ∧
      ∀ rest, Field.readVolumes vs.length (bytes ++ rest) = some (saved, rest) := by
  induction vs with
  | nil => exact ⟨[], [], rfl, rfl, fun rest => rfl⟩
  | cons v vs ih =>
    obtain ⟨hne, henc⟩ := h v (List.mem_cons_self _ _)
    obtain ⟨b1, s1, hsave, _, _, _, _, hload⟩ :=
      Volume.save_load_volume floatCodec floatCodec_lawful v hne henc
    obtain ⟨b2, s2, hsave2, hlen2, hload2⟩ := ih (fun w hw => h w (List.mem_cons_of_mem _ hw))
    refine ⟨b1 ++ b2, s1 :: s2, ?_, by simp [hlen2], ?_⟩
    · simp [Field.saveVolumes, hsave, hsave2]
    · intro rest
      simp only [List.length_cons, Field.readVolumes, List.append_assoc]
      rw [hload]
      simp only
      rw [hload2]

end Reghievis

namespace Reghievis

/-- The derived cache is written and read back entry by entry; reading appends the entries to
a cache whose keys are all smaller, and sets the vector gradient volume when the
`eGradientMagnitude` entry is among them. -/
theorem Field.saveDerived_load (grad : Volume Vec3f) (hg : grad.Encodable)
    (es : List (Derived × Volume Float32))
    (h : ∀ e ∈ es, e.2.values ≠ [] ∧ e.2.Encodable) :
    ∃ bytes saved, Field.saveDerived grad es = some (bytes, saved) ∧
      saved.length = es.length ∧
      ∀ (f : Field) (rest : List Nat),
        (f.derivedVolumes.map (fun e => e.1.toInt) ++ es.map (fun e => e.1.toInt)).Pairwise
          (fun a b => a < b) →
        Field.readDerived es.length f (bytes ++ rest) =
          some ({ f with
            derivedVolumes := f.derivedVolumes ++ saved
            volumeGradient :=
              if es.any (fun e => decide (e.1 = Derived.eGradientMagnitude)) then
                ⟨grad.name, grad.dimensions, grad.values, grad.domain, true⟩
              else f.volumeGradient }, rest) := by
  induction es with
  | nil =>
    refine ⟨[], [], rfl, rfl, ?_⟩
    intro f rest _
    simp [Field.readDerived]
  | cons e es ih =>
    obtain ⟨k, v⟩ := e
    obtain ⟨hne, henc⟩ := h (k, v) (List.mem_cons_self _ _)
    obtain ⟨b1, s1, hsave, _, _, _, _, hload⟩ :=
      Volume.save_load_volume floatCodec floatCodec_lawful v hne henc
    obtain ⟨b2, s2, hsave2, hlen2, hload2⟩ := ih (fun w hw => h w (List.mem_cons_of_mem _ hw))
    refine ⟨encodeInt32 k.toInt ++ b1 ++
        (if k = Derived.eGradientMagnitude then Volume.saveRaw vec3fCodec grad else []) ++ b2,
      (k, s1) :: s2, by simp only [Field.saveDerived, hsave, hsave2], by simp [hlen2], ?_⟩
    intro f rest hpw
    have hlt : ∀ e ∈ f.derivedVolumes, e.1.toInt < k.toInt := by
      intro e he
      have := (List.pairwise_append.mp hpw).2.2 e.1.toInt
        (List.mem_map.mpr ⟨e, he, rfl⟩) k.toInt (by simp)
      exact this
    have hassign : f.assignDerived k s1
        = { f with derivedVolumes := f.derivedVolumes ++ [(k, s1)] } := by
      unfold Field.assignDerived
      rw [mapAssign_append _ _ _ _ hlt]
    have hpw2 : ∀ (g : Field), g.derivedVolumes = f.derivedVolumes ++ [(k, s1)] →
        (g.derivedVolumes.map (fun e => e.1.toInt) ++ es.map (fun e => e.1.toInt)).Pairwise
          (fun a b => a < b) := by
      intro g hgd
      rw [hgd]
      simpa using hpw
    simp only [List.length_cons, Field.readDerived, List.append_assoc]
    rw [readInt32_append _ (Derived.toInt_inInt32_derived k)]
    simp only [Derived.ofInt_toInt_derived]
    rw [hload]
    simp only
    by_cases hk : k = Derived.eGradientMagnitude
    · subst hk
      simp only [if_true]
      unfold Volume.saveRaw
      rw [Volume.load_encode vec3fCodec vec3fCodec_lawful grad hg]
      simp only
      rw [hload2 _ rest (hpw2 _ (by rw [hassign]))]
      rw [hassign]
      simp
    · simp only [hk, if_false, List.nil_append]
      rw [hload2 _ rest (hpw2 _ (by rw [hassign]))]
      rw [hassign]
      simp only [List.any_cons, Bool.or_eq_true, decide_eq_true_eq, hk, false_or, List.cons_append,
        List.append_assoc, List.nil_append]

/-- The similarity cache is written and read back entry by entry. -/
theorem Field.saveSimilarities_load (es : List (Similarity × Volume Float32 × HCNode))
    (h : ∀ e ∈ es, e.2.1.values ≠ [] ∧ e.2.1.Encodable ∧ e.2.2.Storable) :
    ∃ bytes saved, Field.saveSimilarities es = some (bytes, saved) ∧
      saved.length = es.length ∧
      ∀ (f : Field) (rest : List Nat),
        (f.similarities.map (fun e => e.1.toInt) ++ es.map (fun e => e.1.toInt)).Pairwise
          (fun a b => a < b) →
        Field.readSimilarities es.length f (bytes ++ rest) =
          some ({ f with similarities := f.similarities ++ saved }, rest) := by
  induction es with
  | nil =>
    refine ⟨[], [], rfl, rfl, ?_⟩
    intro f rest _
    simp [Field.readSimilarities]
  | cons e es ih =>
    obtain ⟨k, m, root⟩ := e
    obtain ⟨hne, henc, hst⟩ := h (k, m, root) (List.mem_cons_self _ _)
    obtain ⟨b1, s1, hsave, _, _, _, _, hload⟩ :=
      Volume.save_load_volume floatCodec floatCodec_lawful m hne henc
    obtain ⟨rb, hrsave, hrload⟩ := hst.load_save
    obtain ⟨b2, s2, hsave2, hlen2, hload2⟩ := ih (fun w hw => h w (List.mem_cons_of_mem _ hw))
    refine ⟨encodeInt32 k.toInt ++ b1 ++ rb ++ b2, (k, s1, root) :: s2,
      by simp only [Field.saveSimilarities, hsave, hrsave, hsave2], by simp [hlen2], ?_⟩
    intro f rest hpw
    have hlt : ∀ e ∈ f.similarities, e.1.toInt < k.toInt := by
      intro e he
      have := (List.pairwise_append.mp hpw).2.2 e.1.toInt
        (List.mem_map.mpr ⟨e, he, rfl⟩) k.toInt (by simp)
      exact this
    have hassign : f.assignSimilarity k (s1, root)
        = { f with similarities := f.similarities ++ [(k, s1, root)] } := by
      unfold Field.assignSimilarity
      rw [mapAssign_append _ _ _ _ hlt]
    simp only [List.length_cons, Field.readSimilarities, List.append_assoc]
    rw [readInt32_append _ (Similarity.toInt_inInt32_similarity k)]
    simp only [Similarity.ofInt_toInt_similarity]
    rw [hload]
    simp only
    rw [hrload]
    simp only
    rw [hload2 _ rest (by rw [hassign]; simpa using hpw)]
    rw [hassign]
    simp

end Reghievis

namespace Reghievis

/-- A field with both caches populated is written, read back into a fresh field, and compares
equal to the field as `save` left it. -/
theorem Field.save_load_field (f : Field) (hs : f.Storable) (hd : f.derivedVolumes ≠ [])
    (hsim : f.similarities ≠ []) :
    ∃ bytes saved, f.save = some (bytes, saved) ∧
      ∀ (ops : FieldComputations) (rest : List Nat),
        ∃ g, Field.load ops Field.empty (bytes ++ rest) = some (g, rest) ∧
          saved.compare g = true ∧ g.name = f.name ∧ g.volumes = saved.volumes ∧
          g.derivedVolumes = saved.derivedVolumes ∧ g.similarities = saved.similarities := by
  obtain ⟨vb, sv, hvsave, hvlen, hvload⟩ := Field.saveVolumes_load f.volumes hs.volumes
  obtain ⟨db, sd, hdsave, hdlen, hdload⟩ :=
    Field.saveDerived_load f.volumeGradient hs.gradient f.derivedVolumes hs.derived
  obtain ⟨sb, ss, hssave, hslen, hsload⟩ :=
    Field.saveSimilarities_load f.similarities hs.similarities
  refine ⟨Volume.encodeString f.name ++ encodeSize f.volumes.length ++ vb ++
      encodeSize f.derivedVolumes.length ++ db ++ encodeSize f.similarities.length ++ sb,
    { f with volumes := sv, derivedVolumes := sd, similarities := ss },
    by simp only [Field.save, hvsave, hdsave, hssave], ?_⟩
  intro ops rest
  have hdlen0 : f.derivedVolumes.length ≠ 0 := by
    intro h0; exact hd (List.length_eq_zero.mp h0)
  have hslen0 : f.similarities.length ≠ 0 := by
    intro h0; exact hsim (List.length_eq_zero.mp h0)
  simp only [Field.load, List.append_assoc]
  rw [Volume.readString_append _ _ hs.name]
  simp only
  rw [readSize_append _ hs.volumeCount]
  simp only
  rw [hvload]
  simp only
  rw [readSize_append _ hs.derivedCount]
  simp only [hdlen0, ne_eq, not_false_eq_true, if_true]
  rw [hdload _ _ (by simpa [Field.empty] using hs.derivedSorted)]
  simp only
  rw [readSize_append _ hs.similarityCount]
  simp only [hslen0, ne_eq, not_false_eq_true, if_true]
  rw [hsload _ _ (by simpa [Field.empty] using hs.similaritiesSorted)]
  refine ⟨_, rfl, ?_⟩
  have hgrad : f.volumeGradient.beq
      (if f.derivedVolumes.any (fun e => decide (e.1 = Derived.eGradientMagnitude)) then
        (⟨f.volumeGradient.name, f.volumeGradient.dimensions, f.volumeGradient.values,
          f.volumeGradient.domain, true⟩ : Volume Vec3f)
      else (Volume.empty : Volume Vec3f)) = true := by
    by_cases hany : f.derivedVolumes.any (fun e => decide (e.1 = Derived.eGradientMagnitude))
        = true
    · rw [if_pos hany]
      exact Volume.beq_of_eq _ _ rfl rfl rfl rfl
    · rw [if_neg hany]
      have hdef := hs.gradientDefault (by
        unfold Field.hasDerived
        exact Bool.eq_false_iff.mpr hany)
      rw [hdef]
      exact Volume.beq_refl_volume _
  have hmd : mapEqual Volume.beq sd sd = true :=
    mapEqual_refl _ _ (fun e _ => Volume.beq_refl_volume _)
  have hms : mapEqual (fun (p q : Volume Float32 × HCNode) => p.1.beq q.1 && p.2.beq q.2)
      ss ss = true :=
    mapEqual_refl _ _ (fun e _ => by simp [Volume.beq_refl_volume, HCNode.beq_refl_node])
  simp only [Field.compare, Field.empty, List.nil_append, ne_eq, not_true_eq_false, if_false,
    Field.volumesEqual_refl, hmd, hms, hgrad, Bool.not_true, Bool.false_eq_true, and_self]

end Reghievis

namespace Reghievis

theorem mapAssign_ne_nil {K V : Type} (rank : K → Int) (m : List (K × V)) (key : K)
    (value : V) : mapAssign rank m key value ≠ [] := by
  cases m with
  | nil => simp [mapAssign]
  | cons e m =>
    obtain ⟨k, v⟩ := e
    simp only [mapAssign]
    split_ifs <;> simp

theorem mapEqual_nil_left {K V : Type} [DecidableEq K] (valueEq : V → V → Bool)
    (m : List (K × V)) (h : m ≠ []) : mapEqual valueEq [] m = false := by
  cases m with
  | nil => exact absurd rfl h
  | cons e m => rfl

theorem Field.computeAndersonDarling_derived_ne_nil (ops : FieldComputations) (f : Field) :
    (Field.computeAndersonDarling ops f).derivedVolumes ≠ [] := by
  unfold Field.computeAndersonDarling Field.assignDerived
  exact mapAssign_ne_nil _ _ _ _

theorem Field.computeSimilarities_derived (ops : FieldComputations) (f : Field) :
    (Field.computePearsonSimilarity ops (Field.computeFieldSimilarity ops f)).derivedVolumes
      = f.derivedVolumes := rfl

theorem Field.computeSimilarities_volumes (ops : FieldComputations) (f : Field) :
    (Field.computePearsonSimilarity ops (Field.computeFieldSimilarity ops f)).volumes
      = f.volumes := rfl

theorem Field.assignDerived_volumes (f : Field) (key : Derived) (v : Volume Float32) :
    (f.assignDerived key v).volumes = f.volumes := rfl

theorem Field.ensureDerived_volumes (ops : FieldComputations) (f : Field) (key : Derived) :
    (f.ensureDerived ops key).volumes = f.volumes := by
  unfold Field.ensureDerived
  split
  · rfl
  · rfl

theorem Field.computeDerived_volumes (ops : FieldComputations) (f : Field) :
    (Field.computeAndersonDarling ops (Field.computeHistograms ops
      (Field.computePrincipalComponents ops (Field.computeGradient ops
        (Field.computeMeanStddev ops (Field.computeMinimumMaximum ops f)))))).volumes
      = f.volumes := by
  simp only [Field.computeAndersonDarling, Field.computeHistograms,
    Field.computePrincipalComponents, Field.computeGradient, Field.computeMeanStddev,
    Field.computeMinimumMaximum, Field.assignDerived_volumes, Field.ensureDerived_volumes]

/-- A field saved with both caches empty is read back with the caches recomputed, and then
does not compare equal to the field that was saved. -/
theorem Field.save_load_bare (f : Field) (hs : f.Storable) (hd : f.derivedVolumes = [])
    (hsim : f.similarities = []) :
    ∃ bytes saved, f.save = some (bytes, saved) ∧
      ∀ (ops : FieldComputations) (rest : List Nat),
        ∃ g, Field.load ops Field.empty (bytes ++ rest) = some (g, rest) ∧
          g.derivedVolumes ≠ [] ∧ saved.derivedVolumes = [] ∧ saved.compare g = false := by
  obtain ⟨vb, sv, hvsave, hvlen, hvload⟩ := Field.saveVolumes_load f.volumes hs.volumes
  refine ⟨Volume.encodeString f.name ++ encodeSize f.volumes.length ++ vb ++
      encodeSize 0 ++ [] ++ encodeSize 0 ++ [],
    { f with volumes := sv, derivedVolumes := [], similarities := [] },
    by simp only [Field.save, hvsave, hd, hsim, Field.saveDerived, Field.saveSimilarities,
      List.length_nil], ?_⟩
  intro ops rest
  have hload : Field.load ops Field.empty
      ((Volume.encodeString f.name ++ encodeSize f.volumes.length ++ vb ++
        encodeSize 0 ++ [] ++ encodeSize 0 ++ []) ++ rest)
      = some (Field.computePearsonSimilarity ops (Field.computeFieldSimilarity ops
        (Field.computeAndersonDarling ops (Field.computeHistograms ops
          (Field.computePrincipalComponents ops (Field.computeGradient ops
            (Field.computeMeanStddev ops (Field.computeMinimumMaximum ops
              { Field.empty with name := f.name, volumes := sv }))))))), rest) := by
    simp only [Field.load, List.append_assoc, List.nil_append]
    rw [Volume.readString_append _ _ hs.name]
    simp only
    rw [readSize_append _ hs.volumeCount]
    simp only
    rw [hvload]
    simp only
    rw [readSize_append 0 (by decide)]
    simp only [ne_eq, not_true_eq_false, if_false]
    rw [readSize_append 0 (by decide)]
    simp only [ne_eq, not_true_eq_false, if_false]
  refine ⟨_, hload, ?_, rfl, ?_⟩
  · rw [Field.computeSimilarities_derived]
    exact Field.computeAndersonDarling_derived_ne_nil ops _
  · have hne := Field.computeAndersonDarling_derived_ne_nil ops
      (Field.computeHistograms ops (Field.computePrincipalComponents ops
        (Field.computeGradient ops (Field.computeMeanStddev ops
          (Field.computeMinimumMaximum ops
            { Field.empty with name := f.name, volumes := sv })))))
    unfold Field.compare
    rw [Field.computeSimilarities_volumes, Field.computeDerived_volumes,
      Field.computeSimilarities_derived]
    simp only [ne_eq, not_true_eq_false, if_false, Field.volumesEqual_refl,
      Bool.not_true, Bool.false_eq_true, mapEqual_nil_left _ _ hne, Bool.not_false, if_true]

theorem exampleFieldBare_storable : exampleFieldBare.Storable := by
  constructor
  · decide
  · decide
  · intro v hv
    simp only [exampleFieldBare, exampleVolume, List.mem_cons, List.mem_singleton,
      List.not_mem_nil, or_false] at hv
    rcases hv with rfl | rfl
    · exact ⟨by decide, by unfold Volume.Encodable; decide⟩
    · exact ⟨by decide, by unfold Volume.Encodable; decide⟩
  · decide
  · intro e he
    simp [exampleFieldBare] at he
  · simp [exampleFieldBare]
  · decide
  · intro e he
    simp [exampleFieldBare] at he
  · simp [exampleFieldBare]
  · unfold Volume.Encodable
    decide
  · intro _
    rfl

end Reghievis

namespace Reghievis

theorem exampleFieldCached_storable : exampleFieldCached.Storable := by
  constructor
  · decide
  · decide
  · intro v hv
    simp only [exampleFieldCached, exampleVolume, List.mem_cons, List.mem_singleton,
      List.not_mem_nil, or_false] at hv
    rcases hv with rfl | rfl
    · exact ⟨by decide, by unfold Volume.Encodable; decide⟩
    · exact ⟨by decide, by unfold Volume.Encodable; decide⟩
  · decide
  · intro e he
    simp only [exampleFieldCached, List.mem_cons, List.mem_singleton,
      List.not_mem_nil, or_false] at he
    rcases he with rfl | rfl
    · exact ⟨by decide, by unfold Volume.Encodable; decide⟩
    · exact ⟨by decide, by unfold Volume.Encodable; decide⟩
  · simp [exampleFieldCached, Derived.toInt]
  · decide
  · intro e he
    simp only [exampleFieldCached, List.mem_singleton] at he
    subst he
    refine ⟨by decide, by unfold Volume.Encodable; decide, ?_⟩
    simp only [HCNode.Storable, HCNode.valueCount, HCNode.width, HCNode.height]
    decide
  · simp [exampleFieldCached]
  · unfold Volume.Encodable
    decide
  · intro h
    exact absurd h (by decide)

/-- C8 (as amended). For every field `f` all of whose stored `float` values are finite (the
grids and dendrograms of a `Field` hold `Float32` values: no NaN and no infinity), in a state
the program can write (see `Field.Storable`), whose derived-grid cache and similarity cache
both hold at least one entry at save time, `Field::load` on a fresh field applied to the bytes
written by `f.save` yields a field `g` with `f.compare( g ) == true`, holding the same run
grids, derived-grid entries and similarity entries; the rest of the stream is left
untouched.  (A grid that holds NaN does not compare equal to itself: see
`Volume.beqWith` and the grid `nanVolume`.) -/
theorem C8_field_save_load_populated (f : Field) (hs : f.Storable)
    (hd : f.derivedVolumes ≠ []) (hsim : f.similarities ≠ []) :
    ∃ bytes saved, f.save = some (bytes, saved) ∧
      ∀ (ops : FieldComputations) (rest : List Nat),
        ∃ g, Field.load ops Field.empty (bytes ++ rest) = some (g, rest) ∧
          saved.compare g = true ∧ g.name = f.name ∧ g.volumes = saved.volumes ∧
          g.derivedVolumes = saved.derivedVolumes ∧ g.similarities = saved.similarities :=
  Field.save_load_field f hs hd hsim

theorem C8_field_save_load_populated_witness :
    (exampleFieldCached.Storable ∧ exampleFieldCached.derivedVolumes ≠ [] ∧
      exampleFieldCached.similarities ≠ []) ∧
    ∃ bytes saved, exampleFieldCached.save = some (bytes, saved) ∧
      ∀ (ops : FieldComputations) (rest : List Nat),
        ∃ g, Field.load ops Field.empty (bytes ++ rest) = some (g, rest) ∧
          saved.compare g = true ∧ g.name = exampleFieldCached.name ∧
          g.volumes = saved.volumes ∧ g.derivedVolumes = saved.derivedVolumes ∧
          g.similarities = saved.similarities :=
  ⟨⟨exampleFieldCached_storable, List.cons_ne_nil _ _, List.cons_ne_nil _ _⟩,
    C8_field_save_load_populated exampleFieldCached exampleFieldCached_storable
      (List.cons_ne_nil _ _) (List.cons_ne_nil _ _)⟩

/-- C8 fails as stated: the field `exampleFieldBare` (two runs, nothing cached) is saved, and
`Field::load` applied to the bytes returns, whatever the numerical routines compute, a field
whose derived cache is not empty while the saved field's is; `compare` answers `false`. -/
theorem C8_field_save_load_counterexample :
    ∃ bytes saved, exampleFieldBare.save = some (bytes, saved) ∧
      ∀ (ops : FieldComputations) (rest : List Nat),
        ∃ g, Field.load ops Field.empty (bytes ++ rest) = some (g, rest) ∧
          g.derivedVolumes ≠ [] ∧ saved.derivedVolumes = [] ∧ saved.compare g = false :=
  Field.save_load_bare exampleFieldBare exampleFieldBare_storable rfl rfl

end Reghievis


/-! ## Similarity matrices -/

namespace Reghievis

theorem cell_index_inj {N p q i j : Nat} (hq : q < N) (hj : j < N)
    (h : q + N * p = j + N * i) : p = i ∧ q = j := by
  have hmod := congrArg (fun x => x % N) h
  simp only [Nat.add_mul_mod_self_left, Nat.mod_eq_of_lt hq, Nat.mod_eq_of_lt hj] at hmod
  subst hmod
  have hN : 0 < N := by omega
  have hmul : N * p = N * i := by omega
  exact ⟨Nat.eq_of_mul_eq_mul_left hN hmul, rfl⟩

theorem cell_index_lt {N i j : Nat} (hi : i < N) (hj : j < N) : j + N * i < N * N := by
  have h1 : N * (i + 1) ≤ N * N := Nat.mul_le_mul_left N hi
  rw [Nat.mul_add, Nat.mul_one] at h1
  omega

theorem Volume.voxelToIndex_matrix {T : Type} (m : Volume T) (N i j : Nat)
    (hdim : m.dimensions = ⟨(N : Int), (N : Int), 1⟩) (hfit : N * N < 2147483648)
    (hi : i < N) (hj : j < N) :
    m.voxelToIndex ⟨(i : Int), (j : Int), 0⟩ = ((j + N * i : Nat) : Int) := by
  have hlt := cell_index_lt hi hj
  have e1 : wrapInt32 ((N : Int) * (i : Int)) = ((N * i : Nat) : Int) := by
    have h1 : (N : Int) * (i : Int) = ((N * i : Nat) : Int) := by push_cast; rfl
    rw [h1]
    exact wrapInt32_of_inInt32 (by unfold InInt32; omega)
  have e2 : wrapInt32 ((j : Int) + ((N * i : Nat) : Int)) = ((j + N * i : Nat) : Int) := by
    rw [wrapInt32_of_inInt32 (by unfold InInt32; omega)]
    push_cast
    rfl
  have e3 : wrapInt32 (1 * ((j + N * i : Nat) : Int)) = ((j + N * i : Nat) : Int) := by
    rw [one_mul]
    exact wrapInt32_of_inInt32 (by unfold InInt32; omega)
  have e4 : wrapInt32 (((j + N * i : Nat) : Int) + 0) = ((j + N * i : Nat) : Int) := by
    rw [add_zero]
    exact wrapInt32_of_inInt32 (by unfold InInt32; omega)
  unfold Volume.voxelToIndex
  rw [hdim]
  simp only
  rw [e1, e2, e3, e4]

theorem Volume.getAt_natCast {T : Type} (m : Volume T) (k : Nat) :
    m.getAt (k : Int) = m.values[k]? := by
  unfold Volume.getAt
  rw [if_pos (by omega)]
  simp

theorem Volume.setAt_natCast {T : Type} (m : Volume T) (k : Nat) (v : T)
    (hk : k < m.values.length) :
    m.setAt (k : Int) v = some { m with values := m.values.set k v } := by
  unfold Volume.setAt
  rw [if_pos ⟨by omega, by simpa using hk⟩]
  simp

/-- Writing one value to the cells `(i, j)` and `(j, i)`, `i < j`, keeps the matrix
symmetric with unit diagonal. -/
theorem setSymmetric_inv (N : Nat) (hfit : N * N < 2147483648) (m : Volume XFloat)
    (hinv : MatrixInv N m) (i j : Nat) (hij : i < j) (hj : j < N) (v : XFloat) :
    ∃ m2, setSymmetric m i j v = some m2 ∧ MatrixInv N m2 := by
  have hi : i < N := by omega
  have hA := cell_index_lt hi hj
  have hB := cell_index_lt hj hi
  refine ⟨{ m with values := (m.values.set (i + N * j) v).set (j + N * i) v }, ?_, ?_⟩
  · unfold setSymmetric
    rw [Volume.voxelToIndex_matrix m N j i hinv.dimensions hfit hj hi]
    rw [Volume.setAt_natCast _ _ _ (by rw [hinv.length]; exact hB)]
    simp only
    rw [Volume.voxelToIndex_matrix
      ({ m with values := m.values.set (i + N * j) v } : Volume XFloat) N i j
      hinv.dimensions hfit hi hj]
    rw [Volume.setAt_natCast _ _ _ (by simp only [List.length_set]; rw [hinv.length]; exact hA)]
  · have hcell : ∀ c : Nat, c < N * N →
        ((m.values.set (i + N * j) v).set (j + N * i) v)[c]? =
          if c = j + N * i ∨ c = i + N * j then some v else m.values[c]? := by
      intro c hc
      rw [List.getElem?_set, List.getElem?_set]
      simp only [List.length_set, hinv.length]
      by_cases h1 : j + N * i = c
      · simp [h1, hc]
      · by_cases h2 : i + N * j = c
        · have h1b : ¬ c = j + N * i := fun h => h1 h.symm
          simp [h1, h2, hc]
        · have h1b : ¬ c = j + N * i := fun h => h1 h.symm
          have h2b : ¬ c = i + N * j := fun h => h2 h.symm
          simp [h1, h2, h1b, h2b]
    constructor
    · exact hinv.dimensions
    · simp [hinv.length]
    · intro p q hp hq
      simp only
      rw [hcell _ (cell_index_lt hp hq), hcell _ (cell_index_lt hq hp)]
      by_cases h1 : q + N * p = j + N * i
      · obtain ⟨rfl, rfl⟩ := cell_index_inj hq hj h1
        simp
      · by_cases h2 : q + N * p = i + N * j
        · obtain ⟨rfl, rfl⟩ := cell_index_inj hq hi h2
          simp
        · have h3 : ¬ p + N * q = j + N * i := by
            intro h
            obtain ⟨rfl, rfl⟩ := cell_index_inj hp hj h
            exact h2 rfl
          have h4 : ¬ p + N * q = i + N * j := by
            intro h
            obtain ⟨rfl, rfl⟩ := cell_index_inj hp hi h
            exact h1 rfl
          simp only [h1, h2, h3, h4, or_self, if_false]
          exact hinv.symmetric p q hp hq
    · intro p hp
      simp only
      rw [hcell _ (cell_index_lt hp hp)]
      have h1 : ¬ p + N * p = j + N * i := by
        intro h
        obtain ⟨rfl, rfl⟩ := cell_index_inj hp hj h
        omega
      have h2 : ¬ p + N * p = i + N * j := by
        intro h
        obtain ⟨rfl, rfl⟩ := cell_index_inj hp hi h
        omega
      simp only [h1, h2, or_self, if_false]
      exact hinv.diagonal p hp

theorem fillRow_inv (N : Nat) (hfit : N * N < 2147483648) (pair : Nat → Nat → Option XFloat)
    (i : Nat) (js : List Nat) (hjs : ∀ j ∈ js, i < j ∧ j < N)
    (hpair : ∀ j ∈ js, ∃ v, pair i j = some v) (m : Volume XFloat) (hinv : MatrixInv N m) :
    ∃ m2, fillRow pair i js m = some m2 ∧ MatrixInv N m2 := by
  induction js generalizing m with
  | nil => exact ⟨m, rfl, hinv⟩
  | cons j js ih =>
    obtain ⟨v, hv⟩ := hpair j (List.mem_cons_self _ _)
    obtain ⟨hij, hj⟩ := hjs j (List.mem_cons_self _ _)
    obtain ⟨m1, hm1, hinv1⟩ := setSymmetric_inv N hfit m hinv i j hij hj v
    obtain ⟨m2, hm2, hinv2⟩ := ih (fun x hx => hjs x (List.mem_cons_of_mem _ hx))
      (fun x hx => hpair x (List.mem_cons_of_mem _ hx)) m1 hinv1
    exact ⟨m2, by simp only [fillRow, hv, hm1, hm2], hinv2⟩

theorem fillRows_inv (N : Nat) (hfit : N * N < 2147483648) (pair : Nat → Nat → Option XFloat)
    (hpair : ∀ i j, i < j → j < N → ∃ v, pair i j = some v) (is : List Nat)
    (m : Volume XFloat) (hinv : MatrixInv N m) :
    ∃ m2, fillRows pair N is m = some m2 ∧ MatrixInv N m2 := by
  induction is generalizing m with
  | nil => exact ⟨m, rfl, hinv⟩
  | cons i is ih =>
    have hjs : ∀ j ∈ List.range' (i + 1) (N - (i + 1)), i < j ∧ j < N := by
      intro j hj
      rw [List.mem_range'_1] at hj
      omega
    obtain ⟨m1, hm1, hinv1⟩ := fillRow_inv N hfit pair i _ hjs
      (fun j hj => hpair i j (hjs j hj).1 (hjs j hj).2) m hinv
    obtain ⟨m2, hm2, hinv2⟩ := ih m1 hinv1
    exact ⟨m2, by simp only [fillRows, hm1, hm2], hinv2⟩

theorem MatrixInv.symmetricUnitDiagonal {N : Nat} {m : Volume XFloat}
    (hfit : N * N < 2147483648) (hinv : MatrixInv N m) : SymmetricUnitDiagonal N m := by
  intro i j hi hj
  rw [Volume.voxelToIndex_matrix m N i j hinv.dimensions hfit hi hj,
    Volume.voxelToIndex_matrix m N j i hinv.dimensions hfit hj hi,
    Volume.voxelToIndex_matrix m N i i hinv.dimensions hfit hi hi]
  simp only [Volume.getAt_natCast]
  refine ⟨?_, hinv.diagonal i hi⟩
  have hlt : j + N * i < m.values.length := by
    rw [hinv.length]; exact cell_index_lt hi hj
  refine ⟨m.values[j + N * i], List.getElem?_eq_getElem hlt, ?_⟩
  rw [← hinv.symmetric i j hi hj]
  exact List.getElem?_eq_getElem hlt

theorem Vec3i.product_matrix (N : Nat) (hfit : N * N < 2147483648) :
    (⟨(N : Int), (N : Int), 1⟩ : Vec3i).product = ((N * N : Nat) : Int) := by
  have h1 : (N : Int) * (N : Int) = ((N * N : Nat) : Int) := by push_cast; rfl
  have e1 : wrapInt32 ((N : Int) * (N : Int)) = ((N * N : Nat) : Int) := by
    rw [h1]
    exact wrapInt32_of_inInt32 (by unfold InInt32; omega)
  have e2 : wrapInt32 (((N * N : Nat) : Int) * 1) = ((N * N : Nat) : Int) := by
    rw [mul_one]
    exact wrapInt32_of_inInt32 (by unfold InInt32; omega)
  unfold Vec3i.product
  simp only
  rw [e1, e2]

theorem MatrixInv.filled (name : List Nat) (N : Nat) :
    MatrixInv N
      ⟨name, ⟨(N : Int), (N : Int), 1⟩,
        (List.replicate (N * N) (0 : XFloat)).map (fun _ => XFloat.fin 1), (0, 0), false⟩ := by
  constructor
  · rfl
  · simp
  · intro i j hi hj
    simp only [List.map_replicate]
    rw [List.getElem?_replicate_of_lt (cell_index_lt hi hj),
      List.getElem?_replicate_of_lt (cell_index_lt hj hi)]
  · intro i hi
    simp only [List.map_replicate]
    rw [List.getElem?_replicate_of_lt (cell_index_lt hi hi)]

theorem Volume.ofDimensions_matrix (name : List Nat) (N : Nat) (hfit : N * N < 2147483648) :
    (Volume.ofDimensions ⟨(N : Int), (N : Int), 1⟩ name : Option (Volume XFloat)) =
      some ⟨name, ⟨(N : Int), (N : Int), 1⟩, List.replicate (N * N) 0, (0, 0), false⟩ := by
  unfold Volume.ofDimensions
  rw [Vec3i.product_matrix N hfit]
  rw [if_pos (Int.ofNat_nonneg _)]
  rw [Int.toNat_ofNat]

/-- The matrix both routines build is symmetric with unit diagonal whenever the body of the
pair loop returns a value for every pair. -/
theorem similarityMatrix_spec (name : List Nat) (N : Nat) (hfit : N * N < 2147483648)
    (pair : Nat → Nat → Option XFloat)
    (hpair : ∀ i j, i < j → j < N → ∃ v, pair i j = some v) :
    ∃ m, similarityMatrix name N pair = some m ∧ SymmetricUnitDiagonal N m := by
  obtain ⟨m, hm, hinv⟩ :=
    fillRows_inv N hfit pair hpair (List.range N) _ (MatrixInv.filled name N)
  refine ⟨m, ?_, hinv.symmetricUnitDiagonal hfit⟩
  unfold similarityMatrix
  rw [Volume.ofDimensions_matrix name N hfit, Option.some_bind]
  exact hm

end Reghievis

namespace Reghievis

theorem Volume.getAt_isSome {T : Type} (m : Volume T) (k : Nat) (hk : k < m.values.length) :
    ∃ a, m.getAt (k : Int) = some a :=
  ⟨m.values[k], by rw [Volume.getAt_natCast]; exact List.getElem?_eq_getElem hk⟩

theorem accumulateField_isSome (first second : Volume ℚ) (totalMin totalRange : ℚ)
    (ks : List Nat) (acc : XFloat × XFloat)
    (h : ∀ k ∈ ks, k < first.values.length ∧ k < second.values.length) :
    ∃ r, accumulateField first second totalMin totalRange ks acc = some r := by
  induction ks generalizing acc with
  | nil => exact ⟨acc, rfl⟩
  | cons k ks ih =>
    obtain ⟨h1, h2⟩ := h k (List.mem_cons_self _ _)
    obtain ⟨a, ha⟩ := first.getAt_isSome k h1
    obtain ⟨b, hb⟩ := second.getAt_isSome k h2
    simp only [accumulateField, ha, hb]
    exact ih _ (fun x hx => h x (List.mem_cons_of_mem _ hx))

theorem fieldSimilarity_isSome (first second : Volume ℚ) (ks : List Nat)
    (h1 : first.values ≠ []) (h2 : second.values ≠ [])
    (h : ∀ k ∈ ks, k < first.values.length ∧ k < second.values.length) :
    ∃ v, fieldSimilarity first second ks = some v := by
  obtain ⟨d1, c1, hd1, _⟩ := Volume.getDomain_spec first h1
  obtain ⟨d2, c2, hd2, _⟩ := Volume.getDomain_spec second h2
  unfold fieldSimilarity
  rw [hd1, hd2]
  simp only
  obtain ⟨r, hr⟩ := accumulateField_isSome first second
    (if d2.1 < d1.1 then d2.1 else d1.1)
    ((if d1.2 < d2.2 then d2.2 else d1.2) - (if d2.1 < d1.1 then d2.1 else d1.1))
    ks (XFloat.fin 0, XFloat.fin 0) h
  rw [hr]
  exact ⟨_, rfl⟩

theorem accumulateRun_isSome (volume : Volume ℚ) (f : ℚ → XFloat) (ks : List Nat)
    (acc : XFloat) (h : ∀ k ∈ ks, k < volume.values.length) :
    ∃ r, accumulateRun volume f ks acc = some r := by
  induction ks generalizing acc with
  | nil => exact ⟨acc, rfl⟩
  | cons k ks ih =>
    obtain ⟨a, ha⟩ := volume.getAt_isSome k (h k (List.mem_cons_self _ _))
    simp only [accumulateRun, ha]
    exact ih _ (fun x hx => h x (List.mem_cons_of_mem _ hx))

theorem accumulateCorrelation_isSome (first second : Volume ℚ) (m1 m2 : XFloat)
    (ks : List Nat) (acc : XFloat)
    (h : ∀ k ∈ ks, k < first.values.length ∧ k < second.values.length) :
    ∃ r, accumulateCorrelation first second m1 m2 ks acc = some r := by
  induction ks generalizing acc with
  | nil => exact ⟨acc, rfl⟩
  | cons k ks ih =>
    obtain ⟨h1, h2⟩ := h k (List.mem_cons_self _ _)
    obtain ⟨a, ha⟩ := first.getAt_isSome k h1
    obtain ⟨b, hb⟩ := second.getAt_isSome k h2
    simp only [accumulateCorrelation, ha, hb]
    exact ih _ (fun x hx => h x (List.mem_cons_of_mem _ hx))

theorem pearsonMeans_isSome (voxels : List Nat) (count : Int) (runs : List (Volume ℚ))
    (h : ∀ r ∈ runs, ∀ k ∈ voxels, k < r.values.length) :
    ∃ means, pearsonMeans voxels count runs = some means ∧ means.length = runs.length := by
  induction runs with
  | nil => exact ⟨[], rfl, rfl⟩
  | cons r runs ih =>
    obtain ⟨s, hs⟩ := accumulateRun_isSome r XFloat.fin voxels (XFloat.fin 0)
      (h r (List.mem_cons_self _ _))
    obtain ⟨means, hm, hl⟩ := ih (fun x hx => h x (List.mem_cons_of_mem _ hx))
    refine ⟨XFloat.div s (XFloat.fin count) :: means, ?_, by simp [hl]⟩
    simp only [pearsonMeans, pearsonMean, hs, hm, Option.map_some']

theorem pearsonStddevs_isSome (sqrt : ℚ → ℚ) (voxels : List Nat) (runs : List (Volume ℚ))
    (means : List XFloat) (hl : means.length = runs.length)
    (h : ∀ r ∈ runs, ∀ k ∈ voxels, k < r.values.length) :
    ∃ stddevs, pearsonStddevs sqrt voxels runs means = some stddevs ∧
      stddevs.length = runs.length := by
  induction runs generalizing means with
  | nil => exact ⟨[], rfl, rfl⟩
  | cons r runs ih =>
    cases means with
    | nil => simp at hl
    | cons mean means =>
      obtain ⟨s, hs⟩ := accumulateRun_isSome r
        (fun a => XFloat.mul (XFloat.sub (XFloat.fin a) mean) (XFloat.sub (XFloat.fin a) mean))
        voxels (XFloat.fin 0) (h r (List.mem_cons_self _ _))
      obtain ⟨stddevs, hsd, hsl⟩ := ih means (by simpa using hl)
        (fun x hx => h x (List.mem_cons_of_mem _ hx))
      refine ⟨XFloat.sqrtWith sqrt s :: stddevs, ?_, by simp [hsl]⟩
      simp only [pearsonStddevs, pearsonStddev, hs, hsd, Option.map_some']

theorem fieldVoxelCount_eq (runs : List (Volume ℚ)) (V : Nat) (hV : V < 2147483648)
    (hne : runs ≠ []) (h : ∀ r ∈ runs, r.values.length = V) :
    fieldVoxelCount runs = (V : Int) := by
  cases runs with
  | nil => exact absurd rfl hne
  | cons r runs =>
    simp only [fieldVoxelCount, Volume.voxelCount, h r (List.mem_cons_self _ _)]
    exact wrapInt32_of_inInt32 (by unfold InInt32; omega)

theorem computeFieldSimilarityMatrix_spec (runs : List (Volume ℚ)) (V : Nat) (hV1 : 1 ≤ V)
    (hV : V < 2147483648) (hfit : runs.length * runs.length < 2147483648)
    (h : ∀ r ∈ runs, r.values.length = V) :
    ∃ m, computeFieldSimilarityMatrix runs = some m ∧
      SymmetricUnitDiagonal runs.length m := by
  unfold computeFieldSimilarityMatrix
  apply similarityMatrix_spec _ _ hfit
  intro i j hij hj
  have hi : i < runs.length := by omega
  have hne : runs ≠ [] := by intro h0; rw [h0] at hj; simp at hj
  rw [List.getElem?_eq_getElem hi, List.getElem?_eq_getElem hj]
  simp only
  rw [fieldVoxelCount_eq runs V hV hne h]
  have hl1 := h runs[i] (List.getElem_mem hi)
  have hl2 := h runs[j] (List.getElem_mem hj)
  apply fieldSimilarity_isSome
  · intro h0; rw [h0] at hl1; simp at hl1; omega
  · intro h0; rw [h0] at hl2; simp at hl2; omega
  · intro k hk
    simp only [Int.toNat_ofNat, List.mem_range] at hk
    omega

theorem computePearsonSimilarityMatrix_spec (sqrt : ℚ → ℚ) (runs : List (Volume ℚ)) (V : Nat)
    (hV : V < 2147483648) (hfit : runs.length * runs.length < 2147483648)
    (h : ∀ r ∈ runs, r.values.length = V) :
    ∃ m, computePearsonSimilarityMatrix sqrt runs = some m ∧
      SymmetricUnitDiagonal runs.length m := by
  have hvox : ∀ r ∈ runs, ∀ k ∈ List.range (fieldVoxelCount runs).toNat,
      k < r.values.length := by
    intro r hr k hk
    have hne : runs ≠ [] := by intro h0; rw [h0] at hr; simp at hr
    rw [fieldVoxelCount_eq runs V hV hne h] at hk
    simp only [Int.toNat_ofNat, List.mem_range] at hk
    rw [h r hr]
    exact hk
  obtain ⟨means, hm, hml⟩ := pearsonMeans_isSome _ (fieldVoxelCount runs) runs hvox
  obtain ⟨stddevs, hs, hsl⟩ := pearsonStddevs_isSome sqrt _ runs means hml hvox
  unfold computePearsonSimilarityMatrix
  simp only [hm, hs]
  apply similarityMatrix_spec _ _ hfit
  intro i j hij hj
  have hi : i < runs.length := by omega
  rw [List.getElem?_eq_getElem hi, List.getElem?_eq_getElem hj,
    List.getElem?_eq_getElem (by omega : i < means.length),
    List.getElem?_eq_getElem (by omega : j < means.length),
    List.getElem?_eq_getElem (by omega : i < stddevs.length),
    List.getElem?_eq_getElem (by omega : j < stddevs.length)]
  simp only
  obtain ⟨r, hr⟩ := accumulateCorrelation_isSome runs[i] runs[j] means[i] means[j]
    (List.range (fieldVoxelCount runs).toNat) (XFloat.fin 0)
    (fun k hk => ⟨hvox _ (List.getElem_mem hi) k hk, hvox _ (List.getElem_mem hj) k hk⟩)
  unfold pearsonSimilarity
  rw [hr]
  exact ⟨_, rfl⟩

/-- C9. For a field with `N` runs over `V ≥ 1` voxels each (`V` and `N * N` being `int32_t`
values), both the field-similarity matrix and the Pearson-similarity matrix are computed and
are symmetric with unit diagonal: for all `i, j < N` the cells `(i, j)` and `(j, i)` hold the
same stored value, and every cell `(i, i)` holds `1.0`. -/
theorem C9_similarity_matrices_symmetric_unit_diagonal (sqrt : ℚ → ℚ)
    (runs : List (Volume ℚ)) (V : Nat) (hV1 : 1 ≤ V) (hV : V < 2147483648)
    (hfit : runs.length * runs.length < 2147483648)
    (h : ∀ r ∈ runs, r.values.length = V) :
    (∃ m, computeFieldSimilarityMatrix runs = some m ∧
      ∀ i j : Nat, i < runs.length → j < runs.length →
        (∃ x, m.getAt (m.voxelToIndex ⟨(i : Int), (j : Int), 0⟩) = some x ∧
          m.getAt (m.voxelToIndex ⟨(j : Int), (i : Int), 0⟩) = some x) ∧
        m.getAt (m.voxelToIndex ⟨(i : Int), (i : Int), 0⟩) = some (XFloat.fin 1)) ∧
    (∃ m, computePearsonSimilarityMatrix sqrt runs = some m ∧
      ∀ i j : Nat, i < runs.length → j < runs.length →
        (∃ x, m.getAt (m.voxelToIndex ⟨(i : Int), (j : Int), 0⟩) = some x ∧
          m.getAt (m.voxelToIndex ⟨(j : Int), (i : Int), 0⟩) = some x) ∧
        m.getAt (m.voxelToIndex ⟨(i : Int), (i : Int), 0⟩) = some (XFloat.fin 1)) :=
  ⟨computeFieldSimilarityMatrix_spec runs V hV1 hV hfit h,
    computePearsonSimilarityMatrix_spec sqrt runs V hV hfit h⟩

end Reghievis


namespace Reghievis

theorem exampleRuns_lengths : ∀ r ∈ exampleRuns, r.values.length = 2 := by
  intro r hr
  simp only [exampleRuns, List.mem_cons, List.mem_singleton, List.not_mem_nil, or_false] at hr
  rcases hr with rfl | rfl <;> rfl

theorem C9_similarity_matrices_symmetric_unit_diagonal_witness :
    (1 ≤ 2 ∧ 2 < 2147483648 ∧ exampleRuns.length * exampleRuns.length < 2147483648 ∧
      ∀ r ∈ exampleRuns, r.values.length = 2) ∧
    ((∃ m, computeFieldSimilarityMatrix exampleRuns = some m ∧
      ∀ i j : Nat, i < exampleRuns.length → j < exampleRuns.length →
        (∃ x, m.getAt (m.voxelToIndex ⟨(i : Int), (j : Int), 0⟩) = some x ∧
          m.getAt (m.voxelToIndex ⟨(j : Int), (i : Int), 0⟩) = some x) ∧
        m.getAt (m.voxelToIndex ⟨(i : Int), (i : Int), 0⟩) = some (XFloat.fin 1)) ∧
    (∃ m, computePearsonSimilarityMatrix exampleSqrt exampleRuns = some m ∧
      ∀ i j : Nat, i < exampleRuns.length → j < exampleRuns.length →
        (∃ x, m.getAt (m.voxelToIndex ⟨(i : Int), (j : Int), 0⟩) = some x ∧
          m.getAt (m.voxelToIndex ⟨(j : Int), (i : Int), 0⟩) = some x) ∧
        m.getAt (m.voxelToIndex ⟨(i : Int), (i : Int), 0⟩) = some (XFloat.fin 1))) :=
  ⟨⟨by decide, by decide, by decide, exampleRuns_lengths⟩,
    C9_similarity_matrices_symmetric_unit_diagonal exampleSqrt exampleRuns 2 (by decide)
      (by decide) (by decide) exampleRuns_lengths⟩

theorem fieldSimilarity_constantRun :
    fieldSimilarity constantRun constantRun [0] = some XFloat.nan := by
  simp [fieldSimilarity, Volume.getDomain, constantRun, Volume.minmaxElement, accumulateField,
    Volume.getAt, stdMinmax, XFloat.div, XFloat.sub, XFloat.add, XFloat.neg, XFloat.toBool]

/-- C10 (failing input). For the field of two identical constant runs (one voxel, value `5`)
the combined value range is `0`, both accumulated terms are `0/0`, NaN converts to `true` in
`denominator ? … : 1.0`, and the similarity written to the cells `(0, 1)` and `(1, 0)` of the
field-similarity matrix is NaN, which is no number of `[0,1]`. -/
theorem C10_field_similarity_of_constant_runs_is_nan :
    fieldSimilarity constantRun constantRun [0] = some XFloat.nan ∧
    (∃ m, computeFieldSimilarityMatrix [constantRun, constantRun] = some m ∧
      m.getAt (m.voxelToIndex ⟨0, 1, 0⟩) = some XFloat.nan ∧
      m.getAt (m.voxelToIndex ⟨1, 0, 0⟩) = some XFloat.nan) ∧
    ¬ XFloat.InUnit XFloat.nan := by
  refine ⟨fieldSimilarity_constantRun, ?_, ?_⟩
  · refine ⟨⟨[70, 105, 101, 108, 100, 32, 83, 105, 109, 105, 108, 97, 114, 105, 116, 121],
      ⟨2, 2, 1⟩, [XFloat.fin 1, XFloat.nan, XFloat.nan, XFloat.fin 1], (0, 0), false⟩,
      ?_, by decide, by decide⟩
    have h := fieldSimilarity_constantRun
    simp only [constantRun] at h
    simp [computeFieldSimilarityMatrix, similarityMatrix, Volume.ofDimensions, Vec3i.product,
      wrapInt32, fillRows, fillRow, List.range, List.range.loop, List.range', fieldVoxelCount,
      Volume.voxelCount, setSymmetric, Volume.setAt,
      Volume.voxelToIndex, constantRun, List.replicate]
    simp at h
    simp [h]
  · rintro ⟨q, hq, _⟩
    cases hq

end Reghievis

/-! ## Cells of the similarity matrices -/

namespace Reghievis

theorem setSymmetric_eq (N : Nat) (hfit : N * N < 2147483648) (m : Volume XFloat)
    (hinv : MatrixInv N m) (i j : Nat) (hi : i < N) (hj : j < N) (v : XFloat) :
    setSymmetric m i j v =
      some { m with values := (m.values.set (i + N * j) v).set (j + N * i) v } := by
  have hA := cell_index_lt hi hj
  have hB := cell_index_lt hj hi
  unfold setSymmetric
  rw [Volume.voxelToIndex_matrix m N j i hinv.dimensions hfit hj hi]
  rw [Volume.setAt_natCast _ _ _ (by rw [hinv.length]; exact hB)]
  simp only
  rw [Volume.voxelToIndex_matrix
    ({ m with values := m.values.set (i + N * j) v } : Volume XFloat) N i j
    hinv.dimensions hfit hi hj]
  rw [Volume.setAt_natCast _ _ _ (by simp only [List.length_set]; rw [hinv.length]; exact hA)]

/-- Writing the cells `(i, j)` and `(j, i)`, `i < j`, changes the cell `(p, q)`, `p < q`, only
when `(p, q) = (i, j)`. -/
theorem setSymmetric_cell (N : Nat) (m : Volume XFloat) (hlen : m.values.length = N * N)
    (i j : Nat) (hij : i < j) (hj : j < N) (v : XFloat) (p q : Nat) (hpq : p < q) (hq : q < N) :
    ((m.values.set (i + N * j) v).set (j + N * i) v)[q + N * p]? =
      if p = i ∧ q = j then some v else m.values[q + N * p]? := by
  have hi : i < N := by omega
  have hp : p < N := by omega
  have hc := cell_index_lt hp hq
  rw [List.getElem?_set, List.getElem?_set]
  simp only [List.length_set, hlen]
  by_cases h1 : j + N * i = q + N * p
  · obtain ⟨rfl, rfl⟩ := cell_index_inj hj hq h1
    simp [hc]
  · have h2 : ¬ i + N * j = q + N * p := by
      intro h
      obtain ⟨rfl, rfl⟩ := cell_index_inj hi hq h
      omega
    have h3 : ¬ (p = i ∧ q = j) := by
      rintro ⟨rfl, rfl⟩
      exact h1 rfl
    simp [h1, h2, h3]

theorem fillRow_cells (N : Nat) (hfit : N * N < 2147483648) (pair : Nat → Nat → Option XFloat)
    (i : Nat) (js : List Nat) (hjs : ∀ j ∈ js, i < j ∧ j < N)
    (hpair : ∀ j ∈ js, ∃ v, pair i j = some v) (m : Volume XFloat) (hinv : MatrixInv N m) :
    ∃ m2, fillRow pair i js m = some m2 ∧ MatrixInv N m2 ∧
      ∀ p q, p < q → q < N →
        m2.values[q + N * p]? = if p = i ∧ q ∈ js then pair i q else m.values[q + N * p]? := by
  induction js generalizing m with
  | nil => exact ⟨m, rfl, hinv, fun p q _ _ => by simp⟩
  | cons j js ih =>
    obtain ⟨v, hv⟩ := hpair j (List.mem_cons_self _ _)
    obtain ⟨hij, hj⟩ := hjs j (List.mem_cons_self _ _)
    obtain ⟨m1, hm1, hinv1⟩ := setSymmetric_inv N hfit m hinv i j hij hj v
    have hm1b := setSymmetric_eq N hfit m hinv i j (by omega) hj v
    rw [hm1] at hm1b
    obtain ⟨m2, hm2, hinv2, hcells⟩ := ih (fun x hx => hjs x (List.mem_cons_of_mem _ hx))
      (fun x hx => hpair x (List.mem_cons_of_mem _ hx)) m1 hinv1
    refine ⟨m2, by simp only [fillRow, hv, hm1, hm2], hinv2, ?_⟩
    intro p q hpq hq
    rw [hcells p q hpq hq]
    have hm1v : m1.values = (m.values.set (i + N * j) v).set (j + N * i) v := by
      injection hm1b with h
      rw [h]
    rw [hm1v, setSymmetric_cell N m hinv.length i j hij hj v p q hpq hq]
    by_cases hp : p = i
    · subst hp
      by_cases hqj : q = j
      · subst hqj
        by_cases hmem : q ∈ js
        · simp [hmem]
        · simp [hmem, hv]
      · by_cases hmem : q ∈ js
        · simp [hmem]
        · simp [hmem, hqj]
    · simp [hp]

theorem fillRows_cells (N : Nat) (hfit : N * N < 2147483648) (pair : Nat → Nat → Option XFloat)
    (hpair : ∀ i j, i < j → j < N → ∃ v, pair i j = some v) (is : List Nat)
    (m : Volume XFloat) (hinv : MatrixInv N m) :
    ∃ m2, fillRows pair N is m = some m2 ∧ MatrixInv N m2 ∧
      ∀ p q, p < q → q < N →
        m2.values[q + N * p]? = if p ∈ is then pair p q else m.values[q + N * p]? := by
  induction is generalizing m with
  | nil => exact ⟨m, rfl, hinv, fun p q _ _ => by simp⟩
  | cons i is ih =>
    have hjs : ∀ j ∈ List.range' (i + 1) (N - (i + 1)), i < j ∧ j < N := by
      intro j hj
      rw [List.mem_range'_1] at hj
      omega
    obtain ⟨m1, hm1, hinv1, hc1⟩ := fillRow_cells N hfit pair i _ hjs
      (fun j hj => hpair i j (hjs j hj).1 (hjs j hj).2) m hinv
    obtain ⟨m2, hm2, hinv2, hc2⟩ := ih m1 hinv1
    refine ⟨m2, by simp only [fillRows, hm1, hm2], hinv2, ?_⟩
    intro p q hpq hq
    rw [hc2 p q hpq hq, hc1 p q hpq hq]
    have hmem : q ∈ List.range' (p + 1) (N - (p + 1)) := by
      rw [List.mem_range'_1]
      omega
    by_cases hp : p = i
    · subst hp
      by_cases hpi : p ∈ is
      · simp [hpi]
      · simp [hpi, hmem]
    · by_cases hpi : p ∈ is
      · simp [hpi]
      · simp [hpi, hp]

/-- The matrix both routines build holds, in the cells `(p, q)` and `(q, p)` with `p < q`, the
value the body of the pair loop returns for `(p, q)`. -/
theorem similarityMatrix_cells (name : List Nat) (N : Nat) (hfit : N * N < 2147483648)
    (pair : Nat → Nat → Option XFloat)
    (hpair : ∀ i j, i < j → j < N → ∃ v, pair i j = some v) :
    ∃ m, similarityMatrix name N pair = some m ∧ SymmetricUnitDiagonal N m ∧
      ∀ p q, p < q → q < N →
        m.getAt (m.voxelToIndex ⟨(p : Int), (q : Int), 0⟩) = pair p q ∧
        m.getAt (m.voxelToIndex ⟨(q : Int), (p : Int), 0⟩) = pair p q := by
  obtain ⟨m, hm, hinv, hcells⟩ :=
    fillRows_cells N hfit pair hpair (List.range N) _ (MatrixInv.filled name N)
  refine ⟨m, ?_, hinv.symmetricUnitDiagonal hfit, ?_⟩
  · unfold similarityMatrix
    rw [Volume.ofDimensions_matrix name N hfit, Option.some_bind]
    exact hm
  · intro p q hpq hq
    have hp : p < N := by omega
    have hcell : m.values[q + N * p]? = pair p q := by
      rw [hcells p q hpq hq, if_pos (List.mem_range.mpr hp)]
    rw [Volume.voxelToIndex_matrix m N p q hinv.dimensions hfit hp hq,
      Volume.voxelToIndex_matrix m N q p hinv.dimensions hfit hq hp]
    simp only [Volume.getAt_natCast]
    exact ⟨hcell, by rw [← hinv.symmetric p q hp hq]; exact hcell⟩

end Reghievis

namespace Reghievis

theorem pearsonMeans_getElem (voxels : List Nat) (count : Int) (runs : List (Volume ℚ))
    (means : List XFloat) (h : pearsonMeans voxels count runs = some means) (i : Nat)
    (r : Volume ℚ) (hr : runs[i]? = some r) :
    means[i]? = pearsonMean r voxels count ∧ ∃ mean, means[i]? = some mean := by
  induction runs generalizing means i with
  | nil => simp at hr
  | cons r0 runs ih =>
    simp only [pearsonMeans] at h
    cases h1 : pearsonMean r0 voxels count with
    | none => simp [h1] at h
    | some mean0 =>
      cases h2 : pearsonMeans voxels count runs with
      | none => simp [h1, h2] at h
      | some means0 =>
        simp only [h1, h2, Option.some.injEq] at h
        subst h
        cases i with
        | zero =>
          simp only [List.getElem?_cons_zero, Option.some.injEq] at hr
          subst hr
          exact ⟨by simp [h1], mean0, by simp⟩
        | succ i =>
          simp only [List.getElem?_cons_succ] at hr ⊢
          exact ih means0 h2 i hr

theorem pearsonStddevs_getElem (sqrt : ℚ → ℚ) (voxels : List Nat) (runs : List (Volume ℚ))
    (means stddevs : List XFloat) (h : pearsonStddevs sqrt voxels runs means = some stddevs)
    (i : Nat) (r : Volume ℚ) (mean : XFloat) (hr : runs[i]? = some r)
    (hm : means[i]? = some mean) :
    stddevs[i]? = pearsonStddev sqrt r voxels mean ∧ ∃ stddev, stddevs[i]? = some stddev := by
  induction runs generalizing means stddevs i with
  | nil => simp at hr
  | cons r0 runs ih =>
    cases means with
    | nil => simp at hm
    | cons mean0 means0 =>
      simp only [pearsonStddevs] at h
      cases h1 : pearsonStddev sqrt r0 voxels mean0 with
      | none => simp [h1] at h
      | some stddev0 =>
        cases h2 : pearsonStddevs sqrt voxels runs means0 with
        | none => simp [h1, h2] at h
        | some stddevs0 =>
          simp only [h1, h2, Option.some.injEq] at h
          subst h
          cases i with
          | zero =>
            simp only [List.getElem?_cons_zero, Option.some.injEq] at hr hm
            subst hr
            subst hm
            exact ⟨by simp [h1], stddev0, by simp⟩
          | succ i =>
            simp only [List.getElem?_cons_succ] at hr hm ⊢
            exact ih means0 stddevs0 h2 i hr hm

/-- The Pearson matrix holds, in the cells `(p, q)` and `(q, p)` with `p < q`, the value the
pair loop computes from the two runs and from the entries `p` and `q` of the vectors `means`
and `stddevs`. -/
theorem computePearsonSimilarityMatrix_cells (sqrt : ℚ → ℚ) (runs : List (Volume ℚ)) (V : Nat)
    (hV : V < 2147483648) (hfit : runs.length * runs.length < 2147483648)
    (h : ∀ r ∈ runs, r.values.length = V) :
    ∃ means stddevs m,
      pearsonMeans (List.range (fieldVoxelCount runs).toNat) (fieldVoxelCount runs) runs =
        some means ∧
      pearsonStddevs sqrt (List.range (fieldVoxelCount runs).toNat) runs means = some stddevs ∧
      computePearsonSimilarityMatrix sqrt runs = some m ∧
      SymmetricUnitDiagonal runs.length m ∧
      ∀ p q, p < q → q < runs.length →
        ∃ first second meanFirst meanSecond stddevFirst stddevSecond value,
          runs[p]? = some first ∧ runs[q]? = some second ∧
          means[p]? = some meanFirst ∧ means[q]? = some meanSecond ∧
          stddevs[p]? = some stddevFirst ∧ stddevs[q]? = some stddevSecond ∧
          pearsonSimilarity first second (List.range (fieldVoxelCount runs).toNat)
            meanFirst meanSecond stddevFirst stddevSecond = some value ∧
          m.getAt (m.voxelToIndex ⟨(p : Int), (q : Int), 0⟩) = some value ∧
          m.getAt (m.voxelToIndex ⟨(q : Int), (p : Int), 0⟩) = some value := by
  have hvox : ∀ r ∈ runs, ∀ k ∈ List.range (fieldVoxelCount runs).toNat,
      k < r.values.length := by
    intro r hr k hk
    have hne : runs ≠ [] := by intro h0; rw [h0] at hr; simp at hr
    rw [fieldVoxelCount_eq runs V hV hne h] at hk
    simp only [Int.toNat_ofNat, List.mem_range] at hk
    rw [h r hr]
    exact hk
  obtain ⟨means, hm, hml⟩ := pearsonMeans_isSome _ (fieldVoxelCount runs) runs hvox
  obtain ⟨stddevs, hs, hsl⟩ := pearsonStddevs_isSome sqrt _ runs means hml hvox
  have hpairs : ∀ i j, i < j → j < runs.length →
      ∃ first second meanFirst meanSecond stddevFirst stddevSecond value,
        runs[i]? = some first ∧ runs[j]? = some second ∧
        means[i]? = some meanFirst ∧ means[j]? = some meanSecond ∧
        stddevs[i]? = some stddevFirst ∧ stddevs[j]? = some stddevSecond ∧
        pearsonSimilarity first second (List.range (fieldVoxelCount runs).toNat)
          meanFirst meanSecond stddevFirst stddevSecond = some value := by
    intro i j hij hj
    have hi : i < runs.length := by omega
    obtain ⟨r, hr⟩ := accumulateCorrelation_isSome runs[i] runs[j] means[i] means[j]
      (List.range (fieldVoxelCount runs).toNat) (XFloat.fin 0)
      (fun k hk => ⟨hvox _ (List.getElem_mem hi) k hk, hvox _ (List.getElem_mem hj) k hk⟩)
    have hval : ∃ value, pearsonSimilarity runs[i] runs[j]
        (List.range (fieldVoxelCount runs).toNat) means[i] means[j] stddevs[i] stddevs[j] =
          some value := by
      unfold pearsonSimilarity
      rw [hr]
      exact ⟨_, rfl⟩
    obtain ⟨value, hvalue⟩ := hval
    exact ⟨runs[i], runs[j], means[i], means[j], stddevs[i], stddevs[j], value,
      List.getElem?_eq_getElem hi, List.getElem?_eq_getElem hj,
      List.getElem?_eq_getElem _, List.getElem?_eq_getElem _,
      List.getElem?_eq_getElem _, List.getElem?_eq_getElem _, hvalue⟩
  obtain ⟨m, hmat, hsym, hcells⟩ := similarityMatrix_cells
    [80, 101, 97, 114, 115, 111, 110, 32, 83, 105, 109, 105, 108, 97, 114, 105, 116, 121]
    runs.length hfit
    (fun i j =>
      match runs[i]?, runs[j]?, means[i]?, means[j]?, stddevs[i]?, stddevs[j]? with
      | some first, some second, some meanFirst, some meanSecond, some stddevFirst,
          some stddevSecond =>
        pearsonSimilarity first second (List.range (fieldVoxelCount runs).toNat)
          meanFirst meanSecond stddevFirst stddevSecond
      | _, _, _, _, _, _ => none)
    (by
      intro i j hij hj
      obtain ⟨f1, f2, m1, m2, s1, s2, v, h1, h2, h3, h4, h5, h6, h7⟩ := hpairs i j hij hj
      exact ⟨v, by simp only [h1, h2, h3, h4, h5, h6, h7]⟩)
  refine ⟨means, stddevs, m, hm, hs, ?_, hsym, ?_⟩
  · unfold computePearsonSimilarityMatrix
    simp only [hm, hs]
    exact hmat
  · intro p q hpq hq
    obtain ⟨f1, f2, m1, m2, s1, s2, v, h1, h2, h3, h4, h5, h6, h7⟩ := hpairs p q hpq hq
    obtain ⟨hc1, hc2⟩ := hcells p q hpq hq
    simp only [h1, h2, h3, h4, h5, h6, h7] at hc1 hc2
    exact ⟨f1, f2, m1, m2, s1, s2, v, h1, h2, h3, h4, h5, h6, h7, hc1, hc2⟩

theorem pearsonSimilarity_of_zero_stddevs (first second : Volume ℚ) (voxels : List Nat)
    (meanFirst meanSecond stddevFirst stddevSecond value : XFloat)
    (h1 : stddevFirst.isZero = true) (h2 : stddevSecond.isZero = true)
    (h : pearsonSimilarity first second voxels meanFirst meanSecond stddevFirst stddevSecond =
      some value) : value = XFloat.fin 1 := by
  unfold pearsonSimilarity at h
  cases hacc : accumulateCorrelation first second meanFirst meanSecond voxels (XFloat.fin 0) with
  | none => simp [hacc] at h
  | some sum =>
    simp only [hacc, Option.map_some', h1, h2, Bool.and_self, if_true, Option.some.injEq] at h
    rw [← h]
    simp [XFloat.add, XFloat.div]

theorem pearson_single_voxel (sqrt : ℚ → ℚ) (hsqrt : sqrt 0 = 0) (r : Volume ℚ)
    (hr : r.values.length = 1) (mean stddev : XFloat)
    (hm : pearsonMean r [0] 1 = some mean) (hs : pearsonStddev sqrt r [0] mean = some stddev) :
    stddev.isZero = true := by
  obtain ⟨a, ha⟩ := List.length_eq_one.mp hr
  simp [pearsonMean, accumulateRun, Volume.getAt, ha, XFloat.add, XFloat.div] at hm
  subst hm
  simp [pearsonStddev, accumulateRun, Volume.getAt, ha, XFloat.add, XFloat.sub, XFloat.neg,
    XFloat.mul, XFloat.sqrtWith, hsqrt] at hs
  subst hs
  rfl

end Reghievis

/-! ## The Pearson similarity in the degenerate cases -/

namespace Reghievis

theorem exampleSqrt_zero : exampleSqrt 0 = 0 := by
  simp [exampleSqrt]

theorem exampleSqrt_four : exampleSqrt 4 = 2 := by
  have h : Nat.sqrt 4 = 2 := Nat.sqrt_eq 2
  have hn : (4 : ℚ).num = 4 := rfl
  have hd : (4 : ℚ).den = 1 := rfl
  simp [exampleSqrt, hn, hd, h]

theorem degenerateRuns_voxels :
    fieldVoxelCount degenerateRuns = 4 ∧
      List.range (fieldVoxelCount degenerateRuns).toNat = [0, 1, 2, 3] := by
  have hc : fieldVoxelCount degenerateRuns = 4 := by
    simp [fieldVoxelCount, degenerateRuns, Volume.voxelCount, wrapInt32]
  rw [hc]
  exact ⟨rfl, by decide⟩

theorem degenerateRuns_means :
    pearsonMeans [0, 1, 2, 3] 4 degenerateRuns = some [XFloat.fin 5, XFloat.fin 1] := by
  simp [pearsonMeans, pearsonMean, accumulateRun, Volume.getAt, degenerateRuns, XFloat.add,
    XFloat.div]
  norm_num

theorem degenerateRuns_stddevs :
    pearsonStddevs exampleSqrt [0, 1, 2, 3] degenerateRuns [XFloat.fin 5, XFloat.fin 1] =
      some [XFloat.fin 0, XFloat.fin 2] := by
  simp [pearsonStddevs, pearsonStddev, accumulateRun, Volume.getAt, degenerateRuns, XFloat.add,
    XFloat.sub, XFloat.neg, XFloat.mul, XFloat.sqrtWith, exampleSqrt_zero]
  norm_num [exampleSqrt_four]

theorem degenerateRuns_pair :
    pearsonSimilarity ⟨[97], ⟨4, 1, 1⟩, [5, 5, 5, 5], (0, 0), false⟩
      ⟨[98], ⟨4, 1, 1⟩, [0, 0, 2, 2], (0, 0), false⟩ [0, 1, 2, 3]
      (XFloat.fin 5) (XFloat.fin 1) (XFloat.fin 0) (XFloat.fin 2) = some XFloat.nan := by
  simp [pearsonSimilarity, accumulateCorrelation, Volume.getAt, XFloat.add, XFloat.sub,
    XFloat.neg, XFloat.mul, XFloat.div, XFloat.isZero]

/-- C11 (failing input). For the field of two runs over four voxels, the first constant
(`5, 5, 5, 5`) and the second with values `0, 0, 2, 2`, the vector `stddevs` is `0, 2`: exactly
one of the two is zero, so `correlation` is `0 / (0 * 2)`, which is NaN, and the similarity
written to the cells `(0, 1)` and `(1, 0)` of the Pearson matrix is NaN, which is no number of
`[0,1]`. -/
theorem C11_pearson_similarity_with_one_constant_run_is_nan :
    pearsonStddevs exampleSqrt (List.range (fieldVoxelCount degenerateRuns).toNat)
      degenerateRuns [XFloat.fin 5, XFloat.fin 1] = some [XFloat.fin 0, XFloat.fin 2] ∧
    (∃ m, computePearsonSimilarityMatrix exampleSqrt degenerateRuns = some m ∧
      m.getAt (m.voxelToIndex ⟨0, 1, 0⟩) = some XFloat.nan ∧
      m.getAt (m.voxelToIndex ⟨1, 0, 0⟩) = some XFloat.nan) ∧
    ¬ XFloat.InUnit XFloat.nan := by
  refine ⟨?_, ?_, ?_⟩
  · rw [degenerateRuns_voxels.2]
    exact degenerateRuns_stddevs
  · obtain ⟨means, stddevs, m, hm, hs, hmat, _, hcells⟩ :=
      computePearsonSimilarityMatrix_cells exampleSqrt degenerateRuns 4 (by decide) (by decide)
        (by
          intro r hr
          simp only [degenerateRuns, List.mem_cons, List.mem_singleton, List.not_mem_nil,
            or_false] at hr
          rcases hr with rfl | rfl <;> rfl)
    obtain ⟨f1, f2, m1, m2, s1, s2, v, h1, h2, h3, h4, h5, h6, h7, hc1, hc2⟩ :=
      hcells 0 1 (by decide) (by decide)
    rw [degenerateRuns_voxels.2] at hm hs h7
    rw [degenerateRuns_voxels.1, degenerateRuns_means] at hm
    injection hm with hm
    subst hm
    rw [degenerateRuns_stddevs] at hs
    injection hs with hs
    subst hs
    simp only [degenerateRuns, List.getElem?_cons_zero, List.getElem?_cons_succ,
      Option.some.injEq] at h1 h2 h3 h4 h5 h6
    subst h1 h2 h3 h4 h5 h6
    rw [degenerateRuns_pair] at h7
    injection h7 with h7
    subst h7
    exact ⟨m, hmat, hc1, hc2⟩
  · rintro ⟨q, hq, _⟩
    cases hq

/-- C12. For a field with `N` runs over `V` voxels each (`V` and `N * N` being `int32_t`
values) the vectors `means` and `stddevs` and the Pearson matrix are computed, and every cell
`(i, j)` of the matrix whose two runs both have `stddev == 0.0` holds exactly `1.0`.  In
particular, when the field has exactly one voxel (and `std::sqrt( 0.0 )` is `0.0`) every cell
of the matrix holds `1.0`, whatever the values of the runs. -/
theorem C12_pearson_similarity_of_zero_stddevs_is_one (sqrt : ℚ → ℚ)
    (runs : List (Volume ℚ)) (V : Nat) (hV : V < 2147483648)
    (hfit : runs.length * runs.length < 2147483648)
    (h : ∀ r ∈ runs, r.values.length = V) :
    ∃ means stddevs m,
      pearsonMeans (List.range (fieldVoxelCount runs).toNat) (fieldVoxelCount runs) runs =
        some means ∧
      pearsonStddevs sqrt (List.range (fieldVoxelCount runs).toNat) runs means = some stddevs ∧
      computePearsonSimilarityMatrix sqrt runs = some m ∧
      (∀ i j : Nat, i < runs.length → j < runs.length →
        ∀ stddevFirst stddevSecond, stddevs[i]? = some stddevFirst →
          stddevs[j]? = some stddevSecond →
          stddevFirst.isZero = true → stddevSecond.isZero = true →
          m.getAt (m.voxelToIndex ⟨(i : Int), (j : Int), 0⟩) = some (XFloat.fin 1)) ∧
      (V = 1 → sqrt 0 = 0 → ∀ i j : Nat, i < runs.length → j < runs.length →
        m.getAt (m.voxelToIndex ⟨(i : Int), (j : Int), 0⟩) = some (XFloat.fin 1)) := by
  obtain ⟨means, stddevs, m, hm, hs, hmat, hsym, hcells⟩ :=
    computePearsonSimilarityMatrix_cells sqrt runs V hV hfit h
  have hzero : ∀ i j : Nat, i < runs.length → j < runs.length →
      ∀ stddevFirst stddevSecond, stddevs[i]? = some stddevFirst →
        stddevs[j]? = some stddevSecond →
        stddevFirst.isZero = true → stddevSecond.isZero = true →
        m.getAt (m.voxelToIndex ⟨(i : Int), (j : Int), 0⟩) = some (XFloat.fin 1) := by
    intro i j hi hj sa sb hsa hsb hza hzb
    rcases Nat.lt_trichotomy i j with hij | hij | hij
    · obtain ⟨f1, f2, m1, m2, s1, s2, v, _, _, _, _, h5, h6, h7, hc1, _⟩ := hcells i j hij hj
      rw [hsa] at h5
      rw [hsb] at h6
      injection h5 with h5
      injection h6 with h6
      subst h5 h6
      rw [hc1, pearsonSimilarity_of_zero_stddevs f1 f2 _ m1 m2 sa sb v hza hzb h7]
    · subst hij
      exact (hsym i i hi hi).2
    · obtain ⟨f1, f2, m1, m2, s1, s2, v, _, _, _, _, h5, h6, h7, _, hc2⟩ := hcells j i hij hi
      rw [hsb] at h5
      rw [hsa] at h6
      injection h5 with h5
      injection h6 with h6
      subst h5 h6
      rw [hc2, pearsonSimilarity_of_zero_stddevs f1 f2 _ m1 m2 sb sa v hzb hza h7]
  refine ⟨means, stddevs, m, hm, hs, hmat, hzero, ?_⟩
  intro hV1 hsqrt i j hi hj
  subst hV1
  have hne : runs ≠ [] := by intro h0; rw [h0] at hi; simp at hi
  have hcount := fieldVoxelCount_eq runs 1 hV hne h
  rw [hcount] at hm hs
  have hrange : List.range ((1 : Nat) : Int).toNat = [0] := by decide
  rw [hrange] at hm hs
  have hstd : ∀ k : Nat, k < runs.length →
      ∃ stddev, stddevs[k]? = some stddev ∧ stddev.isZero = true := by
    intro k hk
    have hrk : runs[k]? = some runs[k] := List.getElem?_eq_getElem hk
    obtain ⟨hmk, mean, hmean⟩ := pearsonMeans_getElem _ _ runs means hm k _ hrk
    obtain ⟨hsk, stddev, hstddev⟩ := pearsonStddevs_getElem sqrt _ runs means stddevs hs k _
      mean hrk hmean
    refine ⟨stddev, hstddev, ?_⟩
    rw [hmean] at hmk
    rw [hstddev] at hsk
    exact pearson_single_voxel sqrt hsqrt runs[k] (h _ (List.getElem_mem hk)) mean stddev
      hmk.symm hsk.symm
  obtain ⟨sa, hsa, hza⟩ := hstd i hi
  obtain ⟨sb, hsb, hzb⟩ := hstd j hj
  exact hzero i j hi hj sa sb hsa hsb hza hzb

theorem singleVoxelRuns_lengths : ∀ r ∈ singleVoxelRuns, r.values.length = 1 := by
  intro r hr
  simp only [singleVoxelRuns, List.mem_cons, List.mem_singleton, List.not_mem_nil,
    or_false] at hr
  rcases hr with rfl | rfl <;> rfl

theorem C12_pearson_similarity_of_zero_stddevs_is_one_witness :
    (1 < 2147483648 ∧ singleVoxelRuns.length * singleVoxelRuns.length < 2147483648 ∧
      ∀ r ∈ singleVoxelRuns, r.values.length = 1) ∧
    ∃ means stddevs m,
      pearsonMeans (List.range (fieldVoxelCount singleVoxelRuns).toNat)
        (fieldVoxelCount singleVoxelRuns) singleVoxelRuns = some means ∧
      pearsonStddevs exampleSqrt (List.range (fieldVoxelCount singleVoxelRuns).toNat)
        singleVoxelRuns means = some stddevs ∧
      computePearsonSimilarityMatrix exampleSqrt singleVoxelRuns = some m ∧
      (∀ i j : Nat, i < singleVoxelRuns.length → j < singleVoxelRuns.length →
        ∀ stddevFirst stddevSecond, stddevs[i]? = some stddevFirst →
          stddevs[j]? = some stddevSecond →
          stddevFirst.isZero = true → stddevSecond.isZero = true →
          m.getAt (m.voxelToIndex ⟨(i : Int), (j : Int), 0⟩) = some (XFloat.fin 1)) ∧
      (1 = 1 → exampleSqrt 0 = 0 → ∀ i j : Nat, i < singleVoxelRuns.length →
        j < singleVoxelRuns.length →
        m.getAt (m.voxelToIndex ⟨(i : Int), (j : Int), 0⟩) = some (XFloat.fin 1)) :=
  ⟨⟨by decide, by decide, singleVoxelRuns_lengths⟩,
    C12_pearson_similarity_of_zero_stddevs_is_one exampleSqrt singleVoxelRuns 1 (by decide)
      (by decide) singleVoxelRuns_lengths⟩

end Reghievis

/-! ## Loops that fill a grid -/

namespace Reghievis

theorem Volume.ofDimensions_of_product {T : Type} [Zero T] (dimensions : Vec3i)
    (name : List Nat) (V : Nat) (h : dimensions.product = (V : Int)) :
    (Volume.ofDimensions dimensions name : Option (Volume T)) =
      some ⟨name, dimensions, List.replicate V 0, (0, 0), false⟩ := by
  unfold Volume.ofDimensions
  rw [h]
  rw [if_pos (Int.ofNat_nonneg _)]
  rw [Int.toNat_ofNat]

/-- What a filling loop leaves in the grid: the cells no index of the list points to are
unchanged, and a cell some index points to holds the value of a cell of the list with that
index. -/
theorem fillCells_spec {T C : Type} (index : Volume T → C → Int) (value : C → Option T)
    (k : C → Nat) (g : C → T) (cs : List C) (result : Volume T)
    (hidx : ∀ r : Volume T, r.dimensions = result.dimensions → ∀ c ∈ cs,
      index r c = (k c : Int))
    (hk : ∀ c ∈ cs, k c < result.values.length)
    (hval : ∀ c ∈ cs, value c = some (g c)) :
    ∃ r, fillCells index value cs result = some r ∧ r.name = result.name ∧
      r.dimensions = result.dimensions ∧ r.values.length = result.values.length ∧
      (∀ n, (∀ c ∈ cs, k c ≠ n) → r.values[n]? = result.values[n]?) ∧
      (∀ n, (∃ c ∈ cs, k c = n) → ∃ c ∈ cs, k c = n ∧ r.values[n]? = some (g c)) := by
  induction cs generalizing result with
  | nil =>
    refine ⟨result, rfl, rfl, rfl, rfl, fun n _ => rfl, ?_⟩
    rintro n ⟨c, hc, _⟩
    simp at hc
  | cons c cs ih =>
    have hkc := hk c (List.mem_cons_self _ _)
    have hset : result.setAt (index result c) (g c) =
        some { result with values := result.values.set (k c) (g c) } := by
      rw [hidx result rfl c (List.mem_cons_self _ _)]
      exact Volume.setAt_natCast result (k c) (g c) hkc
    obtain ⟨r, hr, hname, hdim, hlen, hout, hin⟩ :=
      ih { result with values := result.values.set (k c) (g c) }
        (fun r hrd x hx => hidx r hrd x (List.mem_cons_of_mem _ hx))
        (fun x hx => by
          simp only [List.length_set]
          exact hk x (List.mem_cons_of_mem _ hx))
        (fun x hx => hval x (List.mem_cons_of_mem _ hx))
    refine ⟨r, ?_, hname, hdim, by rw [hlen]; simp, ?_, ?_⟩
    · simp only [fillCells, hval c (List.mem_cons_self _ _), hset, hr]
    · intro n hn
      rw [hout n (fun x hx => hn x (List.mem_cons_of_mem _ hx))]
      simp only
      rw [List.getElem?_set_ne (hn c (List.mem_cons_self _ _))]
    · rintro n ⟨x, hx, hxn⟩
      by_cases hrest : ∃ y ∈ cs, k y = n
      · obtain ⟨y, hy, hyn, hval2⟩ := hin n hrest
        exact ⟨y, List.mem_cons_of_mem _ hy, hyn, hval2⟩
      · have hnot : ∀ y ∈ cs, k y ≠ n := fun y hy hyn => hrest ⟨y, hy, hyn⟩
        have hxc : x = c := by
          rcases List.mem_cons.mp hx with h | h
          · exact h
          · exact absurd hxn (hnot x h)
        subst hxc
        refine ⟨x, List.mem_cons_self _ _, hxn, ?_⟩
        rw [hout n hnot]
        simp only
        rw [← hxn, List.getElem?_set_self hkc]

/-- A loop over the voxels `0, …, V - 1` of a grid with `V` cells leaves the value of voxel
`n` in cell `n`. -/
theorem fillVoxels_spec {T : Type} (value : Nat → Option T) (g : Nat → T) (V : Nat)
    (result : Volume T) (hlen : result.values.length = V)
    (hval : ∀ n, n < V → value n = some (g n)) :
    ∃ r, fillVoxels value (V : Int) result = some r ∧ r.name = result.name ∧
      r.dimensions = result.dimensions ∧ r.values.length = V ∧
      ∀ n, n < V → r.getAt (n : Int) = some (g n) := by
  obtain ⟨r, hr, hname, hdim, hl, _, hin⟩ :=
    fillCells_spec (fun _ (i : Nat) => (i : Int)) value (fun i => i) g (List.range V) result
      (fun _ _ _ _ => rfl)
      (fun c hc => by rw [hlen]; exact List.mem_range.mp hc)
      (fun c hc => hval c (List.mem_range.mp hc))
  refine ⟨r, ?_, hname, hdim, by rw [hl, hlen], ?_⟩
  · unfold fillVoxels
    rw [Int.toNat_ofNat]
    exact hr
  · intro n hn
    obtain ⟨c, _, hcn, hv⟩ := hin n ⟨n, List.mem_range.mpr hn, rfl⟩
    subst hcn
    rw [Volume.getAt_natCast]
    exact hv

end Reghievis

/-! ## Minimum and maximum -/

namespace Reghievis

theorem Float32.le_stdMax_left (a b : Float32) : a ≤ Float32.stdMax a b := by
  unfold Float32.stdMax
  split
  · exact le_of_lt (by assumption)
  · exact le_refl a

theorem Float32.le_stdMax_right (a b : Float32) : b ≤ Float32.stdMax a b := by
  unfold Float32.stdMax
  split
  · exact le_refl b
  · exact not_lt.mp (by assumption)

theorem Float32.stdMax_eq (a b : Float32) :
    Float32.stdMax a b = a ∨ Float32.stdMax a b = b := by
  unfold Float32.stdMax
  split
  · exact Or.inr rfl
  · exact Or.inl rfl

/-- The running minimum and maximum over a list of runs bound the starting values and every
run, and each is the starting value or the value of a run. -/
theorem minimumMaximumAt_spec (i : Int) (vs : List (Volume Float32)) (acc : Float32 × Float32)
    (h : ∀ r ∈ vs, ∃ x, r.getAt i = some x) :
    ∃ lo hi, minimumMaximumAt i vs acc = some (lo, hi) ∧ lo ≤ acc.1 ∧ acc.2 ≤ hi ∧
      (∀ r ∈ vs, ∃ x, r.getAt i = some x ∧ lo ≤ x ∧ x ≤ hi) ∧
      (lo = acc.1 ∨ ∃ r ∈ vs, r.getAt i = some lo) ∧
      (hi = acc.2 ∨ ∃ r ∈ vs, r.getAt i = some hi) := by
  induction vs generalizing acc with
  | nil =>
    exact ⟨acc.1, acc.2, rfl, le_refl _, le_refl _, fun r hr => by simp at hr, Or.inl rfl,
      Or.inl rfl⟩
  | cons v vs ih =>
    obtain ⟨x, hx⟩ := h v (List.mem_cons_self _ _)
    obtain ⟨lo, hi, hres, hlo, hhi, hall, hloa, hhia⟩ :=
      ih (Float32.stdMin acc.1 x, Float32.stdMax acc.2 x)
        (fun r hr => h r (List.mem_cons_of_mem _ hr))
    simp only at hlo hhi hloa hhia
    refine ⟨lo, hi, by simp only [minimumMaximumAt, hx, hres],
      le_trans hlo (Float32.stdMin_le_left _ _), le_trans (Float32.le_stdMax_left _ _) hhi,
      ?_, ?_, ?_⟩
    · intro r hr
      rcases List.mem_cons.mp hr with hrv | hrv
      · subst hrv
        exact ⟨x, hx, le_trans hlo (Float32.stdMin_le_right _ _),
          le_trans (Float32.le_stdMax_right _ _) hhi⟩
      · exact hall r hrv
    · rcases hloa with hl | ⟨r, hr, hrl⟩
      · rcases Float32.stdMin_eq acc.1 x with he | he
        · exact Or.inl (by rw [hl, he])
        · exact Or.inr ⟨v, List.mem_cons_self _ _, by rw [hl, he]; exact hx⟩
      · exact Or.inr ⟨r, List.mem_cons_of_mem _ hr, hrl⟩
    · rcases hhia with hl | ⟨r, hr, hrl⟩
      · rcases Float32.stdMax_eq acc.2 x with he | he
        · exact Or.inl (by rw [hl, he])
        · exact Or.inr ⟨v, List.mem_cons_self _ _, by rw [hl, he]; exact hx⟩
      · exact Or.inr ⟨r, List.mem_cons_of_mem _ hr, hrl⟩

theorem Field.members_eq (f : Field) (hfit : f.volumes.length < 2147483648) :
    f.members = f.volumes := by
  unfold Field.members Field.memberCount
  rw [wrapInt32_of_inInt32 (by unfold InInt32; omega), Int.toNat_ofNat]
  exact List.take_length f.volumes

theorem Field.voxelCount_eq (f : Field) (V : Nat) (hV : V < 2147483648)
    (hne : f.volumes ≠ []) (h : ∀ r ∈ f.volumes, r.values.length = V) :
    f.voxelCount = (V : Int) := by
  unfold Field.voxelCount
  cases hv : f.volumes with
  | nil => exact absurd hv hne
  | cons r rest =>
    simp only [Volume.voxelCount, h r (by rw [hv]; exact List.mem_cons_self _ _)]
    exact wrapInt32_of_inInt32 (by unfold InInt32; omega)

/-- C16. For a field with `N ≥ 1` runs of `V` voxels each (`N` and `V` being `int32_t` values,
`V` the product of the dimensions) `computeMinimumMaximum` computes the grids "Minimum" and
"Maximum", and at every voxel `i` the minimum is below and the maximum above the value of
every run, and both are the value of some run at `i`. -/
theorem C16_minimum_maximum_bound_the_runs (f : Field) (V : Nat)
    (hN : 1 ≤ f.volumes.length) (hNfit : f.volumes.length < 2147483648)
    (hV : V < 2147483648) (hlen : ∀ r ∈ f.volumes, r.values.length = V)
    (hdim : f.dimensions.product = (V : Int)) :
    ∃ minVolume maxVolume, f.minimumMaximumVolumes = some (minVolume, maxVolume) ∧
      ∀ i : Nat, i < V → ∃ lo hi,
        minVolume.getAt (i : Int) = some lo ∧ maxVolume.getAt (i : Int) = some hi ∧
        (∀ r ∈ f.volumes, ∃ x, r.getAt (i : Int) = some x ∧ lo ≤ x ∧ x ≤ hi) ∧
        (∃ r ∈ f.volumes, r.getAt (i : Int) = some lo) ∧
        (∃ r ∈ f.volumes, r.getAt (i : Int) = some hi) := by
  have hne : f.volumes ≠ [] := by
    intro h0
    rw [h0] at hN
    simp at hN
  obtain ⟨front, hfront⟩ := List.exists_mem_of_ne_nil _ hne
  have hget : ∀ i : Nat, i < V → ∀ r ∈ f.volumes, ∃ x, r.getAt (i : Int) = some x :=
    fun i hi r hr => r.getAt_isSome i (by rw [hlen r hr]; exact hi)
  have hspec : ∀ i : Nat, i < V → ∃ lo hi,
      minimumMaximumAt (i : Int) f.members (Float32.max, Float32.lowest) = some (lo, hi) ∧
      (∀ r ∈ f.volumes, ∃ x, r.getAt (i : Int) = some x ∧ lo ≤ x ∧ x ≤ hi) ∧
      (∃ r ∈ f.volumes, r.getAt (i : Int) = some lo) ∧
      (∃ r ∈ f.volumes, r.getAt (i : Int) = some hi) := by
    intro i hi
    rw [Field.members_eq f hNfit]
    obtain ⟨lo, hi2, hres, _, _, hall, hloa, hhia⟩ :=
      minimumMaximumAt_spec (i : Int) f.volumes (Float32.max, Float32.lowest) (hget i hi)
    obtain ⟨x, hx, hlx, hxh⟩ := hall front hfront
    refine ⟨lo, hi2, hres, hall, ?_, ?_⟩
    · rcases hloa with hl | hl
      · simp only at hl
        have hxe : x = lo := by
          rw [hl] at hlx ⊢
          exact le_antisymm (Float32.le_max x) hlx
        exact ⟨front, hfront, by rw [← hxe]; exact hx⟩
      · exact hl
    · rcases hhia with hl | hl
      · simp only at hl
        have hxe : x = hi2 := by
          rw [hl] at hxh ⊢
          exact le_antisymm hxh (Float32.lowest_le x)
        exact ⟨front, hfront, by rw [← hxe]; exact hx⟩
      · exact hl
  have hcount := Field.voxelCount_eq f V hV hne hlen
  obtain ⟨minFilled, hmin, _, _, _, hminAt⟩ := fillVoxels_spec
    (fun i => (minimumMaximumAt (i : Int) f.members (Float32.max, Float32.lowest)).map Prod.fst)
    (fun i => ((minimumMaximumAt (i : Int) f.members (Float32.max, Float32.lowest)).map
      Prod.fst).getD Float32.zero) V
    (⟨[77, 105, 110, 105, 109, 117, 109], f.dimensions, List.replicate V 0, (0, 0), false⟩ :
      Volume Float32)
    (by simp)
    (fun n hn => by
      obtain ⟨lo, hi, hres, _⟩ := hspec n hn
      simp only [hres, Option.map_some', Option.getD_some])
  obtain ⟨maxFilled, hmax, _, _, _, hmaxAt⟩ := fillVoxels_spec
    (fun i => (minimumMaximumAt (i : Int) f.members (Float32.max, Float32.lowest)).map Prod.snd)
    (fun i => ((minimumMaximumAt (i : Int) f.members (Float32.max, Float32.lowest)).map
      Prod.snd).getD Float32.zero) V
    (⟨[77, 97, 120, 105, 109, 117, 109], f.dimensions, List.replicate V 0, (0, 0), false⟩ :
      Volume Float32)
    (by simp)
    (fun n hn => by
      obtain ⟨lo, hi, hres, _⟩ := hspec n hn
      simp only [hres, Option.map_some', Option.getD_some])
  refine ⟨minFilled, maxFilled, ?_, ?_⟩
  · unfold Field.minimumMaximumVolumes
    rw [Volume.ofDimensions_of_product _ _ V hdim, Volume.ofDimensions_of_product _ _ V hdim]
    simp only [Option.some_bind]
    rw [hcount, hmin, hmax]
    rfl
  · intro i hi
    obtain ⟨lo, hi2, hres, hall, hloa, hhia⟩ := hspec i hi
    refine ⟨lo, hi2, ?_, ?_, hall, hloa, hhia⟩
    · rw [hminAt i hi, hres]
      rfl
    · rw [hmaxAt i hi, hres]
      rfl

theorem exampleFieldBare_lengths : ∀ r ∈ exampleFieldBare.volumes, r.values.length = 2 := by
  intro r hr
  simp only [exampleFieldBare, List.mem_cons, List.mem_singleton, List.not_mem_nil,
    or_false] at hr
  rcases hr with rfl | rfl <;> rfl

theorem exampleFieldBare_product : exampleFieldBare.dimensions.product = ((2 : Nat) : Int) := by
  simp [exampleFieldBare, Field.dimensions, exampleVolume, Vec3i.product, wrapInt32]

theorem C16_minimum_maximum_bound_the_runs_witness :
    (1 ≤ exampleFieldBare.volumes.length ∧ exampleFieldBare.volumes.length < 2147483648 ∧
      2 < 2147483648 ∧ (∀ r ∈ exampleFieldBare.volumes, r.values.length = 2) ∧
      exampleFieldBare.dimensions.product = ((2 : Nat) : Int)) ∧
    ∃ minVolume maxVolume,
      exampleFieldBare.minimumMaximumVolumes = some (minVolume, maxVolume) ∧
      ∀ i : Nat, i < 2 → ∃ lo hi,
        minVolume.getAt (i : Int) = some lo ∧ maxVolume.getAt (i : Int) = some hi ∧
        (∀ r ∈ exampleFieldBare.volumes, ∃ x, r.getAt (i : Int) = some x ∧ lo ≤ x ∧ x ≤ hi) ∧
        (∃ r ∈ exampleFieldBare.volumes, r.getAt (i : Int) = some lo) ∧
        (∃ r ∈ exampleFieldBare.volumes, r.getAt (i : Int) = some hi) :=
  ⟨⟨by decide, by decide, by decide, exampleFieldBare_lengths, exampleFieldBare_product⟩,
    C16_minimum_maximum_bound_the_runs exampleFieldBare 2 (by decide) (by decide) (by decide)
      exampleFieldBare_lengths exampleFieldBare_product⟩

end Reghievis

/-! ## Voxel coordinates and buffer indices -/

namespace Reghievis

theorem rect_index_lt {X Y x y : Nat} (hx : x < X) (hy : y < Y) : y + Y * x < Y * X := by
  have h1 : Y * (x + 1) ≤ Y * X := Nat.mul_le_mul_left Y hx
  rw [Nat.mul_add, Nat.mul_one] at h1
  omega

theorem grid_index_lt {X Y Z x y z : Nat} (hx : x < X) (hy : y < Y) (hz : z < Z) :
    z + Z * (y + Y * x) < X * Y * Z := by
  have h1 := rect_index_lt hx hy
  have h2 := rect_index_lt h1 hz
  have h3 : Z * (Y * X) = X * Y * Z := by
    rw [Nat.mul_comm Z, Nat.mul_comm Y]
  omega

theorem grid_index_inj {Y Z x y z x2 y2 z2 : Nat} (hy : y < Y) (hy2 : y2 < Y) (hz : z < Z)
    (hz2 : z2 < Z) (h : z + Z * (y + Y * x) = z2 + Z * (y2 + Y * x2)) :
    x = x2 ∧ y = y2 ∧ z = z2 := by
  obtain ⟨h1, h2⟩ := cell_index_inj hz hz2 h
  obtain ⟨h3, h4⟩ := cell_index_inj hy hy2 h1
  exact ⟨h3, h4, h2⟩

theorem grid_index_surj {X Y Z n : Nat} (hn : n < X * Y * Z) :
    ∃ x y z, x < X ∧ y < Y ∧ z < Z ∧ n = z + Z * (y + Y * x) := by
  have hZ : 0 < Z := by
    rcases Nat.eq_zero_or_pos Z with h | h
    · rw [h, Nat.mul_zero] at hn
      omega
    · exact h
  have hY : 0 < Y := by
    rcases Nat.eq_zero_or_pos Y with h | h
    · rw [h, Nat.mul_zero, Nat.zero_mul] at hn
      omega
    · exact h
  have h1 : n / Z < X * Y := by
    rw [Nat.div_lt_iff_lt_mul hZ]
    exact hn
  have h2 : n / Z / Y < X := by
    rw [Nat.div_lt_iff_lt_mul hY]
    exact h1
  refine ⟨n / Z / Y, n / Z % Y, n % Z, h2, Nat.mod_lt _ hY, Nat.mod_lt _ hZ, ?_⟩
  rw [Nat.mod_add_div (n / Z) Y, Nat.mod_add_div n Z]

theorem grid_dims_lt {X Y Z x y z : Nat} (hfit : X * Y * Z < 2147483648) (hx : x < X)
    (hy : y < Y) (hz : z < Z) :
    X < 2147483648 ∧ Y < 2147483648 ∧ Z < 2147483648 ∧ Y * x < 2147483648 ∧
      y + Y * x < 2147483648 ∧ Z * (y + Y * x) < 2147483648 := by
  have h1 := rect_index_lt hx hy
  have h2 := rect_index_lt h1 hz
  have h3 : Z * (Y * X) = X * Y * Z := by
    rw [Nat.mul_comm Z, Nat.mul_comm Y]
  have hYX : Y * X ≤ Z * (Y * X) := Nat.le_mul_of_pos_left _ (by omega)
  have hX : X ≤ Y * X := Nat.le_mul_of_pos_left _ (by omega)
  have hY : Y ≤ Y * X := Nat.le_mul_of_pos_right _ (by omega)
  have hZ : Z ≤ Z * (Y * X) := Nat.le_mul_of_pos_right _ (by omega)
  refine ⟨by omega, by omega, by omega, by omega, by omega, by omega⟩

theorem wrapInt32_natCast (n : Nat) (h : n < 2147483648) : wrapInt32 (n : Int) = (n : Int) :=
  wrapInt32_of_inInt32 (by unfold InInt32; omega)

theorem Volume.voxelToIndex_grid {T : Type} (m : Volume T) (X Y Z x y z : Nat)
    (hdim : m.dimensions = ⟨(X : Int), (Y : Int), (Z : Int)⟩) (hfit : X * Y * Z < 2147483648)
    (hx : x < X) (hy : y < Y) (hz : z < Z) :
    m.voxelToIndex ⟨(x : Int), (y : Int), (z : Int)⟩ = ((z + Z * (y + Y * x) : Nat) : Int) := by
  have hlt := grid_index_lt hx hy hz
  obtain ⟨_, _, _, b1, b2, b3⟩ := grid_dims_lt hfit hx hy hz
  have b4 : z + Z * (y + Y * x) < 2147483648 := by omega
  have c1 : (Y : Int) * (x : Int) = ((Y * x : Nat) : Int) := by push_cast; rfl
  have c2 : (y : Int) + ((Y * x : Nat) : Int) = ((y + Y * x : Nat) : Int) := by
    push_cast; rfl
  have c3 : (Z : Int) * ((y + Y * x : Nat) : Int) = ((Z * (y + Y * x) : Nat) : Int) := by
    push_cast; rfl
  have c4 : ((Z * (y + Y * x) : Nat) : Int) + (z : Int) =
      ((z + Z * (y + Y * x) : Nat) : Int) := by
    push_cast; ring
  unfold Volume.voxelToIndex
  rw [hdim]
  simp only [c1, wrapInt32_natCast _ b1, c2, wrapInt32_natCast _ b2, c3,
    wrapInt32_natCast _ b3, c4, wrapInt32_natCast _ b4]

/-- A voxel inside the grid has its buffer index inside the buffer. -/
theorem Volume.getAt_inGrid {T : Type} (m : Volume T) (X Y Z : Nat)
    (hdim : m.dimensions = ⟨(X : Int), (Y : Int), (Z : Int)⟩) (hfit : X * Y * Z < 2147483648)
    (hlen : m.values.length = X * Y * Z) (c : Vec3i)
    (hx0 : 0 ≤ c.x) (hx : c.x < (X : Int)) (hy0 : 0 ≤ c.y) (hy : c.y < (Y : Int))
    (hz0 : 0 ≤ c.z) (hz : c.z < (Z : Int)) :
    ∃ a, m.getAt (m.voxelToIndex c) = some a := by
  obtain ⟨cx, cy, cz⟩ := c
  simp only at hx0 hx hy0 hy hz0 hz
  obtain ⟨x, rfl⟩ := Int.eq_ofNat_of_zero_le hx0
  obtain ⟨y, rfl⟩ := Int.eq_ofNat_of_zero_le hy0
  obtain ⟨z, rfl⟩ := Int.eq_ofNat_of_zero_le hz0
  have hx2 : x < X := by omega
  have hy2 : y < Y := by omega
  have hz2 : z < Z := by omega
  rw [Volume.voxelToIndex_grid m X Y Z x y z hdim hfit hx2 hy2 hz2]
  exact m.getAt_isSome _ (by rw [hlen]; exact grid_index_lt hx2 hy2 hz2)

theorem Vec3i.product_grid (X Y Z : Nat) (hfit : X * Y * Z < 2147483648) :
    (⟨(X : Int), (Y : Int), (Z : Int)⟩ : Vec3i).product = ((X * Y * Z : Nat) : Int) := by
  unfold Vec3i.product
  rcases Nat.eq_zero_or_pos Z with h | h
  · subst h
    have e0 : wrapInt32 ((X : Int) * (Y : Int)) * ((0 : Nat) : Int) = ((0 : Nat) : Int) := by
      rw [Int.ofNat_zero, mul_zero]
    simp only [e0, Nat.mul_zero, wrapInt32_natCast 0 (by decide)]
  · have h3 : X * Y ≤ X * Y * Z := Nat.le_mul_of_pos_right _ h
    have b1 : X * Y < 2147483648 := by omega
    have c1 : (X : Int) * (Y : Int) = ((X * Y : Nat) : Int) := by push_cast; rfl
    have c2 : ((X * Y : Nat) : Int) * (Z : Int) = ((X * Y * Z : Nat) : Int) := by
      push_cast; rfl
    simp only [c1, wrapInt32_natCast _ b1, c2, wrapInt32_natCast _ hfit]

end Reghievis

/-! ## The gradient of the mean grid -/

namespace Reghievis

theorem Vec3i.get_set (v : Vec3i) (i : Nat) (a : Int) : (v.set i a).get i = a := by
  unfold Vec3i.get Vec3i.set
  by_cases h0 : i = 0
  · simp [h0]
  · by_cases h1 : i = 1
    · simp [h1]
    · simp [h0, h1]

theorem mem_gridVoxels (X Y Z : Nat) (c : Vec3i) :
    c ∈ gridVoxels ⟨(X : Int), (Y : Int), (Z : Int)⟩ ↔
      ∃ x y z : Nat, x < X ∧ y < Y ∧ z < Z ∧ c = ⟨(x : Int), (y : Int), (z : Int)⟩ := by
  unfold gridVoxels
  simp only [Int.toNat_ofNat, List.mem_flatMap, List.mem_range, List.mem_map]
  constructor
  · rintro ⟨x, hx, y, hy, z, hz, rfl⟩
    exact ⟨x, y, z, hx, hy, hz, rfl⟩
  · rintro ⟨x, y, z, hx, hy, hz, rfl⟩
    exact ⟨x, hx, y, hy, z, hz, rfl⟩

/-- The neighbour of a voxel of the grid along axis `i`, one step forward or backward, is a
voxel of the grid whenever its coordinate `i` is inside the extent. -/
theorem neighbour_inGrid (M : Volume XFloat) (X Y Z : Nat)
    (hdim : M.dimensions = ⟨(X : Int), (Y : Int), (Z : Int)⟩) (hfit : X * Y * Z < 2147483648)
    (hlen : M.values.length = X * Y * Z) (x y z : Nat) (hx : x < X) (hy : y < Y) (hz : z < Z)
    (i : Nat) (hi : i < 3) (a : Int) (ha0 : 0 ≤ a)
    (ha : a < (⟨(X : Int), (Y : Int), (Z : Int)⟩ : Vec3i).get i) :
    ∃ value, M.getAt (M.voxelToIndex
      ((⟨(x : Int), (y : Int), (z : Int)⟩ : Vec3i).set i a)) = some value := by
  have h3 : i = 0 ∨ i = 1 ∨ i = 2 := by omega
  rcases h3 with rfl | rfl | rfl
  · have ha2 : a < (X : Int) := by simpa [Vec3i.get] using ha
    exact M.getAt_inGrid X Y Z hdim hfit hlen _ (by simpa [Vec3i.set] using ha0)
      (by simpa [Vec3i.set] using ha2) (by simp [Vec3i.set]) (by simpa [Vec3i.set] using hy)
      (by simp [Vec3i.set]) (by simpa [Vec3i.set] using hz)
  · have ha2 : a < (Y : Int) := by simpa [Vec3i.get] using ha
    exact M.getAt_inGrid X Y Z hdim hfit hlen _ (by simp [Vec3i.set])
      (by simpa [Vec3i.set] using hx) (by simpa [Vec3i.set] using ha0)
      (by simpa [Vec3i.set] using ha2) (by simp [Vec3i.set]) (by simpa [Vec3i.set] using hz)
  · have ha2 : a < (Z : Int) := by simpa [Vec3i.get] using ha
    exact M.getAt_inGrid X Y Z hdim hfit hlen _ (by simp [Vec3i.set])
      (by simpa [Vec3i.set] using hx) (by simp [Vec3i.set]) (by simpa [Vec3i.set] using hy)
      (by simpa [Vec3i.set] using ha0) (by simpa [Vec3i.set] using ha2)

theorem coordinate_bounds (X Y Z : Nat) (hfit : X * Y * Z < 2147483648) (x y z : Nat)
    (hx : x < X) (hy : y < Y) (hz : z < Z) (i : Nat) :
    0 ≤ (⟨(x : Int), (y : Int), (z : Int)⟩ : Vec3i).get i ∧
      (⟨(x : Int), (y : Int), (z : Int)⟩ : Vec3i).get i <
        (⟨(X : Int), (Y : Int), (Z : Int)⟩ : Vec3i).get i ∧
      (⟨(X : Int), (Y : Int), (Z : Int)⟩ : Vec3i).get i < 2147483648 := by
  obtain ⟨hX, hY, hZ, _, _, _⟩ := grid_dims_lt hfit hx hy hz
  unfold Vec3i.get
  by_cases h0 : i = 0
  · simp only [h0, if_true]
    omega
  · by_cases h1 : i = 1
    · simp only [h1, if_true, one_ne_zero, if_false]
      omega
    · simp only [h0, h1, if_false]
      omega

/-- The component `i` of the gradient at a voxel of the grid: the forward value minus the
backward value, divided by `2` when both neighbours exist and by `1` otherwise, the value at
the voxel itself standing for a missing neighbour. -/
theorem gradientComponent_spec (M : Volume XFloat) (X Y Z : Nat)
    (hdim : M.dimensions = ⟨(X : Int), (Y : Int), (Z : Int)⟩) (hfit : X * Y * Z < 2147483648)
    (hlen : M.values.length = X * Y * Z) (x y z : Nat) (hx : x < X) (hy : y < Y) (hz : z < Z)
    (center : XFloat) (i : Nat) (hi : i < 3) :
    ∃ fwd bwd,
      (if (⟨(x : Int), (y : Int), (z : Int)⟩ : Vec3i).get i + 1 <
          (⟨(X : Int), (Y : Int), (Z : Int)⟩ : Vec3i).get i then
        M.getAt (M.voxelToIndex ((⟨(x : Int), (y : Int), (z : Int)⟩ : Vec3i).set i
          ((⟨(x : Int), (y : Int), (z : Int)⟩ : Vec3i).get i + 1)))
      else some center) = some fwd ∧
      (if 0 ≤ (⟨(x : Int), (y : Int), (z : Int)⟩ : Vec3i).get i - 1 then
        M.getAt (M.voxelToIndex ((⟨(x : Int), (y : Int), (z : Int)⟩ : Vec3i).set i
          ((⟨(x : Int), (y : Int), (z : Int)⟩ : Vec3i).get i - 1)))
      else some center) = some bwd ∧
      gradientComponent M ⟨(X : Int), (Y : Int), (Z : Int)⟩
        ⟨(x : Int), (y : Int), (z : Int)⟩ center i =
        some (XFloat.div (XFloat.sub fwd bwd) (XFloat.fin
          (if 0 ≤ (⟨(x : Int), (y : Int), (z : Int)⟩ : Vec3i).get i - 1 then
            (if (⟨(x : Int), (y : Int), (z : Int)⟩ : Vec3i).get i + 1 <
              (⟨(X : Int), (Y : Int), (Z : Int)⟩ : Vec3i).get i then 2 else 1)
          else 1))) := by
  obtain ⟨hc0, hc1, hc2⟩ := coordinate_bounds X Y Z hfit x y z hx hy hz i
  generalize hv : (⟨(x : Int), (y : Int), (z : Int)⟩ : Vec3i).get i = a at hc0 hc1 ⊢
  generalize hd : (⟨(X : Int), (Y : Int), (Z : Int)⟩ : Vec3i).get i = b at hc1 hc2 ⊢
  have hw1 : wrapInt32 (a + 1) = a + 1 := wrapInt32_of_inInt32 (by unfold InInt32; omega)
  have hw2 : wrapInt32 (a - 1) = a - 1 := wrapInt32_of_inInt32 (by unfold InInt32; omega)
  have hfwd : ∃ fwd, (if a + 1 < b then
      M.getAt (M.voxelToIndex ((⟨(x : Int), (y : Int), (z : Int)⟩ : Vec3i).set i (a + 1)))
      else some center) = some fwd := by
    by_cases hf : a + 1 < b
    · rw [if_pos hf]
      exact neighbour_inGrid M X Y Z hdim hfit hlen x y z hx hy hz i hi (a + 1) (by omega)
        (by rw [hd]; exact hf)
    · rw [if_neg hf]
      exact ⟨center, rfl⟩
  have hbwd : ∃ bwd, (if 0 ≤ a - 1 then
      M.getAt (M.voxelToIndex ((⟨(x : Int), (y : Int), (z : Int)⟩ : Vec3i).set i (a - 1)))
      else some center) = some bwd := by
    by_cases hb : 0 ≤ a - 1
    · rw [if_pos hb]
      exact neighbour_inGrid M X Y Z hdim hfit hlen x y z hx hy hz i hi (a - 1) hb
        (by rw [hd]; omega)
    · rw [if_neg hb]
      exact ⟨center, rfl⟩
  obtain ⟨fwd, hfwd⟩ := hfwd
  obtain ⟨bwd, hbwd⟩ := hbwd
  refine ⟨fwd, bwd, hfwd, hbwd, ?_⟩
  unfold gradientComponent
  simp only [hv, hd, hw1, hw2, Vec3i.get_set, hfwd, hbwd, Option.some_bind, Option.map_some']

end Reghievis

namespace Reghievis

theorem gradientAt_spec (M : Volume XFloat) (X Y Z : Nat)
    (hdim : M.dimensions = ⟨(X : Int), (Y : Int), (Z : Int)⟩) (hfit : X * Y * Z < 2147483648)
    (hlen : M.values.length = X * Y * Z) (x y z : Nat) (hx : x < X) (hy : y < Y) (hz : z < Z) :
    ∃ center gx gy gz,
      M.getAt (M.voxelToIndex ⟨(x : Int), (y : Int), (z : Int)⟩) = some center ∧
      gradientComponent M ⟨(X : Int), (Y : Int), (Z : Int)⟩ ⟨(x : Int), (y : Int), (z : Int)⟩
        center 0 = some gx ∧
      gradientComponent M ⟨(X : Int), (Y : Int), (Z : Int)⟩ ⟨(x : Int), (y : Int), (z : Int)⟩
        center 1 = some gy ∧
      gradientComponent M ⟨(X : Int), (Y : Int), (Z : Int)⟩ ⟨(x : Int), (y : Int), (z : Int)⟩
        center 2 = some gz ∧
      gradientAt M ⟨(X : Int), (Y : Int), (Z : Int)⟩ ⟨(x : Int), (y : Int), (z : Int)⟩ =
        some ⟨gx, gy, gz⟩ := by
  obtain ⟨center, hcenter⟩ := M.getAt_inGrid X Y Z hdim hfit hlen
    ⟨(x : Int), (y : Int), (z : Int)⟩ (by simp) (by simpa using hx) (by simp)
    (by simpa using hy) (by simp) (by simpa using hz)
  obtain ⟨_, _, _, _, h0⟩ :=
    gradientComponent_spec M X Y Z hdim hfit hlen x y z hx hy hz center 0 (by decide)
  obtain ⟨_, _, _, _, h1⟩ :=
    gradientComponent_spec M X Y Z hdim hfit hlen x y z hx hy hz center 1 (by decide)
  obtain ⟨_, _, _, _, h2⟩ :=
    gradientComponent_spec M X Y Z hdim hfit hlen x y z hx hy hz center 2 (by decide)
  refine ⟨center, _, _, _, hcenter, h0, h1, h2, ?_⟩
  unfold gradientAt
  rw [hcenter, Option.some_bind, h0, Option.some_bind, h1, Option.some_bind, h2]
  rfl

/-- The grids `computeGradient` stores: at every voxel of the grid the gradient grid holds the
gradient computed there and the magnitude grid its length. -/
theorem gradientVolumes_spec (sqrt : ℚ → ℚ) (M : Volume XFloat) (X Y Z : Nat)
    (hdim : M.dimensions = ⟨(X : Int), (Y : Int), (Z : Int)⟩) (hfit : X * Y * Z < 2147483648)
    (hlen : M.values.length = X * Y * Z) :
    ∃ G Mag, gradientVolumes sqrt ⟨(X : Int), (Y : Int), (Z : Int)⟩ ((X * Y * Z : Nat) : Int) M =
        some (G, Mag) ∧
      G.values.length = X * Y * Z ∧ Mag.values.length = X * Y * Z ∧
      ∀ x y z : Nat, x < X → y < Y → z < Z →
        ∃ gradient,
          gradientAt M ⟨(X : Int), (Y : Int), (Z : Int)⟩ ⟨(x : Int), (y : Int), (z : Int)⟩ =
            some gradient ∧
          G.getAt (G.voxelToIndex ⟨(x : Int), (y : Int), (z : Int)⟩) = some gradient ∧
          G.getAt ((z + Z * (y + Y * x) : Nat) : Int) = some gradient ∧
          Mag.getAt ((z + Z * (y + Y * x) : Nat) : Int) = some (gradient.length sqrt) := by
  have hprod := Vec3i.product_grid X Y Z hfit
  obtain ⟨G, hG, _, hGdim, hGlen, _, hGin⟩ := fillCells_spec
    (fun (result : Volume Vec3x) voxel => result.voxelToIndex voxel)
    (gradientAt M ⟨(X : Int), (Y : Int), (Z : Int)⟩)
    (fun c => c.z.toNat + Z * (c.y.toNat + Y * c.x.toNat))
    (fun c => (gradientAt M ⟨(X : Int), (Y : Int), (Z : Int)⟩ c).getD 0)
    (gridVoxels ⟨(X : Int), (Y : Int), (Z : Int)⟩)
    (⟨[71, 114, 97, 100, 105, 101, 110, 116], ⟨(X : Int), (Y : Int), (Z : Int)⟩,
      List.replicate (X * Y * Z) 0, (0, 0), false⟩ : Volume Vec3x)
    (by
      intro r hr c hc
      obtain ⟨x, y, z, hx, hy, hz, rfl⟩ := (mem_gridVoxels X Y Z c).mp hc
      simp only [Int.toNat_ofNat]
      exact Volume.voxelToIndex_grid r X Y Z x y z hr hfit hx hy hz)
    (by
      intro c hc
      obtain ⟨x, y, z, hx, hy, hz, rfl⟩ := (mem_gridVoxels X Y Z c).mp hc
      simp only [Int.toNat_ofNat, List.length_replicate]
      exact grid_index_lt hx hy hz)
    (by
      intro c hc
      obtain ⟨x, y, z, hx, hy, hz, rfl⟩ := (mem_gridVoxels X Y Z c).mp hc
      obtain ⟨_, _, _, _, _, _, _, _, hg⟩ := gradientAt_spec M X Y Z hdim hfit hlen x y z hx hy hz
      beta_reduce
      rw [hg]
      rfl)
  simp only [List.length_replicate] at hGlen
  obtain ⟨Mag, hMag, _, _, hMaglen, hMagAt⟩ := fillVoxels_spec
    (fun i => (G.getAt (i : Int)).map (Vec3x.length sqrt))
    (fun i => ((G.getAt (i : Int)).map (Vec3x.length sqrt)).getD 0) (X * Y * Z)
    (⟨[71, 114, 97, 100, 105, 101, 110, 116, 32, 77, 97, 103, 110, 105, 116, 117, 100, 101],
      ⟨(X : Int), (Y : Int), (Z : Int)⟩, List.replicate (X * Y * Z) 0, (0, 0), false⟩ :
      Volume XFloat)
    (by simp)
    (fun n hn => by
      obtain ⟨g, hg⟩ := G.getAt_isSome n (by rw [hGlen]; exact hn)
      simp only [hg, Option.map_some', Option.getD_some])
  refine ⟨G, Mag, ?_, hGlen, hMaglen, ?_⟩
  · unfold gradientVolumes
    rw [Volume.ofDimensions_of_product _ _ _ hprod, Volume.ofDimensions_of_product _ _ _ hprod]
    simp only [Option.some_bind]
    rw [hG]
    simp only [Option.some_bind]
    rw [hMag]
    rfl
  · intro x y z hx hy hz
    obtain ⟨_, gx, gy, gz, _, _, _, _, hg⟩ :=
      gradientAt_spec M X Y Z hdim hfit hlen x y z hx hy hz
    have hcell : G.getAt ((z + Z * (y + Y * x) : Nat) : Int) = some ⟨gx, gy, gz⟩ := by
      obtain ⟨c, hc, hck, hcv⟩ := hGin (z + Z * (y + Y * x))
        ⟨⟨(x : Int), (y : Int), (z : Int)⟩,
          (mem_gridVoxels X Y Z _).mpr ⟨x, y, z, hx, hy, hz, rfl⟩, by simp⟩
      obtain ⟨x2, y2, z2, _, hy2, hz2, rfl⟩ := (mem_gridVoxels X Y Z c).mp hc
      simp only [Int.toNat_ofNat] at hck
      obtain ⟨rfl, rfl, rfl⟩ := grid_index_inj hy2 hy hz2 hz hck
      rw [Volume.getAt_natCast, hcv, hg]
      rfl
    refine ⟨⟨gx, gy, gz⟩, hg, ?_, hcell, ?_⟩
    · rw [Volume.voxelToIndex_grid G X Y Z x y z hGdim hfit hx hy hz]
      exact hcell
    · rw [hMagAt _ (grid_index_lt hx hy hz), hcell]
      rfl

end Reghievis
namespace Reghievis

theorem gradientComponent_cases (M : Volume XFloat) (X Y Z : Nat)
    (hdim : M.dimensions = ⟨(X : Int), (Y : Int), (Z : Int)⟩) (hfit : X * Y * Z < 2147483648)
    (hlen : M.values.length = X * Y * Z) (x y z : Nat) (hx : x < X) (hy : y < Y) (hz : z < Z)
    (center : XFloat) (i : Nat) (hi : i < 3) (g : XFloat)
    (hg : gradientComponent M ⟨(X : Int), (Y : Int), (Z : Int)⟩
      ⟨(x : Int), (y : Int), (z : Int)⟩ center i = some g) :
    ((⟨(x : Int), (y : Int), (z : Int)⟩ : Vec3i).get i + 1 <
        (⟨(X : Int), (Y : Int), (Z : Int)⟩ : Vec3i).get i →
      0 ≤ (⟨(x : Int), (y : Int), (z : Int)⟩ : Vec3i).get i - 1 →
      ∃ fwd bwd,
        M.getAt (M.voxelToIndex ((⟨(x : Int), (y : Int), (z : Int)⟩ : Vec3i).set i
          ((⟨(x : Int), (y : Int), (z : Int)⟩ : Vec3i).get i + 1))) = some fwd ∧
        M.getAt (M.voxelToIndex ((⟨(x : Int), (y : Int), (z : Int)⟩ : Vec3i).set i
          ((⟨(x : Int), (y : Int), (z : Int)⟩ : Vec3i).get i - 1))) = some bwd ∧
        g = XFloat.div (XFloat.sub fwd bwd) (XFloat.fin 2)) ∧
    ((⟨(x : Int), (y : Int), (z : Int)⟩ : Vec3i).get i + 1 <
        (⟨(X : Int), (Y : Int), (Z : Int)⟩ : Vec3i).get i →
      (⟨(x : Int), (y : Int), (z : Int)⟩ : Vec3i).get i - 1 < 0 →
      ∃ fwd,
        M.getAt (M.voxelToIndex ((⟨(x : Int), (y : Int), (z : Int)⟩ : Vec3i).set i
          ((⟨(x : Int), (y : Int), (z : Int)⟩ : Vec3i).get i + 1))) = some fwd ∧
        g = XFloat.div (XFloat.sub fwd center) (XFloat.fin 1)) ∧
    (¬ (⟨(x : Int), (y : Int), (z : Int)⟩ : Vec3i).get i + 1 <
        (⟨(X : Int), (Y : Int), (Z : Int)⟩ : Vec3i).get i →
      0 ≤ (⟨(x : Int), (y : Int), (z : Int)⟩ : Vec3i).get i - 1 →
      ∃ bwd,
        M.getAt (M.voxelToIndex ((⟨(x : Int), (y : Int), (z : Int)⟩ : Vec3i).set i
          ((⟨(x : Int), (y : Int), (z : Int)⟩ : Vec3i).get i - 1))) = some bwd ∧
        g = XFloat.div (XFloat.sub center bwd) (XFloat.fin 1)) ∧
    ((⟨(X : Int), (Y : Int), (Z : Int)⟩ : Vec3i).get i = 1 →
      ∀ q, center = XFloat.fin q → g = XFloat.fin 0) := by
  obtain ⟨fwd, bwd, hfwd, hbwd, hcomp⟩ :=
    gradientComponent_spec M X Y Z hdim hfit hlen x y z hx hy hz center i hi
  obtain ⟨hc0, hc1, _⟩ := coordinate_bounds X Y Z hfit x y z hx hy hz i
  rw [hcomp] at hg
  injection hg with hg
  refine ⟨?_, ?_, ?_, ?_⟩
  · intro hf hb
    rw [if_pos hf] at hfwd
    rw [if_pos hb] at hbwd
    rw [if_pos hb, if_pos hf] at hg
    exact ⟨fwd, bwd, hfwd, hbwd, hg.symm⟩
  · intro hf hb
    have hb2 : ¬ 0 ≤ (⟨(x : Int), (y : Int), (z : Int)⟩ : Vec3i).get i - 1 := not_le.mpr hb
    rw [if_pos hf] at hfwd
    rw [if_neg hb2] at hbwd
    rw [if_neg hb2] at hg
    injection hbwd with hbwd
    subst hbwd
    exact ⟨fwd, hfwd, hg.symm⟩
  · intro hf hb
    rw [if_neg hf] at hfwd
    rw [if_pos hb] at hbwd
    rw [if_pos hb, if_neg hf] at hg
    injection hfwd with hfwd
    subst hfwd
    exact ⟨bwd, hbwd, hg.symm⟩
  · intro hone q hq
    have hf : ¬ (⟨(x : Int), (y : Int), (z : Int)⟩ : Vec3i).get i + 1 <
        (⟨(X : Int), (Y : Int), (Z : Int)⟩ : Vec3i).get i := by
      rw [hone]
      omega
    have hb : ¬ 0 ≤ (⟨(x : Int), (y : Int), (z : Int)⟩ : Vec3i).get i - 1 := by
      rw [hone] at hc1
      omega
    rw [if_neg hf] at hfwd
    rw [if_neg hb] at hbwd
    rw [if_neg hb] at hg
    injection hfwd with hfwd
    injection hbwd with hbwd
    subst hfwd hbwd hq
    rw [← hg]
    simp [XFloat.sub, XFloat.neg, XFloat.add, XFloat.div]

/-- C15. For a mean grid `M` with `X × Y × Z` voxels (the product being an `int32_t` value)
`computeGradient` computes the gradient grid, and at every voxel `v` and for every axis
`i < 3` the component `i` of the gradient stored at `v` is `( M[v + e_i] - M[v - e_i] ) / 2`
when both neighbours exist, `( M[v + e_i] - M[v] ) / 1` when only the forward neighbour
exists, `( M[v] - M[v - e_i] ) / 1` when only the backward neighbour exists, and `0` when the
grid has extent `1` along `i` (the value at `v` being a number). -/
theorem C15_gradient_components (sqrt : ℚ → ℚ) (M : Volume XFloat) (X Y Z : Nat)
    (hdim : M.dimensions = ⟨(X : Int), (Y : Int), (Z : Int)⟩) (hfit : X * Y * Z < 2147483648)
    (hlen : M.values.length = X * Y * Z) :
    ∃ G Mag, gradientVolumes sqrt ⟨(X : Int), (Y : Int), (Z : Int)⟩ ((X * Y * Z : Nat) : Int) M =
        some (G, Mag) ∧
      ∀ x y z : Nat, x < X → y < Y → z < Z →
        ∃ center gradient,
          M.getAt (M.voxelToIndex ⟨(x : Int), (y : Int), (z : Int)⟩) = some center ∧
          G.getAt (G.voxelToIndex ⟨(x : Int), (y : Int), (z : Int)⟩) = some gradient ∧
          ∀ i : Nat, i < 3 →
            ((⟨(x : Int), (y : Int), (z : Int)⟩ : Vec3i).get i + 1 <
                (⟨(X : Int), (Y : Int), (Z : Int)⟩ : Vec3i).get i →
              0 ≤ (⟨(x : Int), (y : Int), (z : Int)⟩ : Vec3i).get i - 1 →
              ∃ fwd bwd,
                M.getAt (M.voxelToIndex ((⟨(x : Int), (y : Int), (z : Int)⟩ : Vec3i).set i
                  ((⟨(x : Int), (y : Int), (z : Int)⟩ : Vec3i).get i + 1))) = some fwd ∧
                M.getAt (M.voxelToIndex ((⟨(x : Int), (y : Int), (z : Int)⟩ : Vec3i).set i
                  ((⟨(x : Int), (y : Int), (z : Int)⟩ : Vec3i).get i - 1))) = some bwd ∧
                gradient.get i = XFloat.div (XFloat.sub fwd bwd) (XFloat.fin 2)) ∧
            ((⟨(x : Int), (y : Int), (z : Int)⟩ : Vec3i).get i + 1 <
                (⟨(X : Int), (Y : Int), (Z : Int)⟩ : Vec3i).get i →
              (⟨(x : Int), (y : Int), (z : Int)⟩ : Vec3i).get i - 1 < 0 →
              ∃ fwd,
                M.getAt (M.voxelToIndex ((⟨(x : Int), (y : Int), (z : Int)⟩ : Vec3i).set i
                  ((⟨(x : Int), (y : Int), (z : Int)⟩ : Vec3i).get i + 1))) = some fwd ∧
                gradient.get i = XFloat.div (XFloat.sub fwd center) (XFloat.fin 1)) ∧
            (¬ (⟨(x : Int), (y : Int), (z : Int)⟩ : Vec3i).get i + 1 <
                (⟨(X : Int), (Y : Int), (Z : Int)⟩ : Vec3i).get i →
              0 ≤ (⟨(x : Int), (y : Int), (z : Int)⟩ : Vec3i).get i - 1 →
              ∃ bwd,
                M.getAt (M.voxelToIndex ((⟨(x : Int), (y : Int), (z : Int)⟩ : Vec3i).set i
                  ((⟨(x : Int), (y : Int), (z : Int)⟩ : Vec3i).get i - 1))) = some bwd ∧
                gradient.get i = XFloat.div (XFloat.sub center bwd) (XFloat.fin 1)) ∧
            ((⟨(X : Int), (Y : Int), (Z : Int)⟩ : Vec3i).get i = 1 →
              ∀ q, center = XFloat.fin q → gradient.get i = XFloat.fin 0) := by
  obtain ⟨G, Mag, hvol, _, _, hcells⟩ := gradientVolumes_spec sqrt M X Y Z hdim hfit hlen
  refine ⟨G, Mag, hvol, ?_⟩
  intro x y z hx hy hz
  obtain ⟨gradient, hgrad, hG, _, _⟩ := hcells x y z hx hy hz
  obtain ⟨center, gx, gy, gz, hcenter, h0, h1, h2, hat⟩ :=
    gradientAt_spec M X Y Z hdim hfit hlen x y z hx hy hz
  rw [hat] at hgrad
  injection hgrad with hgrad
  subst hgrad
  refine ⟨center, ⟨gx, gy, gz⟩, hcenter, hG, ?_⟩
  intro i hi
  have h3 : i = 0 ∨ i = 1 ∨ i = 2 := by omega
  have hcomp : gradientComponent M ⟨(X : Int), (Y : Int), (Z : Int)⟩
      ⟨(x : Int), (y : Int), (z : Int)⟩ center i = some ((⟨gx, gy, gz⟩ : Vec3x).get i) := by
    rcases h3 with rfl | rfl | rfl
    · exact h0
    · exact h1
    · exact h2
  exact gradientComponent_cases M X Y Z hdim hfit hlen x y z hx hy hz center i hi _ hcomp

theorem C15_gradient_components_witness :
    (exampleMean.dimensions = ⟨((3 : Nat) : Int), ((1 : Nat) : Int), ((1 : Nat) : Int)⟩ ∧
      3 * 1 * 1 < 2147483648 ∧ exampleMean.values.length = 3 * 1 * 1) ∧
    ∃ G Mag,
      gradientVolumes exampleSqrt ⟨((3 : Nat) : Int), ((1 : Nat) : Int), ((1 : Nat) : Int)⟩
        ((3 * 1 * 1 : Nat) : Int) exampleMean = some (G, Mag) ∧
      ∀ x y z : Nat, x < 3 → y < 1 → z < 1 →
        ∃ center gradient,
          exampleMean.getAt (exampleMean.voxelToIndex ⟨(x : Int), (y : Int), (z : Int)⟩) =
            some center ∧
          G.getAt (G.voxelToIndex ⟨(x : Int), (y : Int), (z : Int)⟩) = some gradient ∧
          ∀ i : Nat, i < 3 →
            ((⟨(x : Int), (y : Int), (z : Int)⟩ : Vec3i).get i + 1 <
                (⟨((3 : Nat) : Int), ((1 : Nat) : Int), ((1 : Nat) : Int)⟩ : Vec3i).get i →
              0 ≤ (⟨(x : Int), (y : Int), (z : Int)⟩ : Vec3i).get i - 1 →
              ∃ fwd bwd,
                exampleMean.getAt (exampleMean.voxelToIndex
                  ((⟨(x : Int), (y : Int), (z : Int)⟩ : Vec3i).set i
                    ((⟨(x : Int), (y : Int), (z : Int)⟩ : Vec3i).get i + 1))) = some fwd ∧
                exampleMean.getAt (exampleMean.voxelToIndex
                  ((⟨(x : Int), (y : Int), (z : Int)⟩ : Vec3i).set i
                    ((⟨(x : Int), (y : Int), (z : Int)⟩ : Vec3i).get i - 1))) = some bwd ∧
                gradient.get i = XFloat.div (XFloat.sub fwd bwd) (XFloat.fin 2)) ∧
            ((⟨(x : Int), (y : Int), (z : Int)⟩ : Vec3i).get i + 1 <
                (⟨((3 : Nat) : Int), ((1 : Nat) : Int), ((1 : Nat) : Int)⟩ : Vec3i).get i →
              (⟨(x : Int), (y : Int), (z : Int)⟩ : Vec3i).get i - 1 < 0 →
              ∃ fwd,
                exampleMean.getAt (exampleMean.voxelToIndex
                  ((⟨(x : Int), (y : Int), (z : Int)⟩ : Vec3i).set i
                    ((⟨(x : Int), (y : Int), (z : Int)⟩ : Vec3i).get i + 1))) = some fwd ∧
                gradient.get i = XFloat.div (XFloat.sub fwd center) (XFloat.fin 1)) ∧
            (¬ (⟨(x : Int), (y : Int), (z : Int)⟩ : Vec3i).get i + 1 <
                (⟨((3 : Nat) : Int), ((1 : Nat) : Int), ((1 : Nat) : Int)⟩ : Vec3i).get i →
              0 ≤ (⟨(x : Int), (y : Int), (z : Int)⟩ : Vec3i).get i - 1 →
              ∃ bwd,
                exampleMean.getAt (exampleMean.voxelToIndex
                  ((⟨(x : Int), (y : Int), (z : Int)⟩ : Vec3i).set i
                    ((⟨(x : Int), (y : Int), (z : Int)⟩ : Vec3i).get i - 1))) = some bwd ∧
                gradient.get i = XFloat.div (XFloat.sub center bwd) (XFloat.fin 1)) ∧
            ((⟨((3 : Nat) : Int), ((1 : Nat) : Int), ((1 : Nat) : Int)⟩ : Vec3i).get i = 1 →
              ∀ q, center = XFloat.fin q → gradient.get i = XFloat.fin 0) :=
  ⟨⟨rfl, by decide, rfl⟩,
    C15_gradient_components exampleSqrt exampleMean 3 1 1 rfl (by decide) rfl⟩

end Reghievis

/-! ## Mean, standard deviation and gradient of a constant field -/

namespace Reghievis

theorem Volume.getAt_some_lt {T : Type} (m : Volume T) (i : Int) (a : T)
    (h : m.getAt i = some a) : ∃ n : Nat, i = (n : Int) ∧ n < m.values.length := by
  unfold Volume.getAt at h
  by_cases h0 : 0 ≤ i
  · rw [if_pos h0] at h
    obtain ⟨n, rfl⟩ := Int.eq_ofNat_of_zero_le h0
    rw [Int.toNat_ofNat] at h
    obtain ⟨hn, _⟩ := List.getElem?_eq_some_iff.mp h
    exact ⟨n, rfl, hn⟩
  · rw [if_neg h0] at h
    cases h

theorem fieldMembers_eq (runs : List (Volume ℚ)) (hfit : runs.length < 2147483648) :
    fieldMemberCount runs = (runs.length : Int) ∧ fieldMembers runs = runs := by
  have h1 : fieldMemberCount runs = (runs.length : Int) := wrapInt32_natCast _ hfit
  refine ⟨h1, ?_⟩
  unfold fieldMembers
  rw [h1, Int.toNat_ofNat]
  exact List.take_length runs

theorem accumulateMembers_const (n : Int) (c : ℚ) (vs : List (Volume ℚ)) (q : ℚ)
    (h : ∀ r ∈ vs, r.getAt n = some c) :
    accumulateMembers XFloat.fin n vs (XFloat.fin q) = some (XFloat.fin (q + vs.length * c)) := by
  induction vs generalizing q with
  | nil => simp [accumulateMembers]
  | cons v vs ih =>
    rw [accumulateMembers, h v (List.mem_cons_self _ _)]
    simp only [XFloat.add]
    rw [ih (q + c) (fun r hr => h r (List.mem_cons_of_mem _ hr))]
    congr 2
    simp only [List.length_cons]
    push_cast
    ring

theorem accumulateMembers_zero (f : ℚ → XFloat) (n : Int) (vs : List (Volume ℚ))
    (h : ∀ r ∈ vs, ∃ a, r.getAt n = some a ∧ f a = XFloat.fin 0) :
    accumulateMembers f n vs (XFloat.fin 0) = some (XFloat.fin 0) := by
  induction vs with
  | nil => rfl
  | cons v vs ih =>
    obtain ⟨a, ha, hfa⟩ := h v (List.mem_cons_self _ _)
    rw [accumulateMembers, ha]
    simp only [hfa, XFloat.add, add_zero]
    exact ih (fun r hr => h r (List.mem_cons_of_mem _ hr))

theorem XFloat.div_sub_self (c d : ℚ) (hd : d ≠ 0) :
    XFloat.div (XFloat.sub (XFloat.fin c) (XFloat.fin c)) (XFloat.fin d) = XFloat.fin 0 := by
  simp [XFloat.sub, XFloat.neg, XFloat.add, XFloat.div, hd]

theorem ite_some_const {p : Prop} [Decidable p] {o : Option XFloat} {c a : XFloat}
    (h : (if p then o else some c) = some a) (ho : ∀ b, o = some b → b = c) : a = c := by
  by_cases hp : p
  · rw [if_pos hp] at h
    exact ho a h
  · rw [if_neg hp] at h
    exact (Option.some.inj h).symm

theorem gradient_divisor_ne_zero (p q : Prop) [Decidable p] [Decidable q] :
    (if p then (if q then (2 : ℚ) else 1) else 1) ≠ 0 := by
  split_ifs <;> norm_num

/-- The gradient of a grid with the same number in every cell is zero at every voxel. -/
theorem gradientAt_const (M : Volume XFloat) (X Y Z : Nat) (c : ℚ)
    (hdim : M.dimensions = ⟨(X : Int), (Y : Int), (Z : Int)⟩) (hfit : X * Y * Z < 2147483648)
    (hlen : M.values.length = X * Y * Z)
    (hM : ∀ n : Nat, n < X * Y * Z → M.getAt (n : Int) = some (XFloat.fin c))
    (x y z : Nat) (hx : x < X) (hy : y < Y) (hz : z < Z) :
    gradientAt M ⟨(X : Int), (Y : Int), (Z : Int)⟩ ⟨(x : Int), (y : Int), (z : Int)⟩ =
      some ⟨XFloat.fin 0, XFloat.fin 0, XFloat.fin 0⟩ := by
  have hall : ∀ (i : Int) (a : XFloat), M.getAt i = some a → a = XFloat.fin c := by
    intro i a ha
    obtain ⟨n, rfl, hn⟩ := M.getAt_some_lt i a ha
    rw [hM n (by rw [← hlen]; exact hn)] at ha
    exact (Option.some.inj ha).symm
  obtain ⟨center, gx, gy, gz, hcenter, h0, h1, h2, hat⟩ :=
    gradientAt_spec M X Y Z hdim hfit hlen x y z hx hy hz
  have hcc := hall _ _ hcenter
  subst hcc
  have hcomp : ∀ i : Nat, i < 3 → ∀ g,
      gradientComponent M ⟨(X : Int), (Y : Int), (Z : Int)⟩
        ⟨(x : Int), (y : Int), (z : Int)⟩ (XFloat.fin c) i = some g → g = XFloat.fin 0 := by
    intro i hi g hg
    obtain ⟨fwd, bwd, hfwd, hbwd, hc⟩ :=
      gradientComponent_spec M X Y Z hdim hfit hlen x y z hx hy hz (XFloat.fin c) i hi
    have hf : fwd = XFloat.fin c :=
      ite_some_const hfwd (fun b hb => hall _ b hb)
    have hb : bwd = XFloat.fin c :=
      ite_some_const hbwd (fun b hb => hall _ b hb)
    rw [hc] at hg
    have hg2 := Option.some.inj hg
    rw [← hg2, hf, hb]
    exact XFloat.div_sub_self c _ (gradient_divisor_ne_zero _ _)
  rw [hat, hcomp 0 (by decide) gx h0, hcomp 1 (by decide) gy h1, hcomp 2 (by decide) gz h2]

/-- C14. For a field with `N ≥ 1` runs over an `X × Y × Z` grid (`N` and `X * Y * Z` being
`int32_t` values) in which every run holds the value `c` at every voxel, and with
`sqrt( 0 ) = 0`, the grids "Mean", "Stddev", "Gradient" and "Gradient Magnitude" are computed,
and at every voxel the mean is `c`, the standard deviation `0` and the gradient magnitude
`0`. -/
theorem C14_constant_field_mean_stddev_gradient (sqrt : ℚ → ℚ) (hsqrt : sqrt 0 = 0)
    (runs : List (Volume ℚ)) (c : ℚ) (X Y Z : Nat) (hN : 1 ≤ runs.length)
    (hNfit : runs.length < 2147483648) (hfit : X * Y * Z < 2147483648)
    (hruns : ∀ r ∈ runs, r.dimensions = ⟨(X : Int), (Y : Int), (Z : Int)⟩ ∧
      r.values = List.replicate (X * Y * Z) c) :
    ∃ meanVolume stddevVolume gradientVolume magnitudeVolume,
      meanStddevVolumes sqrt runs = some (meanVolume, stddevVolume) ∧
      gradientVolumes sqrt (fieldDimensions runs) (fieldVoxelCount runs) meanVolume =
        some (gradientVolume, magnitudeVolume) ∧
      ∀ n : Nat, n < X * Y * Z →
        meanVolume.getAt (n : Int) = some (XFloat.fin c) ∧
        stddevVolume.getAt (n : Int) = some (XFloat.fin 0) ∧
        magnitudeVolume.getAt (n : Int) = some (XFloat.fin 0) := by
  have hne : runs ≠ [] := by
    intro h0
    rw [h0] at hN
    simp at hN
  have hlen : ∀ r ∈ runs, r.values.length = X * Y * Z := by
    intro r hr
    rw [(hruns r hr).2, List.length_replicate]
  have hcount := fieldVoxelCount_eq runs (X * Y * Z) hfit hne hlen
  have hdims : fieldDimensions runs = ⟨(X : Int), (Y : Int), (Z : Int)⟩ := by
    cases hrs : runs with
    | nil => exact absurd hrs hne
    | cons r rest => exact (hruns r (by rw [hrs]; exact List.mem_cons_self _ _)).1
  obtain ⟨hmc, hmem⟩ := fieldMembers_eq runs hNfit
  have hprod := Vec3i.product_grid X Y Z hfit
  have hget : ∀ n : Nat, n < X * Y * Z → ∀ r ∈ runs, r.getAt (n : Int) = some c := by
    intro n hn r hr
    rw [Volume.getAt_natCast, (hruns r hr).2]
    exact List.getElem?_replicate_of_lt hn
  have hNq : (runs.length : ℚ) ≠ 0 := by
    have : 0 < runs.length := hN
    positivity
  have hmeanAt : ∀ n : Nat, n < X * Y * Z → meanAt runs (n : Int) = some (XFloat.fin c) := by
    intro n hn
    unfold meanAt
    rw [hmem, hmc, accumulateMembers_const (n : Int) c runs 0 (hget n hn)]
    simp only [Option.map_some', XFloat.div, Int.cast_natCast, hNq, if_false, zero_add]
    rw [mul_div_cancel_left₀ c hNq]
  obtain ⟨meanVolume, hmean, _, hmeanDim, hmeanLen, hmeanGet⟩ := fillVoxels_spec
    (fun i => meanAt runs (i : Int)) (fun _ => XFloat.fin c) (X * Y * Z)
    (⟨[77, 101, 97, 110], ⟨(X : Int), (Y : Int), (Z : Int)⟩, List.replicate (X * Y * Z) 0,
      (0, 0), false⟩ : Volume XFloat)
    (by simp) hmeanAt
  have hstddevAt : ∀ n : Nat, n < X * Y * Z →
      stddevAt sqrt runs meanVolume (n : Int) = some (XFloat.fin 0) := by
    intro n hn
    unfold stddevAt
    rw [hmeanGet n hn, Option.some_bind, hmem, hmc, accumulateMembers_zero _ (n : Int) runs
      (fun r hr => ⟨c, hget n hn r hr, by
        simp [XFloat.sub, XFloat.neg, XFloat.add, XFloat.mul]⟩)]
    simp [XFloat.div, XFloat.sqrtWith, hNq, hsqrt]
  obtain ⟨stddevVolume, hstddev, _, _, _, hstddevGet⟩ := fillVoxels_spec
    (fun i => stddevAt sqrt runs meanVolume (i : Int)) (fun _ => XFloat.fin 0) (X * Y * Z)
    (⟨[83, 116, 100, 100, 101, 118], ⟨(X : Int), (Y : Int), (Z : Int)⟩,
      List.replicate (X * Y * Z) 0, (0, 0), false⟩ : Volume XFloat)
    (by simp) hstddevAt
  obtain ⟨G, Mag, hgrad, _, _, hcells⟩ :=
    gradientVolumes_spec sqrt meanVolume X Y Z hmeanDim hfit hmeanLen
  refine ⟨meanVolume, stddevVolume, G, Mag, ?_, ?_, ?_⟩
  · unfold meanStddevVolumes
    rw [hdims, hcount, Volume.ofDimensions_of_product _ _ _ hprod,
      Volume.ofDimensions_of_product _ _ _ hprod]
    simp only [Option.some_bind]
    rw [hmean]
    simp only [Option.some_bind]
    rw [hstddev]
    rfl
  · rw [hdims, hcount]
    exact hgrad
  · intro n hn
    refine ⟨hmeanGet n hn, hstddevGet n hn, ?_⟩
    obtain ⟨x, y, z, hx, hy, hz, rfl⟩ := grid_index_surj hn
    obtain ⟨gradient, hat, _, _, hmag⟩ := hcells x y z hx hy hz
    rw [gradientAt_const meanVolume X Y Z c hmeanDim hfit hmeanLen hmeanGet x y z hx hy hz]
      at hat
    have hat2 := Option.some.inj hat
    rw [hmag, ← hat2]
    simp [Vec3x.length, XFloat.mul, XFloat.add, XFloat.sqrtWith, hsqrt]

theorem constantRuns_spec : ∀ r ∈ constantRuns,
    r.dimensions = ⟨((2 : Nat) : Int), ((2 : Nat) : Int), ((1 : Nat) : Int)⟩ ∧
      r.values = List.replicate (2 * 2 * 1) (5 : ℚ) := by
  intro r hr
  simp only [constantRuns, List.mem_cons, List.mem_singleton, List.not_mem_nil,
    or_false] at hr
  rcases hr with rfl | rfl <;> exact ⟨rfl, rfl⟩

theorem C14_constant_field_mean_stddev_gradient_witness :
    (exampleSqrt 0 = 0 ∧ 1 ≤ constantRuns.length ∧ constantRuns.length < 2147483648 ∧
      2 * 2 * 1 < 2147483648 ∧
      ∀ r ∈ constantRuns,
        r.dimensions = ⟨((2 : Nat) : Int), ((2 : Nat) : Int), ((1 : Nat) : Int)⟩ ∧
          r.values = List.replicate (2 * 2 * 1) (5 : ℚ)) ∧
    ∃ meanVolume stddevVolume gradientVolume magnitudeVolume,
      meanStddevVolumes exampleSqrt constantRuns = some (meanVolume, stddevVolume) ∧
      gradientVolumes exampleSqrt (fieldDimensions constantRuns) (fieldVoxelCount constantRuns)
        meanVolume = some (gradientVolume, magnitudeVolume) ∧
      ∀ n : Nat, n < 2 * 2 * 1 →
        meanVolume.getAt (n : Int) = some (XFloat.fin 5) ∧
        stddevVolume.getAt (n : Int) = some (XFloat.fin 0) ∧
        magnitudeVolume.getAt (n : Int) = some (XFloat.fin 0) :=
  ⟨⟨exampleSqrt_zero, by decide, by decide, by decide, constantRuns_spec⟩,
    C14_constant_field_mean_stddev_gradient exampleSqrt exampleSqrt_zero constantRuns 5 2 2 1
      (by decide) (by decide) (by decide) constantRuns_spec⟩

end Reghievis

/-! ## The z-score histograms -/

namespace Reghievis

/-- One pass through the chain increments exactly one of the five values. -/
theorem incrementBin_cases (z : XFloat) (bins : Bins) :
    incrementBin z bins = { bins with hist1 := XFloat.add bins.hist1 (XFloat.fin 1) } ∨
    incrementBin z bins = { bins with hist2 := XFloat.add bins.hist2 (XFloat.fin 1) } ∨
    incrementBin z bins = { bins with hist3 := XFloat.add bins.hist3 (XFloat.fin 1) } ∨
    incrementBin z bins = { bins with hist4 := XFloat.add bins.hist4 (XFloat.fin 1) } ∨
    incrementBin z bins = { bins with hist5 := XFloat.add bins.hist5 (XFloat.fin 1) } := by
  unfold incrementBin
  split_ifs
  · exact Or.inl rfl
  · exact Or.inr (Or.inl rfl)
  · exact Or.inr (Or.inr (Or.inl rfl))
  · exact Or.inr (Or.inr (Or.inr (Or.inl rfl)))
  · exact Or.inr (Or.inr (Or.inr (Or.inr rfl)))

theorem XFloat.add_count (c : Nat) :
    XFloat.add (XFloat.fin (c : ℚ)) (XFloat.fin 1) = XFloat.fin ((c + 1 : Nat) : ℚ) := by
  simp [XFloat.add]

theorem incrementBin_counts (z : XFloat) (bins : Bins) (total : Nat)
    (h : bins.Counts total) : (incrementBin z bins).Counts (total + 1) := by
  obtain ⟨c1, c2, c3, c4, c5, hsum, rfl⟩ := h
  rcases incrementBin_cases z
    ⟨XFloat.fin c1, XFloat.fin c2, XFloat.fin c3, XFloat.fin c4, XFloat.fin c5⟩ with
    h | h | h | h | h
  · rw [h]
    exact ⟨c1 + 1, c2, c3, c4, c5, by omega, by simp only [XFloat.add_count]⟩
  · rw [h]
    exact ⟨c1, c2 + 1, c3, c4, c5, by omega, by simp only [XFloat.add_count]⟩
  · rw [h]
    exact ⟨c1, c2, c3 + 1, c4, c5, by omega, by simp only [XFloat.add_count]⟩
  · rw [h]
    exact ⟨c1, c2, c3, c4 + 1, c5, by omega, by simp only [XFloat.add_count]⟩
  · rw [h]
    exact ⟨c1, c2, c3, c4, c5 + 1, by omega, by simp only [XFloat.add_count]⟩

theorem histogramBins_counts (mean stddev : XFloat) (i : Int) (vs : List (Volume ℚ))
    (bins : Bins) (total : Nat) (h : bins.Counts total)
    (hget : ∀ r ∈ vs, ∃ a, r.getAt i = some a) :
    ∃ result, histogramBins mean stddev i vs bins = some result ∧
      result.Counts (total + vs.length) := by
  induction vs generalizing bins total with
  | nil => exact ⟨bins, rfl, h⟩
  | cons v vs ih =>
    obtain ⟨a, ha⟩ := hget v (List.mem_cons_self _ _)
    obtain ⟨result, hres, hcounts⟩ := ih (incrementBin (zScore a mean stddev) bins) (total + 1)
      (incrementBin_counts _ _ _ h) (fun r hr => hget r (List.mem_cons_of_mem _ hr))
    refine ⟨result, ?_, ?_⟩
    · rw [histogramBins, ha]
      exact hres
    · rw [List.length_cons]
      have he : total + (vs.length + 1) = total + 1 + vs.length := by omega
      rw [he]
      exact hcounts

theorem XFloat.div_count (c N : Nat) (hN : N ≠ 0) :
    XFloat.div (XFloat.fin (c : ℚ)) (XFloat.fin (((N : Nat) : Int) : ℚ)) =
      XFloat.fin ((c : ℚ) / (N : ℚ)) := by
  have hq : (N : ℚ) ≠ 0 := Nat.cast_ne_zero.mpr hN
  simp [XFloat.div, hq]

end Reghievis
namespace Reghievis

theorem histogramAt_counts (runs : List (Volume ℚ)) (meanVolume stddevVolume : Volume XFloat)
    (fresh : HistogramVolumes) (V n : Nat) (hn : n < V)
    (hN : 1 ≤ runs.length) (hNfit : runs.length < 2147483648)
    (hlen : ∀ r ∈ runs, r.values.length = V)
    (hmean : meanVolume.values.length = V) (hstddev : stddevVolume.values.length = V)
    (hfresh : fresh.getAt (n : Int) =
      some ⟨XFloat.fin 0, XFloat.fin 0, XFloat.fin 0, XFloat.fin 0, XFloat.fin 0⟩) :
    ∃ c1 c2 c3 c4 c5 : Nat, c1 + c2 + c3 + c4 + c5 = runs.length ∧
      histogramAt runs meanVolume stddevVolume fresh (n : Int) =
        some ⟨XFloat.fin ((c1 : ℚ) / (runs.length : ℚ)), XFloat.fin ((c2 : ℚ) / (runs.length : ℚ)),
          XFloat.fin ((c3 : ℚ) / (runs.length : ℚ)), XFloat.fin ((c4 : ℚ) / (runs.length : ℚ)),
          XFloat.fin ((c5 : ℚ) / (runs.length : ℚ))⟩ := by
  obtain ⟨mean, hm⟩ := meanVolume.getAt_isSome n (by rw [hmean]; exact hn)
  obtain ⟨stddev, hs⟩ := stddevVolume.getAt_isSome n (by rw [hstddev]; exact hn)
  obtain ⟨hmc, hmem⟩ := fieldMembers_eq runs hNfit
  have hstart : (⟨XFloat.fin 0, XFloat.fin 0, XFloat.fin 0, XFloat.fin 0, XFloat.fin 0⟩ :
      Bins).Counts 0 := ⟨0, 0, 0, 0, 0, rfl, by simp⟩
  obtain ⟨result, hres, c1, c2, c3, c4, c5, hsum, hbins⟩ :=
    histogramBins_counts mean stddev (n : Int) runs _ 0 hstart
      (fun r hr => r.getAt_isSome n (by rw [hlen r hr]; exact hn))
  have hN0 : runs.length ≠ 0 := by omega
  refine ⟨c1, c2, c3, c4, c5, by omega, ?_⟩
  unfold histogramAt
  rw [hm, Option.some_bind, hs, Option.some_bind, hfresh, Option.some_bind, hmem, hmc, hres,
    hbins]
  simp only [Option.map_some', Bins.normalize, XFloat.div_count _ _ hN0]

theorem HistogramVolumes.getAt_fresh (dimensions : Vec3i) (n1 n2 n3 n4 n5 : List Nat)
    (V n : Nat) (hn : n < V) :
    HistogramVolumes.getAt
      ⟨⟨n1, dimensions, List.replicate V 0, (0, 0), false⟩,
        ⟨n2, dimensions, List.replicate V 0, (0, 0), false⟩,
        ⟨n3, dimensions, List.replicate V 0, (0, 0), false⟩,
        ⟨n4, dimensions, List.replicate V 0, (0, 0), false⟩,
        ⟨n5, dimensions, List.replicate V 0, (0, 0), false⟩⟩ (n : Int) =
      some ⟨XFloat.fin 0, XFloat.fin 0, XFloat.fin 0, XFloat.fin 0, XFloat.fin 0⟩ := by
  unfold HistogramVolumes.getAt
  simp only [Volume.getAt_natCast, List.getElem?_replicate_of_lt hn, Option.some_bind,
    Option.map_some']
  rfl

/-- C13. One pass through the chain of comparisons increments exactly one of the five bins.
For a field with `N ≥ 1` runs of `V` voxels each (`N` and `V` being `int32_t` values, `V` the
product of the dimensions) and grids "Mean" and "Stddev" of `V` voxels, `computeHistograms`
computes the five grids, and at every voxel there are five counts that sum to `N` such that
grid `k` holds count `k` divided by `N`; the five fractions sum to `1`. -/
theorem C13_histogram_bins_sum_to_one (runs : List (Volume ℚ))
    (meanVolume stddevVolume : Volume XFloat) (V : Nat)
    (hN : 1 ≤ runs.length) (hNfit : runs.length < 2147483648) (hV : V < 2147483648)
    (hlen : ∀ r ∈ runs, r.values.length = V)
    (hdim : (fieldDimensions runs).product = (V : Int))
    (hmean : meanVolume.values.length = V) (hstddev : stddevVolume.values.length = V) :
    (∀ z bins,
      incrementBin z bins = { bins with hist1 := XFloat.add bins.hist1 (XFloat.fin 1) } ∨
      incrementBin z bins = { bins with hist2 := XFloat.add bins.hist2 (XFloat.fin 1) } ∨
      incrementBin z bins = { bins with hist3 := XFloat.add bins.hist3 (XFloat.fin 1) } ∨
      incrementBin z bins = { bins with hist4 := XFloat.add bins.hist4 (XFloat.fin 1) } ∨
      incrementBin z bins = { bins with hist5 := XFloat.add bins.hist5 (XFloat.fin 1) }) ∧
    ∃ h, histogramVolumes runs meanVolume stddevVolume = some h ∧
      ∀ n : Nat, n < V → ∃ c1 c2 c3 c4 c5 : Nat,
        c1 + c2 + c3 + c4 + c5 = runs.length ∧
        h.hist1.getAt (n : Int) = some (XFloat.fin ((c1 : ℚ) / (runs.length : ℚ))) ∧
        h.hist2.getAt (n : Int) = some (XFloat.fin ((c2 : ℚ) / (runs.length : ℚ))) ∧
        h.hist3.getAt (n : Int) = some (XFloat.fin ((c3 : ℚ) / (runs.length : ℚ))) ∧
        h.hist4.getAt (n : Int) = some (XFloat.fin ((c4 : ℚ) / (runs.length : ℚ))) ∧
        h.hist5.getAt (n : Int) = some (XFloat.fin ((c5 : ℚ) / (runs.length : ℚ))) ∧
        (c1 : ℚ) / (runs.length : ℚ) + (c2 : ℚ) / (runs.length : ℚ) +
          (c3 : ℚ) / (runs.length : ℚ) + (c4 : ℚ) / (runs.length : ℚ) +
          (c5 : ℚ) / (runs.length : ℚ) = 1 := by
  refine ⟨incrementBin_cases, ?_⟩
  have hne : runs ≠ [] := by
    intro h0
    rw [h0] at hN
    simp at hN
  have hcount := fieldVoxelCount_eq runs V hV hne hlen
  generalize hfr : (⟨⟨[122, 226, 128, 145, 115, 99, 111, 114, 101, 115, 194, 160, 105, 110, 32,
      91, 45, 105, 110, 102, 44, 45, 48, 46, 56, 52, 50, 93], fieldDimensions runs,
      List.replicate V 0, (0, 0), false⟩,
    ⟨[122, 226, 128, 145, 115, 99, 111, 114, 101, 115, 194, 160, 105, 110, 32, 40, 45, 48, 46,
      56, 52, 50, 44, 45, 48, 46, 50, 53, 51, 93], fieldDimensions runs,
      List.replicate V 0, (0, 0), false⟩,
    ⟨[122, 226, 128, 145, 115, 99, 111, 114, 101, 115, 194, 160, 105, 110, 32, 40, 45, 48, 46,
      50, 53, 51, 44, 48, 46, 50, 53, 51, 93], fieldDimensions runs,
      List.replicate V 0, (0, 0), false⟩,
    ⟨[122, 226, 128, 145, 115, 99, 111, 114, 101, 115, 194, 160, 105, 110, 32, 40, 48, 46, 50,
      53, 51, 44, 48, 46, 56, 52, 50, 93], fieldDimensions runs,
      List.replicate V 0, (0, 0), false⟩,
    ⟨[122, 226, 128, 145, 115, 99, 111, 114, 101, 115, 194, 160, 105, 110, 32, 40, 48, 46, 56,
      52, 50, 44, 105, 110, 102, 93], fieldDimensions runs,
      List.replicate V 0, (0, 0), false⟩⟩ : HistogramVolumes) = fresh
  have hfresh : ∀ n : Nat, n < V → fresh.getAt (n : Int) =
      some ⟨XFloat.fin 0, XFloat.fin 0, XFloat.fin 0, XFloat.fin 0, XFloat.fin 0⟩ := by
    intro n hn
    rw [← hfr]
    exact HistogramVolumes.getAt_fresh _ _ _ _ _ _ V n hn
  have hbins : ∀ n : Nat, n < V → ∃ c1 c2 c3 c4 c5 : Nat,
      c1 + c2 + c3 + c4 + c5 = runs.length ∧
      histogramAt runs meanVolume stddevVolume fresh (n : Int) =
        some ⟨XFloat.fin ((c1 : ℚ) / (runs.length : ℚ)), XFloat.fin ((c2 : ℚ) / (runs.length : ℚ)),
          XFloat.fin ((c3 : ℚ) / (runs.length : ℚ)), XFloat.fin ((c4 : ℚ) / (runs.length : ℚ)),
          XFloat.fin ((c5 : ℚ) / (runs.length : ℚ))⟩ :=
    fun n hn => histogramAt_counts runs meanVolume stddevVolume fresh V n hn hN hNfit hlen
      hmean hstddev (hfresh n hn)
  have hfill : ∀ (proj : Bins → XFloat) (name : List Nat),
      ∃ r, fillVoxels
          (fun i => (histogramAt runs meanVolume stddevVolume fresh (i : Int)).map proj)
          (V : Int) (⟨name, fieldDimensions runs, List.replicate V 0, (0, 0), false⟩ :
            Volume XFloat) = some r ∧
        ∀ n : Nat, n < V → r.getAt (n : Int) =
          (histogramAt runs meanVolume stddevVolume fresh (n : Int)).map proj := by
    intro proj name
    obtain ⟨r, hr, _, _, _, hget⟩ := fillVoxels_spec
      (fun i => (histogramAt runs meanVolume stddevVolume fresh (i : Int)).map proj)
      (fun i => ((histogramAt runs meanVolume stddevVolume fresh (i : Int)).map proj).getD 0)
      V (⟨name, fieldDimensions runs, List.replicate V 0, (0, 0), false⟩ : Volume XFloat)
      (by simp)
      (fun n hn => by
        obtain ⟨c1, c2, c3, c4, c5, _, hb⟩ := hbins n hn
        beta_reduce
        rw [hb]
        rfl)
    refine ⟨r, hr, ?_⟩
    intro n hn
    obtain ⟨c1, c2, c3, c4, c5, _, hb⟩ := hbins n hn
    rw [hget n hn, hb]
    rfl
  obtain ⟨h1, hh1, hg1⟩ := hfill Bins.hist1
    [122, 226, 128, 145, 115, 99, 111, 114, 101, 115, 194, 160, 105, 110, 32,
      91, 45, 105, 110, 102, 44, 45, 48, 46, 56, 52, 50, 93]
  obtain ⟨h2, hh2, hg2⟩ := hfill Bins.hist2
    [122, 226, 128, 145, 115, 99, 111, 114, 101, 115, 194, 160, 105, 110, 32, 40, 45, 48, 46,
      56, 52, 50, 44, 45, 48, 46, 50, 53, 51, 93]
  obtain ⟨h3, hh3, hg3⟩ := hfill Bins.hist3
    [122, 226, 128, 145, 115, 99, 111, 114, 101, 115, 194, 160, 105, 110, 32, 40, 45, 48, 46,
      50, 53, 51, 44, 48, 46, 50, 53, 51, 93]
  obtain ⟨h4, hh4, hg4⟩ := hfill Bins.hist4
    [122, 226, 128, 145, 115, 99, 111, 114, 101, 115, 194, 160, 105, 110, 32, 40, 48, 46, 50,
      53, 51, 44, 48, 46, 56, 52, 50, 93]
  obtain ⟨h5, hh5, hg5⟩ := hfill Bins.hist5
    [122, 226, 128, 145, 115, 99, 111, 114, 101, 115, 194, 160, 105, 110, 32, 40, 48, 46, 56,
      52, 50, 44, 105, 110, 102, 93]
  refine ⟨⟨h1, h2, h3, h4, h5⟩, ?_, ?_⟩
  · unfold histogramVolumes
    rw [Volume.ofDimensions_of_product _ _ V hdim, Volume.ofDimensions_of_product _ _ V hdim,
      Volume.ofDimensions_of_product _ _ V hdim, Volume.ofDimensions_of_product _ _ V hdim,
      Volume.ofDimensions_of_product _ _ V hdim]
    simp only [Option.some_bind]
    rw [hfr, hcount, hh1, Option.some_bind, hh2, Option.some_bind, hh3, Option.some_bind,
      hh4, Option.some_bind, hh5]
    rfl
  · intro n hn
    obtain ⟨c1, c2, c3, c4, c5, hsum, hb⟩ := hbins n hn
    have hNq : (runs.length : ℚ) ≠ 0 := by
      have : 0 < runs.length := hN
      positivity
    refine ⟨c1, c2, c3, c4, c5, hsum, ?_, ?_, ?_, ?_, ?_, ?_⟩
    · rw [hg1 n hn, hb]; rfl
    · rw [hg2 n hn, hb]; rfl
    · rw [hg3 n hn, hb]; rfl
    · rw [hg4 n hn, hb]; rfl
    · rw [hg5 n hn, hb]; rfl
    · have hs : (c1 : ℚ) + c2 + c3 + c4 + c5 = (runs.length : ℚ) := by exact_mod_cast hsum
      field_simp
      exact hs

theorem exampleRuns_product : (fieldDimensions exampleRuns).product = ((2 : Nat) : Int) := by
  simp [fieldDimensions, exampleRuns, Vec3i.product, wrapInt32]

theorem C13_histogram_bins_sum_to_one_witness :
    (1 ≤ exampleRuns.length ∧ exampleRuns.length < 2147483648 ∧ 2 < 2147483648 ∧
      (∀ r ∈ exampleRuns, r.values.length = 2) ∧
      (fieldDimensions exampleRuns).product = ((2 : Nat) : Int) ∧
      exampleRunsMean.values.length = 2 ∧ exampleRunsStddev.values.length = 2) ∧
    ((∀ z bins,
      incrementBin z bins = { bins with hist1 := XFloat.add bins.hist1 (XFloat.fin 1) } ∨
      incrementBin z bins = { bins with hist2 := XFloat.add bins.hist2 (XFloat.fin 1) } ∨
      incrementBin z bins = { bins with hist3 := XFloat.add bins.hist3 (XFloat.fin 1) } ∨
      incrementBin z bins = { bins with hist4 := XFloat.add bins.hist4 (XFloat.fin 1) } ∨
      incrementBin z bins = { bins with hist5 := XFloat.add bins.hist5 (XFloat.fin 1) }) ∧
    ∃ h, histogramVolumes exampleRuns exampleRunsMean exampleRunsStddev = some h ∧
      ∀ n : Nat, n < 2 → ∃ c1 c2 c3 c4 c5 : Nat,
        c1 + c2 + c3 + c4 + c5 = exampleRuns.length ∧
        h.hist1.getAt (n : Int) = some (XFloat.fin ((c1 : ℚ) / (exampleRuns.length : ℚ))) ∧
        h.hist2.getAt (n : Int) = some (XFloat.fin ((c2 : ℚ) / (exampleRuns.length : ℚ))) ∧
        h.hist3.getAt (n : Int) = some (XFloat.fin ((c3 : ℚ) / (exampleRuns.length : ℚ))) ∧
        h.hist4.getAt (n : Int) = some (XFloat.fin ((c4 : ℚ) / (exampleRuns.length : ℚ))) ∧
        h.hist5.getAt (n : Int) = some (XFloat.fin ((c5 : ℚ) / (exampleRuns.length : ℚ))) ∧
        (c1 : ℚ) / (exampleRuns.length : ℚ) + (c2 : ℚ) / (exampleRuns.length : ℚ) +
          (c3 : ℚ) / (exampleRuns.length : ℚ) + (c4 : ℚ) / (exampleRuns.length : ℚ) +
          (c5 : ℚ) / (exampleRuns.length : ℚ) = 1) :=
  ⟨⟨by decide, by decide, by decide, exampleRuns_lengths, exampleRuns_product, rfl, rfl⟩,
    C13_histogram_bins_sum_to_one exampleRuns exampleRunsMean exampleRunsStddev 2 (by decide)
      (by decide) (by decide) exampleRuns_lengths exampleRuns_product rfl rfl⟩

end Reghievis

/-! ## The buffer length of a grid -/

namespace Reghievis

theorem Volume.map_spec {T U : Type} [Zero U] (v : Volume T) (hsized : v.Sized)
    (hfit : v.values.length < 2147483648) (conversion : T → U) :
    ∃ g, v.map conversion = some g ∧ g.Sized ∧ g.dimensions = v.dimensions ∧
      g.name = v.name ∧ g.values.length = v.values.length ∧
      ∀ n : Nat, n < v.values.length → g.getAt (n : Int) = (v.getAt (n : Int)).map conversion := by
  obtain ⟨g, hg, hname, hdim, hlen, hget⟩ := fillVoxels_spec
    (fun i => (v.getAt (i : Int)).map conversion)
    (fun i => ((v.getAt (i : Int)).map conversion).getD 0) v.values.length
    (⟨v.name, v.dimensions, List.replicate v.values.length 0, (0, 0), false⟩ : Volume U)
    (by simp)
    (fun n hn => by
      obtain ⟨a, ha⟩ := v.getAt_isSome n hn
      beta_reduce
      rw [ha]
      rfl)
  refine ⟨g, ?_, ?_, hdim, hname, hlen, ?_⟩
  · unfold Volume.map
    rw [Volume.ofDimensions_of_product _ _ _ hsized.symm, Option.some_bind,
      wrapInt32_natCast _ hfit]
    exact hg
  · unfold Volume.Sized
    rw [hlen, hdim]
    exact hsized
  · intro n hn
    obtain ⟨a, ha⟩ := v.getAt_isSome n hn
    rw [hget n hn, ha]
    rfl

theorem Volume.cast_eq_map {T U : Type} [Zero U] (v : Volume T) (staticCast : T → U) :
    v.cast staticCast = v.map staticCast := rfl

/-- C20. The grids made by the two constructors have a buffer as long as the product of their
dimensions: the dimensions-only constructor fails exactly when the product is negative and
otherwise gives a zero-filled grid, the constructor from values fails exactly when the number
of values is not the product.  On a grid `v` with the invariant (and an `int32_t` voxel
count), `setValues` with a different number of values throws and leaves `v` as it is, with the
same number it stores the values and keeps the invariant, and `map` and `cast` return grids
with the invariant, of the dimensions of `v`, holding the converted values. -/
theorem C20_buffer_length_is_dimension_product {T U : Type} [Zero T] [Zero U] (v : Volume T)
    (hsized : v.Sized) (hfit : v.values.length < 2147483648) (conversion : T → U) :
    (∀ (dimensions : Vec3i) (name : List Nat),
      ((Volume.ofDimensions dimensions name : Option (Volume T)) = none ↔
        dimensions.product < 0) ∧
      ∀ g : Volume T, Volume.ofDimensions dimensions name = some g →
        g.Sized ∧ g.dimensions = dimensions ∧ ∀ x ∈ g.values, x = 0) ∧
    (∀ (dimensions : Vec3i) (values : List T) (name : List Nat),
      (Volume.ofValues dimensions values name = none ↔
        dimensions.product ≠ (values.length : Int)) ∧
      ∀ g : Volume T, Volume.ofValues dimensions values name = some g →
        g.Sized ∧ g.dimensions = dimensions ∧ g.values = values) ∧
    (∀ values : List T,
      (values.length ≠ v.values.length →
        v.setValues values = (v, Except.error Exception.runtimeError)) ∧
      (values.length = v.values.length →
        ∃ g, v.setValues values = (g, Except.ok ()) ∧ g.Sized ∧ g.values = values)) ∧
    (∃ g, v.map conversion = some g ∧ g.Sized ∧ g.dimensions = v.dimensions ∧
      g.values.length = v.values.length ∧
      ∀ n : Nat, n < v.values.length →
        g.getAt (n : Int) = (v.getAt (n : Int)).map conversion) ∧
    (∃ g, v.cast conversion = some g ∧ g.Sized ∧ g.dimensions = v.dimensions ∧
      g.values.length = v.values.length ∧
      ∀ n : Nat, n < v.values.length →
        g.getAt (n : Int) = (v.getAt (n : Int)).map conversion) := by
  refine ⟨?_, ?_, ?_, ?_, ?_⟩
  · intro dimensions name
    unfold Volume.ofDimensions
    by_cases hp : 0 ≤ dimensions.product
    · rw [if_pos hp]
      refine ⟨⟨fun h => Option.noConfusion h, fun h => absurd hp (not_le.mpr h)⟩, ?_⟩
      intro g hg
      have hg2 := Option.some.inj hg
      subst hg2
      refine ⟨?_, rfl, ?_⟩
      · unfold Volume.Sized
        simp only [List.length_replicate]
        exact Int.toNat_of_nonneg hp
      · intro x hx
        exact List.eq_of_mem_replicate hx
    · rw [if_neg hp]
      exact ⟨⟨fun _ => not_le.mp hp, fun _ => rfl⟩, fun g hg => Option.noConfusion hg⟩
  · intro dimensions values name
    unfold Volume.ofValues
    by_cases hp : dimensions.product ≠ (values.length : Int)
    · rw [if_pos hp]
      exact ⟨⟨fun _ => hp, fun _ => rfl⟩, fun g hg => Option.noConfusion hg⟩
    · rw [if_neg hp]
      refine ⟨⟨fun h => Option.noConfusion h, fun h => absurd h hp⟩, ?_⟩
      intro g hg
      have hg2 := Option.some.inj hg
      subst hg2
      exact ⟨(not_not.mp hp).symm, rfl, rfl⟩
  · intro values
    unfold Volume.setValues
    constructor
    · intro hne
      rw [if_pos hne]
    · intro he
      rw [if_neg (not_not.mpr he)]
      refine ⟨_, rfl, ?_, rfl⟩
      unfold Volume.Sized
      simp only
      rw [he]
      exact hsized
  · obtain ⟨g, hg, hs, hd, _, hl, hget⟩ := Volume.map_spec v hsized hfit conversion
    exact ⟨g, hg, hs, hd, hl, hget⟩
  · obtain ⟨g, hg, hs, hd, _, hl, hget⟩ := Volume.map_spec v hsized hfit conversion
    exact ⟨g, by rw [Volume.cast_eq_map]; exact hg, hs, hd, hl, hget⟩

theorem exampleVolume_sized : exampleVolume.Sized := by
  simp [Volume.Sized, exampleVolume, Vec3i.product, wrapInt32]

theorem C20_buffer_length_is_dimension_product_witness :
    (exampleVolume.Sized ∧ exampleVolume.values.length < 2147483648) ∧
    ((∀ (dimensions : Vec3i) (name : List Nat),
      ((Volume.ofDimensions dimensions name : Option (Volume Float32)) = none ↔
        dimensions.product < 0) ∧
      ∀ g : Volume Float32, Volume.ofDimensions dimensions name = some g →
        g.Sized ∧ g.dimensions = dimensions ∧ ∀ x ∈ g.values, x = 0) ∧
    (∀ (dimensions : Vec3i) (values : List Float32) (name : List Nat),
      (Volume.ofValues dimensions values name = none ↔
        dimensions.product ≠ (values.length : Int)) ∧
      ∀ g : Volume Float32, Volume.ofValues dimensions values name = some g →
        g.Sized ∧ g.dimensions = dimensions ∧ g.values = values) ∧
    (∀ values : List Float32,
      (values.length ≠ exampleVolume.values.length →
        exampleVolume.setValues values = (exampleVolume, Except.error Exception.runtimeError)) ∧
      (values.length = exampleVolume.values.length →
        ∃ g, exampleVolume.setValues values = (g, Except.ok ()) ∧ g.Sized ∧
          g.values = values)) ∧
    (∃ g, exampleVolume.map (fun x => Float32.stdMax x Float32.half) = some g ∧ g.Sized ∧
      g.dimensions = exampleVolume.dimensions ∧
      g.values.length = exampleVolume.values.length ∧
      ∀ n : Nat, n < exampleVolume.values.length →
        g.getAt (n : Int) =
          (exampleVolume.getAt (n : Int)).map (fun x => Float32.stdMax x Float32.half)) ∧
    (∃ g, exampleVolume.cast (fun x => Float32.stdMax x Float32.half) = some g ∧ g.Sized ∧
      g.dimensions = exampleVolume.dimensions ∧
      g.values.length = exampleVolume.values.length ∧
      ∀ n : Nat, n < exampleVolume.values.length →
        g.getAt (n : Int) =
          (exampleVolume.getAt (n : Int)).map (fun x => Float32.stdMax x Float32.half))) :=
  ⟨⟨exampleVolume_sized, by decide⟩,
    C20_buffer_length_is_dimension_product exampleVolume exampleVolume_sized (by decide)
      (fun x => Float32.stdMax x Float32.half)⟩

end Reghievis

/-! ## Lazy derived grids and sub-ensembles -/

namespace Reghievis

/-- C17. For a field whose derived cache holds no entry for `Derived::eLabel`, the call
`volume( Derived::eLabel )` throws `std::invalid_argument`: no grid is returned and the field,
its derived cache included, is as before the call. -/
theorem C17_field_volume_label_throws (ops : FieldComputations) (f : Field)
    (h : f.hasDerived Derived.eLabel = false) :
    Field.volume ops f Derived.eLabel = (f, Except.error Exception.invalidArgument) ∧
      (Field.volume ops f Derived.eLabel).1.derivedVolumes = f.derivedVolumes := by
  have hv : Field.volume ops f Derived.eLabel = (f, Except.error Exception.invalidArgument) := by
    unfold Field.volume
    rw [h]
    rfl
  exact ⟨hv, by rw [hv]⟩

theorem C17_field_volume_label_throws_witness :
    exampleFieldBare.hasDerived Derived.eLabel = false ∧
    (Field.volume exampleComputations exampleFieldBare Derived.eLabel =
        (exampleFieldBare, Except.error Exception.invalidArgument) ∧
      (Field.volume exampleComputations exampleFieldBare Derived.eLabel).1.derivedVolumes =
        exampleFieldBare.derivedVolumes) :=
  ⟨rfl, C17_field_volume_label_throws exampleComputations exampleFieldBare rfl⟩

theorem selectVolumes_spec (runs : List (Volume Float32)) (idx : List Int)
    (h : ∀ i ∈ idx, 0 ≤ i ∧ i.toNat < runs.length) :
    ∃ selected, selectVolumes runs idx = some selected ∧ selected.length = idx.length ∧
      ∀ j : Nat, j < idx.length →
        ∃ i, idx[j]? = some i ∧ selected[j]? = runs[i.toNat]? := by
  induction idx with
  | nil => exact ⟨[], rfl, rfl, fun j hj => by simp at hj⟩
  | cons i rest ih =>
    obtain ⟨hi0, hi⟩ := h i (List.mem_cons_self _ _)
    obtain ⟨selected, hsel, hlen, hget⟩ := ih (fun x hx => h x (List.mem_cons_of_mem _ hx))
    refine ⟨runs[i.toNat] :: selected, ?_, by simp [hlen], ?_⟩
    · rw [selectVolumes, if_pos hi0, List.getElem?_eq_getElem hi, hsel]
    · intro j hj
      cases j with
      | zero => exact ⟨i, List.getElem?_cons_zero, by simp [List.getElem?_eq_getElem hi]⟩
      | succ j =>
        simp only [List.length_cons, Nat.add_lt_add_iff_right] at hj
        simpa using hget j hj

/-- The caches of a field with nothing cached after `computeMinimumMaximum`,
`computeMeanStddev` and `computeGradient`. -/
theorem Field.precomputed (ops : FieldComputations) (s : Field) (hd : s.derivedVolumes = []) :
    (((s.computeMinimumMaximum ops).computeMeanStddev ops).computeGradient ops).derivedVolumes =
      [(Derived.eMinimum, ops.derived Derived.eMinimum s),
        (Derived.eMaximum, ops.derived Derived.eMaximum s),
        (Derived.eMean, ops.derived Derived.eMean (s.computeMinimumMaximum ops)),
        (Derived.eStddev, ops.derived Derived.eStddev (s.computeMinimumMaximum ops)),
        (Derived.eGradientMagnitude, ops.derived Derived.eGradientMagnitude
          ((s.computeMinimumMaximum ops).computeMeanStddev ops))] ∧
    (((s.computeMinimumMaximum ops).computeMeanStddev ops).computeGradient ops).volumes =
      s.volumes ∧
    (((s.computeMinimumMaximum ops).computeMeanStddev ops).computeGradient ops).similarities =
      s.similarities ∧
    (((s.computeMinimumMaximum ops).computeMeanStddev ops).computeGradient ops).name = s.name ∧
    (s.computeMinimumMaximum ops).volumes = s.volumes ∧
    ((s.computeMinimumMaximum ops).computeMeanStddev ops).volumes = s.volumes := by
  have h1 : (s.computeMinimumMaximum ops).derivedVolumes =
      [(Derived.eMinimum, ops.derived Derived.eMinimum s),
        (Derived.eMaximum, ops.derived Derived.eMaximum s)] := by
    simp [Field.computeMinimumMaximum, Field.assignDerived, hd, mapAssign, Derived.toInt]
  have h2 : ((s.computeMinimumMaximum ops).computeMeanStddev ops).derivedVolumes =
      [(Derived.eMinimum, ops.derived Derived.eMinimum s),
        (Derived.eMaximum, ops.derived Derived.eMaximum s),
        (Derived.eMean, ops.derived Derived.eMean (s.computeMinimumMaximum ops)),
        (Derived.eStddev, ops.derived Derived.eStddev (s.computeMinimumMaximum ops))] := by
    unfold Field.computeMeanStddev
    simp only [Field.assignDerived, h1]
    simp [mapAssign, Derived.toInt]
  have h3 : ((s.computeMinimumMaximum ops).computeMeanStddev ops).hasDerived Derived.eMean =
      true := by
    unfold Field.hasDerived
    rw [h2]
    simp
  have hg : ((s.computeMinimumMaximum ops).computeMeanStddev ops).computeGradient ops =
      { ((s.computeMinimumMaximum ops).computeMeanStddev ops).assignDerived
          Derived.eGradientMagnitude (ops.derived Derived.eGradientMagnitude
            ((s.computeMinimumMaximum ops).computeMeanStddev ops)) with
        volumeGradient := ops.gradient ((s.computeMinimumMaximum ops).computeMeanStddev ops) } := by
    unfold Field.computeGradient Field.ensureDerived
    simp only [h3, if_true]
  rw [hg]
  refine ⟨?_, rfl, rfl, rfl, rfl, rfl⟩
  simp only [Field.assignDerived, h2]
  simp [mapAssign, Derived.toInt]

theorem Field.ofSelection_spec (field : Field) (idx : List Int)
    (h : ∀ i ∈ idx, 0 ≤ i ∧ i.toNat < field.volumes.length) :
    ∃ selected, Field.ofSelection field idx = some selected ∧ selected.name = field.name ∧
      selected.derivedVolumes = [] ∧ selected.similarities = [] ∧
      selected.volumes.length = idx.length ∧
      ∀ j : Nat, j < idx.length →
        ∃ i, idx[j]? = some i ∧ selected.volumes[j]? = field.volumes[i.toNat]? := by
  obtain ⟨selected, hsel, hlen, hget⟩ := selectVolumes_spec field.volumes idx h
  refine ⟨{ Field.empty with name := field.name, volumes := selected }, ?_, rfl, rfl, rfl,
    hlen, hget⟩
  unfold Field.ofSelection
  rw [hsel]
  rfl

theorem subFields_spec (ops : FieldComputations) (idx : List Int) (fields : List Field)
    (h : ∀ field ∈ fields, ∀ i ∈ idx, 0 ≤ i ∧ i.toNat < field.volumes.length) :
    ∃ result, subFields ops idx fields = some result ∧ result.length = fields.length ∧
      ∀ k : Nat, k < fields.length →
        ∃ field selected, fields[k]? = some field ∧
          Field.ofSelection field idx = some selected ∧
          result[k]? = some
            (((selected.computeMinimumMaximum ops).computeMeanStddev ops).computeGradient ops) := by
  induction fields with
  | nil => exact ⟨[], rfl, rfl, fun k hk => by simp at hk⟩
  | cons field rest ih =>
    obtain ⟨selected, hsel, _⟩ := Field.ofSelection_spec field idx
      (h field (List.mem_cons_self _ _))
    obtain ⟨result, hres, hlen, hget⟩ := ih (fun x hx => h x (List.mem_cons_of_mem _ hx))
    refine ⟨_ :: result, by rw [subFields, hsel, hres], by simp [hlen], ?_⟩
    intro k hk
    cases k with
    | zero => exact ⟨field, selected, List.getElem?_cons_zero, hsel, List.getElem?_cons_zero⟩
    | succ k =>
      simp only [List.length_cons, Nat.add_lt_add_iff_right] at hk
      simpa using hget k hk

/-- C19. For a list `idx` of indices that are valid in every field, `createSubEnsemble( idx )`
returns an ensemble with as many fields; its field `k` has the name of the original field `k`
and `len( idx )` runs, run `j` being the original run `idx[j]`; its derived cache holds
exactly the five entries `eMinimum`, `eMaximum`, `eMean`, `eStddev` and `eGradientMagnitude`,
each computed by the numerical routines from a field whose runs are the selected ones; and no
similarity matrix or dendrogram is cached. -/
theorem C19_sub_ensemble_selects_runs (ops : FieldComputations) (e : Ensemble)
    (idx : List Int)
    (hidx : ∀ field ∈ e.fields, ∀ i ∈ idx, 0 ≤ i ∧ i.toNat < field.volumes.length) :
    ∃ sub, e.createSubEnsemble ops idx = some sub ∧ sub.fields.length = e.fields.length ∧
      ∀ k : Nat, k < e.fields.length →
        ∃ field selected result, e.fields[k]? = some field ∧ sub.fields[k]? = some result ∧
          Field.ofSelection field idx = some selected ∧
          result.name = field.name ∧ result.volumes = selected.volumes ∧
          result.volumes.length = idx.length ∧
          (∀ j : Nat, j < idx.length →
            ∃ i, idx[j]? = some i ∧ result.volumes[j]? = field.volumes[i.toNat]?) ∧
          result.derivedVolumes =
            [(Derived.eMinimum, ops.derived Derived.eMinimum selected),
              (Derived.eMaximum, ops.derived Derived.eMaximum selected),
              (Derived.eMean, ops.derived Derived.eMean (selected.computeMinimumMaximum ops)),
              (Derived.eStddev, ops.derived Derived.eStddev (selected.computeMinimumMaximum ops)),
              (Derived.eGradientMagnitude, ops.derived Derived.eGradientMagnitude
                ((selected.computeMinimumMaximum ops).computeMeanStddev ops))] ∧
          (selected.computeMinimumMaximum ops).volumes = selected.volumes ∧
          ((selected.computeMinimumMaximum ops).computeMeanStddev ops).volumes =
            selected.volumes ∧
          result.similarities = [] := by
  obtain ⟨fields, hfields, hlen, hget⟩ := subFields_spec ops idx e.fields hidx
  refine ⟨{ Ensemble.empty with
    volumeLabels := e.volumeLabels, availableVolumes := e.availableVolumes, fields := fields },
    ?_, hlen, ?_⟩
  · unfold Ensemble.createSubEnsemble
    rw [hfields]
    rfl
  · intro k hk
    obtain ⟨field, selected, hfield, hsel, hres⟩ := hget k hk
    obtain ⟨selected2, hsel2, hname, hd, hs, hvl, hvget⟩ := Field.ofSelection_spec field idx
      (hidx field (List.getElem?_mem hfield))
    rw [hsel] at hsel2
    have hsame := Option.some.inj hsel2
    subst hsame
    obtain ⟨p1, p2, p3, p4, p5, p6⟩ := Field.precomputed ops selected hd
    refine ⟨field, selected, _, hfield, hres, hsel, ?_, p2, ?_, ?_, p1, p5, p6, ?_⟩
    · rw [p4, hname]
    · rw [p2, hvl]
    · intro j hj
      rw [p2]
      exact hvget j hj
    · rw [p3, hs]

theorem exampleEnsemble_indices : ∀ field ∈ exampleEnsemble.fields,
    ∀ i ∈ ([1, 0, 1] : List Int), 0 ≤ i ∧ i.toNat < field.volumes.length := by
  intro field hf i hi
  simp only [exampleEnsemble, Ensemble.empty, List.mem_singleton] at hf
  subst hf
  simp only [List.mem_cons, List.mem_singleton, List.not_mem_nil, or_false] at hi
  rcases hi with rfl | rfl | rfl <;> decide

theorem C19_sub_ensemble_selects_runs_witness :
    (∀ field ∈ exampleEnsemble.fields, ∀ i ∈ ([1, 0, 1] : List Int),
      0 ≤ i ∧ i.toNat < field.volumes.length) ∧
    ∃ sub, exampleEnsemble.createSubEnsemble exampleComputations [1, 0, 1] = some sub ∧
      sub.fields.length = exampleEnsemble.fields.length ∧
      ∀ k : Nat, k < exampleEnsemble.fields.length →
        ∃ field selected result, exampleEnsemble.fields[k]? = some field ∧
          sub.fields[k]? = some result ∧
          Field.ofSelection field [1, 0, 1] = some selected ∧
          result.name = field.name ∧ result.volumes = selected.volumes ∧
          result.volumes.length = ([1, 0, 1] : List Int).length ∧
          (∀ j : Nat, j < ([1, 0, 1] : List Int).length →
            ∃ i, ([1, 0, 1] : List Int)[j]? = some i ∧
              result.volumes[j]? = field.volumes[i.toNat]?) ∧
          result.derivedVolumes =
            [(Derived.eMinimum, exampleComputations.derived Derived.eMinimum selected),
              (Derived.eMaximum, exampleComputations.derived Derived.eMaximum selected),
              (Derived.eMean, exampleComputations.derived Derived.eMean
                (selected.computeMinimumMaximum exampleComputations)),
              (Derived.eStddev, exampleComputations.derived Derived.eStddev
                (selected.computeMinimumMaximum exampleComputations)),
              (Derived.eGradientMagnitude,
                exampleComputations.derived Derived.eGradientMagnitude
                  ((selected.computeMinimumMaximum exampleComputations).computeMeanStddev
                    exampleComputations))] ∧
          (selected.computeMinimumMaximum exampleComputations).volumes = selected.volumes ∧
          ((selected.computeMinimumMaximum exampleComputations).computeMeanStddev
            exampleComputations).volumes = selected.volumes ∧
          result.similarities = [] :=
  ⟨exampleEnsemble_indices,
    C19_sub_ensemble_selects_runs exampleComputations exampleEnsemble [1, 0, 1]
      exampleEnsemble_indices⟩

end Reghievis

/-! ## Difference grids -/

namespace Reghievis

theorem mapFind_hashAssign {K V : Type} [DecidableEq K] (m : List (K × V)) (key : K)
    (value : V) : mapFind (hashAssign m key value) key = some value := by
  induction m with
  | nil => simp [hashAssign, mapFind]
  | cons e rest ih =>
    obtain ⟨k, v⟩ := e
    by_cases hk : k = key
    · simp [hashAssign, mapFind, hk]
    · simp [hashAssign, mapFind, hk, ih]

theorem hashAssign_of_mapFind {K V : Type} [DecidableEq K] (m : List (K × V)) (key : K)
    (value : V) (h : mapFind m key = some value) : hashAssign m key value = m := by
  induction m with
  | nil => simp [mapFind] at h
  | cons e rest ih =>
    obtain ⟨k, v⟩ := e
    by_cases hk : k = key
    · simp only [mapFind, hk, if_true, Option.some.injEq] at h
      simp [hashAssign, hk, h]
    · simp only [mapFind, hk, if_false] at h
      simp [hashAssign, hk, ih h]

/-- The method `Ensemble::volume` neither reads nor writes `_differenceVolumes`. -/
theorem Ensemble.volume_differenceVolumes (ops : FieldComputations) (fops : FloatOps)
    (e : Ensemble) (d : List (Nat × List (VolumeID × Volume Float32))) (id : VolumeID) :
    ({ e with differenceVolumes := d }).volume ops fops id =
      (e.volume ops fops id).map (fun r => ({ r.1 with differenceVolumes := d }, r.2)) := by
  unfold Ensemble.volume
  by_cases h1 : id.type = Derived.eLabel
  · rw [if_pos h1, if_pos h1]
    simp only
    cases mapFind e.derivedVolumes Derived.eLabel with
    | some v => rfl
    | none =>
      simp only
      cases e.volumeLabels with
      | none => rfl
      | some labels =>
        simp only [Option.some_bind]
        cases labels.cast fops.ofInt32 with
        | none => rfl
        | some converted =>
          simp only [Option.some_bind]
          cases converted.expandDomain (Float32.zero, Float32.one) with
          | none => rfl
          | some expanded => rfl
  · rw [if_neg h1, if_neg h1]
    simp only
    cases (if 0 ≤ id.field then e.fields[id.field.toNat]? else none) with
    | none => rfl
    | some field =>
      simp only [Option.some_bind]
      by_cases h2 : id.type = Derived.eNone
      · rw [if_pos h2, if_pos h2]
        cases (if 0 ≤ id.index then field.volumes[id.index.toNat]? else none) with
        | none => rfl
        | some volume => rfl
      · rw [if_neg h2, if_neg h2]
        rfl

end Reghievis
namespace Reghievis

theorem subtractVolumes_spec (fops : FloatOps) (a b : Volume Float32) (name : List Nat)
    (hfit : a.values.length < 2147483648) (hsame : b.values.length = a.values.length) :
    ∃ r, subtractVolumes fops a b
        ⟨name, a.dimensions, List.replicate a.values.length 0, (0, 0), false⟩ = some r ∧
      r.dimensions = a.dimensions ∧ r.name = name ∧ r.values.length = a.values.length ∧
      ∀ n : Nat, n < a.values.length →
        ∃ x y, a.getAt (n : Int) = some x ∧ b.getAt (n : Int) = some y ∧
          r.getAt (n : Int) = some (fops.sub x y) := by
  have hval : ∀ n : Nat, n < a.values.length →
      ∃ x y, a.getAt (n : Int) = some x ∧ b.getAt (n : Int) = some y := by
    intro n hn
    obtain ⟨x, hx⟩ := a.getAt_isSome n hn
    obtain ⟨y, hy⟩ := b.getAt_isSome n (by rw [hsame]; exact hn)
    exact ⟨x, y, hx, hy⟩
  obtain ⟨r, hr, hname, hdim, hlen, hget⟩ := fillVoxels_spec
    (fun i => (a.getAt (i : Int)).bind fun x => (b.getAt (i : Int)).map fun y => fops.sub x y)
    (fun i => ((a.getAt (i : Int)).bind fun x =>
      (b.getAt (i : Int)).map fun y => fops.sub x y).getD Float32.zero) a.values.length
    (⟨name, a.dimensions, List.replicate a.values.length 0, (0, 0), false⟩ : Volume Float32)
    (by simp)
    (fun n hn => by
      obtain ⟨x, y, hx, hy⟩ := hval n hn
      beta_reduce
      rw [hx, hy]
      rfl)
  refine ⟨r, ?_, hdim, hname, hlen, ?_⟩
  · unfold subtractVolumes Volume.voxelCount
    simp only [List.length_replicate]
    rw [wrapInt32_natCast _ hfit]
    exact hr
  · intro n hn
    obtain ⟨x, y, hx, hy⟩ := hval n hn
    refine ⟨x, y, hx, hy, ?_⟩
    rw [hget n hn, hx, hy]
    rfl

/-- C18. Let `A.volume( id )` return the grid `a` and `B.volume( id )` the grid `b`, of the
same dimensions, both with a buffer as long as the product of the dimensions (an `int32_t`
value), and let `A` hold no difference grid for `( B, id )`.  Then `A.differenceVolume( id, B )`
returns a grid with the dimensions of `a` that holds `a[i] - b[i]` at every voxel `i`, and a
second request with the same `( B, id )` returns the same grid and changes nothing. -/
theorem C18_difference_volume (ops : FieldComputations) (fops : FloatOps) (A B : Ensemble)
    (addressB : Nat) (id : VolumeID) (A1 B1 : Ensemble) (a b : Volume Float32)
    (hA : A.volume ops fops id = some (A1, Except.ok a))
    (hB : B.volume ops fops id = some (B1, Except.ok b))
    (hsized : a.Sized) (hfit : a.values.length < 2147483648)
    (hdims : b.dimensions = a.dimensions) (hsizedB : b.Sized)
    (hnew : mapFind ((mapFind A.differenceVolumes addressB).getD []) id = none) :
    ∃ A2 r, A.differenceVolume ops fops B addressB id = some ((A2, B1), Except.ok r) ∧
      r.dimensions = a.dimensions ∧ r.values.length = a.values.length ∧
      (∀ n : Nat, n < a.values.length →
        ∃ x y, a.getAt (n : Int) = some x ∧ b.getAt (n : Int) = some y ∧
          r.getAt (n : Int) = some (fops.sub x y)) ∧
      A2.differenceVolume ops fops B1 addressB id = some ((A2, B1), Except.ok r) := by
  have hsame : b.values.length = a.values.length := by
    have h1 : (b.values.length : Int) = (a.values.length : Int) := by
      rw [hsizedB, hdims, ← hsized]
    exact_mod_cast h1
  obtain ⟨r, hr, hrdim, _, hrlen, hrget⟩ := subtractVolumes_spec fops a b
    (a.name ++ [32, 40, 100, 105, 102, 102, 41]) hfit hsame
  generalize hd : hashAssign A.differenceVolumes addressB
    ((mapFind A.differenceVolumes addressB).getD []) = d
  have hent : ({ A with differenceVolumes := d } : Ensemble).volume ops fops id =
      some (({ A1 with differenceVolumes := d } : Ensemble), Except.ok a) := by
    rw [Ensemble.volume_differenceVolumes, hA]
    rfl
  generalize hd2 : hashAssign d addressB (hashAssign ((mapFind d addressB).getD []) id r) = d2
  have hfirst : A.differenceVolume ops fops B addressB id =
      some ((({ A1 with differenceVolumes := d2 } : Ensemble), B1), Except.ok r) := by
    unfold Ensemble.differenceVolume
    simp only [hnew, hd]
    rw [hent, Option.some_bind]
    simp only
    rw [hB, Option.some_bind]
    simp only
    rw [Volume.ofDimensions_of_product _ _ _ hsized.symm, Option.some_bind, hr]
    simp only [Option.map_some', hd2]
  have hfind : mapFind d2 addressB = some (hashAssign ((mapFind d addressB).getD []) id r) := by
    rw [← hd2]
    exact mapFind_hashAssign _ _ _
  refine ⟨{ A1 with differenceVolumes := d2 }, r, hfirst, hrdim, hrlen, hrget, ?_⟩
  unfold Ensemble.differenceVolume
  simp only [hfind, Option.getD_some, mapFind_hashAssign]
  rw [hashAssign_of_mapFind d2 addressB _ hfind]

theorem exampleEnsemble_volume :
    exampleEnsemble.volume exampleComputations exampleFloatOps ⟨0, 0, Derived.eNone, false⟩ =
      some (exampleEnsemble, Except.ok exampleVolume) := by
  simp [Ensemble.volume, exampleEnsemble, Ensemble.empty, exampleFieldBare]

theorem C18_difference_volume_witness :
    (exampleEnsemble.volume exampleComputations exampleFloatOps
        ⟨0, 0, Derived.eNone, false⟩ = some (exampleEnsemble, Except.ok exampleVolume) ∧
      exampleVolume.Sized ∧ exampleVolume.values.length < 2147483648 ∧
      exampleVolume.dimensions = exampleVolume.dimensions ∧
      mapFind ((mapFind exampleEnsemble.differenceVolumes 1).getD [])
        (⟨0, 0, Derived.eNone, false⟩ : VolumeID) = none) ∧
    ∃ A2 r, exampleEnsemble.differenceVolume exampleComputations exampleFloatOps exampleEnsemble
        1 ⟨0, 0, Derived.eNone, false⟩ = some ((A2, exampleEnsemble), Except.ok r) ∧
      r.dimensions = exampleVolume.dimensions ∧
      r.values.length = exampleVolume.values.length ∧
      (∀ n : Nat, n < exampleVolume.values.length →
        ∃ x y, exampleVolume.getAt (n : Int) = some x ∧ exampleVolume.getAt (n : Int) = some y ∧
          r.getAt (n : Int) = some (exampleFloatOps.sub x y)) ∧
      A2.differenceVolume exampleComputations exampleFloatOps exampleEnsemble 1
        ⟨0, 0, Derived.eNone, false⟩ = some ((A2, exampleEnsemble), Except.ok r) :=
  ⟨⟨exampleEnsemble_volume, exampleVolume_sized, by decide, rfl, rfl⟩,
    C18_difference_volume exampleComputations exampleFloatOps exampleEnsemble exampleEnsemble 1
      ⟨0, 0, Derived.eNone, false⟩ exampleEnsemble exampleEnsemble exampleVolume exampleVolume
      exampleEnsemble_volume exampleEnsemble_volume exampleVolume_sized (by decide) rfl
      exampleVolume_sized rfl⟩

end Reghievis

/-! ## The flat index of a voxel -/

namespace Reghievis

theorem Volume.validCoords_nat {T : Type} (m : Volume T) (X Y Z : Nat)
    (hdim : m.dimensions = ⟨(X : Int), (Y : Int), (Z : Int)⟩) (c : Vec3i)
    (hc : m.ValidCoords c) :
    ∃ x y z : Nat, x < X ∧ y < Y ∧ z < Z ∧ c = ⟨(x : Int), (y : Int), (z : Int)⟩ := by
  obtain ⟨cx, cy, cz⟩ := c
  unfold Volume.ValidCoords at hc
  rw [hdim] at hc
  simp only at hc
  obtain ⟨hx0, hx, hy0, hy, hz0, hz⟩ := hc
  obtain ⟨x, rfl⟩ := Int.eq_ofNat_of_zero_le hx0
  obtain ⟨y, rfl⟩ := Int.eq_ofNat_of_zero_le hy0
  obtain ⟨z, rfl⟩ := Int.eq_ofNat_of_zero_le hz0
  exact ⟨x, y, z, by omega, by omega, by omega, rfl⟩

/-- C22. On a grid with positive dimensions `(dx, dy, dz)` whose product fits `int32_t`,
`voxelToIndex` maps the valid coordinates one-to-one onto the flat indices
`0 .. dx*dy*dz - 1`: the index of a valid coordinate is in that range, two valid coordinates
with the same index are equal, and every index of the range is the index of a valid
coordinate. -/
theorem C22_voxel_to_index_is_bijective {T : Type} (m : Volume T)
    (hx : 0 < m.dimensions.x) (hy : 0 < m.dimensions.y) (hz : 0 < m.dimensions.z)
    (hfit : m.dimensions.x * m.dimensions.y * m.dimensions.z < 2147483648) :
    (∀ c, m.ValidCoords c →
      0 ≤ m.voxelToIndex c ∧
        m.voxelToIndex c < m.dimensions.x * m.dimensions.y * m.dimensions.z) ∧
    (∀ c d, m.ValidCoords c → m.ValidCoords d → m.voxelToIndex c = m.voxelToIndex d →
      c = d) ∧
    (∀ index : Int, 0 ≤ index → index < m.dimensions.x * m.dimensions.y * m.dimensions.z →
      ∃ c, m.ValidCoords c ∧ m.voxelToIndex c = index) := by
  obtain ⟨X, hX⟩ := Int.eq_ofNat_of_zero_le (le_of_lt hx)
  obtain ⟨Y, hY⟩ := Int.eq_ofNat_of_zero_le (le_of_lt hy)
  obtain ⟨Z, hZ⟩ := Int.eq_ofNat_of_zero_le (le_of_lt hz)
  have hdim : m.dimensions = ⟨(X : Int), (Y : Int), (Z : Int)⟩ := by
    rw [← hX, ← hY, ← hZ]
  have hprod : m.dimensions.x * m.dimensions.y * m.dimensions.z = ((X * Y * Z : Nat) : Int) := by
    rw [hX, hY, hZ]
    push_cast
    rfl
  rw [hprod] at hfit ⊢
  have hfitN : X * Y * Z < 2147483648 := by exact_mod_cast hfit
  refine ⟨?_, ?_, ?_⟩
  · intro c hc
    obtain ⟨x, y, z, hx1, hy1, hz1, rfl⟩ := Volume.validCoords_nat m X Y Z hdim c hc
    rw [Volume.voxelToIndex_grid m X Y Z x y z hdim hfitN hx1 hy1 hz1]
    have hlt := grid_index_lt hx1 hy1 hz1
    exact ⟨Int.ofNat_nonneg _, by exact_mod_cast hlt⟩
  · intro c d hc hd h
    obtain ⟨x, y, z, hx1, hy1, hz1, rfl⟩ := Volume.validCoords_nat m X Y Z hdim c hc
    obtain ⟨x2, y2, z2, hx2, hy2, hz2, rfl⟩ := Volume.validCoords_nat m X Y Z hdim d hd
    rw [Volume.voxelToIndex_grid m X Y Z x y z hdim hfitN hx1 hy1 hz1,
      Volume.voxelToIndex_grid m X Y Z x2 y2 z2 hdim hfitN hx2 hy2 hz2] at h
    have hN : z + Z * (y + Y * x) = z2 + Z * (y2 + Y * x2) := by exact_mod_cast h
    obtain ⟨rfl, rfl, rfl⟩ := grid_index_inj hy1 hy2 hz1 hz2 hN
    rfl
  · intro index h0 hlt
    obtain ⟨n, rfl⟩ := Int.eq_ofNat_of_zero_le h0
    have hn : n < X * Y * Z := by exact_mod_cast hlt
    obtain ⟨x, y, z, hx1, hy1, hz1, rfl⟩ := grid_index_surj hn
    refine ⟨⟨(x : Int), (y : Int), (z : Int)⟩, ?_, ?_⟩
    · unfold Volume.ValidCoords
      rw [hdim]
      simp only
      omega
    · exact Volume.voxelToIndex_grid m X Y Z x y z hdim hfitN hx1 hy1 hz1

theorem C22_voxel_to_index_is_bijective_witness :
    (0 < exampleVolume.dimensions.x ∧ 0 < exampleVolume.dimensions.y ∧
      0 < exampleVolume.dimensions.z ∧
      exampleVolume.dimensions.x * exampleVolume.dimensions.y * exampleVolume.dimensions.z
        < 2147483648) ∧
    ((∀ c, exampleVolume.ValidCoords c →
      0 ≤ exampleVolume.voxelToIndex c ∧
        exampleVolume.voxelToIndex c <
          exampleVolume.dimensions.x * exampleVolume.dimensions.y *
            exampleVolume.dimensions.z) ∧
    (∀ c d, exampleVolume.ValidCoords c → exampleVolume.ValidCoords d →
      exampleVolume.voxelToIndex c = exampleVolume.voxelToIndex d → c = d) ∧
    (∀ index : Int, 0 ≤ index →
      index < exampleVolume.dimensions.x * exampleVolume.dimensions.y *
        exampleVolume.dimensions.z →
      ∃ c, exampleVolume.ValidCoords c ∧ exampleVolume.voxelToIndex c = index)) :=
  ⟨⟨by decide, by decide, by decide, by decide⟩,
    C22_voxel_to_index_is_bijective exampleVolume (by decide) (by decide) (by decide)
      (by decide)⟩

end Reghievis

/-! ## The pair selected in a loop iteration -/

namespace Reghievis

theorem exampleSimilarity_above_lowest : ∀ a b, Float32.lowest < exampleSimilarity a b := by
  intro a b
  unfold exampleSimilarity
  split_ifs <;> decide

/-- C28. Let `nodes` be the active list at the start of an iteration of the merge loop (the
list after `k` iterations from the initial leaves) with at least two nodes, and let every
value of the similarity function be above `numeric_limits<float>::lowest()`.  Then the
search does not return the initial sentinel `(-1, -1)`, the selected indices satisfy
`0 ≤ first < second < nodes.size()`, both selected nodes exist, and the iteration merges
them and leaves one node less. -/
theorem C28_selected_pair_is_in_bounds (sim : Int → Int → Float32) (count k : Nat)
    (nodes : List HCNode) (hlow : ∀ a b, Float32.lowest < sim a b)
    (hreach : mergeSteps sim k (initialNodes count) = some nodes) (h2 : 2 ≤ nodes.length) :
    findClosest sim nodes ≠ Closest.init ∧
    0 ≤ (findClosest sim nodes).first ∧
    (findClosest sim nodes).first < (findClosest sim nodes).second ∧
    (findClosest sim nodes).second < (nodes.length : Int) ∧
    ∃ a b merged, nodes[(findClosest sim nodes).first.toNat]? = some a ∧
      nodes[(findClosest sim nodes).second.toNat]? = some b ∧
      mergeStep sim nodes = some merged ∧
      merged = ((nodes ++ [HCNode.mkNode a b (findClosest sim nodes).similarity]).eraseIdx
        (findClosest sim nodes).second.toNat).eraseIdx (findClosest sim nodes).first.toNat ∧
      merged.length + 1 = nodes.length := by
  have hinv := (mergeSteps_activeInv sim count k _ _ (initialNodes_activeInv count) hreach).1
  rcases findClosest_spec sim nodes with ⟨_, hall⟩ | ⟨i, j, hij, hj, hc, hbeat, _, _⟩
  · exfalso
    obtain ⟨⟨a, _, b, _, hab⟩, _⟩ :=
      pairSimilarity_isMinOver sim count nodes hinv 0 1 (by omega) (by omega)
    have h := hall 0 1 (by omega) (by omega)
    rw [← hab] at h
    exact absurd h (not_le.mpr (hlow a b))
  · have hi : i < nodes.length := by omega
    have hgi : nodes[i]? = some (nodes.getD i HCNode.empty) := by
      rw [List.getD_eq_getElem?_getD, List.getElem?_eq_getElem hi]; rfl
    have hgj : nodes[j]? = some (nodes.getD j HCNode.empty) := by
      rw [List.getD_eq_getElem?_getD, List.getElem?_eq_getElem hj]; rfl
    have hstep : mergeStep sim nodes =
        some (((nodes ++ [HCNode.mkNode (nodes.getD i HCNode.empty)
          (nodes.getD j HCNode.empty) (pairSimilarity sim nodes i j)]).eraseIdx j).eraseIdx
            i) := by
      unfold mergeStep
      simp only [hc, Int.toNat_ofNat, hgi, hgj]
      rw [if_pos ⟨Int.ofNat_nonneg _, Int.ofNat_nonneg _⟩]
    rw [hc]
    simp only [Int.toNat_ofNat]
    refine ⟨?_, Int.ofNat_nonneg _, by exact_mod_cast hij, by exact_mod_cast hj, ?_⟩
    · intro h
      have h1 := congrArg Closest.first h
      simp only [Closest.init] at h1
      omega
    · exact ⟨_, _, _, hgi, hgj, hstep, rfl, mergeStep_length sim nodes _ hstep⟩

theorem C28_selected_pair_is_in_bounds_witness :
    ((∀ a b, Float32.lowest < exampleSimilarity a b) ∧
      mergeSteps exampleSimilarity 0 (initialNodes 3) = some (initialNodes 3) ∧
      2 ≤ (initialNodes 3).length) ∧
    (findClosest exampleSimilarity (initialNodes 3) ≠ Closest.init ∧
    0 ≤ (findClosest exampleSimilarity (initialNodes 3)).first ∧
    (findClosest exampleSimilarity (initialNodes 3)).first <
      (findClosest exampleSimilarity (initialNodes 3)).second ∧
    (findClosest exampleSimilarity (initialNodes 3)).second <
      ((initialNodes 3).length : Int) ∧
    ∃ a b merged,
      (initialNodes 3)[(findClosest exampleSimilarity (initialNodes 3)).first.toNat]? =
        some a ∧
      (initialNodes 3)[(findClosest exampleSimilarity (initialNodes 3)).second.toNat]? =
        some b ∧
      mergeStep exampleSimilarity (initialNodes 3) = some merged ∧
      merged = (((initialNodes 3) ++ [HCNode.mkNode a b
        (findClosest exampleSimilarity (initialNodes 3)).similarity]).eraseIdx
          (findClosest exampleSimilarity (initialNodes 3)).second.toNat).eraseIdx
            (findClosest exampleSimilarity (initialNodes 3)).first.toNat ∧
      merged.length + 1 = (initialNodes 3).length) :=
  ⟨⟨exampleSimilarity_above_lowest, rfl, by decide⟩,
    C28_selected_pair_is_in_bounds exampleSimilarity 3 0 (initialNodes 3)
      exampleSimilarity_above_lowest rfl (by decide)⟩

end Reghievis

/-! ## The cached range of a grid -/

namespace Reghievis

theorem foldl_minmax_spec {T : Type} [LinearOrder T] (rest : List T) (r : T × T) :
    ((rest.foldl
        (fun (r : T × T) v => (if v < r.1 then v else r.1, if v < r.2 then r.2 else v)) r).1
      = r.1 ∨
      (rest.foldl
        (fun (r : T × T) v => (if v < r.1 then v else r.1, if v < r.2 then r.2 else v)) r).1
      ∈ rest) ∧
    ((rest.foldl
        (fun (r : T × T) v => (if v < r.1 then v else r.1, if v < r.2 then r.2 else v)) r).2
      = r.2 ∨
      (rest.foldl
        (fun (r : T × T) v => (if v < r.1 then v else r.1, if v < r.2 then r.2 else v)) r).2
      ∈ rest) ∧
    (rest.foldl
        (fun (r : T × T) v => (if v < r.1 then v else r.1, if v < r.2 then r.2 else v)) r).1
      ≤ r.1 ∧
    r.2 ≤ (rest.foldl
        (fun (r : T × T) v => (if v < r.1 then v else r.1, if v < r.2 then r.2 else v)) r).2 ∧
    ∀ x ∈ rest,
      (rest.foldl
        (fun (r : T × T) v => (if v < r.1 then v else r.1, if v < r.2 then r.2 else v)) r).1
        ≤ x ∧
      x ≤ (rest.foldl
        (fun (r : T × T) v => (if v < r.1 then v else r.1, if v < r.2 then r.2 else v)) r).2 := by
  induction rest generalizing r with
  | nil => exact ⟨Or.inl rfl, Or.inl rfl, le_refl _, le_refl _, fun x hx => by cases hx⟩
  | cons v rest ih =>
    simp only [List.foldl_cons]
    obtain ⟨h1, h2, h3, h4, h5⟩ :=
      ih (if v < r.1 then v else r.1, if v < r.2 then r.2 else v)
    simp only at h1 h2 h3 h4
    have a1 : (if v < r.1 then v else r.1) ≤ r.1 := by
      split_ifs with h
      · exact le_of_lt h
      · exact le_refl _
    have a2 : (if v < r.1 then v else r.1) ≤ v := by
      split_ifs with h
      · exact le_refl _
      · exact not_lt.mp h
    have a3 : r.2 ≤ (if v < r.2 then r.2 else v) := by
      split_ifs with h
      · exact le_refl _
      · exact not_lt.mp h
    have a4 : v ≤ (if v < r.2 then r.2 else v) := by
      split_ifs with h
      · exact le_of_lt h
      · exact le_refl _
    have b1 : (if v < r.1 then v else r.1) = v ∨ (if v < r.1 then v else r.1) = r.1 := by
      split_ifs
      · exact Or.inl rfl
      · exact Or.inr rfl
    have b2 : (if v < r.2 then r.2 else v) = v ∨ (if v < r.2 then r.2 else v) = r.2 := by
      split_ifs
      · exact Or.inr rfl
      · exact Or.inl rfl
    refine ⟨?_, ?_, le_trans h3 a1, le_trans a3 h4, ?_⟩
    · rcases h1 with h1 | h1
      · rcases b1 with b | b
        · exact Or.inr (by rw [h1, b]; exact List.mem_cons_self _ _)
        · exact Or.inl (by rw [h1, b])
      · exact Or.inr (List.mem_cons_of_mem _ h1)
    · rcases h2 with h2 | h2
      · rcases b2 with b | b
        · exact Or.inr (by rw [h2, b]; exact List.mem_cons_self _ _)
        · exact Or.inl (by rw [h2, b])
      · exact Or.inr (List.mem_cons_of_mem _ h2)
    · intro x hx
      rcases List.mem_cons.mp hx with rfl | hx
      · exact ⟨le_trans h3 a2, le_trans a4 h4⟩
      · exact h5 x hx

/-- What `std::minmax_element` yields is the value range of the list. -/
theorem Volume.minmaxElement_isRangeOf {T : Type} [LinearOrder T] (values : List T) (d : T × T)
    (h : Volume.minmaxElement values = some d) : IsRangeOf values d := by
  cases values with
  | nil => cases h
  | cons first rest =>
    simp only [Volume.minmaxElement, Option.some.injEq] at h
    subst h
    obtain ⟨h1, h2, h3, h4, h5⟩ := foldl_minmax_spec rest (first, first)
    simp only at h1 h2 h3 h4
    refine ⟨?_, ?_, ?_⟩
    · rcases h1 with h1 | h1
      · rw [h1]; exact List.mem_cons_self _ _
      · exact List.mem_cons_of_mem _ h1
    · rcases h2 with h2 | h2
      · rw [h2]; exact List.mem_cons_self _ _
      · exact List.mem_cons_of_mem _ h2
    · intro x hx
      rcases List.mem_cons.mp hx with rfl | hx
      · exact ⟨h3, h4⟩
      · exact h5 x hx

theorem Volume.getDomain_of_invalid {T : Type} [LinearOrder T] (v : Volume T)
    (hv : v.domainValid = false) (hne : v.values ≠ []) :
    ∃ d, Volume.minmaxElement v.values = some d ∧ IsRangeOf v.values d ∧
      v.getDomain = some (d, { v with domain := d, domainValid := true }) := by
  obtain ⟨d, hd⟩ := Volume.minmaxElement_isSome v.values hne
  refine ⟨d, hd, Volume.minmaxElement_isRangeOf _ _ hd, ?_⟩
  unfold Volume.getDomain
  rw [hv, hd]
  rfl

theorem Volume.getDomain_of_valid {T : Type} [LinearOrder T] (v : Volume T)
    (hv : v.domainValid = true) : v.getDomain = some (v.domain, v) := by
  unfold Volume.getDomain
  rw [if_pos hv]

theorem stdMin_eq_min {T : Type} [LinearOrder T] (a b : T) :
    (if b < a then b else a) = min a b := by
  split_ifs with h
  · exact (min_eq_right (le_of_lt h)).symm
  · exact (min_eq_left (not_lt.mp h)).symm

theorem stdMax_eq_max {T : Type} [LinearOrder T] (a b : T) :
    (if a < b then b else a) = max a b := by
  split_ifs with h
  · exact (max_eq_right (le_of_lt h)).symm
  · exact (max_eq_left (not_lt.mp h)).symm

/-- On a non-empty grid whose cache, when valid, bounds the values, `domain()` returns a
range that bounds the values and leaves a valid cache holding it. -/
theorem Volume.getDomain_sound {T : Type} [LinearOrder T] (v : Volume T) (hne : v.values ≠ [])
    (hsound : v.domainValid = true → ∀ x ∈ v.values, v.domain.1 ≤ x ∧ x ≤ v.domain.2) :
    ∃ old cached, v.getDomain = some (old, cached) ∧ cached.values = v.values ∧
      cached.name = v.name ∧ cached.dimensions = v.dimensions ∧ cached.domainValid = true ∧
      cached.domain = old ∧ ∀ x ∈ v.values, old.1 ≤ x ∧ x ≤ old.2 := by
  by_cases hv : v.domainValid = true
  · exact ⟨v.domain, v, Volume.getDomain_of_valid v hv, rfl, rfl, rfl, hv, rfl, hsound hv⟩
  · have hv2 : v.domainValid = false := by simpa using hv
    obtain ⟨d, _, hr, hg⟩ := Volume.getDomain_of_invalid v hv2 hne
    exact ⟨d, _, hg, rfl, rfl, rfl, rfl, rfl, hr.2.2⟩

/-- One `expandDomain` call, given what `domain()` returns: the cache holds the merged
range. -/
theorem Volume.expandDomain_of_getDomain {T : Type} [LinearOrder T] (v cached : Volume T)
    (old r : T × T) (hg : v.getDomain = some (old, cached)) :
    v.expandDomain r =
      some { cached with domain := (min r.1 old.1, max r.2 old.2) } := by
  unfold Volume.expandDomain
  rw [hg]
  simp only [Option.map_some', stdMin_eq_min, stdMax_eq_max]

theorem Volume.expandDomains_spec {T : Type} [LinearOrder T] (expansions : List (T × T))
    (v : Volume T) (hne : v.values ≠ [])
    (hsound : v.domainValid = true → ∀ x ∈ v.values, v.domain.1 ≤ x ∧ x ≤ v.domain.2) :
    ∃ g, v.expandDomains expansions = some g ∧ g.values = v.values ∧ g.name = v.name ∧
      g.dimensions = v.dimensions ∧
      (g.domainValid = true → ∀ x ∈ g.values, g.domain.1 ≤ x ∧ x ≤ g.domain.2) := by
  induction expansions generalizing v with
  | nil => exact ⟨v, rfl, rfl, rfl, rfl, hsound⟩
  | cons r rest ih =>
    obtain ⟨old, cached, hg, hval, hname, hdim, _, _, hb⟩ := Volume.getDomain_sound v hne hsound
    have he := Volume.expandDomain_of_getDomain v cached old r hg
    have hs2 : ∀ x ∈ cached.values, min r.1 old.1 ≤ x ∧ x ≤ max r.2 old.2 := by
      intro x hx
      rw [hval] at hx
      exact ⟨le_trans (min_le_right _ _) (hb x hx).1, le_trans (hb x hx).2 (le_max_right _ _)⟩
    obtain ⟨g2, h1, h2, h3, h4, h5⟩ :=
      ih { cached with domain := (min r.1 old.1, max r.2 old.2) }
        (by simp only; rw [hval]; exact hne) (fun _ => hs2)
    refine ⟨g2, ?_, by rw [h2]; exact hval, by rw [h3]; exact hname,
      by rw [h4]; exact hdim, h5⟩
    simp only [Volume.expandDomains, he]
    exact h1

end Reghievis

/-! ## Mutation and the cached range -/

namespace Reghievis

/-- C23 fails for element writes: on the grid `exampleVolume` (values `0.5, 0.25`) the call
`domain()` caches `(0.25, 0.5)`; the write `at( 0 ) = 1.0f` (flat index `0`, which is also the
index of the coordinates `(0, 0, 0)`) stores the value and leaves the cache valid, so the next
`domain()` still returns `(0.25, 0.5)`, which is not the range of the values `1.0, 0.25`. -/
theorem C23_element_write_counterexample :
    ∃ cached written,
      exampleVolume.getDomain = some ((Float32.quarter, Float32.half), cached) ∧
      cached.voxelToIndex ⟨0, 0, 0⟩ = 0 ∧
      cached.setAt 0 Float32.one = some written ∧
      written.values = [Float32.one, Float32.quarter] ∧
      written.getDomain = some ((Float32.quarter, Float32.half), written) ∧
      ¬ IsRangeOf written.values (Float32.quarter, Float32.half) := by
  refine ⟨{ exampleVolume with
      domain := (Float32.quarter, Float32.half), domainValid := true },
    { exampleVolume with
      values := [Float32.one, Float32.quarter]
      domain := (Float32.quarter, Float32.half), domainValid := true },
    rfl, by decide, rfl, rfl, rfl, ?_⟩
  intro h
  have h1 := (h.2.2 Float32.one (List.mem_cons_self _ _)).2
  revert h1
  decide

/-- C23, amended. On a non-empty grid, after a `domain()` query, `setValues` with as many
values as the grid holds succeeds and invalidates the cache: the next `domain()` returns the
minimum and maximum of the new values.  An element write through `at( index )` stores the
value and leaves the cache as it is: the next `domain()` returns the range cached before the
write. -/
theorem C23_set_values_invalidates_range {T : Type} [LinearOrder T] (v : Volume T)
    (hne : v.values ≠ []) (values : List T) (hlen : values.length = v.values.length) :
    ∃ old cached replaced fresh refilled,
      v.getDomain = some (old, cached) ∧
      cached.setValues values = (replaced, Except.ok ()) ∧ replaced.values = values ∧
      replaced.getDomain = some (fresh, refilled) ∧ IsRangeOf values fresh ∧
      refilled.values = values ∧
      ∀ (index : Int) (x : T) (written : Volume T), cached.setAt index x = some written →
        written.values = cached.values.set index.toNat x ∧
          written.getDomain = some (old, written) := by
  obtain ⟨old, cached, hg, _, _, hval, hdom, hvalid, _⟩ := Volume.getDomain_spec v hne
  have hvne : values ≠ [] := by
    intro h
    rw [h] at hlen
    exact hne (List.length_eq_zero.mp hlen.symm)
  have hset : cached.setValues values =
      ({ cached with values := values, domainValid := false }, Except.ok ()) := by
    unfold Volume.setValues
    rw [if_neg (by rw [hval]; exact not_not.mpr hlen)]
  obtain ⟨fresh, _, hr, hfresh⟩ :=
    Volume.getDomain_of_invalid { cached with values := values, domainValid := false } rfl hvne
  refine ⟨old, cached, _, fresh, _, hg, hset, rfl, hfresh, hr, rfl, ?_⟩
  intro index x written hw
  unfold Volume.setAt at hw
  split_ifs at hw
  have hw2 := Option.some.inj hw
  subst hw2
  refine ⟨rfl, ?_⟩
  unfold Volume.getDomain
  simp only [hvalid, hdom, if_true]

theorem C23_set_values_invalidates_range_witness :
    (exampleVolume.values ≠ [] ∧
      [Float32.one, Float32.quarter].length = exampleVolume.values.length) ∧
    ∃ old cached replaced fresh refilled,
      exampleVolume.getDomain = some (old, cached) ∧
      cached.setValues [Float32.one, Float32.quarter] = (replaced, Except.ok ()) ∧
      replaced.values = [Float32.one, Float32.quarter] ∧
      replaced.getDomain = some (fresh, refilled) ∧
      IsRangeOf [Float32.one, Float32.quarter] fresh ∧
      refilled.values = [Float32.one, Float32.quarter] ∧
      ∀ (index : Int) (x : Float32) (written : Volume Float32),
        cached.setAt index x = some written →
        written.values = cached.values.set index.toNat x ∧
          written.getDomain = some (old, written) :=
  ⟨⟨by decide, rfl⟩,
    C23_set_values_invalidates_range exampleVolume (by decide)
      [Float32.one, Float32.quarter] rfl⟩

end Reghievis

/-! ## The shape of the grid returned by `Field::volume( Derived )` -/

namespace Reghievis

theorem mem_mapAssign {K V : Type} (rank : K → Int) (m : List (K × V)) (key : K) (value : V)
    (e : K × V) (h : e ∈ mapAssign rank m key value) : e ∈ m ∨ e.2 = value := by
  induction m with
  | nil =>
    simp only [mapAssign, List.mem_singleton] at h
    exact Or.inr (by rw [h])
  | cons head rest ih =>
    obtain ⟨k, v⟩ := head
    simp only [mapAssign] at h
    split_ifs at h with h1 h2
    · rcases List.mem_cons.mp h with h | h
      · exact Or.inr (by rw [h])
      · exact Or.inl h
    · rcases List.mem_cons.mp h with h | h
      · exact Or.inr (by rw [h])
      · exact Or.inl (List.mem_cons_of_mem _ h)
    · rcases List.mem_cons.mp h with h | h
      · exact Or.inl (by rw [h]; exact List.mem_cons_self _ _)
      · rcases ih h with h | h
        · exact Or.inl (List.mem_cons_of_mem _ h)
        · exact Or.inr h

theorem any_key_mapAssign (m : List (Derived × Volume Float32)) (key : Derived)
    (value : Volume Float32) :
    (mapAssign Derived.toInt m key value).any (fun e => decide (e.1 = key)) = true := by
  induction m with
  | nil => simp [mapAssign]
  | cons head rest ih =>
    obtain ⟨k, v⟩ := head
    simp only [mapAssign]
    split_ifs with h1 h2
    · simp
    · have hk : k = key := (Derived.toInt_injective h2).symm
      simp [hk]
    · rw [List.any_cons, ih, Bool.or_true]

theorem any_key_mapAssign_of_any (m : List (Derived × Volume Float32)) (key other : Derived)
    (value : Volume Float32) (h : m.any (fun e => decide (e.1 = other)) = true) :
    (mapAssign Derived.toInt m key value).any (fun e => decide (e.1 = other)) = true := by
  induction m with
  | nil => simp at h
  | cons head rest ih =>
    obtain ⟨k, v⟩ := head
    simp only [mapAssign]
    rw [List.any_cons, Bool.or_eq_true] at h
    split_ifs with h1 h2
    · rw [List.any_cons, List.any_cons, Bool.or_eq_true, Bool.or_eq_true]
      exact Or.inr h
    · rw [List.any_cons, Bool.or_eq_true]
      exact h
    · rw [List.any_cons, Bool.or_eq_true]
      rcases h with h | h
      · exact Or.inl h
      · exact Or.inr (ih h)

theorem mapFind_of_any (m : List (Derived × Volume Float32)) (key : Derived)
    (h : m.any (fun e => decide (e.1 = key)) = true) :
    ∃ v, mapFind m key = some v ∧ (key, v) ∈ m := by
  induction m with
  | nil => simp at h
  | cons head rest ih =>
    obtain ⟨k, v⟩ := head
    rw [List.any_cons, Bool.or_eq_true] at h
    by_cases hk : k = key
    · subst hk
      exact ⟨v, by simp [mapFind], List.mem_cons_self _ _⟩
    · rcases h with h | h
      · simp only [decide_eq_true_eq] at h
        exact absurd h hk
      · obtain ⟨w, hw, hmem⟩ := ih h
        exact ⟨w, by simp [mapFind, hk, hw], List.mem_cons_of_mem _ hmem⟩

theorem Field.dimensions_of_volumes {f g : Field} (h : g.volumes = f.volumes) :
    g.dimensions = f.dimensions ∧ g.voxelCount = f.voxelCount := by
  unfold Field.dimensions Field.voxelCount
  rw [h]
  exact ⟨rfl, rfl⟩

theorem Field.ShapedLike.assign {f g : Field} (h : Field.ShapedLike f g) (key : Derived)
    (volume : Volume Float32)
    (hv : volume.dimensions = f.dimensions ∧ volume.voxelCount = f.voxelCount) :
    Field.ShapedLike f (g.assignDerived key volume) ∧
      (g.assignDerived key volume).hasDerived key = true ∧
      ∀ other, g.hasDerived other = true →
        (g.assignDerived key volume).hasDerived other = true := by
  obtain ⟨hd, hc⟩ := Field.dimensions_of_volumes h.volumes
  refine ⟨⟨h.volumes, ?_⟩, any_key_mapAssign _ _ _,
    fun other ho => any_key_mapAssign_of_any _ _ _ _ ho⟩
  intro e he
  have hd2 : (g.assignDerived key volume).dimensions = g.dimensions := rfl
  have hc2 : (g.assignDerived key volume).voxelCount = g.voxelCount := rfl
  rw [hd2, hc2]
  rcases mem_mapAssign _ _ _ _ _ he with he | he
  · exact h.shaped e he
  · rw [he, hd, hc]
    exact hv

/-- A grid computed by a routine has the dimensions and the voxel count of the field, when
the front run is a non-empty grid whose buffer length is its dimension product. -/
theorem FieldKernels.derivedGrid_shape (k : FieldKernels) (derived : Derived) (f : Field)
    (front : Volume Float32) (rest : List (Volume Float32)) (hf : f.volumes = front :: rest)
    (hsized : front.Sized) (hne : front.values ≠ []) (hfit : front.values.length < 2147483648) :
    ∃ g, k.derivedGrid derived f = some g ∧ g.dimensions = f.dimensions ∧
      g.voxelCount = f.voxelCount := by
  have hdim : f.dimensions = front.dimensions := by
    unfold Field.dimensions
    rw [hf]
  have hcount : f.voxelCount = (front.values.length : Int) := by
    unfold Field.voxelCount
    rw [hf]
    exact wrapInt32_natCast _ hfit
  have hprod : f.dimensions.product = (front.values.length : Int) := by
    rw [hdim]
    exact hsized.symm
  unfold FieldKernels.derivedGrid
  rw [Volume.ofDimensions_of_product _ _ _ hprod, Option.some_bind, hcount]
  obtain ⟨r, hr, _, hrd, hrl, _⟩ :=
    fillVoxels_spec (fun i => some (k.value derived f i)) (fun i => k.value derived f i)
      front.values.length
      (⟨k.name derived, f.dimensions, List.replicate front.values.length 0, (0, 0), false⟩ :
        Volume Float32)
      (List.length_replicate _ _) (fun _ _ => rfl)
  rw [hr, Option.some_bind]
  have hrne : r.values ≠ [] := by
    intro h
    rw [h] at hrl
    exact hne (List.length_eq_zero.mp hrl.symm)
  cases k.expansion derived with
  | none =>
    refine ⟨r, rfl, hrd, ?_⟩
    unfold Volume.voxelCount
    rw [hrl]
    exact wrapInt32_natCast _ hfit
  | some expansion =>
    obtain ⟨old, cached, hg, _, hcd, hcv, _⟩ := Volume.getDomain_spec r hrne
    refine ⟨_, Volume.expandDomain_of_getDomain r cached old expansion hg, ?_, ?_⟩
    · simp only
      rw [hcd]
      exact hrd
    · unfold Volume.voxelCount
      simp only
      rw [hcv, hrl]
      exact wrapInt32_natCast _ hfit

theorem Field.ShapedLike.compute (k : FieldKernels) {f g : Field} (h : Field.ShapedLike f g)
    (hrun : f.FrontSized) (source : Field) (hs : source.volumes = f.volumes) (key : Derived) :
    Field.ShapedLike f (g.assignDerived key (k.toComputations.derived key source)) ∧
      (g.assignDerived key (k.toComputations.derived key source)).hasDerived key = true ∧
      ∀ other, g.hasDerived other = true →
        (g.assignDerived key (k.toComputations.derived key source)).hasDerived other
          = true := by
  obtain ⟨front, rest, hf, hsized, hne, hfit⟩ := hrun
  obtain ⟨grid, hgrid, hd, hc⟩ :=
    FieldKernels.derivedGrid_shape k key source front rest (by rw [hs]; exact hf) hsized hne
      hfit
  obtain ⟨hd2, hc2⟩ := Field.dimensions_of_volumes hs
  have hval : k.toComputations.derived key source = grid := by
    simp only [FieldKernels.toComputations, hgrid, Option.getD_some]
  rw [hval]
  exact h.assign key grid ⟨by rw [hd, hd2], by rw [hc, hc2]⟩

theorem Field.ShapedLike.meanStddev (k : FieldKernels) {f g : Field}
    (h : Field.ShapedLike f g) (hrun : f.FrontSized) :
    Field.ShapedLike f (g.computeMeanStddev k.toComputations) ∧
      (g.computeMeanStddev k.toComputations).hasDerived Derived.eMean = true ∧
      (g.computeMeanStddev k.toComputations).hasDerived Derived.eStddev = true ∧
      ∀ other, g.hasDerived other = true →
        (g.computeMeanStddev k.toComputations).hasDerived other = true := by
  obtain ⟨a1, a2, a3⟩ := h.compute k hrun g h.volumes Derived.eMean
  obtain ⟨b1, b2, b3⟩ := a1.compute k hrun g h.volumes Derived.eStddev
  exact ⟨b1, b3 _ a2, b2, fun other ho => b3 _ (a3 _ ho)⟩

theorem Field.ShapedLike.ensure (k : FieldKernels) {f g : Field} (h : Field.ShapedLike f g)
    (hrun : f.FrontSized) (key : Derived) :
    Field.ShapedLike f (g.ensureDerived k.toComputations key) ∧
      ∀ other, g.hasDerived other = true →
        (g.ensureDerived k.toComputations key).hasDerived other = true := by
  unfold Field.ensureDerived
  by_cases hk : g.hasDerived key = true
  · rw [if_pos hk]
    exact ⟨h, fun _ ho => ho⟩
  · rw [if_neg hk]
    obtain ⟨a1, _, _, a4⟩ := h.meanStddev k hrun
    exact ⟨a1, a4⟩

theorem Field.ShapedLike.minimumMaximum (k : FieldKernels) {f g : Field}
    (h : Field.ShapedLike f g) (hrun : f.FrontSized) :
    Field.ShapedLike f (g.computeMinimumMaximum k.toComputations) ∧
      (g.computeMinimumMaximum k.toComputations).hasDerived Derived.eMinimum = true ∧
      (g.computeMinimumMaximum k.toComputations).hasDerived Derived.eMaximum = true := by
  obtain ⟨a1, a2, _⟩ := h.compute k hrun g h.volumes Derived.eMinimum
  obtain ⟨b1, b2, b3⟩ := a1.compute k hrun g h.volumes Derived.eMaximum
  exact ⟨b1, b3 _ a2, b2⟩

theorem Field.ShapedLike.principalComponents (k : FieldKernels) {f g : Field}
    (h : Field.ShapedLike f g) (hrun : f.FrontSized) :
    Field.ShapedLike f (g.computePrincipalComponents k.toComputations) ∧
      (g.computePrincipalComponents k.toComputations).hasDerived Derived.ePCA1 = true ∧
      (g.computePrincipalComponents k.toComputations).hasDerived Derived.ePCA2 = true := by
  obtain ⟨a1, a2, _⟩ := h.compute k hrun g h.volumes Derived.ePCA1
  obtain ⟨b1, b2, b3⟩ := a1.compute k hrun g h.volumes Derived.ePCA2
  exact ⟨b1, b3 _ a2, b2⟩

theorem Field.ShapedLike.gradient (k : FieldKernels) {f g : Field}
    (h : Field.ShapedLike f g) (hrun : f.FrontSized) :
    Field.ShapedLike f (g.computeGradient k.toComputations) ∧
      (g.computeGradient k.toComputations).hasDerived Derived.eGradientMagnitude = true := by
  obtain ⟨a1, _⟩ := h.ensure k hrun Derived.eMean
  obtain ⟨b1, b2, _⟩ :=
    a1.compute k hrun (g.ensureDerived k.toComputations Derived.eMean) a1.volumes
      Derived.eGradientMagnitude
  exact ⟨⟨b1.volumes, b1.shaped⟩, b2⟩

theorem Field.ShapedLike.andersonDarling (k : FieldKernels) {f g : Field}
    (h : Field.ShapedLike f g) (hrun : f.FrontSized) :
    Field.ShapedLike f (g.computeAndersonDarling k.toComputations) ∧
      (g.computeAndersonDarling k.toComputations).hasDerived Derived.eAndersonDarling
        = true := by
  obtain ⟨a1, _⟩ := h.ensure k hrun Derived.eMean
  obtain ⟨a2, _⟩ := a1.ensure k hrun Derived.eStddev
  obtain ⟨b1, b2, _⟩ :=
    a2.compute k hrun
      ((g.ensureDerived k.toComputations Derived.eMean).ensureDerived k.toComputations
        Derived.eStddev) a2.volumes Derived.eAndersonDarling
  exact ⟨b1, b2⟩

theorem Field.ShapedLike.histograms (k : FieldKernels) {f g : Field}
    (h : Field.ShapedLike f g) (hrun : f.FrontSized) :
    Field.ShapedLike f (g.computeHistograms k.toComputations) ∧
      (g.computeHistograms k.toComputations).hasDerived Derived.eHist1 = true ∧
      (g.computeHistograms k.toComputations).hasDerived Derived.eHist2 = true ∧
      (g.computeHistograms k.toComputations).hasDerived Derived.eHist3 = true ∧
      (g.computeHistograms k.toComputations).hasDerived Derived.eHist4 = true ∧
      (g.computeHistograms k.toComputations).hasDerived Derived.eHist5 = true ∧
      (g.computeHistograms k.toComputations).hasDerived Derived.eHistDeviation = true := by
  obtain ⟨a1, _⟩ := h.ensure k hrun Derived.eMean
  obtain ⟨a2, _⟩ := a1.ensure k hrun Derived.eStddev
  obtain ⟨b1, c1, _⟩ := a2.compute k hrun _ a2.volumes Derived.eHist1
  obtain ⟨b2, c2, d2⟩ := b1.compute k hrun _ a2.volumes Derived.eHist2
  obtain ⟨b3, c3, d3⟩ := b2.compute k hrun _ a2.volumes Derived.eHist3
  obtain ⟨b4, c4, d4⟩ := b3.compute k hrun _ a2.volumes Derived.eHist4
  obtain ⟨b5, c5, d5⟩ := b4.compute k hrun _ a2.volumes Derived.eHist5
  obtain ⟨b6, c6, d6⟩ := b5.compute k hrun _ a2.volumes Derived.eHistDeviation
  exact ⟨b6, d6 _ (d5 _ (d4 _ (d3 _ (d2 _ c1)))), d6 _ (d5 _ (d4 _ (d3 _ c2))),
    d6 _ (d5 _ (d4 _ c3)), d6 _ (d5 _ c4), d6 _ c5, c6⟩

/-- The lookup `_derivedVolumes[derived]` on a field that holds the entry. -/
theorem Field.derivedEntry_of_hasDerived {f g : Field} (h : Field.ShapedLike f g)
    (derived : Derived) (hh : g.hasDerived derived = true) :
    ∃ volume, g.derivedEntry derived = (g, volume) ∧ volume.dimensions = f.dimensions ∧
      volume.voxelCount = f.voxelCount := by
  obtain ⟨v, hv, hmem⟩ := mapFind_of_any g.derivedVolumes derived hh
  obtain ⟨hd, hc⟩ := Field.dimensions_of_volumes h.volumes
  refine ⟨v, ?_, ?_, ?_⟩
  · unfold Field.derivedEntry
    rw [hv]
  · rw [← hd]
    exact (h.shaped _ hmem).1
  · rw [← hc]
    exact (h.shaped _ hmem).2

theorem Field.volume_shape_of_entry (ops : FieldComputations) {f f1 : Field}
    (derived : Derived) (h : Field.ShapedLike f f1) (hh : f1.hasDerived derived = true)
    (hv : Field.volume ops f derived =
      ((f1.derivedEntry derived).1, Except.ok (f1.derivedEntry derived).2)) :
    ∃ g volume, Field.volume ops f derived = (g, Except.ok volume) ∧
      volume.dimensions = f.dimensions ∧ volume.voxelCount = f.voxelCount ∧
      g.volumes = f.volumes ∧ g.CacheShaped ∧ g.hasDerived derived = true := by
  obtain ⟨volume, he, hd, hc⟩ := Field.derivedEntry_of_hasDerived h derived hh
  rw [he] at hv
  exact ⟨f1, volume, hv, hd, hc, h.volumes, h.shaped, hh⟩

/-- C30 fails for `Derived::eNone`: on the field `exampleFieldBare` (two runs over a
`2 × 1 × 1` grid, nothing cached) the call `volume( Derived::eNone )` computes nothing and
returns the default-constructed grid that `_derivedVolumes[derived]` inserts; its dimensions
`(0, 0, 0)` and voxel count `0` are not those of the field, `(2, 1, 1)` and `2`. -/
theorem C30_volume_none_counterexample :
    (Field.volume exampleKernels.toComputations exampleFieldBare Derived.eNone).2 =
      Except.ok Volume.empty ∧
    (Volume.empty : Volume Float32).dimensions = ⟨0, 0, 0⟩ ∧
    exampleFieldBare.dimensions = ⟨2, 1, 1⟩ ∧
    (Volume.empty : Volume Float32).voxelCount = 0 ∧
    exampleFieldBare.voxelCount = 2 ∧
    exampleFieldBare.volumes.length = 2 := by
  refine ⟨rfl, rfl, rfl, by decide, by decide, rfl⟩

/-- C30, amended. Let the front run of the field be a non-empty grid whose buffer length is
the product of its dimensions, let every cached derived grid have the field's dimensions and
voxel count (in particular, let nothing be cached), and let every routine construct its grids
by `Volume<float>( this->dimensions(), name )` and write the voxels below `voxelCount()`.
For every kind other than `eLabel` and `eNone` the call `volume( derived )` returns a grid
with the field's dimensions and voxel count, and leaves a field with the same runs, the kind
cached, and a cache of grids of that shape. -/
theorem C30_derived_grid_has_field_shape (k : FieldKernels) (f : Field) (derived : Derived)
    (hrun : f.FrontSized) (hcache : f.CacheShaped) (hlabel : derived ≠ Derived.eLabel)
    (hnone : derived ≠ Derived.eNone) :
    ∃ g volume, Field.volume k.toComputations f derived = (g, Except.ok volume) ∧
      volume.dimensions = f.dimensions ∧ volume.voxelCount = f.voxelCount ∧
      g.volumes = f.volumes ∧ g.CacheShaped ∧ g.hasDerived derived = true := by
  have hsl : Field.ShapedLike f f := ⟨rfl, hcache⟩
  by_cases hhas : f.hasDerived derived = true
  · refine Field.volume_shape_of_entry _ derived hsl hhas ?_
    unfold Field.volume
    rw [hhas]
    rfl
  · have hfalse : f.hasDerived derived = false := by simpa using hhas
    cases derived with
    | eNone => exact absurd rfl hnone
    | eLabel => exact absurd rfl hlabel
    | eMinimum =>
      obtain ⟨a, b, _⟩ := hsl.minimumMaximum k hrun
      exact Field.volume_shape_of_entry _ _ a b (by unfold Field.volume; rw [hfalse]; rfl)
    | eMaximum =>
      obtain ⟨a, _, b⟩ := hsl.minimumMaximum k hrun
      exact Field.volume_shape_of_entry _ _ a b (by unfold Field.volume; rw [hfalse]; rfl)
    | eMean =>
      obtain ⟨a, b, _, _⟩ := hsl.meanStddev k hrun
      exact Field.volume_shape_of_entry _ _ a b (by unfold Field.volume; rw [hfalse]; rfl)
    | eStddev =>
      obtain ⟨a, _, b, _⟩ := hsl.meanStddev k hrun
      exact Field.volume_shape_of_entry _ _ a b (by unfold Field.volume; rw [hfalse]; rfl)
    | eGradientMagnitude =>
      obtain ⟨a, b⟩ := hsl.gradient k hrun
      exact Field.volume_shape_of_entry _ _ a b (by unfold Field.volume; rw [hfalse]; rfl)
    | ePCA1 =>
      obtain ⟨a, b, _⟩ := hsl.principalComponents k hrun
      exact Field.volume_shape_of_entry _ _ a b (by unfold Field.volume; rw [hfalse]; rfl)
    | ePCA2 =>
      obtain ⟨a, _, b⟩ := hsl.principalComponents k hrun
      exact Field.volume_shape_of_entry _ _ a b (by unfold Field.volume; rw [hfalse]; rfl)
    | eHist1 =>
      obtain ⟨a, b, _⟩ := hsl.histograms k hrun
      exact Field.volume_shape_of_entry _ _ a b (by unfold Field.volume; rw [hfalse]; rfl)
    | eHist2 =>
      obtain ⟨a, _, b, _⟩ := hsl.histograms k hrun
      exact Field.volume_shape_of_entry _ _ a b (by unfold Field.volume; rw [hfalse]; rfl)
    | eHist3 =>
      obtain ⟨a, _, _, b, _⟩ := hsl.histograms k hrun
      exact Field.volume_shape_of_entry _ _ a b (by unfold Field.volume; rw [hfalse]; rfl)
    | eHist4 =>
      obtain ⟨a, _, _, _, b, _⟩ := hsl.histograms k hrun
      exact Field.volume_shape_of_entry _ _ a b (by unfold Field.volume; rw [hfalse]; rfl)
    | eHist5 =>
      obtain ⟨a, _, _, _, _, b, _⟩ := hsl.histograms k hrun
      exact Field.volume_shape_of_entry _ _ a b (by unfold Field.volume; rw [hfalse]; rfl)
    | eHistDeviation =>
      obtain ⟨a, _, _, _, _, _, b⟩ := hsl.histograms k hrun
      exact Field.volume_shape_of_entry _ _ a b (by unfold Field.volume; rw [hfalse]; rfl)
    | eAndersonDarling =>
      obtain ⟨a, b⟩ := hsl.andersonDarling k hrun
      exact Field.volume_shape_of_entry _ _ a b (by unfold Field.volume; rw [hfalse]; rfl)

theorem exampleFieldBare_frontSized : exampleFieldBare.FrontSized :=
  ⟨exampleVolume, _, rfl, exampleVolume_sized, by decide, by decide⟩

theorem exampleFieldBare_cacheShaped : exampleFieldBare.CacheShaped := by
  intro e he
  cases he

theorem C30_derived_grid_has_field_shape_witness :
    (exampleFieldBare.FrontSized ∧ exampleFieldBare.CacheShaped ∧
      Derived.eHist3 ≠ Derived.eLabel ∧ Derived.eHist3 ≠ Derived.eNone) ∧
    ∃ g volume,
      Field.volume exampleKernels.toComputations exampleFieldBare Derived.eHist3 =
        (g, Except.ok volume) ∧
      volume.dimensions = exampleFieldBare.dimensions ∧
      volume.voxelCount = exampleFieldBare.voxelCount ∧
      g.volumes = exampleFieldBare.volumes ∧ g.CacheShaped ∧
      g.hasDerived Derived.eHist3 = true :=
  ⟨⟨exampleFieldBare_frontSized, exampleFieldBare_cacheShaped, by decide, by decide⟩,
    C30_derived_grid_has_field_shape exampleKernels exampleFieldBare Derived.eHist3
      exampleFieldBare_frontSized exampleFieldBare_cacheShaped (by decide) (by decide)⟩

end Reghievis

/-! ## The histogram deviation -/

namespace Reghievis

theorem XFloat.stdMax_fin (a b : ℚ) :
    XFloat.stdMax (XFloat.fin a) (XFloat.fin b) = XFloat.fin (max a b) := by
  unfold XFloat.stdMax XFloat.lt
  by_cases h : a < b
  · simp [h, max_eq_right (le_of_lt h)]
  · simp [h, max_eq_left (not_lt.mp h)]

theorem XFloat.abs_sub_fin (a b : ℚ) :
    XFloat.abs (XFloat.sub (XFloat.fin a) (XFloat.fin b)) = XFloat.fin |a - b| := by
  simp [XFloat.abs, XFloat.sub, XFloat.add, XFloat.neg, sub_eq_add_neg]

theorem histDeviationAt_fin (a1 a2 a3 a4 a5 : ℚ) :
    histDeviationAt ⟨XFloat.fin a1, XFloat.fin a2, XFloat.fin a3, XFloat.fin a4, XFloat.fin a5⟩
      = XFloat.fin (max (max (max (max (max 0 |a1 - 2 / 10|) |a2 - 2 / 10|) |a3 - 2 / 10|)
          |a4 - 2 / 10|) |a5 - 2 / 10|) := by
  simp only [histDeviationAt, List.foldl_cons, List.foldl_nil, XFloat.abs_sub_fin,
    XFloat.stdMax_fin]

theorem abs_sub_fifth_le (a : ℚ) (h0 : 0 ≤ a) (h1 : a ≤ 1) : |a - 2 / 10| ≤ 4 / 5 := by
  rw [abs_le]
  constructor <;> linarith

theorem histDeviationAt_bounds (a1 a2 a3 a4 a5 : ℚ)
    (h1 : 0 ≤ a1 ∧ a1 ≤ 1) (h2 : 0 ≤ a2 ∧ a2 ≤ 1) (h3 : 0 ≤ a3 ∧ a3 ≤ 1)
    (h4 : 0 ≤ a4 ∧ a4 ≤ 1) (h5 : 0 ≤ a5 ∧ a5 ≤ 1) :
    ∃ q, histDeviationAt
        ⟨XFloat.fin a1, XFloat.fin a2, XFloat.fin a3, XFloat.fin a4, XFloat.fin a5⟩
      = XFloat.fin q ∧ 0 ≤ q ∧ q ≤ 4 / 5 := by
  refine ⟨_, histDeviationAt_fin a1 a2 a3 a4 a5, ?_, ?_⟩
  · exact le_trans (le_trans (le_trans (le_trans (le_max_left _ _) (le_max_left _ _))
      (le_max_left _ _)) (le_max_left _ _)) (le_max_left _ _)
  · have b1 := abs_sub_fifth_le a1 h1.1 h1.2
    have b2 := abs_sub_fifth_le a2 h2.1 h2.2
    have b3 := abs_sub_fifth_le a3 h3.1 h3.2
    have b4 := abs_sub_fifth_le a4 h4.1 h4.2
    have b5 := abs_sub_fifth_le a5 h5.1 h5.2
    exact max_le (max_le (max_le (max_le (max_le (by norm_num) b1) b2) b3) b4) b5

theorem histDeviationAt_third_bin :
    histDeviationAt ⟨XFloat.fin 0, XFloat.fin 0, XFloat.fin 1, XFloat.fin 0, XFloat.fin 0⟩
      = XFloat.fin (4 / 5) := by
  rw [histDeviationAt_fin]
  norm_num [abs_of_nonneg, abs_of_nonpos]

theorem zScore_zero_stddev (value : ℚ) (mean : XFloat) :
    zScore value mean (XFloat.fin 0) = XFloat.fin 0 := by
  simp [zScore, XFloat.toBool]

theorem incrementBin_zero (bins : Bins) :
    incrementBin (XFloat.fin 0) bins =
      { bins with hist3 := XFloat.add bins.hist3 (XFloat.fin 1) } := by
  unfold incrementBin
  have e1 : (XFloat.fin 0).le (XFloat.fin (-842 / 1000)) = false := by
    simp [XFloat.le]
    norm_num
  have e2 : (XFloat.fin 0).le (XFloat.fin (-253 / 1000)) = false := by
    simp [XFloat.le]
    norm_num
  have e3 : (XFloat.fin 0).le (XFloat.fin (253 / 1000)) = true := by
    simp [XFloat.le]
    norm_num
  simp only [e1, e2, e3, if_true, Bool.false_eq_true, if_false]

theorem histogramBins_zero_stddev (mean : XFloat) (i : Int) (vs : List (Volume ℚ))
    (c1 c2 c3 c4 c5 : Nat) (hget : ∀ r ∈ vs, ∃ a, r.getAt i = some a) :
    histogramBins mean (XFloat.fin 0) i vs
        ⟨XFloat.fin c1, XFloat.fin c2, XFloat.fin c3, XFloat.fin c4, XFloat.fin c5⟩ =
      some ⟨XFloat.fin c1, XFloat.fin c2, XFloat.fin ((c3 + vs.length : Nat) : ℚ),
        XFloat.fin c4, XFloat.fin c5⟩ := by
  induction vs generalizing c3 with
  | nil => simp [histogramBins]
  | cons v vs ih =>
    obtain ⟨a, ha⟩ := hget v (List.mem_cons_self _ _)
    rw [histogramBins, ha]
    simp only [zScore_zero_stddev, incrementBin_zero, XFloat.add_count]
    rw [ih (c3 + 1) (fun r hr => hget r (List.mem_cons_of_mem _ hr))]
    simp only [List.length_cons]
    have e : c3 + 1 + vs.length = c3 + (vs.length + 1) := by omega
    rw [e]

/-- The five histogram grids hold, at every voxel, the five values the loop body computes
there from freshly constructed (zero-filled) grids. -/
theorem histogramVolumes_spec (runs : List (Volume ℚ))
    (meanVolume stddevVolume : Volume XFloat) (V : Nat)
    (hN : 1 ≤ runs.length) (hNfit : runs.length < 2147483648) (hV : V < 2147483648)
    (hlen : ∀ r ∈ runs, r.values.length = V)
    (hdim : (fieldDimensions runs).product = (V : Int))
    (hmean : meanVolume.values.length = V) (hstddev : stddevVolume.values.length = V) :
    ∃ h fresh, histogramVolumes runs meanVolume stddevVolume = some h ∧
      (∀ n : Nat, n < V → fresh.getAt (n : Int) =
        some ⟨XFloat.fin 0, XFloat.fin 0, XFloat.fin 0, XFloat.fin 0, XFloat.fin 0⟩) ∧
      ∀ n : Nat, n < V → ∃ bins,
        histogramAt runs meanVolume stddevVolume fresh (n : Int) = some bins ∧
        h.getAt (n : Int) = some bins ∧
        h.hist1.getAt (n : Int) = some bins.hist1 ∧
        h.hist2.getAt (n : Int) = some bins.hist2 ∧
        h.hist3.getAt (n : Int) = some bins.hist3 ∧
        h.hist4.getAt (n : Int) = some bins.hist4 ∧
        h.hist5.getAt (n : Int) = some bins.hist5 := by
  have hne : runs ≠ [] := by
    intro h0
    rw [h0] at hN
    simp at hN
  have hcount := fieldVoxelCount_eq runs V hV hne hlen
  generalize hfr : (⟨⟨[122, 226, 128, 145, 115, 99, 111, 114, 101, 115, 194, 160, 105, 110, 32,
      91, 45, 105, 110, 102, 44, 45, 48, 46, 56, 52, 50, 93], fieldDimensions runs,
      List.replicate V 0, (0, 0), false⟩,
    ⟨[122, 226, 128, 145, 115, 99, 111, 114, 101, 115, 194, 160, 105, 110, 32, 40, 45, 48, 46,
      56, 52, 50, 44, 45, 48, 46, 50, 53, 51, 93], fieldDimensions runs,
      List.replicate V 0, (0, 0), false⟩,
    ⟨[122, 226, 128, 145, 115, 99, 111, 114, 101, 115, 194, 160, 105, 110, 32, 40, 45, 48, 46,
      50, 53, 51, 44, 48, 46, 50, 53, 51, 93], fieldDimensions runs,
      List.replicate V 0, (0, 0), false⟩,
    ⟨[122, 226, 128, 145, 115, 99, 111, 114, 101, 115, 194, 160, 105, 110, 32, 40, 48, 46, 50,
      53, 51, 44, 48, 46, 56, 52, 50, 93], fieldDimensions runs,
      List.replicate V 0, (0, 0), false⟩,
    ⟨[122, 226, 128, 145, 115, 99, 111, 114, 101, 115, 194, 160, 105, 110, 32, 40, 48, 46, 56,
      52, 50, 44, 105, 110, 102, 93], fieldDimensions runs,
      List.replicate V 0, (0, 0), false⟩⟩ : HistogramVolumes) = fresh
  have hfresh : ∀ n : Nat, n < V → fresh.getAt (n : Int) =
      some ⟨XFloat.fin 0, XFloat.fin 0, XFloat.fin 0, XFloat.fin 0, XFloat.fin 0⟩ := by
    intro n hn
    rw [← hfr]
    exact HistogramVolumes.getAt_fresh _ _ _ _ _ _ V n hn
  have hbins : ∀ n : Nat, n < V → ∃ bins,
      histogramAt runs meanVolume stddevVolume fresh (n : Int) = some bins := by
    intro n hn
    obtain ⟨c1, c2, c3, c4, c5, _, hb⟩ :=
      histogramAt_counts runs meanVolume stddevVolume fresh V n hn hN hNfit hlen
        hmean hstddev (hfresh n hn)
    exact ⟨_, hb⟩
  have hfill : ∀ (proj : Bins → XFloat) (name : List Nat),
      ∃ r, fillVoxels
          (fun i => (histogramAt runs meanVolume stddevVolume fresh (i : Int)).map proj)
          (V : Int) (⟨name, fieldDimensions runs, List.replicate V 0, (0, 0), false⟩ :
            Volume XFloat) = some r ∧
        ∀ n : Nat, n < V → r.getAt (n : Int) =
          (histogramAt runs meanVolume stddevVolume fresh (n : Int)).map proj := by
    intro proj name
    obtain ⟨r, hr, _, _, _, hget⟩ := fillVoxels_spec
      (fun i => (histogramAt runs meanVolume stddevVolume fresh (i : Int)).map proj)
      (fun i => ((histogramAt runs meanVolume stddevVolume fresh (i : Int)).map proj).getD 0)
      V (⟨name, fieldDimensions runs, List.replicate V 0, (0, 0), false⟩ : Volume XFloat)
      (by simp)
      (fun n hn => by
        obtain ⟨bins, hb⟩ := hbins n hn
        beta_reduce
        rw [hb]
        rfl)
    refine ⟨r, hr, ?_⟩
    intro n hn
    obtain ⟨bins, hb⟩ := hbins n hn
    rw [hget n hn, hb]
    rfl
  obtain ⟨h1, hh1, hg1⟩ := hfill Bins.hist1
    [122, 226, 128, 145, 115, 99, 111, 114, 101, 115, 194, 160, 105, 110, 32,
      91, 45, 105, 110, 102, 44, 45, 48, 46, 56, 52, 50, 93]
  obtain ⟨h2, hh2, hg2⟩ := hfill Bins.hist2
    [122, 226, 128, 145, 115, 99, 111, 114, 101, 115, 194, 160, 105, 110, 32, 40, 45, 48, 46,
      56, 52, 50, 44, 45, 48, 46, 50, 53, 51, 93]
  obtain ⟨h3, hh3, hg3⟩ := hfill Bins.hist3
    [122, 226, 128, 145, 115, 99, 111, 114, 101, 115, 194, 160, 105, 110, 32, 40, 45, 48, 46,
      50, 53, 51, 44, 48, 46, 50, 53, 51, 93]
  obtain ⟨h4, hh4, hg4⟩ := hfill Bins.hist4
    [122, 226, 128, 145, 115, 99, 111, 114, 101, 115, 194, 160, 105, 110, 32, 40, 48, 46, 50,
      53, 51, 44, 48, 46, 56, 52, 50, 93]
  obtain ⟨h5, hh5, hg5⟩ := hfill Bins.hist5
    [122, 226, 128, 145, 115, 99, 111, 114, 101, 115, 194, 160, 105, 110, 32, 40, 48, 46, 56,
      52, 50, 44, 105, 110, 102, 93]
  refine ⟨⟨h1, h2, h3, h4, h5⟩, fresh, ?_, hfresh, ?_⟩
  · unfold histogramVolumes
    rw [Volume.ofDimensions_of_product _ _ V hdim, Volume.ofDimensions_of_product _ _ V hdim,
      Volume.ofDimensions_of_product _ _ V hdim, Volume.ofDimensions_of_product _ _ V hdim,
      Volume.ofDimensions_of_product _ _ V hdim]
    simp only [Option.some_bind]
    rw [hfr, hcount, hh1, Option.some_bind, hh2, Option.some_bind, hh3, Option.some_bind,
      hh4, Option.some_bind, hh5]
    rfl
  · intro n hn
    obtain ⟨bins, hb⟩ := hbins n hn
    refine ⟨bins, hb, ?_, ?_, ?_, ?_, ?_, ?_⟩
    · unfold HistogramVolumes.getAt
      rw [hg1 n hn, hg2 n hn, hg3 n hn, hg4 n hn, hg5 n hn, hb]
      rfl
    · rw [hg1 n hn, hb]; rfl
    · rw [hg2 n hn, hb]; rfl
    · rw [hg3 n hn, hb]; rfl
    · rw [hg4 n hn, hb]; rfl
    · rw [hg5 n hn, hb]; rfl

theorem histogramAt_zero_stddev (runs : List (Volume ℚ))
    (meanVolume stddevVolume : Volume XFloat) (fresh : HistogramVolumes) (V n : Nat)
    (hn : n < V) (hN : 1 ≤ runs.length) (hNfit : runs.length < 2147483648)
    (hlen : ∀ r ∈ runs, r.values.length = V) (hmean : meanVolume.values.length = V)
    (hzero : stddevVolume.getAt (n : Int) = some (XFloat.fin 0))
    (hfresh : fresh.getAt (n : Int) =
      some ⟨XFloat.fin 0, XFloat.fin 0, XFloat.fin 0, XFloat.fin 0, XFloat.fin 0⟩) :
    histogramAt runs meanVolume stddevVolume fresh (n : Int) =
      some ⟨XFloat.fin 0, XFloat.fin 0, XFloat.fin 1, XFloat.fin 0, XFloat.fin 0⟩ := by
  obtain ⟨mean, hm⟩ := meanVolume.getAt_isSome n (by rw [hmean]; exact hn)
  obtain ⟨hmc, hmem⟩ := fieldMembers_eq runs hNfit
  have hb := histogramBins_zero_stddev mean (n : Int) runs 0 0 0 0 0
    (fun r hr => r.getAt_isSome n (by rw [hlen r hr]; exact hn))
  have hN0 : runs.length ≠ 0 := by omega
  have hNq : (runs.length : ℚ) ≠ 0 := Nat.cast_ne_zero.mpr hN0
  have e0 : (((0 : Nat) : ℚ)) = 0 := Nat.cast_zero
  rw [e0] at hb
  unfold histogramAt
  rw [hm, Option.some_bind, hzero, Option.some_bind, hfresh, Option.some_bind, hmem, hmc, hb]
  simp only [Option.map_some', Bins.normalize]
  have d0 : XFloat.div (XFloat.fin 0) (XFloat.fin (((runs.length : Nat) : Int) : ℚ)) =
      XFloat.fin 0 := by
    simp [XFloat.div, hNq]
  have d1 : XFloat.div (XFloat.fin ((0 + runs.length : Nat) : ℚ))
      (XFloat.fin (((runs.length : Nat) : Int) : ℚ)) = XFloat.fin 1 := by
    simp [XFloat.div, hNq]
  rw [d0, d1]

/-- C26. For a field with `N ≥ 1` runs of `V` voxels each and grids "Mean" and "Stddev" of
`V` voxels, `computeHistograms` computes the five histogram grids and the grid "Histogram
Deviation".  With a standard deviation of `0` every z-score is `0` and the chain of
comparisons increments the third bin; at a voxel whose "Stddev" value is `0` the grids hold
`Hist3 = 1`, `Hist1 = Hist2 = Hist4 = Hist5 = 0` and `HistDeviation = 0.8`; and at every voxel
`0 ≤ HistDeviation ≤ 0.8`. -/
theorem C26_histogram_deviation_at_most_four_fifths (runs : List (Volume ℚ))
    (meanVolume stddevVolume : Volume XFloat) (V : Nat)
    (hN : 1 ≤ runs.length) (hNfit : runs.length < 2147483648) (hV : V < 2147483648)
    (hlen : ∀ r ∈ runs, r.values.length = V)
    (hdim : (fieldDimensions runs).product = (V : Int))
    (hmean : meanVolume.values.length = V) (hstddev : stddevVolume.values.length = V) :
    (∀ (value : ℚ) (mean : XFloat) (bins : Bins),
      zScore value mean (XFloat.fin 0) = XFloat.fin 0 ∧
      incrementBin (zScore value mean (XFloat.fin 0)) bins =
        { bins with hist3 := XFloat.add bins.hist3 (XFloat.fin 1) }) ∧
    ∃ h d, histogramVolumes runs meanVolume stddevVolume = some h ∧
      histDeviationVolume runs h = some d ∧
      (∀ n : Nat, n < V → stddevVolume.getAt (n : Int) = some (XFloat.fin 0) →
        h.hist1.getAt (n : Int) = some (XFloat.fin 0) ∧
        h.hist2.getAt (n : Int) = some (XFloat.fin 0) ∧
        h.hist3.getAt (n : Int) = some (XFloat.fin 1) ∧
        h.hist4.getAt (n : Int) = some (XFloat.fin 0) ∧
        h.hist5.getAt (n : Int) = some (XFloat.fin 0) ∧
        d.getAt (n : Int) = some (XFloat.fin (4 / 5))) ∧
      ∀ n : Nat, n < V →
        ∃ q : ℚ, d.getAt (n : Int) = some (XFloat.fin q) ∧ 0 ≤ q ∧ q ≤ 4 / 5 := by
  refine ⟨fun value mean bins => ⟨zScore_zero_stddev value mean, ?_⟩, ?_⟩
  · rw [zScore_zero_stddev, incrementBin_zero]
  have hne : runs ≠ [] := by
    intro h0
    rw [h0] at hN
    simp at hN
  have hcount := fieldVoxelCount_eq runs V hV hne hlen
  obtain ⟨h, fresh, hh, hfresh, hat⟩ :=
    histogramVolumes_spec runs meanVolume stddevVolume V hN hNfit hV hlen hdim hmean hstddev
  have hsome : ∀ n : Nat, n < V → ∃ bins, h.getAt (n : Int) = some bins := by
    intro n hn
    obtain ⟨bins, _, hb, _⟩ := hat n hn
    exact ⟨bins, hb⟩
  obtain ⟨d, hd, _, _, _, hget⟩ := fillVoxels_spec
    (fun i => (h.getAt (i : Int)).map histDeviationAt)
    (fun i => ((h.getAt (i : Int)).map histDeviationAt).getD 0) V
    (⟨[72, 105, 115, 116, 111, 103, 114, 97, 109, 32, 68, 101, 118, 105, 97, 116, 105, 111,
        110], fieldDimensions runs, List.replicate V 0, (0, 0), false⟩ : Volume XFloat)
    (by simp)
    (fun n hn => by
      obtain ⟨bins, hb⟩ := hsome n hn
      beta_reduce
      rw [hb]
      rfl)
  have hdev : ∀ n : Nat, n < V → ∀ bins, h.getAt (n : Int) = some bins →
      d.getAt (n : Int) = some (histDeviationAt bins) := by
    intro n hn bins hb
    rw [hget n hn, hb]
    rfl
  refine ⟨h, d, hh, ?_, ?_, ?_⟩
  · unfold histDeviationVolume
    rw [Volume.ofDimensions_of_product _ _ V hdim, Option.some_bind, hcount]
    exact hd
  · intro n hn hzero
    obtain ⟨bins, hb1, hb2, g1, g2, g3, g4, g5⟩ := hat n hn
    rw [histogramAt_zero_stddev runs meanVolume stddevVolume fresh V n hn hN hNfit hlen hmean
      hzero (hfresh n hn)] at hb1
    have hb3 := Option.some.inj hb1
    subst hb3
    have hd2 := hdev n hn _ hb2
    rw [histDeviationAt_third_bin] at hd2
    exact ⟨g1, g2, g3, g4, g5, hd2⟩
  · intro n hn
    obtain ⟨bins, hb1, hb2, _⟩ := hat n hn
    obtain ⟨c1, c2, c3, c4, c5, hsum, hc⟩ :=
      histogramAt_counts runs meanVolume stddevVolume fresh V n hn hN hNfit hlen
        hmean hstddev (hfresh n hn)
    rw [hc] at hb1
    have hb3 := Option.some.inj hb1
    subst hb3
    have hNpos : (0 : ℚ) < (runs.length : ℚ) := by
      have : 0 < runs.length := hN
      exact_mod_cast this
    have hfrac : ∀ c : Nat, c ≤ runs.length →
        0 ≤ (c : ℚ) / (runs.length : ℚ) ∧ (c : ℚ) / (runs.length : ℚ) ≤ 1 := by
      intro c hc
      have hcq : (c : ℚ) ≤ (runs.length : ℚ) := by exact_mod_cast hc
      exact ⟨div_nonneg (Nat.cast_nonneg c) (le_of_lt hNpos),
        (div_le_one hNpos).mpr hcq⟩
    obtain ⟨q, hq, hq0, hq1⟩ := histDeviationAt_bounds _ _ _ _ _
      (hfrac c1 (by omega)) (hfrac c2 (by omega)) (hfrac c3 (by omega))
      (hfrac c4 (by omega)) (hfrac c5 (by omega))
    refine ⟨q, ?_, hq0, hq1⟩
    rw [hdev n hn _ hb2, hq]

theorem constantRuns_lengths : ∀ r ∈ constantRuns, r.values.length = 4 := by
  intro r hr
  simp only [constantRuns, List.mem_cons, List.mem_singleton, List.not_mem_nil, or_false] at hr
  rcases hr with rfl | rfl <;> rfl

theorem constantRuns_product : (fieldDimensions constantRuns).product = ((4 : Nat) : Int) := by
  simp [fieldDimensions, constantRuns, Vec3i.product, wrapInt32]

theorem C26_histogram_deviation_at_most_four_fifths_witness :
    (1 ≤ constantRuns.length ∧ constantRuns.length < 2147483648 ∧ 4 < 2147483648 ∧
      (∀ r ∈ constantRuns, r.values.length = 4) ∧
      (fieldDimensions constantRuns).product = ((4 : Nat) : Int) ∧
      constantRunsMean.values.length = 4 ∧ constantRunsStddev.values.length = 4) ∧
    ((∀ (value : ℚ) (mean : XFloat) (bins : Bins),
      zScore value mean (XFloat.fin 0) = XFloat.fin 0 ∧
      incrementBin (zScore value mean (XFloat.fin 0)) bins =
        { bins with hist3 := XFloat.add bins.hist3 (XFloat.fin 1) }) ∧
    ∃ h d, histogramVolumes constantRuns constantRunsMean constantRunsStddev = some h ∧
      histDeviationVolume constantRuns h = some d ∧
      (∀ n : Nat, n < 4 → constantRunsStddev.getAt (n : Int) = some (XFloat.fin 0) →
        h.hist1.getAt (n : Int) = some (XFloat.fin 0) ∧
        h.hist2.getAt (n : Int) = some (XFloat.fin 0) ∧
        h.hist3.getAt (n : Int) = some (XFloat.fin 1) ∧
        h.hist4.getAt (n : Int) = some (XFloat.fin 0) ∧
        h.hist5.getAt (n : Int) = some (XFloat.fin 0) ∧
        d.getAt (n : Int) = some (XFloat.fin (4 / 5))) ∧
      ∀ n : Nat, n < 4 →
        ∃ q : ℚ, d.getAt (n : Int) = some (XFloat.fin q) ∧ 0 ≤ q ∧ q ≤ 4 / 5) :=
  ⟨⟨by decide, by decide, by decide, constantRuns_lengths, constantRuns_product, rfl, rfl⟩,
    C26_histogram_deviation_at_most_four_fifths constantRuns constantRunsMean
      constantRunsStddev 4 (by decide) (by decide) (by decide) constantRuns_lengths
      constantRuns_product rfl rfl⟩

end Reghievis

/-! ## The chunks of a parallel loop -/

namespace Reghievis

theorem chunkIndices_append (a b c : Int) (hab : a ≤ b) (hbc : b ≤ c) :
    chunkIndices (a, b) ++ chunkIndices (b, c) = chunkIndices (a, c) := by
  unfold chunkIndices
  simp only
  obtain ⟨n, hn⟩ := Int.eq_ofNat_of_zero_le (sub_nonneg.mpr hab)
  obtain ⟨m, hm⟩ := Int.eq_ofNat_of_zero_le (sub_nonneg.mpr hbc)
  have hc : c - a = ((n + m : Nat) : Int) := by
    push_cast
    omega
  rw [hn, hm, hc, Int.toNat_ofNat, Int.toNat_ofNat, Int.toNat_ofNat, List.range_add,
    List.map_append, List.map_map]
  congr 1
  apply List.map_congr_left
  intro k _
  simp only [Function.comp]
  push_cast
  omega

theorem chunksFrom_spec (threads : Nat) (endIndex step : Int) (hstep : 0 ≤ step)
    (he : InInt32 endIndex) (remaining : Nat) :
    ∀ (i : Nat) (b : Int), i + remaining = threads → InInt32 b →
      b + (remaining : Int) * step ≤ endIndex →
      (chunksFrom threads endIndex step remaining i b).length = remaining ∧
      (∀ j : Nat, j < remaining →
        (chunksFrom threads endIndex step remaining i b)[j]? =
          some (b + (j : Int) * step,
            if i + j = threads - 1 then endIndex else b + ((j : Int) + 1) * step)) ∧
      (1 ≤ remaining →
        (chunksFrom threads endIndex step remaining i b).flatMap chunkIndices =
          chunkIndices (b, endIndex)) := by
  induction remaining with
  | zero =>
    intro i b _ _ _
    exact ⟨rfl, fun j hj => absurd hj (Nat.not_lt_zero j), fun h => absurd h (by omega)⟩
  | succ r ih =>
    intro i b hi hb hle
    have hr0 : (0 : Int) ≤ (r : Int) * step := mul_nonneg (Int.ofNat_nonneg r) hstep
    have hle2 : b + step + (r : Int) * step ≤ endIndex := by
      have e : ((r + 1 : Nat) : Int) * step = (r : Int) * step + step := by
        push_cast
        ring
      rw [e] at hle
      omega
    have hin : InInt32 (b + step) := by
      unfold InInt32 at hb he ⊢
      omega
    have hw : wrapInt32 (b + step) = b + step := wrapInt32_of_inInt32 hin
    obtain ⟨h1, h2, h3⟩ := ih (i + 1) (b + step) (by omega) hin hle2
    have hunf : chunksFrom threads endIndex step (r + 1) i b =
        (b, if i = threads - 1 then endIndex else b + step) ::
          chunksFrom threads endIndex step r (i + 1) (b + step) := by
      simp only [chunksFrom, hw]
    rw [hunf]
    refine ⟨by rw [List.length_cons, h1], ?_, ?_⟩
    · intro j hj
      cases j with
      | zero =>
        simp only [List.getElem?_cons_zero, Nat.add_zero, Int.ofNat_zero, zero_mul, add_zero,
          zero_add, one_mul, Nat.cast_zero]
      | succ j =>
        rw [List.getElem?_cons_succ, h2 j (by omega)]
        have e1 : b + step + (j : Int) * step = b + ((j + 1 : Nat) : Int) * step := by
          push_cast
          ring
        have e2 : b + step + ((j : Int) + 1) * step =
            b + (((j + 1 : Nat) : Int) + 1) * step := by
          push_cast
          ring
        have e3 : i + 1 + j = i + (j + 1) := by omega
        rw [e1, e2, e3]
    · intro _
      rw [List.flatMap_cons]
      by_cases hlast : r = 0
      · subst hlast
        have hi2 : i = threads - 1 := by omega
        rw [if_pos hi2]
        simp [chunksFrom]
      · have hi2 : i ≠ threads - 1 := by omega
        rw [if_neg hi2, h3 (by omega)]
        exact chunkIndices_append b (b + step) endIndex (by omega) (by omega)

theorem computeMultiThreaded_spec (threads : Nat) (begin endIndex : Int) (hT : 1 ≤ threads)
    (hle : begin ≤ endIndex) (hb : InInt32 begin) (he : InInt32 endIndex)
    (hd : endIndex - begin < 2147483648) :
    ∃ chunks, computeMultiThreaded threads begin endIndex = some chunks ∧
      0 ≤ (endIndex - begin) / (threads : Int) ∧
      begin + (threads : Int) * ((endIndex - begin) / (threads : Int)) ≤ endIndex ∧
      chunks.length = threads ∧
      (∀ k : Nat, k < threads → chunks[k]? =
        some (begin + (k : Int) * ((endIndex - begin) / (threads : Int)),
          if k = threads - 1 then endIndex
          else begin + ((k : Int) + 1) * ((endIndex - begin) / (threads : Int)))) ∧
      chunks.flatMap chunkIndices = chunkIndices (begin, endIndex) := by
  obtain ⟨d, hdn⟩ := Int.eq_ofNat_of_zero_le (sub_nonneg.mpr hle)
  have hdlt : d < 2147483648 := by omega
  have hq : d / threads ≤ d := Nat.div_le_self d threads
  have hmul : d / threads * threads ≤ d := Nat.div_mul_le_self d threads
  have hS : (endIndex - begin) / (threads : Int) = ((d / threads : Nat) : Int) := by
    rw [hdn]
    exact (Int.ofNat_ediv d threads).symm
  have hS0 : (0 : Int) ≤ ((d / threads : Nat) : Int) := Int.ofNat_nonneg _
  have hfit : begin + (threads : Int) * ((d / threads : Nat) : Int) ≤ endIndex := by
    have h1 : (threads : Int) * ((d / threads : Nat) : Int) ≤ (d : Int) := by
      have h2 : ((d / threads * threads : Nat) : Int) ≤ (d : Int) := Int.ofNat_le.mpr hmul
      rw [Nat.cast_mul, mul_comm] at h2
      exact h2
    omega
  have hsize : toSizeT (d : Int) = d := by
    unfold toSizeT
    rw [Int.emod_eq_of_lt (Int.ofNat_nonneg d) (by omega), Int.toNat_ofNat]
  have hstep : wrapInt32 ((toSizeT (wrapInt32 (endIndex - begin)) / threads : Nat) : Int) =
      ((d / threads : Nat) : Int) := by
    rw [hdn, wrapInt32_natCast d hdlt, hsize]
    exact wrapInt32_natCast _ (by omega)
  obtain ⟨h1, h2, h3⟩ :=
    chunksFrom_spec threads endIndex ((d / threads : Nat) : Int) hS0 he threads 0 begin
      (by omega) hb hfit
  refine ⟨_, ?_, ?_, ?_, h1, ?_, ?_⟩
  · unfold computeMultiThreaded
    rw [if_neg (by omega), hstep]
  · rw [hS]; exact hS0
  · rw [hS]; exact hfit
  · intro k hk
    rw [hS, h2 k hk, Nat.zero_add]
  · exact h3 hT

theorem fillCells_cache {T C : Type} (index : Volume T → C → Int) (value : C → Option T)
    (cs : List C) : ∀ (result r : Volume T), fillCells index value cs result = some r →
      r.domain = result.domain ∧ r.domainValid = result.domainValid := by
  induction cs with
  | nil =>
    intro result r h
    simp only [fillCells, Option.some.injEq] at h
    subst h
    exact ⟨rfl, rfl⟩
  | cons c cs ih =>
    intro result r h
    simp only [fillCells] at h
    cases hv : value c with
    | none => rw [hv] at h; cases h
    | some x =>
      rw [hv] at h
      simp only at h
      cases hs : result.setAt (index result c) x with
      | none => rw [hs] at h; cases h
      | some r1 =>
        rw [hs] at h
        simp only at h
        obtain ⟨a1, a2⟩ := ih r1 r h
        unfold Volume.setAt at hs
        split_ifs at hs
        have hs2 := Option.some.inj hs
        subst hs2
        exact ⟨a1, a2⟩

theorem Volume.ext_of_getAt {T : Type} (a b : Volume T) (hname : a.name = b.name)
    (hdim : a.dimensions = b.dimensions) (hdom : a.domain = b.domain)
    (hvalid : a.domainValid = b.domainValid) (hlen : a.values.length = b.values.length)
    (hget : ∀ n : Nat, n < a.values.length → a.getAt (n : Int) = b.getAt (n : Int)) :
    a = b := by
  obtain ⟨an, ad, av, ado, avl⟩ := a
  obtain ⟨bn, bd, bv, bdo, bvl⟩ := b
  simp only at hname hdim hdom hvalid hlen hget
  subst hname hdim hdom hvalid
  have hv : av = bv := by
    apply List.ext_getElem? 
    intro n
    by_cases hn : n < av.length
    · have := hget n hn
      simpa [Volume.getAt_natCast] using this
    · rw [List.getElem?_eq_none (by omega), List.getElem?_eq_none (by omega)]
  rw [hv]

/-- The threads of `Volume::map` leave the grid the sequential loop over all voxels leaves,
in whatever order their writes happen. -/
theorem Volume.mapThreaded_eq_map {T U : Type} [Zero U] (v : Volume T) (hsized : v.Sized)
    (hfit : v.values.length < 2147483648) (conversion : T → U) (order : List Int)
    (horder : order.Perm (chunkIndices (0, (v.values.length : Int)))) :
    v.mapThreaded conversion order = v.map conversion ∧
      ∃ g, v.map conversion = some g ∧ g.values = v.values.map conversion := by
  obtain ⟨g, hg, _, hgd, hgn, hgl, hget⟩ := Volume.map_spec v hsized hfit conversion
  have hmem : ∀ c ∈ order, ∃ n : Nat, n < v.values.length ∧ c = (n : Int) := by
    intro c hc
    have hc2 := horder.subset hc
    unfold chunkIndices at hc2
    simp only [sub_zero, Int.toNat_ofNat, List.mem_map, List.mem_range, zero_add] at hc2
    obtain ⟨n, hn, rfl⟩ := hc2
    exact ⟨n, hn, rfl⟩
  have hcover : ∀ n : Nat, n < v.values.length → (n : Int) ∈ order := by
    intro n hn
    apply horder.symm.subset
    unfold chunkIndices
    simp only [sub_zero, Int.toNat_ofNat, List.mem_map, List.mem_range, zero_add]
    exact ⟨n, hn, rfl⟩
  obtain ⟨r, hr, hrn, hrd, hrl, _, hin⟩ :=
    fillCells_spec (fun _ (i : Int) => i) (fun i => (v.getAt i).map conversion)
      (fun c => c.toNat) (fun c => ((v.getAt c).map conversion).getD 0) order
      (⟨v.name, v.dimensions, List.replicate v.values.length 0, (0, 0), false⟩ : Volume U)
      (fun _ _ c hc => by
        obtain ⟨n, _, rfl⟩ := hmem c hc
        simp)
      (fun c hc => by
        obtain ⟨n, hn, rfl⟩ := hmem c hc
        simpa using hn)
      (fun c hc => by
        obtain ⟨n, hn, rfl⟩ := hmem c hc
        obtain ⟨a, ha⟩ := v.getAt_isSome n hn
        beta_reduce
        rw [ha]
        rfl)
  have hrc := fillCells_cache _ _ _ _ _ hr
  have hthreaded : v.mapThreaded conversion order = some r := by
    unfold Volume.mapThreaded
    rw [Volume.ofDimensions_of_product _ _ _ hsized.symm, Option.some_bind]
    exact hr
  have hgc : g.domain = (0, 0) ∧ g.domainValid = false := by
    have hg2 := hg
    unfold Volume.map at hg2
    rw [Volume.ofDimensions_of_product _ _ _ hsized.symm, Option.some_bind] at hg2
    unfold fillVoxels at hg2
    exact fillCells_cache _ _ _ _ _ hg2
  have heq : r = g := by
    apply Volume.ext_of_getAt
    · rw [hrn, hgn]
    · rw [hrd, hgd]
    · rw [hrc.1, hgc.1]
    · rw [hrc.2, hgc.2]
    · rw [hrl, hgl]; simp
    · intro n hn
      have hn2 : n < v.values.length := by
        rw [hrl] at hn
        simpa using hn
      obtain ⟨c, hc, hcn, hval⟩ := hin n ⟨(n : Int), hcover n hn2, by simp⟩
      obtain ⟨m, _, rfl⟩ := hmem c hc
      have hmn : m = n := by simpa using hcn
      subst hmn
      obtain ⟨a, ha⟩ := v.getAt_isSome m hn2
      rw [Volume.getAt_natCast, hval, hget m hn2, ha]
      rfl
  refine ⟨by rw [hthreaded, heq, hg], g, hg, ?_⟩
  apply List.ext_getElem?
  intro n
  by_cases hn : n < v.values.length
  · have h1 := hget n hn
    rw [Volume.getAt_natCast, Volume.getAt_natCast] at h1
    rw [h1, List.getElem?_map]
  · rw [List.getElem?_eq_none (by omega), List.getElem?_eq_none (by simp; omega)]

theorem chunkIndices_nodup (a b : Int) : (chunkIndices (a, b)).Nodup := by
  unfold chunkIndices
  refine List.Nodup.map ?_ (List.nodup_range _)
  intro x y h
  simp only at h
  omega

theorem mem_chunkIndices (a b i : Int) : i ∈ chunkIndices (a, b) ↔ a ≤ i ∧ i < b := by
  unfold chunkIndices
  simp only [List.mem_map, List.mem_range]
  constructor
  · rintro ⟨k, hk, rfl⟩
    omega
  · rintro ⟨h1, h2⟩
    refine ⟨(i - a).toNat, by omega, by omega⟩

/-- C25. For `T ≥ 1` threads and `begin ≤ end` (both `int32_t`, their difference too),
`compute_multi_threaded( begin, end, f )` starts `f` on exactly `T` chunks: with
`step = ⌊(end - begin) / T⌋`, chunk `k < T - 1` is `[begin + k·step, begin + (k+1)·step)` and
the last chunk is `[begin + (T-1)·step, end)`; every chunk begins where the previous one ends,
and the indices of all chunks, in thread order, are `begin, begin + 1, …, end - 1`, each
once.  Hence `Volume::map` and `Volume::cast` carried out by the threads, in whatever order
the writes happen, return the grid of the sequential loop, whose values are the converted
values. -/
theorem C25_chunks_partition_the_index_range (threads : Nat) (begin endIndex : Int)
    (hT : 1 ≤ threads) (hle : begin ≤ endIndex) (hb : InInt32 begin) (he : InInt32 endIndex)
    (hd : endIndex - begin < 2147483648) :
    (∃ chunks, computeMultiThreaded threads begin endIndex = some chunks ∧
      chunks.length = threads ∧
      (∀ k : Nat, k < threads → chunks[k]? =
        some (begin + (k : Int) * ((endIndex - begin) / (threads : Int)),
          if k = threads - 1 then endIndex
          else begin + ((k : Int) + 1) * ((endIndex - begin) / (threads : Int)))) ∧
      (∀ k : Nat, k < threads →
        begin + (k : Int) * ((endIndex - begin) / (threads : Int)) ≤
          (if k = threads - 1 then endIndex
            else begin + ((k : Int) + 1) * ((endIndex - begin) / (threads : Int)))) ∧
      chunks.flatMap chunkIndices = chunkIndices (begin, endIndex) ∧
      (chunks.flatMap chunkIndices).Nodup ∧
      ∀ i : Int, i ∈ chunks.flatMap chunkIndices ↔ begin ≤ i ∧ i < endIndex) ∧
    ∀ (T U : Type) [Zero U] (v : Volume T) (conversion : T → U) (order : List Int),
      v.Sized → v.values.length < 2147483648 → IsThreadOrder threads 0 v.voxelCount order →
      v.mapThreaded conversion order = v.map conversion ∧
      v.mapThreaded conversion order = v.cast conversion ∧
      ∃ g, v.map conversion = some g ∧ g.values = v.values.map conversion := by
  constructor
  · obtain ⟨chunks, hc, hS0, hfit, hlen, hget, hflat⟩ :=
      computeMultiThreaded_spec threads begin endIndex hT hle hb he hd
    refine ⟨chunks, hc, hlen, hget, ?_, hflat, ?_, ?_⟩
    · intro k hk
      generalize (endIndex - begin) / (threads : Int) = S at hS0 hfit
      have hkS : (k : Int) * S ≤ (threads : Int) * S :=
        mul_le_mul_of_nonneg_right (by exact_mod_cast (le_of_lt hk)) hS0
      split_ifs with hlast
      · linarith
      · have e : ((k : Int) + 1) * S = (k : Int) * S + S := by ring
        rw [e]
        linarith
    · rw [hflat]
      exact chunkIndices_nodup _ _
    · intro i
      rw [hflat]
      exact mem_chunkIndices _ _ _
  · intro T U _ v conversion order hsized hfit ⟨chunks, hc, hperm⟩
    have hcount : v.voxelCount = (v.values.length : Int) := wrapInt32_natCast _ hfit
    rw [hcount] at hc
    obtain ⟨chunks2, hc2, _, _, _, _, hflat⟩ :=
      computeMultiThreaded_spec threads 0 (v.values.length : Int) hT (Int.ofNat_nonneg _)
        (by decide) (by unfold InInt32; omega) (by omega)
    rw [hc] at hc2
    have hcc := Option.some.inj hc2
    subst hcc
    rw [hflat] at hperm
    obtain ⟨h1, h2⟩ := Volume.mapThreaded_eq_map v hsized hfit conversion order hperm
    exact ⟨h1, by rw [h1, Volume.cast_eq_map], h2⟩

theorem C25_chunks_partition_the_index_range_witness :
    (1 ≤ 3 ∧ (0 : Int) ≤ 8 ∧ InInt32 0 ∧ InInt32 8 ∧ (8 : Int) - 0 < 2147483648) ∧
    ((∃ chunks, computeMultiThreaded 3 0 8 = some chunks ∧
      chunks.length = 3 ∧
      (∀ k : Nat, k < 3 → chunks[k]? =
        some (0 + (k : Int) * (((8 : Int) - 0) / ((3 : Nat) : Int)),
          if k = 3 - 1 then 8
          else 0 + ((k : Int) + 1) * (((8 : Int) - 0) / ((3 : Nat) : Int)))) ∧
      (∀ k : Nat, k < 3 →
        0 + (k : Int) * (((8 : Int) - 0) / ((3 : Nat) : Int)) ≤
          (if k = 3 - 1 then 8
            else 0 + ((k : Int) + 1) * (((8 : Int) - 0) / ((3 : Nat) : Int)))) ∧
      chunks.flatMap chunkIndices = chunkIndices (0, 8) ∧
      (chunks.flatMap chunkIndices).Nodup ∧
      ∀ i : Int, i ∈ chunks.flatMap chunkIndices ↔ 0 ≤ i ∧ i < 8) ∧
    ∀ (T U : Type) [Zero U] (v : Volume T) (conversion : T → U) (order : List Int),
      v.Sized → v.values.length < 2147483648 → IsThreadOrder 3 0 v.voxelCount order →
      v.mapThreaded conversion order = v.map conversion ∧
      v.mapThreaded conversion order = v.cast conversion ∧
      ∃ g, v.map conversion = some g ∧ g.values = v.values.map conversion) :=
  ⟨⟨by decide, by decide, by decide, by decide, by decide⟩,
    C25_chunks_partition_the_index_range 3 0 8 (by decide) (by decide) (by decide)
      (by decide) (by decide)⟩

end Reghievis

/-! ## Numerator and denominator of the field similarity -/

namespace Reghievis

theorem field_term_eq (x totalMin totalMax : ℚ) (hR : totalMax - totalMin ≠ 0) :
    XFloat.sub (XFloat.fin 1)
        (XFloat.div (XFloat.fin (x - totalMin)) (XFloat.fin (totalMax - totalMin))) =
      XFloat.fin ((totalMax - x) / (totalMax - totalMin)) := by
  simp only [XFloat.div, if_neg hR, XFloat.sub, XFloat.neg, XFloat.add]
  congr 1
  field_simp

theorem stdMinmax_cases (a b : ℚ) :
    (stdMinmax a b).1 = min a b ∧ (stdMinmax a b).2 = max a b := by
  unfold stdMinmax
  by_cases h : b < a
  · rw [if_pos h]
    exact ⟨(min_eq_right (le_of_lt h)).symm, (max_eq_left (le_of_lt h)).symm⟩
  · rw [if_neg h]
    exact ⟨(min_eq_left (not_lt.mp h)).symm, (max_eq_right (not_lt.mp h)).symm⟩

/-- The accumulation over a list of voxels at which both runs lie between `totalMin` and
`totalMax`: both sums grow, the numerator by at most as much as the denominator, and the
denominator stays the same exactly when both runs are `totalMax` at every voxel. -/
theorem accumulateField_spec (first second : Volume ℚ) (totalMin totalMax : ℚ)
    (hR : 0 < totalMax - totalMin) (voxels : List Nat) :
    ∀ (n d : ℚ),
      (∀ k ∈ voxels, ∃ a b, first.getAt (k : Int) = some a ∧ second.getAt (k : Int) = some b ∧
        totalMin ≤ a ∧ a ≤ totalMax ∧ totalMin ≤ b ∧ b ≤ totalMax) →
      ∃ n2 d2 : ℚ,
        accumulateField first second totalMin (totalMax - totalMin) voxels
          (XFloat.fin n, XFloat.fin d) = some (XFloat.fin n2, XFloat.fin d2) ∧
        n ≤ n2 ∧ d ≤ d2 ∧ n2 - n ≤ d2 - d ∧
        (d2 = d ↔ ∀ k ∈ voxels, first.getAt (k : Int) = some totalMax ∧
          second.getAt (k : Int) = some totalMax) := by
  induction voxels with
  | nil =>
    intro n d _
    exact ⟨n, d, rfl, le_refl _, le_refl _, by simp,
      ⟨fun _ k hk => absurd hk (List.not_mem_nil k), fun _ => rfl⟩⟩
  | cons k ks ih =>
    intro n d hv
    obtain ⟨a, b, ha, hb, ha0, ha1, hb0, hb1⟩ := hv k (List.mem_cons_self _ _)
    obtain ⟨hmin, hmax⟩ := stdMinmax_cases a b
    have hne : totalMax - totalMin ≠ 0 := ne_of_gt hR
    have tn : 0 ≤ (totalMax - max a b) / (totalMax - totalMin) :=
      div_nonneg (sub_nonneg.mpr (max_le ha1 hb1)) (le_of_lt hR)
    have tle : (totalMax - max a b) / (totalMax - totalMin) ≤
        (totalMax - min a b) / (totalMax - totalMin) :=
      div_le_div_of_nonneg_right (by linarith [min_le_max (a := a) (b := b)]) (le_of_lt hR)
    have tzero : (totalMax - min a b) / (totalMax - totalMin) = 0 ↔
        a = totalMax ∧ b = totalMax := by
      rw [div_eq_zero_iff]
      constructor
      · rintro (h | h)
        · have hm : min a b = totalMax := by linarith
          have h1 : totalMax ≤ a := hm ▸ min_le_left a b
          have h2 : totalMax ≤ b := hm ▸ min_le_right a b
          exact ⟨le_antisymm ha1 h1, le_antisymm hb1 h2⟩
        · exact absurd h hne
      · rintro ⟨rfl, rfl⟩
        left
        simp
    obtain ⟨n2, d2, hacc, hn, hd, hdiff, hiff⟩ :=
      ih (n + (totalMax - max a b) / (totalMax - totalMin))
        (d + (totalMax - min a b) / (totalMax - totalMin))
        (fun x hx => hv x (List.mem_cons_of_mem _ hx))
    refine ⟨n2, d2, ?_, by linarith, by linarith, by linarith, ?_⟩
    · rw [accumulateField, ha, hb]
      simp only [hmin, hmax, field_term_eq _ _ _ hne, XFloat.add]
      exact hacc
    · constructor
      · intro h
        have hz : (totalMax - min a b) / (totalMax - totalMin) = 0 := by
          have := div_nonneg (sub_nonneg.mpr (le_trans (min_le_left a b) ha1)) (le_of_lt hR)
          linarith
        have hrest := hiff.mp (by linarith)
        obtain ⟨rfl, rfl⟩ := tzero.mp hz
        intro x hx
        rcases List.mem_cons.mp hx with rfl | hx
        · exact ⟨ha, hb⟩
        · exact hrest x hx
      · intro h
        obtain ⟨h1, h2⟩ := h k (List.mem_cons_self _ _)
        rw [ha] at h1
        rw [hb] at h2
        have e1 := Option.some.inj h1
        have e2 := Option.some.inj h2
        have hz := tzero.mpr ⟨e1, e2⟩
        have hrest := hiff.mpr (fun x hx => h x (List.mem_cons_of_mem _ hx))
        linarith

theorem Volume.getAt_mem {T : Type} (v : Volume T) (k : Nat) (a : T)
    (h : v.getAt (k : Int) = some a) : a ∈ v.values := by
  rw [Volume.getAt_natCast] at h
  exact List.getElem?_mem h

theorem Volume.exists_getAt_of_mem {T : Type} (v : Volume T) (a : T) (h : a ∈ v.values) :
    ∃ k : Nat, k < v.values.length ∧ v.getAt (k : Int) = some a := by
  obtain ⟨k, hk, hka⟩ := List.getElem_of_mem h
  exact ⟨k, hk, by rw [Volume.getAt_natCast, List.getElem?_eq_getElem hk, hka]⟩

/-- C29 fails on the masked computation: for two runs with the values `0, 1` (combined range
`1`) and the mask `0, 1`, the one voxel of the mask is accumulated, numerator and denominator
are both `0`, and the branch "denominator is zero" gives the similarity `1.0`. -/
theorem C29_masked_denominator_counterexample :
    maskVoxels exampleMask = [1] ∧
    exampleRamp.getDomain =
      some (((0 : ℚ), (1 : ℚ)), { exampleRamp with domain := (0, 1), domainValid := true }) ∧
    accumulateField exampleRamp exampleRamp 0 (1 - 0) (maskVoxels exampleMask)
      (XFloat.fin 0, XFloat.fin 0) = some (XFloat.fin 0, XFloat.fin 0) ∧
    fieldSimilarity exampleRamp exampleRamp (maskVoxels exampleMask) = some (XFloat.fin 1) := by
  have hm : maskVoxels exampleMask = [1] := by
    simp [maskVoxels, exampleMask, Volume.voxelCount, wrapInt32, Volume.getAt, List.range_succ,
      List.filter, XFloat.toBool]
  have hd : exampleRamp.getDomain =
      some (((0 : ℚ), (1 : ℚ)), { exampleRamp with domain := (0, 1), domainValid := true }) := by
    simp [Volume.getDomain, exampleRamp, Volume.minmaxElement]
  have ha : accumulateField exampleRamp exampleRamp 0 (1 - 0) [1]
      (XFloat.fin 0, XFloat.fin 0) = some (XFloat.fin 0, XFloat.fin 0) := by
    simp [accumulateField, exampleRamp, Volume.getAt, stdMinmax, XFloat.sub, XFloat.div,
      XFloat.add, XFloat.neg]
  refine ⟨hm, hd, by rw [hm]; exact ha, ?_⟩
  rw [hm]
  unfold fieldSimilarity
  rw [hd]
  simp only [lt_self_iff_false, if_false]
  rw [ha]
  simp [XFloat.toBool]

/-- C29, amended. Let `domain()` return the minimum and maximum of each of two runs, let the
combined range `totalRange = totalMax - totalMin` be nonzero, and let the accumulated voxels
lie inside both runs.  Then numerator and denominator are finite with
`0 ≤ numerator ≤ denominator`, the denominator is zero exactly when both runs have the value
`totalMax` at every accumulated voxel (in particular for no voxel), the similarity is `1.0`
in that case and `numerator / denominator` otherwise, and when all voxels of two runs of the
same size are accumulated (the unmasked computation) the denominator is positive. -/
theorem C29_field_similarity_numerator_and_denominator (first second : Volume ℚ)
    (firstDomain secondDomain : ℚ × ℚ) (firstCached secondCached : Volume ℚ)
    (totalMin totalMax : ℚ) (voxels : List Nat)
    (h1 : first.getDomain = some (firstDomain, firstCached))
    (hr1 : IsRangeOf first.values firstDomain)
    (h2 : second.getDomain = some (secondDomain, secondCached))
    (hr2 : IsRangeOf second.values secondDomain)
    (hmin : totalMin =
      if secondDomain.1 < firstDomain.1 then secondDomain.1 else firstDomain.1)
    (hmax : totalMax =
      if firstDomain.2 < secondDomain.2 then secondDomain.2 else firstDomain.2)
    (hrange : totalMax - totalMin ≠ 0)
    (hvox : ∀ k ∈ voxels, k < first.values.length ∧ k < second.values.length) :
    ∃ numerator denominator : ℚ,
      accumulateField first second totalMin (totalMax - totalMin) voxels
        (XFloat.fin 0, XFloat.fin 0) = some (XFloat.fin numerator, XFloat.fin denominator) ∧
      0 ≤ numerator ∧ numerator ≤ denominator ∧
      (denominator = 0 ↔ ∀ k ∈ voxels, first.getAt (k : Int) = some totalMax ∧
        second.getAt (k : Int) = some totalMax) ∧
      fieldSimilarity first second voxels =
        some (if denominator = 0 then XFloat.fin 1
          else XFloat.fin (numerator / denominator)) ∧
      (first.values.length = second.values.length →
        voxels = List.range first.values.length → 0 < denominator) := by
  have hmin1 : totalMin ≤ firstDomain.1 := by
    rw [hmin]
    split_ifs with h
    · exact le_of_lt h
    · exact le_refl _
  have hmin2 : totalMin ≤ secondDomain.1 := by
    rw [hmin]
    split_ifs with h
    · exact le_refl _
    · exact not_lt.mp h
  have hmax1 : firstDomain.2 ≤ totalMax := by
    rw [hmax]
    split_ifs with h
    · exact le_of_lt h
    · exact le_refl _
  have hmax2 : secondDomain.2 ≤ totalMax := by
    rw [hmax]
    split_ifs with h
    · exact le_refl _
    · exact not_lt.mp h
  have hle : totalMin ≤ totalMax :=
    le_trans hmin1 (le_trans (hr1.2.2 _ hr1.1).2 hmax1)
  have hR : 0 < totalMax - totalMin := by
    rcases lt_or_eq_of_le hle with h | h
    · linarith
    · exact absurd (by rw [h]; ring) hrange
  have hcells : ∀ k ∈ voxels, ∃ a b, first.getAt (k : Int) = some a ∧
      second.getAt (k : Int) = some b ∧
      totalMin ≤ a ∧ a ≤ totalMax ∧ totalMin ≤ b ∧ b ≤ totalMax := by
    intro k hk
    obtain ⟨a, ha⟩ := first.getAt_isSome k (hvox k hk).1
    obtain ⟨b, hb⟩ := second.getAt_isSome k (hvox k hk).2
    have hab := hr1.2.2 a (Volume.getAt_mem first k a ha)
    have hbb := hr2.2.2 b (Volume.getAt_mem second k b hb)
    exact ⟨a, b, ha, hb, le_trans hmin1 hab.1, le_trans hab.2 hmax1,
      le_trans hmin2 hbb.1, le_trans hbb.2 hmax2⟩
  obtain ⟨n, d, hacc, hn, hd, hdiff, hiff⟩ :=
    accumulateField_spec first second totalMin totalMax hR voxels 0 0 hcells
  refine ⟨n, d, hacc, hn, by linarith, hiff, ?_, ?_⟩
  · unfold fieldSimilarity
    rw [h1, h2]
    simp only
    rw [← hmin, ← hmax, hacc]
    simp only [XFloat.toBool]
    by_cases hd0 : d = 0
    · simp [hd0]
    · simp [hd0, XFloat.div]
  · intro hlen hall
    rcases lt_or_eq_of_le hd with h | h
    · exact h
    · exfalso
      have hall2 := hiff.mp h.symm
      have hfirst : firstDomain.1 = totalMax := by
        obtain ⟨k, hk, hka⟩ := Volume.exists_getAt_of_mem first _ hr1.1
        have := (hall2 k (by rw [hall]; exact List.mem_range.mpr hk)).1
        rw [hka] at this
        exact Option.some.inj this
      have hsecond : secondDomain.1 = totalMax := by
        obtain ⟨k, hk, hka⟩ := Volume.exists_getAt_of_mem second _ hr2.1
        have := (hall2 k (by rw [hall, hlen]; exact List.mem_range.mpr hk)).2
        rw [hka] at this
        exact Option.some.inj this
      apply hrange
      rw [hmin, hfirst, hsecond]
      simp

theorem exampleRamp_getDomain :
    exampleRamp.getDomain =
      some (((0 : ℚ), (1 : ℚ)), { exampleRamp with domain := (0, 1), domainValid := true }) := by
  simp [Volume.getDomain, exampleRamp, Volume.minmaxElement]

theorem exampleRamp_range : IsRangeOf exampleRamp.values ((0 : ℚ), (1 : ℚ)) := by
  simp [IsRangeOf, exampleRamp]

theorem C29_field_similarity_numerator_and_denominator_witness :
    (exampleRamp.getDomain =
        some (((0 : ℚ), (1 : ℚ)),
          { exampleRamp with domain := (0, 1), domainValid := true }) ∧
      IsRangeOf exampleRamp.values ((0 : ℚ), (1 : ℚ)) ∧
      (0 : ℚ) = (if ((0 : ℚ), (1 : ℚ)).1 < ((0 : ℚ), (1 : ℚ)).1 then ((0 : ℚ), (1 : ℚ)).1
        else ((0 : ℚ), (1 : ℚ)).1) ∧
      (1 : ℚ) = (if ((0 : ℚ), (1 : ℚ)).2 < ((0 : ℚ), (1 : ℚ)).2 then ((0 : ℚ), (1 : ℚ)).2
        else ((0 : ℚ), (1 : ℚ)).2) ∧
      (1 : ℚ) - 0 ≠ 0 ∧
      ∀ k ∈ ([0, 1] : List Nat),
        k < exampleRamp.values.length ∧ k < exampleRamp.values.length) ∧
    ∃ numerator denominator : ℚ,
      accumulateField exampleRamp exampleRamp 0 (1 - 0) [0, 1]
        (XFloat.fin 0, XFloat.fin 0) = some (XFloat.fin numerator, XFloat.fin denominator) ∧
      0 ≤ numerator ∧ numerator ≤ denominator ∧
      (denominator = 0 ↔ ∀ k ∈ ([0, 1] : List Nat), exampleRamp.getAt (k : Int) = some 1 ∧
        exampleRamp.getAt (k : Int) = some 1) ∧
      fieldSimilarity exampleRamp exampleRamp [0, 1] =
        some (if denominator = 0 then XFloat.fin 1
          else XFloat.fin (numerator / denominator)) ∧
      (exampleRamp.values.length = exampleRamp.values.length →
        [0, 1] = List.range exampleRamp.values.length → 0 < denominator) :=
  ⟨⟨exampleRamp_getDomain, exampleRamp_range, by simp, by simp, by norm_num,
      by simp [exampleRamp]⟩,
    C29_field_similarity_numerator_and_denominator exampleRamp exampleRamp (0, 1) (0, 1)
      { exampleRamp with domain := (0, 1), domainValid := true }
      { exampleRamp with domain := (0, 1), domainValid := true } 0 1 [0, 1]
      exampleRamp_getDomain exampleRamp_range exampleRamp_getDomain exampleRamp_range
      (by simp) (by simp) (by norm_num) (by simp [exampleRamp])⟩

end Reghievis

/-! ## The masked dendrogram with a full mask -/

namespace Reghievis

theorem Volume.setAt_withName {T : Type} (m : Volume T) (name : List Nat) (index : Int)
    (value : T) :
    ({ m with name := name } : Volume T).setAt index value =
      (m.setAt index value).map (fun r => { r with name := name }) := by
  unfold Volume.setAt
  simp only
  split_ifs <;> rfl

theorem setSymmetric_withName (m : Volume XFloat) (name : List Nat) (i j : Nat)
    (value : XFloat) :
    setSymmetric { m with name := name } i j value =
      (setSymmetric m i j value).map (fun r => { r with name := name }) := by
  unfold setSymmetric
  have hv : ∀ c, ({ m with name := name } : Volume XFloat).voxelToIndex c = m.voxelToIndex c :=
    fun _ => rfl
  rw [hv, Volume.setAt_withName]
  cases m.setAt (m.voxelToIndex ⟨(j : Int), (i : Int), 0⟩) value with
  | none => rfl
  | some m1 =>
    simp only [Option.map_some']
    have hv1 : ∀ c, ({ m1 with name := name } : Volume XFloat).voxelToIndex c =
        m1.voxelToIndex c := fun _ => rfl
    rw [hv1, Volume.setAt_withName]

theorem fillRow_withName (pair : Nat → Nat → Option XFloat) (name : List Nat) (i : Nat)
    (js : List Nat) : ∀ m : Volume XFloat,
      fillRow pair i js { m with name := name } =
        (fillRow pair i js m).map (fun r => { r with name := name }) := by
  induction js with
  | nil => intro m; rfl
  | cons j js ih =>
    intro m
    simp only [fillRow]
    cases pair i j with
    | none => rfl
    | some value =>
      simp only
      rw [setSymmetric_withName]
      cases setSymmetric m i j value with
      | none => rfl
      | some m1 =>
        simp only [Option.map_some']
        exact ih m1

theorem fillRows_withName (pair : Nat → Nat → Option XFloat) (name : List Nat) (N : Nat)
    (is : List Nat) : ∀ m : Volume XFloat,
      fillRows pair N is { m with name := name } =
        (fillRows pair N is m).map (fun r => { r with name := name }) := by
  induction is with
  | nil => intro m; rfl
  | cons i is ih =>
    intro m
    simp only [fillRows]
    rw [fillRow_withName]
    cases fillRow pair i (List.range' (i + 1) (N - (i + 1))) m with
    | none => rfl
    | some m1 =>
      simp only [Option.map_some']
      exact ih m1

/-- The matrix the routines build depends on the name only in its name. -/
theorem similarityMatrix_withName (name other : List Nat) (N : Nat)
    (pair : Nat → Nat → Option XFloat) :
    similarityMatrix name N pair =
      (similarityMatrix other N pair).map (fun r => { r with name := name }) := by
  have h : (Volume.ofDimensions ⟨(N : Int), (N : Int), 1⟩ name : Option (Volume XFloat)) =
      (Volume.ofDimensions ⟨(N : Int), (N : Int), 1⟩ other : Option (Volume XFloat)).map
        (fun r => { r with name := name }) := by
    unfold Volume.ofDimensions
    generalize (⟨(N : Int), (N : Int), 1⟩ : Vec3i).product = p
    by_cases hp : 0 ≤ p
    · rw [if_pos hp, if_pos hp, Option.map_some']
    · rw [if_neg hp, if_neg hp, Option.map_none']
  unfold similarityMatrix
  rw [h]
  cases (Volume.ofDimensions ⟨(N : Int), (N : Int), 1⟩ other : Option (Volume XFloat)) with
  | none => rfl
  | some zeroed =>
    rw [Option.map_some', Option.some_bind, Option.some_bind]
    exact fillRows_withName pair name N (List.range N)
      { zeroed with values := zeroed.values.map (fun _ => XFloat.fin 1) }

theorem maskVoxels_full (mask : Volume XFloat) (hfit : mask.values.length < 2147483648)
    (hfull : ∀ x ∈ mask.values, x.toBool = true) :
    maskVoxels mask = List.range mask.values.length := by
  unfold maskVoxels Volume.voxelCount
  rw [wrapInt32_natCast _ hfit, Int.toNat_ofNat]
  apply List.filter_eq_self.mpr
  intro i hi
  obtain ⟨x, hx⟩ := mask.getAt_isSome i (List.mem_range.mp hi)
  rw [hx]
  exact hfull x (Volume.getAt_mem mask i x hx)

theorem mapFind_mapAssign {K V : Type} [DecidableEq K] (rank : K → Int)
    (hinj : ∀ a b, rank a = rank b → a = b) (m : List (K × V)) (key : K) (value : V) :
    mapFind (mapAssign rank m key value) key = some value := by
  induction m with
  | nil => simp [mapAssign, mapFind]
  | cons head rest ih =>
    obtain ⟨k, v⟩ := head
    simp only [mapAssign]
    split_ifs with h1 h2
    · simp [mapFind]
    · have hk : k = key := (hinj _ _ h2).symm
      simp [mapFind, hk]
    · have hk : k ≠ key := fun h => h2 (by rw [h])
      simp [mapFind, hk, ih]

theorem Similarity.toInt_injective_similarity (a b : Similarity) (h : a.toInt = b.toInt) :
    a = b := by
  cases a <;> cases b <;> simp [Similarity.toInt] at h ⊢

/-- With a mask that holds a nonzero value at each of the `V` voxels, the local matrix of the
masked routine is the matrix over all voxels under the name "Similarity". -/
theorem maskedSimilarityMatrix_full (sqrt : ℚ → ℚ) (runs : List (Volume ℚ))
    (mask : Volume XFloat) (V : Nat) (hV : V < 2147483648) (hne : runs ≠ [])
    (hlen : ∀ r ∈ runs, r.values.length = V) (hmask : mask.values.length = V)
    (hfull : ∀ x ∈ mask.values, x.toBool = true) (similarity : Similarity) :
    maskedSimilarityMatrix sqrt runs (maskVoxels mask) similarity =
      (fullSimilarityMatrix sqrt runs similarity).map
        (fun r => { r with name := [83, 105, 109, 105, 108, 97, 114, 105, 116, 121] }) := by
  have hvox : maskVoxels mask = List.range V := by
    rw [maskVoxels_full mask (by rw [hmask]; exact hV) hfull, hmask]
  have hcount := fieldVoxelCount_eq runs V hV hne hlen
  rw [hvox]
  cases similarity with
  | eField =>
    unfold maskedSimilarityMatrix fullSimilarityMatrix computeFieldSimilarityMatrix
    rw [hcount, Int.toNat_ofNat]
    exact similarityMatrix_withName _ _ _ _
  | ePearson =>
    unfold maskedSimilarityMatrix fullSimilarityMatrix computePearsonSimilarityMatrix
    rw [hcount]
    simp only [Int.toNat_ofNat, List.length_range]
    cases pearsonMeans (List.range V) (V : Int) runs with
    | none => rfl
    | some means =>
      simp only
      cases pearsonStddevs sqrt (List.range V) runs means with
      | none => rfl
      | some stddevs =>
        simp only
        exact similarityMatrix_withName _ _ _ _

end Reghievis

/-! ## Merge similarities decrease towards the root -/

namespace Reghievis

theorem mergeStep_some_max (sim : Int → Int → Float32) (nodes merged : List HCNode)
    (h : mergeStep sim nodes = some merged) :
    ∃ i j, i < j ∧ j < nodes.length ∧
      (∀ p q, p < q → q < nodes.length →
        pairSimilarity sim nodes p q ≤ pairSimilarity sim nodes i j) ∧
      merged = (nodes.eraseIdx j).eraseIdx i ++
        [HCNode.mkNode (nodes.getD i HCNode.empty) (nodes.getD j HCNode.empty)
          (pairSimilarity sim nodes i j)] := by
  rcases findClosest_spec sim nodes with ⟨hinit, _⟩ | ⟨i, j, hij, hj, hc, _, hmax, _⟩
  · rw [mergeStep_of_init sim nodes hinit] at h
    cases h
  · rw [mergeStep_of_closest sim nodes i j _ hij hj hc] at h
    exact ⟨i, j, hij, hj, hmax, (Option.some.inj h).symm⟩

theorem activeInv_values_nodup {count : Nat} {nodes : List HCNode}
    (h : ActiveInv count nodes) : (nodes.flatMap HCNode.values).Nodup := by
  rw [h.perm.nodup_iff]
  refine List.Nodup.map ?_ (List.nodup_range count)
  intro a b hab
  exact Int.ofNat.inj hab

theorem activeInv_nodup {count : Nat} {nodes : List HCNode} (h : ActiveInv count nodes) :
    nodes.Nodup := by
  have hv := activeInv_values_nodup h
  rw [List.nodup_flatMap] at hv
  refine List.Pairwise.imp_of_mem ?_ hv.2
  intro a b ha _ hdis hab
  subst hab
  obtain ⟨x, hx⟩ := List.exists_mem_of_ne_nil _ (h.built a ha).values_ne_nil
  exact hdis hx hx

theorem HCNode.mergeOrdered_leaf (v : Int) : (HCNode.leaf v).MergeOrdered := by
  intro l r s vc w h hmem
  simp [HCNode.subtrees] at hmem

theorem HCNode.mergeOrdered_mkNode (a b : HCNode) (s : Float32) (ha : a.MergeOrdered)
    (hb : b.MergeOrdered) (hsa : s ≤ a.similarity) (hsb : s ≤ b.similarity) :
    (HCNode.mkNode a b s).MergeOrdered := by
  intro l r s2 vc w h hmem
  rcases HCNode.mkNode_cases a b s with ⟨_, heq⟩ | ⟨_, heq⟩
  · rw [heq] at hmem
    simp only [HCNode.subtrees, List.mem_cons, List.mem_append] at hmem
    rcases hmem with hself | hmem | hmem
    · simp only [HCNode.node.injEq] at hself
      obtain ⟨rfl, rfl, rfl, _⟩ := hself
      exact ⟨hsb, hsa⟩
    · exact hb l r s2 vc w h hmem
    · exact ha l r s2 vc w h hmem
  · rw [heq] at hmem
    simp only [HCNode.subtrees, List.mem_cons, List.mem_append] at hmem
    rcases hmem with hself | hmem | hmem
    · simp only [HCNode.node.injEq] at hself
      obtain ⟨rfl, rfl, rfl, _⟩ := hself
      exact ⟨hsa, hsb⟩
    · exact ha l r s2 vc w h hmem
    · exact hb l r s2 vc w h hmem

/-- One loop iteration keeps the order of the merge similarities and the bound on the active
nodes. -/
theorem mergeStep_mergeOrdered (sim : Int → Int → Float32) (hsym : ∀ a b, sim a b = sim b a)
    (count : Nat) (nodes merged : List HCNode) (hinv : ActiveInv count nodes)
    (hord : ∀ t ∈ nodes, t.MergeOrdered) (hbound : ActiveBound sim nodes)
    (h : mergeStep sim nodes = some merged) :
    (∀ t ∈ merged, t.MergeOrdered) ∧ ActiveBound sim merged := by
  obtain ⟨i, j, hij, hj, hmax, rfl⟩ := mergeStep_some_max sim nodes merged h
  have hi : i < nodes.length := by omega
  have hperm := perm_two_eraseIdx HCNode.empty nodes i j hij hj
  have hnd := (hperm.nodup_iff).mp (activeInv_nodup hinv)
  have hmA := getD_mem HCNode.empty nodes i hi
  have hmB := getD_mem HCNode.empty nodes j hj
  generalize hA : nodes.getD i HCNode.empty = A at hperm hnd hmA
  generalize hB : nodes.getD j HCNode.empty = B at hperm hnd hmB
  generalize hrest : (nodes.eraseIdx j).eraseIdx i = rest at hperm hnd
  have hs : pairSimilarity sim nodes i j = computeSimilarity sim A B := by
    unfold pairSimilarity
    rw [hA, hB]
  rw [hs]
  have hAB : A ≠ B := by
    intro hab
    rw [List.nodup_cons] at hnd
    exact hnd.1 (by rw [hab]; exact List.mem_cons_self _ _)
  have hArest : ∀ D ∈ rest, D ≠ A := by
    intro D hD hDA
    rw [List.nodup_cons] at hnd
    exact hnd.1 (by rw [← hDA]; exact List.mem_cons_of_mem _ hD)
  have hrestmem : ∀ D ∈ rest, D ∈ nodes := by
    intro D hD
    exact hperm.symm.subset (List.mem_cons_of_mem _ (List.mem_cons_of_mem _ hD))
  have hminAB := computeSimilarity_isMinOver sim A B (hinv.built A hmA).values_ne_nil
    (hinv.built B hmB).values_ne_nil
  have hkey : ∀ D ∈ nodes, ∀ E ∈ nodes, D ≠ E →
      ∃ d ∈ D.values, ∃ e ∈ E.values, sim d e ≤ computeSimilarity sim A B := by
    intro D hD E hE hne
    obtain ⟨p, hp, hpD⟩ := List.getElem_of_mem hD
    obtain ⟨q, hq, hqE⟩ := List.getElem_of_mem hE
    have hgp : nodes.getD p HCNode.empty = D := by
      rw [List.getD_eq_getElem?_getD, List.getElem?_eq_getElem hp]
      exact hpD
    have hgq : nodes.getD q HCNode.empty = E := by
      rw [List.getD_eq_getElem?_getD, List.getElem?_eq_getElem hq]
      exact hqE
    have hpq : p ≠ q := by
      intro hpq
      subst hpq
      exact hne (hpD.symm.trans hqE)
    rcases Nat.lt_or_gt_of_ne hpq with hlt | hgt
    · have hle := hmax p q hlt hq
      rw [hs] at hle
      obtain ⟨⟨d, hd, e, he, hde⟩, _⟩ :=
        pairSimilarity_isMinOver sim count nodes hinv p q hp hq
      rw [hgp] at hd
      rw [hgq] at he
      exact ⟨d, hd, e, he, by rw [hde]; exact hle⟩
    · have hle := hmax q p hgt hp
      rw [hs] at hle
      obtain ⟨⟨e, he, d, hd, hed⟩, _⟩ :=
        pairSimilarity_isMinOver sim count nodes hinv q p hq hp
      rw [hgp] at hd
      rw [hgq] at he
      exact ⟨d, hd, e, he, by rw [hsym d e, hed]; exact hle⟩
  have hsA : computeSimilarity sim A B ≤ A.similarity := by
    obtain ⟨a, ha, b, hb, hab⟩ := hbound A hmA B hmB hAB A hmA
    exact le_trans (hminAB.2 a ha b hb) hab
  have hsB : computeSimilarity sim A B ≤ B.similarity := by
    obtain ⟨a, ha, b, hb, hab⟩ := hbound A hmA B hmB hAB B hmB
    exact le_trans (hminAB.2 a ha b hb) hab
  have hCval : ∀ a ∈ A.values,
      a ∈ (HCNode.mkNode A B (computeSimilarity sim A B)).values := by
    intro a ha
    exact (HCNode.mkNode_values_perm A B _).symm.subset (List.mem_append_left _ ha)
  constructor
  · intro t ht
    rcases List.mem_append.mp ht with ht | ht
    · exact hord t (hrestmem t ht)
    · rw [List.mem_singleton] at ht
      subst ht
      exact HCNode.mergeOrdered_mkNode A B _ (hord A hmA) (hord B hmB) hsA hsB
  · intro D hD E hE hne t ht
    have hX : ∀ D2 ∈ nodes, ∀ E2 ∈ nodes, D2 ≠ E2 →
        ∃ d ∈ D2.values, ∃ e ∈ E2.values, sim d e ≤ t.similarity := by
      rcases List.mem_append.mp ht with ht | ht
      · exact fun D2 hD2 E2 hE2 hne2 => hbound D2 hD2 E2 hE2 hne2 t (hrestmem t ht)
      · rw [List.mem_singleton] at ht
        subst ht
        exact hkey
    rcases List.mem_append.mp hD with hD | hD
    · rcases List.mem_append.mp hE with hE | hE
      · exact hX D (hrestmem D hD) E (hrestmem E hE) hne
      · rw [List.mem_singleton] at hE
        subst hE
        obtain ⟨d, hd, a, ha, hda⟩ := hX D (hrestmem D hD) A hmA (hArest D hD)
        exact ⟨d, hd, a, hCval a ha, hda⟩
    · rw [List.mem_singleton] at hD
      subst hD
      rcases List.mem_append.mp hE with hE | hE
      · obtain ⟨a, ha, e, he, hae⟩ :=
          hX A hmA E (hrestmem E hE) (fun h => hArest E hE h.symm)
        exact ⟨a, hCval a ha, e, he, hae⟩
      · rw [List.mem_singleton] at hE
        exact absurd hE.symm hne

theorem mergeSteps_mergeOrdered (sim : Int → Int → Float32)
    (hsym : ∀ a b, sim a b = sim b a) (count k : Nat) (nodes out : List HCNode)
    (hinv : ActiveInv count nodes) (hord : ∀ t ∈ nodes, t.MergeOrdered)
    (hbound : ActiveBound sim nodes) (h : mergeSteps sim k nodes = some out) :
    (∀ t ∈ out, t.MergeOrdered) ∧ ActiveBound sim out := by
  induction k generalizing nodes with
  | zero =>
    simp only [mergeSteps, Option.some.injEq] at h
    subst h
    exact ⟨hord, hbound⟩
  | succ k ih =>
    simp only [mergeSteps] at h
    cases hstep : mergeStep sim nodes with
    | none => rw [hstep] at h; cases h
    | some merged =>
      rw [hstep] at h
      simp only [Option.some_bind] at h
      obtain ⟨h1, h2⟩ :=
        mergeStep_mergeOrdered sim hsym count nodes merged hinv hord hbound hstep
      exact ih merged (mergeStep_activeInv sim count nodes merged hinv hstep) h1 h2 h

theorem initialNodes_mergeOrdered (sim : Int → Int → Float32) (count : Nat)
    (h1 : ∀ a b, sim a b ≤ Float32.one) :
    (∀ t ∈ initialNodes count, t.MergeOrdered) ∧ ActiveBound sim (initialNodes count) := by
  constructor
  · intro t ht
    simp only [initialNodes, List.mem_map] at ht
    obtain ⟨i, _, rfl⟩ := ht
    exact HCNode.mergeOrdered_leaf _
  · intro D hD E hE _ t ht
    simp only [initialNodes, List.mem_map] at hD hE ht
    obtain ⟨d, _, rfl⟩ := hD
    obtain ⟨e, _, rfl⟩ := hE
    obtain ⟨x, _, rfl⟩ := ht
    exact ⟨(d : Int), List.mem_singleton_self _, (e : Int), List.mem_singleton_self _, h1 _ _⟩

theorem HCNode.MergeOrdered.of_subtrees_subset {t u : HCNode} (h : t.MergeOrdered)
    (hsub : ∀ n ∈ u.subtrees, n ∈ t.subtrees) : u.MergeOrdered :=
  fun l r s vc w hh hmem => h l r s vc w hh (hsub _ hmem)

theorem completeLinkage_of_subtrees_subset {sim : Int → Int → Float32} {t u : HCNode}
    (h : CompleteLinkage sim t) (hsub : ∀ n ∈ u.subtrees, n ∈ t.subtrees) :
    CompleteLinkage sim u :=
  fun l r s vc w hh hmem => h l r s vc w hh (hsub _ hmem)

/-- In a tree with ordered merge similarities the root holds the least similarity of all
nodes, the leaves (similarity `1.0f`) included. -/
theorem HCNode.MergeOrdered.root_le (t : HCNode) (h : t.MergeOrdered) :
    ∀ u ∈ t.subtrees, t.similarity ≤ u.similarity := by
  induction t with
  | empty =>
    intro u hu
    simp only [HCNode.subtrees, List.mem_singleton] at hu
    rw [hu]
  | leaf v =>
    intro u hu
    simp only [HCNode.subtrees, List.mem_singleton] at hu
    rw [hu]
  | node l r s vc w hh ihl ihr =>
    intro u hu
    have htop := h l r s vc w hh (HCNode.self_mem_subtrees _)
    have hl : l.MergeOrdered := h.of_subtrees_subset (fun n hn => by
      simp only [HCNode.subtrees, List.mem_cons, List.mem_append]
      exact Or.inr (Or.inl hn))
    have hr : r.MergeOrdered := h.of_subtrees_subset (fun n hn => by
      simp only [HCNode.subtrees, List.mem_cons, List.mem_append]
      exact Or.inr (Or.inr hn))
    simp only [HCNode.subtrees, List.mem_cons, List.mem_append] at hu
    rcases hu with hu | hu | hu
    · rw [hu]
    · exact le_trans htop.1 (ihl hl u hu)
    · exact le_trans htop.2 (ihr hr u hu)

/-- In a complete-linkage tree with ordered merge similarities and distinct leaves, the
similarity at the root is below the similarity of every two different leaves. -/
theorem HCNode.similarity_le_pair (sim : Int → Int → Float32)
    (hsym : ∀ a b, sim a b = sim b a) (t : HCNode) (hord : t.MergeOrdered)
    (hcl : CompleteLinkage sim t) (hnd : t.values.Nodup) :
    ∀ a ∈ t.values, ∀ b ∈ t.values, a ≠ b → t.similarity ≤ sim a b := by
  induction t with
  | empty =>
    intro a ha
    simp [HCNode.values] at ha
  | leaf v =>
    intro a ha b hb hab
    simp only [HCNode.values, List.mem_singleton] at ha hb
    exact absurd (ha.trans hb.symm) hab
  | node l r s vc w hh ihl ihr =>
    intro a ha b hb hab
    have htop := hord l r s vc w hh (HCNode.self_mem_subtrees _)
    have hmin := hcl l r s vc w hh (HCNode.self_mem_subtrees _)
    have hsubl : ∀ n ∈ l.subtrees, n ∈ (HCNode.node l r s vc w hh).subtrees := fun n hn => by
      simp only [HCNode.subtrees, List.mem_cons, List.mem_append]
      exact Or.inr (Or.inl hn)
    have hsubr : ∀ n ∈ r.subtrees, n ∈ (HCNode.node l r s vc w hh).subtrees := fun n hn => by
      simp only [HCNode.subtrees, List.mem_cons, List.mem_append]
      exact Or.inr (Or.inr hn)
    simp only [HCNode.values] at hnd ha hb
    have hndl := hnd.of_append_left
    have hndr := hnd.of_append_right
    rcases List.mem_append.mp ha with ha | ha
    · rcases List.mem_append.mp hb with hb | hb
      · exact le_trans htop.1 (ihl (hord.of_subtrees_subset hsubl)
          (completeLinkage_of_subtrees_subset hcl hsubl) hndl a ha b hb hab)
      · exact hmin.2 a ha b hb
    · rcases List.mem_append.mp hb with hb | hb
      · rw [hsym a b]
        exact hmin.2 b hb a ha
      · exact le_trans htop.2 (ihr (hord.of_subtrees_subset hsubr)
          (completeLinkage_of_subtrees_subset hcl hsubr) hndr a ha b hb hab)

/-- C27. For `N ≥ 2` and a symmetric similarity function with values in `[0, 1]`, the
clustering constructor returns a dendrogram in which the similarity of every internal node
is at most the similarity of each of its two children; the similarity of the root is at most
the similarity of every node of the tree, it is the similarity of two different runs, and it
is at most the similarity of every two different runs. -/
theorem C27_merge_similarities_decrease_towards_root (sim : Int → Int → Float32)
    (count : Nat) (hN : 2 ≤ count) (hsym : ∀ a b, sim a b = sim b a)
    (h01 : ∀ a b, Float32.zero ≤ sim a b ∧ sim a b ≤ Float32.one) :
    ∃ root, HCNode.cluster count sim = some root ∧
      (∀ l r s vc w h, HCNode.node l r s vc w h ∈ root.subtrees →
        s ≤ l.similarity ∧ s ≤ r.similarity) ∧
      (∀ t ∈ root.subtrees, root.similarity ≤ t.similarity) ∧
      (∃ a b : Nat, a < count ∧ b < count ∧ a ≠ b ∧
        sim (a : Int) (b : Int) = root.similarity) ∧
      ∀ a b : Nat, a < count → b < count → a ≠ b →
        root.similarity ≤ sim (a : Int) (b : Int) := by
  obtain ⟨root, hsteps, _, hcluster, hinv⟩ :=
    cluster_exists sim count (by omega) (unit_interval_above_lowest h01)
  obtain ⟨hio, hib⟩ := initialNodes_mergeOrdered sim count (fun a b => (h01 a b).2)
  obtain ⟨hord, _⟩ := mergeSteps_mergeOrdered sim hsym count (count - 1) _ _
    (initialNodes_activeInv count) hio hib hsteps
  have hroot : root.MergeOrdered := hord root (List.mem_singleton_self _)
  have hcl := cluster_completeLinkage sim hsym count root hcluster
  obtain ⟨_, hperm, hleaf⟩ := activeInv_singleton hinv
  have hnd : root.values.Nodup := by
    have := activeInv_values_nodup hinv
    simpa using this
  have hmemv : ∀ a : Nat, a < count → (a : Int) ∈ root.values := by
    intro a ha
    apply hperm.symm.subset
    exact List.mem_map.mpr ⟨a, List.mem_range.mpr ha, rfl⟩
  have hvmem : ∀ x ∈ root.values, ∃ a : Nat, a < count ∧ x = (a : Int) := by
    intro x hx
    obtain ⟨a, ha, rfl⟩ := List.mem_map.mp (hperm.subset hx)
    exact ⟨a, List.mem_range.mp ha, rfl⟩
  refine ⟨root, hcluster, hroot, hroot.root_le root, ?_, ?_⟩
  · cases root with
    | empty => simp [HCNode.leafCount] at hleaf; omega
    | leaf v => simp [HCNode.leafCount] at hleaf; omega
    | node l r s vc w h =>
      obtain ⟨⟨x, hx, y, hy, hxy⟩, _⟩ := hcl l r s vc w h (HCNode.self_mem_subtrees _)
      simp only [HCNode.values] at hnd hvmem
      obtain ⟨a, ha, rfl⟩ := hvmem x (List.mem_append_left _ hx)
      obtain ⟨b, hb, rfl⟩ := hvmem y (List.mem_append_right _ hy)
      refine ⟨a, b, ha, hb, ?_, hxy⟩
      intro hab
      subst hab
      exact List.disjoint_of_nodup_append hnd hx hy
  · intro a b ha hb hab
    exact HCNode.similarity_le_pair sim hsym root hroot hcl hnd _ (hmemv a ha) _ (hmemv b hb)
      (fun h => hab (Int.ofNat.inj h))

theorem C27_merge_similarities_decrease_towards_root_witness :
    (2 ≤ 3 ∧ (∀ a b, exampleSimilarity a b = exampleSimilarity b a) ∧
      ∀ a b, Float32.zero ≤ exampleSimilarity a b ∧ exampleSimilarity a b ≤ Float32.one) ∧
    ∃ root, HCNode.cluster 3 exampleSimilarity = some root ∧
      (∀ l r s vc w h, HCNode.node l r s vc w h ∈ root.subtrees →
        s ≤ l.similarity ∧ s ≤ r.similarity) ∧
      (∀ t ∈ root.subtrees, root.similarity ≤ t.similarity) ∧
      (∃ a b : Nat, a < 3 ∧ b < 3 ∧ a ≠ b ∧
        exampleSimilarity (a : Int) (b : Int) = root.similarity) ∧
      ∀ a b : Nat, a < 3 → b < 3 → a ≠ b →
        root.similarity ≤ exampleSimilarity (a : Int) (b : Int) :=
  ⟨⟨by decide, exampleSimilarity_symm, exampleSimilarity_unit⟩,
    C27_merge_similarities_decrease_towards_root exampleSimilarity 3 (by decide)
      exampleSimilarity_symm exampleSimilarity_unit⟩

end Reghievis

/-! ## Clustering over every `float` value

The clustering constructor with a similarity function of any `float` values does what the
constructor over the finite values does with the clamped function. -/

namespace Reghievis

theorem FloatValue.stdMin_clamp (acc x : FloatValue) (h : acc.Bounded) :
    (FloatValue.stdMin acc x).Bounded ∧
      (FloatValue.stdMin acc x).clamp = Float32.stdMin acc.clamp x.clamp := by
  cases acc with
  | finite a =>
    cases x with
    | finite b =>
      unfold FloatValue.stdMin Float32.stdMin
      by_cases hba : b < a
      · simp [FloatValue.lt, FloatValue.clamp, FloatValue.Bounded, hba]
      · simp [FloatValue.lt, FloatValue.clamp, FloatValue.Bounded, hba]
    | posInf =>
      have hm : ¬ Float32.max < a := not_lt.mpr (Float32.le_max a)
      simp [FloatValue.stdMin, Float32.stdMin, FloatValue.lt, FloatValue.clamp,
        FloatValue.Bounded, hm]
    | negInf =>
      unfold FloatValue.stdMin Float32.stdMin
      by_cases hl : Float32.lowest < a
      · simp [FloatValue.lt, FloatValue.clamp, FloatValue.Bounded, hl]
      · have ha : a = Float32.lowest := le_antisymm (not_lt.mp hl) (Float32.lowest_le a)
        simp [FloatValue.lt, FloatValue.clamp, FloatValue.Bounded, ha]
    | nan =>
      have hm : ¬ Float32.max < a := not_lt.mpr (Float32.le_max a)
      simp [FloatValue.stdMin, Float32.stdMin, FloatValue.lt, FloatValue.clamp,
        FloatValue.Bounded, hm]
  | negInf =>
    cases x with
    | finite b =>
      have hb : ¬ b < Float32.lowest := not_lt.mpr (Float32.lowest_le b)
      simp [FloatValue.stdMin, Float32.stdMin, FloatValue.lt, FloatValue.clamp,
        FloatValue.Bounded, hb]
    | posInf =>
      simp [FloatValue.stdMin, Float32.stdMin, FloatValue.lt, FloatValue.clamp,
        FloatValue.Bounded]
      decide
    | negInf =>
      simp [FloatValue.stdMin, Float32.stdMin, FloatValue.lt, FloatValue.clamp,
        FloatValue.Bounded]
    | nan =>
      simp [FloatValue.stdMin, Float32.stdMin, FloatValue.lt, FloatValue.clamp,
        FloatValue.Bounded]
      decide
  | posInf => exact absurd h (by simp [FloatValue.Bounded])
  | nan => exact absurd h (by simp [FloatValue.Bounded])

theorem foldl_stdMin_clamp (f : Int → FloatValue) (B : List Int) (acc : FloatValue)
    (h : acc.Bounded) :
    (B.foldl (fun s b => FloatValue.stdMin s (f b)) acc).Bounded ∧
      (B.foldl (fun s b => FloatValue.stdMin s (f b)) acc).clamp =
        B.foldl (fun s b => Float32.stdMin s (f b).clamp) acc.clamp := by
  induction B generalizing acc with
  | nil => exact ⟨h, rfl⟩
  | cons b B ih =>
    simp only [List.foldl_cons]
    obtain ⟨h1, h2⟩ := FloatValue.stdMin_clamp acc (f b) h
    obtain ⟨h3, h4⟩ := ih _ h1
    exact ⟨h3, by rw [h4, h2]⟩

theorem foldl_foldl_stdMin_clamp (sim : Int → Int → FloatValue) (A B : List Int)
    (acc : FloatValue) (h : acc.Bounded) :
    (A.foldl (fun s a => B.foldl (fun s b => FloatValue.stdMin s (sim a b)) s) acc).Bounded ∧
      (A.foldl (fun s a => B.foldl (fun s b => FloatValue.stdMin s (sim a b)) s) acc).clamp =
        A.foldl (fun s a => B.foldl (fun s b => Float32.stdMin s (sim a b).clamp) s)
          acc.clamp := by
  induction A generalizing acc with
  | nil => exact ⟨h, rfl⟩
  | cons a A ih =>
    simp only [List.foldl_cons]
    obtain ⟨h1, h2⟩ := foldl_stdMin_clamp (sim a) B acc h
    obtain ⟨h3, h4⟩ := ih _ h1
    exact ⟨h3, by rw [h4, h2]⟩

/-- The running minimum over every `float` value is finite or `-inf`, and its clamp is the
running minimum of the clamped values. -/
theorem ieee_computeSimilarity_clamp (sim : Int → Int → FloatValue) (first second : HCNode) :
    (Ieee.computeSimilarity sim first second).Bounded ∧
      (Ieee.computeSimilarity sim first second).clamp =
        computeSimilarity (fun a b => (sim a b).clamp) first second :=
  foldl_foldl_stdMin_clamp sim first.values second.values (FloatValue.finite Float32.max)
    trivial

/-- One test `if( similarity > closest.similarity ) closest = { i, j, similarity }`. -/
theorem ieee_update_lift (c : Closest) (s : FloatValue) (hs : s.Bounded) (i j : Nat) :
    (if FloatValue.lt (Closest.lift c).similarity s then
        (⟨(i : Int), (j : Int), s⟩ : Ieee.Closest) else Closest.lift c) =
      Closest.lift (if s.clamp > c.similarity then ⟨(i : Int), (j : Int), s.clamp⟩ else c) := by
  cases s with
  | finite b =>
    by_cases hb : c.similarity < b
    · simp [Closest.lift, FloatValue.lt, FloatValue.clamp, hb]
    · simp [Closest.lift, FloatValue.lt, FloatValue.clamp, hb]
  | negInf =>
    have hl : ¬ c.similarity < Float32.lowest := not_lt.mpr (Float32.lowest_le _)
    simp [Closest.lift, FloatValue.lt, FloatValue.clamp, hl]
  | posInf => exact absurd hs (by simp [FloatValue.Bounded])
  | nan => exact absurd hs (by simp [FloatValue.Bounded])

theorem ieee_scanInner_lift (sim : Int → Int → FloatValue) (nodeI : HCNode) (i : Nat)
    (rest : List HCNode) (j : Nat) (c : Closest) :
    Ieee.scanInner sim nodeI i rest j (Closest.lift c) =
      Closest.lift (scanInner (fun a b => (sim a b).clamp) nodeI i rest j c) := by
  induction rest generalizing j c with
  | nil => rfl
  | cons nodeJ rest ih =>
    obtain ⟨hb, hc⟩ := ieee_computeSimilarity_clamp sim nodeI nodeJ
    simp only [Ieee.scanInner, scanInner]
    rw [ieee_update_lift c _ hb i j, ih, hc]

theorem ieee_scanOuter_lift (sim : Int → Int → FloatValue) (nodes : List HCNode) (i : Nat)
    (c : Closest) :
    Ieee.scanOuter sim nodes i (Closest.lift c) =
      Closest.lift (scanOuter (fun a b => (sim a b).clamp) nodes i c) := by
  induction nodes generalizing i c with
  | nil => rfl
  | cons nodeI rest ih =>
    simp only [Ieee.scanOuter, scanOuter]
    rw [ieee_scanInner_lift, ih]

/-- The search over every `float` value returns what the search over the clamped values
returns; in particular `closest.similarity` is finite. -/
theorem ieee_findClosest_eq (sim : Int → Int → FloatValue) (nodes : List HCNode) :
    Ieee.findClosest sim nodes =
      Closest.lift (findClosest (fun a b => (sim a b).clamp) nodes) :=
  ieee_scanOuter_lift sim nodes 0 Closest.init

/-- The similarity the search returns is finite, so the merged node can store it. -/
theorem ieee_findClosest_finite (sim : Int → Int → FloatValue) (nodes : List HCNode) :
    ∃ s, (Ieee.findClosest sim nodes).similarity = FloatValue.finite s :=
  ⟨_, by rw [ieee_findClosest_eq]; rfl⟩

theorem ieee_mergeStep_eq (sim : Int → Int → FloatValue) (nodes : List HCNode) :
    Ieee.mergeStep sim nodes = mergeStep (fun a b => (sim a b).clamp) nodes := by
  unfold Ieee.mergeStep mergeStep
  rw [ieee_findClosest_eq]
  simp only [Closest.lift]
  split_ifs with h
  · cases nodes[(findClosest (fun a b => (sim a b).clamp) nodes).first.toNat]? with
    | none => rfl
    | some a =>
      cases nodes[(findClosest (fun a b => (sim a b).clamp) nodes).second.toNat]? with
      | none => rfl
      | some b => rfl
  · rfl

theorem ieee_mergeLoop_eq (sim : Int → Int → FloatValue) (fuel : Nat) (nodes : List HCNode) :
    Ieee.mergeLoop sim fuel nodes = mergeLoop (fun a b => (sim a b).clamp) fuel nodes := by
  induction fuel generalizing nodes with
  | zero => rfl
  | succ fuel ih =>
    simp only [Ieee.mergeLoop, mergeLoop]
    rw [ieee_mergeStep_eq]
    have hfun : Ieee.mergeLoop sim fuel = mergeLoop (fun a b => (sim a b).clamp) fuel :=
      funext ih
    rw [hfun]

/-- The clustering constructor over every `float` value returns what the constructor over the
finite values returns for the clamped similarity function. -/
theorem ieee_cluster_eq (count : Nat) (sim : Int → Int → FloatValue) :
    Ieee.cluster count sim = HCNode.cluster count (fun a b => (sim a b).clamp) := by
  unfold Ieee.cluster HCNode.cluster
  rw [ieee_mergeLoop_eq]

/-- For a similarity function with finite values the two models of the constructor agree. -/
theorem ieee_cluster_finite (count : Nat) (sim : Int → Int → Float32) :
    Ieee.cluster count (fun a b => FloatValue.finite (sim a b)) = HCNode.cluster count sim :=
  ieee_cluster_eq count _

end Reghievis

/-! ## Complete linkage -/

namespace Reghievis

/-- For every symmetric similarity function, whatever `float` values it returns, each internal
node of a returned dendrogram stores the least clamped similarity between a leaf of its left
child and a leaf of its right child: NaN and `+inf` count as `numeric_limits<float>::max()`. -/
theorem ieee_cluster_completeLinkage (N : Nat) (sim : Int → Int → FloatValue)
    (hsym : ∀ a b, sim a b = sim b a) (root : HCNode) (hroot : Ieee.cluster N sim = some root)
    (l r : HCNode) (s : Float32) (vc w h : Int)
    (hmem : HCNode.node l r s vc w h ∈ root.subtrees) :
    (∃ a ∈ l.values, ∃ b ∈ r.values, (sim a b).clamp = s) ∧
      ∀ a ∈ l.values, ∀ b ∈ r.values, s ≤ (sim a b).clamp := by
  rw [ieee_cluster_eq] at hroot
  exact cluster_completeLinkage (fun a b => (sim a b).clamp)
    (fun a b => by simp only; rw [hsym a b]) N root hroot l r s vc w h hmem

theorem infSimilarity_cluster :
    Ieee.cluster 2 infSimilarity =
      some (HCNode.node (HCNode.leaf 0) (HCNode.leaf 1) Float32.max 2 1 2) := by
  decide

theorem nanSimilarity_cluster :
    Ieee.cluster 2 nanSimilarity =
      some (HCNode.node (HCNode.leaf 0) (HCNode.leaf 1) Float32.max 2 1 2) := by
  decide

/-- C2 fails for similarity functions with values that are not finite.  The symmetric function
that returns `+inf` for every pair, on two runs: `std::min( similarity, +inf )` keeps the
starting value, so the root stores `numeric_limits<float>::max()`, which is no value of the
function and is below its minimum `+inf`.  The same happens with the function that returns NaN
for every pair (the similarity matrix of two constant runs): the root stores
`numeric_limits<float>::max()`, which is no value of the function. -/
theorem C2_infinite_similarity_counterexample :
    Ieee.cluster 2 infSimilarity =
      some (HCNode.node (HCNode.leaf 0) (HCNode.leaf 1) Float32.max 2 1 2) ∧
    (∀ a b, infSimilarity a b = infSimilarity b a) ∧
    (∀ a b, infSimilarity a b ≠ FloatValue.finite Float32.max) ∧
    (∀ a b, FloatValue.lt (FloatValue.finite Float32.max) (infSimilarity a b) = true) ∧
    Ieee.cluster 2 nanSimilarity =
      some (HCNode.node (HCNode.leaf 0) (HCNode.leaf 1) Float32.max 2 1 2) ∧
    (∀ a b, nanSimilarity a b = nanSimilarity b a) ∧
    (∀ a b, nanSimilarity a b ≠ FloatValue.finite Float32.max) := by
  refine ⟨infSimilarity_cluster, fun _ _ => rfl, ?_, fun _ _ => rfl,
    nanSimilarity_cluster, fun _ _ => rfl, ?_⟩
  · intro a b h
    cases h
  · intro a b h
    cases h

/-- C2. For every run count and every symmetric similarity function whose values are finite
floats, each internal node of a dendrogram the clustering constructor returns stores the
minimum of `similarityFunction(a, b)` over the leaves `a` of its left child and the leaves `b`
of its right child (complete linkage): the stored value is the value of some such pair and no
such pair is below it.  The constructor does return a dendrogram for `N ≥ 1` when every
similarity is above the initial sentinel of the search. -/
theorem C2_internal_similarity_is_complete_linkage (N : Nat) (sim : Int → Int → FloatValue)
    (hsym : ∀ a b, sim a b = sim b a) (hfin : ∀ a b, ∃ x, sim a b = FloatValue.finite x) :
    (∀ root, Ieee.cluster N sim = some root →
      ∀ l r s vc w h, HCNode.node l r s vc w h ∈ root.subtrees →
        (∃ a ∈ l.values, ∃ b ∈ r.values, sim a b = FloatValue.finite s) ∧
          ∀ a ∈ l.values, ∀ b ∈ r.values,
            FloatValue.lt (sim a b) (FloatValue.finite s) = false) ∧
    (1 ≤ N → (∀ a b, FloatValue.lt (FloatValue.finite Float32.lowest) (sim a b) = true) →
      ∃ root, Ieee.cluster N sim = some root) := by
  have hclamp : ∀ a b, sim a b = FloatValue.finite (sim a b).clamp := by
    intro a b
    obtain ⟨x, hx⟩ := hfin a b
    rw [hx]
    rfl
  constructor
  · intro root hroot l r s vc w h hmem
    obtain ⟨⟨a, ha, b, hb, hab⟩, hle⟩ :=
      ieee_cluster_completeLinkage N sim hsym root hroot l r s vc w h hmem
    refine ⟨⟨a, ha, b, hb, by rw [hclamp a b, hab]⟩, ?_⟩
    intro a ha b hb
    rw [hclamp a b]
    simp only [FloatValue.lt, decide_eq_false_iff_not, not_lt]
    exact hle a ha b hb
  · intro hN hlow
    rw [ieee_cluster_eq]
    have hlow2 : ∀ a b, Float32.lowest < (sim a b).clamp := by
      intro a b
      have h := hlow a b
      rw [hclamp a b] at h
      simpa [FloatValue.lt] using h
    obtain ⟨root, _, _, hroot, _⟩ :=
      cluster_exists (fun a b => (sim a b).clamp) N hN hlow2
    exact ⟨root, hroot⟩

theorem C2_internal_similarity_is_complete_linkage_witness :
    ((∀ a b, FloatValue.finite (exampleSimilarity a b) =
        FloatValue.finite (exampleSimilarity b a)) ∧
      ∀ a b, ∃ x, FloatValue.finite (exampleSimilarity a b) = FloatValue.finite x) ∧
    ((∀ root, Ieee.cluster 3 (fun a b => FloatValue.finite (exampleSimilarity a b)) =
        some root →
      ∀ l r s vc w h, HCNode.node l r s vc w h ∈ root.subtrees →
        (∃ a ∈ l.values, ∃ b ∈ r.values,
          FloatValue.finite (exampleSimilarity a b) = FloatValue.finite s) ∧
          ∀ a ∈ l.values, ∀ b ∈ r.values,
            FloatValue.lt (FloatValue.finite (exampleSimilarity a b)) (FloatValue.finite s) =
              false) ∧
    (1 ≤ 3 →
      (∀ a b, FloatValue.lt (FloatValue.finite Float32.lowest)
        (FloatValue.finite (exampleSimilarity a b)) = true) →
      ∃ root, Ieee.cluster 3 (fun a b => FloatValue.finite (exampleSimilarity a b)) =
        some root)) :=
  ⟨⟨fun a b => congrArg FloatValue.finite (exampleSimilarity_symm a b), fun _ _ => ⟨_, rfl⟩⟩,
    C2_internal_similarity_is_complete_linkage 3
      (fun a b => FloatValue.finite (exampleSimilarity a b))
      (fun a b => congrArg FloatValue.finite (exampleSimilarity_symm a b))
      (fun _ _ => ⟨_, rfl⟩)⟩

end Reghievis

/-! ## The merged pair -/

namespace Reghievis

/-- With every similarity above `numeric_limits<float>::lowest()` the running minimum of two
nodes is above it as well, whatever the nodes. -/
theorem computeSimilarity_above_lowest (sim : Int → Int → Float32)
    (hlow : ∀ a b, Float32.lowest < sim a b) (first second : HCNode) :
    Float32.lowest < computeSimilarity sim first second := by
  obtain ⟨_, _, hmem⟩ := foldl_stdMin_outer sim first.values second.values Float32.max
  unfold computeSimilarity
  rcases hmem with h | ⟨a, _, b, _, h⟩
  · rw [h]
    decide
  · rw [← h]
    exact hlow a b

/-- C3 fails without a condition on the similarity values.  Two active leaves and the
similarity function that returns `numeric_limits<float>::lowest()` for every pair: the only
pair does not pass the test `similarity > closest.similarity`, the search returns the initial
sentinel `{ -1, -1, lowest() }`, and no pair of active nodes is merged; the source goes on to
index `nodes[-1]`.  The same holds in the model over every `float` value, also for the
function that returns `-inf`. -/
theorem C3_lowest_similarity_counterexample :
    2 ≤ (initialNodes 2).length ∧
    findClosest lowestSimilarity (initialNodes 2) = Closest.init ∧
    mergeStep lowestSimilarity (initialNodes 2) = none ∧
    Ieee.findClosest (fun a b => FloatValue.finite (lowestSimilarity a b)) (initialNodes 2) =
      Ieee.Closest.init ∧
    Ieee.mergeStep (fun a b => FloatValue.finite (lowestSimilarity a b)) (initialNodes 2) =
      none ∧
    Ieee.mergeStep (fun _ _ => FloatValue.negInf) (initialNodes 2) = none := by
  decide

/-- C3. Let every value of the similarity function be a finite float above
`numeric_limits<float>::lowest()`.  In an iteration of the merge loop with at least two active
nodes, the search returns a pair `i < j` that is the first pair in scan order (`i` ascending,
then `j` ascending) whose complete-linkage similarity is the maximum over all pairs; the new
node stores that maximum; both constituents are removed, the new node is appended at the end
and the remaining nodes keep their order. -/
theorem C3_merge_step_takes_first_maximal_pair (sim : Int → Int → Float32)
    (nodes : List HCNode) (hlow : ∀ a b, Float32.lowest < sim a b)
    (h2 : 2 ≤ nodes.length) :
    ∃ i j, i < j ∧ j < nodes.length ∧
      findClosest sim nodes = ⟨(i : Int), (j : Int), pairSimilarity sim nodes i j⟩ ∧
      (∀ p q, p < q → q < nodes.length →
        pairSimilarity sim nodes p q ≤ pairSimilarity sim nodes i j) ∧
      (∀ p q, p < q → q < nodes.length → (p < i ∨ (p = i ∧ q < j)) →
        pairSimilarity sim nodes p q < pairSimilarity sim nodes i j) ∧
      (HCNode.mkNode (nodes.getD i HCNode.empty) (nodes.getD j HCNode.empty)
        (pairSimilarity sim nodes i j)).similarity = pairSimilarity sim nodes i j ∧
      mergeStep sim nodes = some ((nodes.eraseIdx j).eraseIdx i ++
        [HCNode.mkNode (nodes.getD i HCNode.empty) (nodes.getD j HCNode.empty)
          (pairSimilarity sim nodes i j)]) := by
  rcases findClosest_spec sim nodes with ⟨_, hall⟩ | ⟨i, j, hij, hj, hc, _, hmax, hfirst⟩
  · exact absurd (hall 0 1 (by omega) (by omega))
      (not_le.mpr (computeSimilarity_above_lowest sim hlow _ _))
  · exact ⟨i, j, hij, hj, hc, hmax, hfirst, rfl,
      mergeStep_of_closest sim nodes i j _ hij hj hc⟩

theorem C3_merge_step_takes_first_maximal_pair_witness :
    ((∀ a b, Float32.lowest < exampleSimilarity a b) ∧ 2 ≤ (initialNodes 3).length) ∧
    ∃ i j, i < j ∧ j < (initialNodes 3).length ∧
      findClosest exampleSimilarity (initialNodes 3) =
        ⟨(i : Int), (j : Int), pairSimilarity exampleSimilarity (initialNodes 3) i j⟩ ∧
      (∀ p q, p < q → q < (initialNodes 3).length →
        pairSimilarity exampleSimilarity (initialNodes 3) p q
          ≤ pairSimilarity exampleSimilarity (initialNodes 3) i j) ∧
      (∀ p q, p < q → q < (initialNodes 3).length → (p < i ∨ (p = i ∧ q < j)) →
        pairSimilarity exampleSimilarity (initialNodes 3) p q
          < pairSimilarity exampleSimilarity (initialNodes 3) i j) ∧
      (HCNode.mkNode ((initialNodes 3).getD i HCNode.empty)
        ((initialNodes 3).getD j HCNode.empty)
        (pairSimilarity exampleSimilarity (initialNodes 3) i j)).similarity
          = pairSimilarity exampleSimilarity (initialNodes 3) i j ∧
      mergeStep exampleSimilarity (initialNodes 3) =
        some (((initialNodes 3).eraseIdx j).eraseIdx i ++
          [HCNode.mkNode ((initialNodes 3).getD i HCNode.empty)
            ((initialNodes 3).getD j HCNode.empty)
            (pairSimilarity exampleSimilarity (initialNodes 3) i j)]) :=
  ⟨⟨exampleSimilarity_above_lowest, by decide⟩,
    C3_merge_step_takes_first_maximal_pair exampleSimilarity (initialNodes 3)
      exampleSimilarity_above_lowest (by decide)⟩

end Reghievis

/-! ## Stored values and the range -/

namespace Reghievis

theorem exampleStream_load :
    Volume.load floatCodec exampleStream =
      some (⟨[97, 98], ⟨2, 1, 1⟩, [Float32.half, Float32.quarter],
        (Float32.zero, Float32.zero), true⟩, []) := by
  rfl

theorem exampleRangedStream_load :
    Volume.load floatCodec exampleRangedStream = some (exampleRangedVolume, []) := by
  rfl

/-- A stream written by `save` from a non-empty grid whose cache, when valid, bounds the
values holds a range that bounds the stored values; the stream constructor takes it over. -/
theorem Volume.load_save_sound {T : Type} [LinearOrder T] (c : Codec T) (hc : c.Lawful)
    (g : Volume T) (hne : g.values ≠ []) (henc : g.Encodable)
    (hsound : g.domainValid = true → ∀ x ∈ g.values, g.domain.1 ≤ x ∧ x ≤ g.domain.2) :
    ∃ bytes saved, g.save c = some (bytes, saved) ∧
      ∀ rest, Volume.load c (bytes ++ rest) = some (saved, rest) ∧ saved.values = g.values ∧
        ∀ x ∈ saved.values, saved.domain.1 ≤ x ∧ x ≤ saved.domain.2 := by
  obtain ⟨bytes, saved, hsave, _, _, hv, _, hload⟩ := Volume.save_load_volume c hc g hne henc
  obtain ⟨old, cached, hg, hcv, _, _, _, hdom, hb⟩ := Volume.getDomain_sound g hne hsound
  have hs : saved = cached := by
    unfold Volume.save at hsave
    rw [hg] at hsave
    exact (congrArg Prod.snd (Option.some.inj hsave)).symm
  refine ⟨bytes, saved, hsave, fun rest => ⟨hload rest, hv, ?_⟩⟩
  intro x hx
  rw [hs, hdom]
  rw [hv] at hx
  exact hb x hx

/-- C21 fails for the stream constructor, which takes the range from the stream and marks the
cache valid.  From the stream `exampleStream` it builds a grid with the values `0.5f, 0.25f`
whose `domain()` returns the stored range `(0, 0)`: the value `0.5f` is above the maximum of
the range. -/
theorem C21_stream_constructor_counterexample :
    ∃ v old cached, Volume.load floatCodec exampleStream = some (v, []) ∧
      v.values = [Float32.half, Float32.quarter] ∧
      v.getDomain = some (old, cached) ∧ old = (Float32.zero, Float32.zero) ∧
      Float32.half ∈ v.values ∧ ¬ Float32.half ≤ old.2 ∧
      ¬ ∀ x ∈ v.values, old.1 ≤ x ∧ x ≤ old.2 := by
  refine ⟨⟨[97, 98], ⟨2, 1, 1⟩, [Float32.half, Float32.quarter],
    (Float32.zero, Float32.zero), true⟩, (Float32.zero, Float32.zero), _,
    exampleStream_load, rfl, rfl, rfl, by decide, by decide, ?_⟩
  intro h
  exact absurd (h Float32.half (by decide)).2 (by decide)

/-- C21. Let `v` be a non-empty grid of a linearly ordered element type (`int32_t`, or `float`
without NaN) built by the constructor from dimensions, by the constructor from dimensions and
values, or by the stream constructor from a stream whose stored range bounds the stored
values.  After any sequence of `expandDomain` calls the values are those of `v`, `domain()`
returns a range with `min ≤ x ≤ max` for every stored value `x`, and one more call
`expandDomain( r )` leaves the values unchanged and makes the range
`(min(r.min, old.min), max(r.max, old.max))`, where `old` is the range before the call. -/
theorem C21_values_lie_within_range {T : Type} [LinearOrder T] [Zero T] (dimensions : Vec3i)
    (values : List T) (name : List Nat) (c : Codec T) (stream rest : List Nat) (v : Volume T)
    (hbuilt : Volume.ofDimensions dimensions name = some v ∨
      Volume.ofValues dimensions values name = some v ∨
      (Volume.load c stream = some (v, rest) ∧
        ∀ x ∈ v.values, v.domain.1 ≤ x ∧ x ≤ v.domain.2))
    (hne : v.values ≠ []) (expansions : List (T × T)) :
    ∃ g old cached, v.expandDomains expansions = some g ∧ g.values = v.values ∧
      g.getDomain = some (old, cached) ∧ cached.values = v.values ∧
      (∀ x ∈ v.values, old.1 ≤ x ∧ x ≤ old.2) ∧
      ∀ r : T × T, ∃ expanded, g.expandDomain r = some expanded ∧
        expanded.values = v.values ∧
        expanded.getDomain = some ((min r.1 old.1, max r.2 old.2), expanded) := by
  have hsound : v.domainValid = true → ∀ x ∈ v.values, v.domain.1 ≤ x ∧ x ≤ v.domain.2 := by
    rcases hbuilt with h | h | ⟨_, h⟩
    · unfold Volume.ofDimensions at h
      split_ifs at h
      rw [← Option.some.inj h]
      intro hv
      cases hv
    · unfold Volume.ofValues at h
      split_ifs at h
      rw [← Option.some.inj h]
      intro hv
      cases hv
    · exact fun _ => h
  obtain ⟨g, hg, hval, _, _, hs⟩ := Volume.expandDomains_spec expansions v hne hsound
  have hgne : g.values ≠ [] := by rw [hval]; exact hne
  obtain ⟨old, cached, hdom, hcv, _, _, hvalid, _, hb⟩ := Volume.getDomain_sound g hgne hs
  refine ⟨g, old, cached, hg, hval, hdom, by rw [hcv]; exact hval, ?_, ?_⟩
  · intro x hx
    rw [← hval] at hx
    exact hb x hx
  · intro r
    refine ⟨_, Volume.expandDomain_of_getDomain g cached old r hdom, ?_, ?_⟩
    · simp only
      rw [hcv]
      exact hval
    · exact Volume.getDomain_of_valid _ hvalid

theorem C21_values_lie_within_range_witness :
    ((Volume.ofDimensions ⟨2, 1, 1⟩ [97, 98] = some exampleRangedVolume ∨
      Volume.ofValues ⟨2, 1, 1⟩ [Float32.half, Float32.quarter] [97, 98] =
        some exampleRangedVolume ∨
      (Volume.load floatCodec exampleRangedStream = some (exampleRangedVolume, []) ∧
        ∀ x ∈ exampleRangedVolume.values,
          exampleRangedVolume.domain.1 ≤ x ∧ x ≤ exampleRangedVolume.domain.2)) ∧
      exampleRangedVolume.values ≠ []) ∧
    ∃ g old cached,
      exampleRangedVolume.expandDomains [(Float32.zero, Float32.one)] = some g ∧
      g.values = exampleRangedVolume.values ∧
      g.getDomain = some (old, cached) ∧ cached.values = exampleRangedVolume.values ∧
      (∀ x ∈ exampleRangedVolume.values, old.1 ≤ x ∧ x ≤ old.2) ∧
      ∀ r : Float32 × Float32, ∃ expanded, g.expandDomain r = some expanded ∧
        expanded.values = exampleRangedVolume.values ∧
        expanded.getDomain = some ((min r.1 old.1, max r.2 old.2), expanded) :=
  ⟨⟨Or.inr (Or.inr ⟨exampleRangedStream_load, by decide⟩), by decide⟩,
    C21_values_lie_within_range ⟨2, 1, 1⟩ [Float32.half, Float32.quarter] [97, 98] floatCodec
      exampleRangedStream [] exampleRangedVolume
      (Or.inr (Or.inr ⟨exampleRangedStream_load, by decide⟩)) (by decide)
      [(Float32.zero, Float32.one)]⟩

end Reghievis

/-! ## Grid persistence for every arithmetic element type -/

namespace Reghievis

theorem floatValueCodec_lawful : floatValueCodec.Lawful := by
  intro v
  refine ⟨leBytes_length _ _, ?_⟩
  have h256 : (256 : Nat) ^ 4 = 4294967296 := by norm_num
  simp only [floatValueCodec, ofLeBytes_leBytes, h256]
  cases v with
  | finite f =>
    simp only [FloatValue.bits]
    rw [Nat.mod_eq_of_lt f.bits_lt]
    unfold FloatValue.ofBits
    rw [Float32.ofBits_bits]
  | posInf => rfl
  | negInf => rfl
  | nan => rfl

theorem int32ValueCodec_lawful : int32ValueCodec.Lawful := by
  intro v
  exact ⟨encodeInt32_length _,
    congrArg some (Subtype.ext (decodeInt32_encodeInt32 v.val v.property))⟩

/-- The comparison `!=` of `float` is false of a value and itself unless the value is NaN. -/
theorem FloatValue.ne_self_iff (x : FloatValue) : FloatValue.ne x x = false ↔ x ≠ FloatValue.nan := by
  cases x <;> simp [FloatValue.ne]

theorem Int32Value.ne_self_int32 (x : Int32Value) : Int32Value.ne x x = false := by
  simp [Int32Value.ne]

theorem Volume.valuesEqualWith_refl {T : Type} (ne : T → T → Bool) (vs : List T)
    (h : ∀ x ∈ vs, ne x x = false) : Volume.valuesEqualWith ne vs vs = true := by
  induction vs with
  | nil => rfl
  | cons v vs ih =>
    simp only [Volume.valuesEqualWith, h v (List.mem_cons_self _ _)]
    exact ih (fun x hx => h x (List.mem_cons_of_mem _ hx))

theorem foldl_minmaxWith_mem {T : Type} (lt : T → T → Bool) (rest : List T) (r : T × T)
    (vs : List T) (h1 : r.1 ∈ vs) (h2 : r.2 ∈ vs) (hsub : ∀ x ∈ rest, x ∈ vs) :
    (rest.foldl
        (fun (r : T × T) v => (if lt v r.1 then v else r.1, if lt v r.2 then r.2 else v))
        r).1 ∈ vs ∧
    (rest.foldl
        (fun (r : T × T) v => (if lt v r.1 then v else r.1, if lt v r.2 then r.2 else v))
        r).2 ∈ vs := by
  induction rest generalizing r with
  | nil => exact ⟨h1, h2⟩
  | cons v rest ih =>
    simp only [List.foldl_cons]
    have hv : v ∈ vs := hsub v (List.mem_cons_self _ _)
    apply ih
    · simp only
      split_ifs
      · exact hv
      · exact h1
    · simp only
      split_ifs
      · exact h2
      · exact hv
    · exact fun x hx => hsub x (List.mem_cons_of_mem _ hx)

/-- Both ends of the range `std::minmax_element` yields are elements of the range. -/
theorem Volume.minmaxElementWith_mem {T : Type} (lt : T → T → Bool) (vs : List T) (d : T × T)
    (h : Volume.minmaxElementWith lt vs = some d) : d.1 ∈ vs ∧ d.2 ∈ vs := by
  cases vs with
  | nil => cases h
  | cons first rest =>
    simp only [Volume.minmaxElementWith] at h
    rw [← Option.some.inj h]
    exact foldl_minmaxWith_mem lt rest (first, first) (first :: rest)
      (List.mem_cons_self _ _) (List.mem_cons_self _ _)
      (fun x hx => List.mem_cons_of_mem _ hx)

/-- With the order of a linearly ordered element type as the comparison, `domain()` is the
method of the section on grids. -/
theorem Volume.getDomainWith_eq {T : Type} [LinearOrder T] (v : Volume T) :
    v.getDomainWith (fun a b => decide (a < b)) = v.getDomain := by
  unfold Volume.getDomainWith Volume.getDomain
  cases v.values with
  | nil => rfl
  | cons first rest =>
    simp only [Volume.minmaxElementWith, Volume.minmaxElement, decide_eq_true_eq]

theorem Volume.saveWith_eq {T : Type} [LinearOrder T] (c : Codec T) (v : Volume T) :
    v.saveWith (fun a b => decide (a < b)) c = v.save c := by
  unfold Volume.saveWith Volume.save
  rw [Volume.getDomainWith_eq]

theorem Volume.valuesEqualWith_eq {T : Type} [DecidableEq T] (as bs : List T) :
    Volume.valuesEqualWith (fun a b => decide (a ≠ b)) as bs = Volume.valuesEqual as bs := by
  induction as generalizing bs with
  | nil => rfl
  | cons a as ih =>
    cases bs with
    | nil => rfl
    | cons b bs =>
      simp only [Volume.valuesEqualWith, Volume.valuesEqual, decide_eq_true_eq, ih]

/-- With the inequality of an element type that has a decidable equality as the comparison,
`operator==` is the comparison of the section on grids. -/
theorem Volume.beqWith_eq {T : Type} [DecidableEq T] (a b : Volume T) :
    a.beqWith (fun a b => decide (a ≠ b)) b = a.beq b := by
  unfold Volume.beqWith Volume.beq
  rw [Volume.valuesEqualWith_eq]
  simp only [Bool.or_eq_true, decide_eq_true_eq]

/-- Saving a non-empty volume and reading the bytes back, for an element type with the
comparisons `lt` and `ne`: the grid read is the grid as `save` leaves it, and the two compare
equal when no stored value and no end of the cached range differs from itself. -/
theorem Volume.saveWith_load {T : Type} (lt ne : T → T → Bool) (c : Codec T) (hc : c.Lawful)
    (g : Volume T) (hne : g.values ≠ []) (henc : g.Encodable)
    (hvalues : ∀ x ∈ g.values, ne x x = false)
    (hrange : g.domainValid = true →
      ne g.domain.1 g.domain.1 = false ∧ ne g.domain.2 g.domain.2 = false) :
    ∃ bytes saved, g.saveWith lt c = some (bytes, saved) ∧ saved.name = g.name ∧
      saved.dimensions = g.dimensions ∧ saved.values = g.values ∧
      saved.domainValid = true ∧
      (∀ rest, Volume.load c (bytes ++ rest) = some (saved, rest)) ∧
      saved.beqWith ne saved = true := by
  have hdomain : ∃ d, g.getDomainWith lt = some (d, { g with domain := d, domainValid := true })
      ∧ ne d.1 d.1 = false ∧ ne d.2 d.2 = false := by
    unfold Volume.getDomainWith
    by_cases hv : g.domainValid = true
    · obtain ⟨h1, h2⟩ := hrange hv
      refine ⟨g.domain, ?_, h1, h2⟩
      rw [if_pos hv]
      congr 2
      cases g
      simp only at hv
      simp only [hv]
    · rw [if_neg hv]
      cases hm : Volume.minmaxElementWith lt g.values with
      | none =>
        cases hg : g.values with
        | nil => exact absurd hg hne
        | cons first rest =>
          rw [hg] at hm
          simp [Volume.minmaxElementWith] at hm
      | some d =>
        obtain ⟨h1, h2⟩ := Volume.minmaxElementWith_mem lt g.values d hm
        exact ⟨d, rfl, hvalues _ h1, hvalues _ h2⟩
  obtain ⟨d, hg, hd1, hd2⟩ := hdomain
  refine ⟨Volume.encode c { g with domain := d, domainValid := true },
    { g with domain := d, domainValid := true }, ?_, rfl, rfl, rfl, rfl, ?_, ?_⟩
  · unfold Volume.saveWith
    rw [hg]
  · intro rest
    exact Volume.load_encode c hc { g with domain := d, domainValid := true } henc rest
  · unfold Volume.beqWith
    simp only [ne_eq, not_true_eq_false, if_false, hd1, hd2, Bool.or_self,
      Volume.valuesEqualWith_refl ne g.values hvalues, Bool.not_true]
    rfl

/-- The stream `save` writes for the grid `nanVolume`. -/
theorem nanVolume_save :
    nanVolume.saveWith FloatValue.lt floatValueCodec =
      some ([1, 0, 0, 0, 0, 0, 0, 0, 110, 1, 0, 0, 0, 1, 0, 0, 0, 1, 0, 0, 0,
          1, 0, 0, 0, 0, 0, 0, 0, 0, 0, 192, 127, 0, 0, 192, 127, 0, 0, 192, 127],
        ⟨[110], ⟨1, 1, 1⟩, [FloatValue.nan], (FloatValue.nan, FloatValue.nan), true⟩) := by
  rfl

/-- C7 fails for a grid of `float` that holds NaN.  The grid `nanVolume` has one voxel with
the value NaN; `save` writes it with the range `(NaN, NaN)`; the stream constructor reads back
the same name, dimensions, values and range; and `operator==` answers `false`, because
`_values[0] != other._values[0]` is true of two NaN. -/
theorem C7_nan_grid_counterexample :
    ∃ bytes saved loaded, nanVolume.values ≠ [] ∧ nanVolume.Encodable ∧
      nanVolume.saveWith FloatValue.lt floatValueCodec = some (bytes, saved) ∧
      Volume.load floatValueCodec bytes = some (loaded, []) ∧
      loaded.name = saved.name ∧ loaded.dimensions = saved.dimensions ∧
      loaded.values = saved.values ∧ loaded.domain = saved.domain ∧
      saved.values = [FloatValue.nan] ∧
      saved.beqWith FloatValue.ne loaded = false := by
  refine ⟨_, _, ⟨[110], ⟨1, 1, 1⟩, [FloatValue.nan], (FloatValue.nan, FloatValue.nan), true⟩,
    by decide, by unfold Volume.Encodable; decide, nanVolume_save, rfl, rfl, rfl, rfl, rfl,
    rfl, rfl⟩

/-- C7. Let `g` be a non-empty grid of an arithmetic element type with the comparisons `lt`
(`operator<`) and `ne` (`operator!=`), whose dimensions are `int32_t` values and whose lengths
are `size_t` values, and let no stored value and no end of a cached range differ from itself
under `ne` (for `float`: none of them is NaN; for `int32_t` this always holds).  Then `g.save`
writes bytes from which the stream constructor builds a grid equal under `Volume::operator==`
to `g` as `save` leaves it (`save` fills the range cache and changes nothing else): the same
name, dimensions, values and cached range; the rest of the stream is left untouched. -/
theorem C7_grid_save_load {T : Type} (lt ne : T → T → Bool) (c : Codec T) (hc : c.Lawful)
    (g : Volume T) (hne : g.values ≠ []) (henc : g.Encodable)
    (hvalues : ∀ x ∈ g.values, ne x x = false)
    (hrange : g.domainValid = true →
      ne g.domain.1 g.domain.1 = false ∧ ne g.domain.2 g.domain.2 = false) :
    ∃ bytes saved, g.saveWith lt c = some (bytes, saved) ∧ saved.name = g.name ∧
      saved.dimensions = g.dimensions ∧ saved.values = g.values ∧
      ∀ rest, ∃ loaded, Volume.load c (bytes ++ rest) = some (loaded, rest) ∧
        saved.beqWith ne loaded = true ∧ loaded.name = g.name ∧
        loaded.dimensions = g.dimensions ∧ loaded.values = g.values ∧
        loaded.domain = saved.domain := by
  obtain ⟨bytes, saved, hsave, hn, hd, hv, _, hload, hbeq⟩ :=
    Volume.saveWith_load lt ne c hc g hne henc hvalues hrange
  exact ⟨bytes, saved, hsave, hn, hd, hv,
    fun rest => ⟨saved, hload rest, hbeq, hn, hd, hv, rfl⟩⟩

theorem C7_grid_save_load_witness :
    (floatValueCodec.Lawful ∧ infVolume.values ≠ [] ∧ infVolume.Encodable ∧
      (∀ x ∈ infVolume.values, FloatValue.ne x x = false) ∧
      (infVolume.domainValid = true →
        FloatValue.ne infVolume.domain.1 infVolume.domain.1 = false ∧
          FloatValue.ne infVolume.domain.2 infVolume.domain.2 = false)) ∧
    ∃ bytes saved, infVolume.saveWith FloatValue.lt floatValueCodec = some (bytes, saved) ∧
      saved.name = infVolume.name ∧
      saved.dimensions = infVolume.dimensions ∧ saved.values = infVolume.values ∧
      ∀ rest, ∃ loaded, Volume.load floatValueCodec (bytes ++ rest) = some (loaded, rest) ∧
        saved.beqWith FloatValue.ne loaded = true ∧ loaded.name = infVolume.name ∧
        loaded.dimensions = infVolume.dimensions ∧ loaded.values = infVolume.values ∧
        loaded.domain = saved.domain :=
  ⟨⟨floatValueCodec_lawful, by decide, by unfold Volume.Encodable; decide, by decide,
      by decide⟩,
    C7_grid_save_load FloatValue.lt FloatValue.ne floatValueCodec floatValueCodec_lawful
      infVolume (by decide) (by unfold Volume.Encodable; decide) (by decide) (by decide)⟩

/-- Grids of `int32_t`: the grid `intVolume` is saved and read back equal. -/
theorem intVolume_save_load :
    ∃ bytes saved, intVolume.saveWith Int32Value.lt int32ValueCodec = some (bytes, saved) ∧
      saved.values = intVolume.values ∧
      ∀ rest, Volume.load int32ValueCodec (bytes ++ rest) = some (saved, rest) ∧
        saved.beqWith Int32Value.ne saved = true := by
  obtain ⟨bytes, saved, hsave, _, _, hv, _, hload, hbeq⟩ :=
    Volume.saveWith_load Int32Value.lt Int32Value.ne int32ValueCodec int32ValueCodec_lawful
      intVolume (by decide) (by unfold Volume.Encodable; decide)
      (fun x _ => Int32Value.ne_self_int32 x) (fun _ => ⟨Int32Value.ne_self_int32 _, Int32Value.ne_self_int32 _⟩)
  exact ⟨bytes, saved, hsave, hv, fun rest => ⟨hload rest, hbeq⟩⟩

end Reghievis

/-! ## The masked dendrogram with a full mask, for every conversion to `float` -/

namespace Reghievis

theorem matrixDendrogram_withName (cast : XFloat → FloatValue) (N : Nat) (m : Volume XFloat)
    (name : List Nat) :
    matrixDendrogram cast N { m with name := name } = matrixDendrogram cast N m := rfl

/-- A `float` that is NaN or above `numeric_limits<float>::lowest()` clamps to a value above
`numeric_limits<float>::lowest()`. -/
theorem FloatValue.lowest_lt_clamp (x : FloatValue)
    (h : FloatValue.lt (FloatValue.finite Float32.lowest) x = true ∨ x = FloatValue.nan) :
    Float32.lowest < x.clamp := by
  cases x with
  | finite b =>
    rcases h with h | h
    · simpa [FloatValue.lt] using h
    · cases h
  | posInf => decide
  | negInf =>
    rcases h with h | h
    · simp [FloatValue.lt] at h
    · cases h
  | nan => decide

/-- The field-similarity matrix of two identical constant runs holds NaN off the diagonal. -/
theorem constantRun_similarityMatrix :
    computeFieldSimilarityMatrix [constantRun, constantRun] =
      some ⟨[70, 105, 101, 108, 100, 32, 83, 105, 109, 105, 108, 97, 114, 105, 116, 121],
        ⟨2, 2, 1⟩, [XFloat.fin 1, XFloat.nan, XFloat.nan, XFloat.fin 1], (0, 0), false⟩ := by
  have h := fieldSimilarity_constantRun
  simp only [constantRun] at h
  simp [computeFieldSimilarityMatrix, similarityMatrix, Volume.ofDimensions, Vec3i.product,
    wrapInt32, fillRows, fillRow, List.range, List.range.loop, List.range', fieldVoxelCount,
    Volume.voxelCount, setSymmetric, Volume.setAt,
    Volume.voxelToIndex, constantRun, List.replicate]
  simp at h
  simp [h]

/-- C24. Let a field have `N ≥ 1` runs of `V ≥ 1` voxels each and let the mask have `V` voxels
and be nonzero at every voxel; let `cast` be any conversion to `float` (its values may be
infinite or NaN).  For both similarity kinds the matrix over all voxels exists, and the local
matrix of the masked routine holds the same values under the name "Similarity"; the masked
`root( similarity, mask )` returns exactly when the clustering constructor returns on the
matrix over all voxels, and then returns its dendrogram, which is the one
`computeFieldSimilarity` / `computePearsonSimilarity` store with the matrix and
`root( similarity )` returns on an empty cache; the two are equal under
`HCNode::operator==`.  The constructor does return when every value of its similarity
function is NaN or above `numeric_limits<float>::lowest()`.  Whatever the mask, the masked
routine leaves the field, its cached matrices and dendrograms included, as it was. -/
theorem C24_masked_root_with_full_mask (cast : XFloat → FloatValue) (sqrt : ℚ → ℚ)
    (s : SimilarityState) (similarity : Similarity) (mask : Volume XFloat) (V : Nat)
    (hN : 1 ≤ s.runs.length) (hV1 : 1 ≤ V) (hV : V < 2147483648)
    (hfit : s.runs.length * s.runs.length < 2147483648)
    (hlen : ∀ r ∈ s.runs, r.values.length = V)
    (hmask : mask.values.length = V) (hfull : ∀ x ∈ mask.values, x.toBool = true) :
    (∃ matrix,
      fullSimilarityMatrix sqrt s.runs similarity = some matrix ∧
      maskedSimilarityMatrix sqrt s.runs (maskVoxels mask) similarity =
        some { matrix with name := [83, 105, 109, 105, 108, 97, 114, 105, 116, 121] } ∧
      s.rootMasked cast sqrt similarity mask =
        (matrixDendrogram cast s.runs.length matrix).map (fun dendrogram => (s, dendrogram)) ∧
      (∀ dendrogram, matrixDendrogram cast s.runs.length matrix = some dendrogram →
        ∃ computed masked,
          s.computeSimilarity cast sqrt similarity = some computed ∧
          mapFind computed.similarities similarity = some (matrix, dendrogram) ∧
          (mapFind s.similarities similarity = none →
            s.root cast sqrt similarity = some (computed, dendrogram)) ∧
          s.rootMasked cast sqrt similarity mask = some (s, masked) ∧
          masked.beq dendrogram = true ∧ masked = dendrogram) ∧
      ((∀ first second : Int,
          FloatValue.lt (FloatValue.finite Float32.lowest)
            (matrixSimilarityFunction cast matrix first second) = true ∨
          matrixSimilarityFunction cast matrix first second = FloatValue.nan) →
        ∃ dendrogram masked, matrixDendrogram cast s.runs.length matrix = some dendrogram ∧
          s.rootMasked cast sqrt similarity mask = some (s, masked) ∧
          masked.beq dendrogram = true)) ∧
    ∀ (anyMask : Volume XFloat) (after : SimilarityState) (masked : HCNode),
      s.rootMasked cast sqrt similarity anyMask = some (after, masked) →
        after = s ∧ after.similarities = s.similarities := by
  constructor
  · have hne : s.runs ≠ [] := by
      intro h0
      rw [h0] at hN
      simp at hN
    have hmatrix : ∃ matrix, fullSimilarityMatrix sqrt s.runs similarity = some matrix := by
      cases similarity with
      | eField =>
        obtain ⟨m, hm, _⟩ := computeFieldSimilarityMatrix_spec s.runs V hV1 hV hfit hlen
        exact ⟨m, hm⟩
      | ePearson =>
        obtain ⟨m, hm, _⟩ := computePearsonSimilarityMatrix_spec sqrt s.runs V hV hfit hlen
        exact ⟨m, hm⟩
    obtain ⟨matrix, hm⟩ := hmatrix
    have hlocal : maskedSimilarityMatrix sqrt s.runs (maskVoxels mask) similarity =
        some { matrix with name := [83, 105, 109, 105, 108, 97, 114, 105, 116, 121] } := by
      rw [maskedSimilarityMatrix_full sqrt s.runs mask V hV hne hlen hmask hfull similarity,
        hm, Option.map_some']
    have hmasked : s.rootMasked cast sqrt similarity mask =
        (matrixDendrogram cast s.runs.length matrix).map
          (fun dendrogram => (s, dendrogram)) := by
      unfold SimilarityState.rootMasked
      rw [hlocal, Option.some_bind, matrixDendrogram_withName]
    have hreturned : ∀ dendrogram,
        matrixDendrogram cast s.runs.length matrix = some dendrogram →
        ∃ computed masked,
          s.computeSimilarity cast sqrt similarity = some computed ∧
          mapFind computed.similarities similarity = some (matrix, dendrogram) ∧
          (mapFind s.similarities similarity = none →
            s.root cast sqrt similarity = some (computed, dendrogram)) ∧
          s.rootMasked cast sqrt similarity mask = some (s, masked) ∧
          masked.beq dendrogram = true ∧ masked = dendrogram := by
      intro dendrogram hdm
      have hcomp : s.computeSimilarity cast sqrt similarity =
          some { s with
            similarities :=
              mapAssign Similarity.toInt s.similarities similarity (matrix, dendrogram) } := by
        unfold SimilarityState.computeSimilarity
        rw [hm, Option.some_bind, hdm, Option.map_some']
      have hfind : mapFind (mapAssign Similarity.toInt s.similarities similarity
          (matrix, dendrogram)) similarity = some (matrix, dendrogram) :=
        mapFind_mapAssign _ Similarity.toInt_injective_similarity _ _ _
      refine ⟨_, dendrogram, hcomp, hfind, ?_, ?_, HCNode.beq_refl_node _, rfl⟩
      · intro hcache
        unfold SimilarityState.root
        rw [hcache]
        simp only
        rw [hcomp, Option.some_bind, hfind, Option.map_some']
      · rw [hmasked, hdm, Option.map_some']
    refine ⟨matrix, hm, hlocal, hmasked, hreturned, ?_⟩
    intro hcells
    obtain ⟨dendrogram, _, _, hd, _⟩ :=
      cluster_exists (fun a b => (matrixSimilarityFunction cast matrix a b).clamp)
        s.runs.length hN (fun a b => FloatValue.lowest_lt_clamp _ (hcells a b))
    have hdm : matrixDendrogram cast s.runs.length matrix = some dendrogram := by
      unfold matrixDendrogram
      rw [ieee_cluster_eq]
      exact hd
    obtain ⟨_, masked, _, _, _, hroot, hbeq, _⟩ := hreturned dendrogram hdm
    exact ⟨dendrogram, masked, hdm, hroot, hbeq⟩
  · intro anyMask after masked h
    unfold SimilarityState.rootMasked at h
    cases hmat : maskedSimilarityMatrix sqrt s.runs (maskVoxels anyMask) similarity with
    | none => rw [hmat] at h; cases h
    | some matrix =>
      rw [hmat, Option.some_bind] at h
      cases hden : matrixDendrogram cast s.runs.length matrix with
      | none => rw [hden] at h; cases h
      | some d =>
        rw [hden, Option.map_some'] at h
        have h2 := Option.some.inj h
        have h3 : s = after := congrArg Prod.fst h2
        exact ⟨h3.symm, by rw [h3]⟩

theorem exampleUnitMask_full : ∀ x ∈ exampleUnitMask.values, x.toBool = true := by
  intro x hx
  simp only [exampleUnitMask, List.mem_singleton] at hx
  subst hx
  simp [XFloat.toBool]

theorem constantRun_lengths : ∀ r ∈ [constantRun, constantRun], r.values.length = 1 := by
  intro r hr
  simp only [List.mem_cons, List.mem_singleton, List.not_mem_nil, or_false, or_self] at hr
  subst hr
  rfl

theorem C24_masked_root_with_full_mask_witness :
    (1 ≤ (⟨[constantRun, constantRun], []⟩ : SimilarityState).runs.length ∧ 1 ≤ 1 ∧
      1 < 2147483648 ∧
      (⟨[constantRun, constantRun], []⟩ : SimilarityState).runs.length *
        (⟨[constantRun, constantRun], []⟩ : SimilarityState).runs.length < 2147483648 ∧
      (∀ r ∈ (⟨[constantRun, constantRun], []⟩ : SimilarityState).runs,
        r.values.length = 1) ∧
      exampleUnitMask.values.length = 1 ∧
      (∀ x ∈ exampleUnitMask.values, x.toBool = true)) ∧
    ((∃ matrix,
      fullSimilarityMatrix exampleSqrt
        (⟨[constantRun, constantRun], []⟩ : SimilarityState).runs Similarity.eField =
          some matrix ∧
      maskedSimilarityMatrix exampleSqrt
        (⟨[constantRun, constantRun], []⟩ : SimilarityState).runs
        (maskVoxels exampleUnitMask) Similarity.eField =
          some { matrix with name := [83, 105, 109, 105, 108, 97, 114, 105, 116, 121] } ∧
      (⟨[constantRun, constantRun], []⟩ : SimilarityState).rootMasked exampleCast exampleSqrt
        Similarity.eField exampleUnitMask =
          (matrixDendrogram exampleCast
            (⟨[constantRun, constantRun], []⟩ : SimilarityState).runs.length matrix).map
            (fun dendrogram =>
              ((⟨[constantRun, constantRun], []⟩ : SimilarityState), dendrogram)) ∧
      (∀ dendrogram,
        matrixDendrogram exampleCast
          (⟨[constantRun, constantRun], []⟩ : SimilarityState).runs.length matrix =
            some dendrogram →
        ∃ computed masked,
          (⟨[constantRun, constantRun], []⟩ : SimilarityState).computeSimilarity exampleCast
            exampleSqrt Similarity.eField = some computed ∧
          mapFind computed.similarities Similarity.eField = some (matrix, dendrogram) ∧
          (mapFind (⟨[constantRun, constantRun], []⟩ : SimilarityState).similarities
              Similarity.eField = none →
            (⟨[constantRun, constantRun], []⟩ : SimilarityState).root exampleCast exampleSqrt
              Similarity.eField = some (computed, dendrogram)) ∧
          (⟨[constantRun, constantRun], []⟩ : SimilarityState).rootMasked exampleCast
            exampleSqrt Similarity.eField exampleUnitMask =
              some ((⟨[constantRun, constantRun], []⟩ : SimilarityState), masked) ∧
          masked.beq dendrogram = true ∧ masked = dendrogram) ∧
      ((∀ first second : Int,
          FloatValue.lt (FloatValue.finite Float32.lowest)
            (matrixSimilarityFunction exampleCast matrix first second) = true ∨
          matrixSimilarityFunction exampleCast matrix first second = FloatValue.nan) →
        ∃ dendrogram masked,
          matrixDendrogram exampleCast
            (⟨[constantRun, constantRun], []⟩ : SimilarityState).runs.length matrix =
              some dendrogram ∧
          (⟨[constantRun, constantRun], []⟩ : SimilarityState).rootMasked exampleCast
            exampleSqrt Similarity.eField exampleUnitMask =
              some ((⟨[constantRun, constantRun], []⟩ : SimilarityState), masked) ∧
          masked.beq dendrogram = true)) ∧
    ∀ (anyMask : Volume XFloat) (after : SimilarityState) (masked : HCNode),
      (⟨[constantRun, constantRun], []⟩ : SimilarityState).rootMasked exampleCast exampleSqrt
        Similarity.eField anyMask = some (after, masked) →
        after = (⟨[constantRun, constantRun], []⟩ : SimilarityState) ∧
          after.similarities =
            (⟨[constantRun, constantRun], []⟩ : SimilarityState).similarities) :=
  ⟨⟨by decide, by decide, by decide, by decide, constantRun_lengths, rfl,
      exampleUnitMask_full⟩,
    C24_masked_root_with_full_mask exampleCast exampleSqrt ⟨[constantRun, constantRun], []⟩
      Similarity.eField exampleUnitMask 1 (by decide) (by decide) (by decide) (by decide)
      constantRun_lengths rfl exampleUnitMask_full⟩

/-- The masked dendrogram on a matrix with NaN.  For the field of two identical constant runs
(one voxel, value `5`) the field-similarity matrix holds NaN off the diagonal and `1` on it,
which `exampleCast` converts as `static_cast<float>` does; `std::min` keeps the starting
value, so the dendrogram of the matrix over all voxels stores `numeric_limits<float>::max()`
at its root, and the masked routine with the full mask returns the same dendrogram. -/
theorem constantRun_masked_root :
    matrixDendrogram exampleCast 2
      ⟨[70, 105, 101, 108, 100, 32, 83, 105, 109, 105, 108, 97, 114, 105, 116, 121],
        ⟨2, 2, 1⟩, [XFloat.fin 1, XFloat.nan, XFloat.nan, XFloat.fin 1], (0, 0), false⟩ =
      some (HCNode.node (HCNode.leaf 0) (HCNode.leaf 1) Float32.max 2 1 2) ∧
    (⟨[constantRun, constantRun], []⟩ : SimilarityState).rootMasked exampleCast exampleSqrt
      Similarity.eField exampleUnitMask =
        some (⟨[constantRun, constantRun], []⟩,
          HCNode.node (HCNode.leaf 0) (HCNode.leaf 1) Float32.max 2 1 2) := by
  have hd : matrixDendrogram exampleCast 2
      ⟨[70, 105, 101, 108, 100, 32, 83, 105, 109, 105, 108, 97, 114, 105, 116, 121],
        ⟨2, 2, 1⟩, [XFloat.fin 1, XFloat.nan, XFloat.nan, XFloat.fin 1], (0, 0), false⟩ =
      some (HCNode.node (HCNode.leaf 0) (HCNode.leaf 1) Float32.max 2 1 2) := by
    rfl
  refine ⟨hd, ?_⟩
  unfold SimilarityState.rootMasked
  rw [maskedSimilarityMatrix_full exampleSqrt [constantRun, constantRun] exampleUnitMask 1
    (by decide) (by simp) constantRun_lengths rfl exampleUnitMask_full Similarity.eField]
  unfold fullSimilarityMatrix
  rw [constantRun_similarityMatrix, Option.map_some', Option.some_bind,
    matrixDendrogram_withName]
  simp only [List.length_cons, List.length_nil]
  rw [hd, Option.map_some']

end Reghievis

